import Mathlib

/-!
The indexing and search engine of ai-session-search.

A shallow embedding of the Go sources `internal/search/search.go`,
`internal/index/indexer.go`, `internal/index/db.go`, `internal/parse/claude.go`
and `internal/parse/codex.go`, and the properties proved about them.

Conventions of the embedding.

* A Go `string` is a sequence of bytes: `Bytes`.  `len` is `List.length`, the
  slice `s[:n]` is `List.take n`.
* Go `int` is the 64-bit two's complement integer.  Values are carried in `Int`
  and the one multiplication that can leave the range (`origLimit * 3` in
  `Search`) is wrapped by `wrapInt`.  Counters that only count lines, chunks or
  files are carried in `Nat`.
* A call that can end in a run-time panic returns an `Option`, `none` being
  the panic.
* Functions of the Go standard library and of SQLite that the sources call
  (JSON decoding, `strings.TrimSpace`, `time.Parse`, the Unicode tables,
  `filepath.Rel`, the evaluation of a `SELECT`) are fields of `GoLib` and
  `QueryEngine`: every theorem holds for every such library.
-/

namespace AiSessionSearch

/-! ## Strings -/

/-- A Go string: a sequence of bytes. -/
abbrev Bytes := List UInt8

/-- The byte string of an ASCII literal of the sources. -/
def str (s : String) : Bytes := s.toList.map (fun c => UInt8.ofNat c.toNat)

/-- The Unicode replacement character, `utf8.RuneError`. -/
def runeError : Nat := 0xFFFD

/-- A continuation byte `10xxxxxx` lying in the range `lo..hi`. -/
def contIn (lo hi : Nat) (b : UInt8) : Bool := decide (lo ≤ b.toNat) && decide (b.toNat ≤ hi)

/-- The range allowed for the second byte after the leading byte `b0` of a
multi-byte sequence (the `acceptRanges` table of `unicode/utf8`). -/
def secondRange (b0 : Nat) : Nat × Nat :=
  if b0 = 0xE0 then (0xA0, 0xBF)
  else if b0 = 0xED then (0x80, 0x9F)
  else if b0 = 0xF0 then (0x90, 0xBF)
  else if b0 = 0xF4 then (0x80, 0x8F)
  else (0x80, 0xBF)

/-- The first rune of a non-empty byte string and its width in bytes
(`utf8.DecodeRune`): a byte that does not start a well-formed sequence
decodes to `runeError` with width 1. -/
def decodeRune : Bytes → Nat × Nat
  | [] => (runeError, 0)
  | b0 :: rest =>
    if b0.toNat < 0x80 then (b0.toNat, 1)
    else if 0xC2 ≤ b0.toNat ∧ b0.toNat ≤ 0xDF then
      match rest with
      | b1 :: _ =>
        if contIn 0x80 0xBF b1 then ((b0.toNat % 32) * 64 + b1.toNat % 64, 2)
        else (runeError, 1)
      | [] => (runeError, 1)
    else if 0xE0 ≤ b0.toNat ∧ b0.toNat ≤ 0xEF then
      match rest with
      | b1 :: b2 :: _ =>
        if contIn (secondRange b0.toNat).1 (secondRange b0.toNat).2 b1 && contIn 0x80 0xBF b2 then
          ((b0.toNat % 16) * 4096 + (b1.toNat % 64) * 64 + b2.toNat % 64, 3)
        else (runeError, 1)
      | _ => (runeError, 1)
    else if 0xF0 ≤ b0.toNat ∧ b0.toNat ≤ 0xF4 then
      match rest with
      | b1 :: b2 :: b3 :: _ =>
        if contIn (secondRange b0.toNat).1 (secondRange b0.toNat).2 b1 && contIn 0x80 0xBF b2
            && contIn 0x80 0xBF b3 then
          ((b0.toNat % 8) * 262144 + (b1.toNat % 64) * 4096 + (b2.toNat % 64) * 64
            + b3.toNat % 64, 4)
        else (runeError, 1)
      | _ => (runeError, 1)
    else (runeError, 1)

/-- Decoding loop of `decodeRunes`; `fuel` bounds the number of runes. -/
def decodeRunesAux : Nat → Bytes → List Nat
  | 0, _ => []
  | _ + 1, [] => []
  | fuel + 1, b :: bs =>
    (decodeRune (b :: bs)).1 :: decodeRunesAux fuel ((b :: bs).drop (decodeRune (b :: bs)).2)

/-- The runes a Go `for _, r := range s` loop yields.  Every rune consumes at
least one byte, so the length of `s` is enough fuel. -/
def decodeRunes (s : Bytes) : List Nat := decodeRunesAux s.length s

/-! ## Results of fallible calls -/

deriving instance DecidableEq for Except

/-! ## Machine integers -/

/-- The value of a Go `int` (64 bits, two's complement) holding the
mathematical integer `x`. -/
def wrapInt (x : Int) : Int := (x + 2 ^ 63) % 2 ^ 64 - 2 ^ 63

/-! ## Search (`internal/search/search.go`) -/

/-- One search hit (`search.Result`).  `Rank` is the `float64` relevance score,
carried as its IEEE-754 bit pattern: the engine only copies it. -/
structure Result where
  SessionKey : Bytes
  ChunkID : Int
  UpdatedAt : Bytes
  Source : Bytes
  RepoCwd : Bytes
  Summary : Bytes
  Snippet : Bytes
  Role : Bytes
  Rank : Nat
  deriving DecidableEq, Repr

/-- Search options (`search.Options`). -/
structure Options where
  Query : Bytes
  Source : Bytes
  Role : Bytes
  Since : Bytes
  Limit : Int
  deriving DecidableEq, Repr

/-- The SQL engine answering the two `SELECT` statements of `search.go` on the
current database, without their `LIMIT` clause: the rows in the order of the
`ORDER BY` clause, or the error of the query.  `selectLike` returns each row
with the full chunk text (`c.text`) from which the snippet is cut.  The
arguments are the bound parameters: the match expression or `LIKE` pattern,
and the source, role and since filters (empty = no condition). -/
structure QueryEngine where
  selectFTS : Bytes → Bytes → Bytes → Bytes → Except String (List Result)
  selectLike : Bytes → Bytes → Bytes → Bytes → Except String (List (Result × Bytes))

/-- SQL `LIMIT n` as SQLite evaluates it: a negative `n` puts no upper bound on
the number of rows, otherwise the first `n` rows are returned. -/
def sqlLimit {α : Type} (n : Int) (rows : List α) : List α :=
  if n < 0 then rows else rows.take n.toNat

/-- Function `containsCJK`: some rune of `s` is in the Unicode table `unicode.Han`
(the table is the argument `isHan`). -/
def containsCJK (isHan : Nat → Bool) (s : Bytes) : Bool :=
  (decodeRunes s).any isHan

/-- Function `searchFTS`: the full-text query, ordered by rank, cut by `LIMIT opts.Limit`. -/
def searchFTS (db : QueryEngine) (opts : Options) : Except String (List Result) :=
  match db.selectFTS opts.Query opts.Source opts.Role opts.Since with
  | .error e => .error ("search query: " ++ e)
  | .ok rows => .ok (sqlLimit opts.Limit rows)

/-- The row loop of `searchLike`: each row gets the snippet built from its full
text with a window of 30 runes and the rank 0.  The snippet builder of
`search.go` is the argument `makeSnippet`; it slices and indexes strings, so a
call may panic (`none`), and then so does the loop. -/
def snippetRows (makeSnippet : Bytes → Bytes → Int → Option Bytes) (query : Bytes) :
    List (Result × Bytes) → Option (List Result)
  | [] => some []
  | p :: rest =>
    match makeSnippet p.2 query 30 with
    | none => none
    | some snip =>
      match snippetRows makeSnippet query rest with
      | none => none
      | some results => some ({ p.1 with Snippet := snip, Rank := 0 } :: results)

/-- Function `searchLike`: the substring query `c.text LIKE '%query%'`, ordered by
`updated_at` descending, cut by `LIMIT opts.Limit`, then the row loop. -/
def searchLike (db : QueryEngine) (makeSnippet : Bytes → Bytes → Int → Option Bytes)
    (opts : Options) : Option (Except String (List Result)) :=
  match db.selectLike (str "%" ++ opts.Query ++ str "%") opts.Source opts.Role opts.Since with
  | .error e => some (.error ("search query: " ++ e))
  | .ok rows => (snippetRows makeSnippet opts.Query (sqlLimit opts.Limit rows)).map .ok

/-- The deduplication loop of `Search`: `seen` is the set of session keys
already kept, `deduped` the results kept so far.  A row whose key was seen is
skipped; otherwise it is appended and the loop stops as soon as `deduped` has
`origLimit` elements. -/
def dedupLoop (origLimit : Int) : List Result → List Bytes → List Result → List Result
  | [], _, deduped => deduped
  | r :: rest, seen, deduped =>
    if r.SessionKey ∈ seen then dedupLoop origLimit rest seen deduped
    else if ((deduped ++ [r]).length : Int) ≥ origLimit then deduped ++ [r]
    else dedupLoop origLimit rest (r.SessionKey :: seen) (deduped ++ [r])

/-- The limit `Search` works with: a limit `<= 0` is replaced by 100. -/
def effectiveLimit (limit : Int) : Int := if limit ≤ 0 then 100 else limit

/-- The options `Search` hands to the query path: the limit is tripled, in
`int` arithmetic. -/
def fetchOptions (opts : Options) : Options :=
  { opts with Limit := wrapInt (effectiveLimit opts.Limit * 3) }

/-- The rows `Search` fetches: the substring path if the query contains a Han
rune, the full-text path otherwise, with the tripled limit. -/
def fetchRows (db : QueryEngine) (isHan : Nat → Bool)
    (makeSnippet : Bytes → Bytes → Int → Option Bytes) (opts : Options) :
    Option (Except String (List Result)) :=
  if containsCJK isHan opts.Query then searchLike db makeSnippet (fetchOptions opts)
  else some (searchFTS db (fetchOptions opts))

/-- Function `Search`: fetch, then keep the first row of every session key, up to the
caller's limit. -/
def Search (db : QueryEngine) (isHan : Nat → Bool)
    (makeSnippet : Bytes → Bytes → Int → Option Bytes) (opts : Options) :
    Option (Except String (List Result)) :=
  match fetchRows db isHan makeSnippet opts with
  | none => none
  | some (.error e) => some (.error e)
  | some (.ok results) => some (.ok (dedupLoop (effectiveLimit opts.Limit) results [] []))

/-- Rows kept by a deduplication pass without limit: the first row of every
session key that is not in `seen`. -/
def firstPerKey : List Result → List Bytes → List Result
  | [], _ => []
  | r :: rest, seen =>
    if r.SessionKey ∈ seen then firstPerKey rest seen
    else r :: firstPerKey rest (r.SessionKey :: seen)

/-- A `time.Time`: an instant and the UTC offset of its location.  `sec` counts
the seconds since January 1 of year 1, 00:00:00 UTC, as the Go runtime does, so
the zero value `time.Time{}` is `⟨0, 0, 0⟩`. -/
structure Time where
  sec : Int
  nsec : Nat
  offset : Int
  deriving DecidableEq, Repr

/-- The zero value `time.Time{}`. -/
def Time.zero : Time := { sec := 0, nsec := 0, offset := 0 }

/-- Method `t.IsZero()`: the instant is January 1, year 1, 00:00:00 UTC. -/
def Time.IsZero (t : Time) : Bool := decide (t.sec = 0) && decide (t.nsec = 0)

/-- Method `t.Unix()`: seconds since January 1, 1970 UTC. -/
def Time.Unix (t : Time) : Int := t.sec - 62135596800

/-- Session metadata (`parse.SessionMeta`). -/
structure SessionMeta where
  SessionKey : Bytes
  Source : Bytes
  FilePath : Bytes
  RepoCwd : Bytes
  CreatedAt : Time
  UpdatedAt : Time
  Summary : Bytes
  Mtime : Time
  Size : Int
  deriving DecidableEq, Repr

/-- One indexed unit of text (`parse.Chunk`). -/
structure Chunk where
  SessionKey : Bytes
  ChunkID : Nat
  Timestamp : Time
  Role : Bytes
  Kind : Bytes
  Text : Bytes
  LineNumber : Nat
  deriving DecidableEq, Repr

/-- The outcome of parsing one file (`parse.ParseResult`). -/
structure ParseResult where
  Meta : SessionMeta
  Chunks : List Chunk
  deriving DecidableEq, Repr

/-! ## Records of the two log formats

The Go field `Type` of the record types is `Typ` here (`Type` is reserved). -/

/-- A decoded line of a Claude log (`claudeRecord`); `Message` is the raw JSON
of the `message` member. -/
structure claudeRecord where
  Typ : Bytes
  IsMeta : Bool
  Timestamp : Bytes
  Cwd : Bytes
  Message : Bytes
  Summary : Bytes
  deriving DecidableEq, Repr

/-- A decoded message payload (`claudeMessage`); `Content` is raw JSON. -/
structure claudeMessage where
  Role : Bytes
  Content : Bytes
  deriving DecidableEq, Repr

/-- A decoded content block (`claudeContentBlock`). -/
structure claudeContentBlock where
  Typ : Bytes
  Text : Bytes
  deriving DecidableEq, Repr

/-- A decoded line of a Codex log (`codexRecord`); `Payload` is raw JSON. -/
structure codexRecord where
  Timestamp : Bytes
  Typ : Bytes
  Payload : Bytes
  deriving DecidableEq, Repr

/-- The payload of a `session_meta` record (`codexSessionMeta`); the `git`
member is decoded by the source and never read. -/
structure codexSessionMeta where
  Cwd : Bytes
  deriving DecidableEq, Repr

/-- The payload of an `event_msg` record (`codexEventPayload`). -/
structure codexEventPayload where
  Typ : Bytes
  Message : Bytes
  Text : Bytes
  deriving DecidableEq, Repr

/-- One element of the `content` list of a `response_item` payload. -/
structure codexContentItem where
  Typ : Bytes
  Text : Bytes
  deriving DecidableEq, Repr

/-- The payload of a `response_item` record (`codexResponsePayload`). -/
structure codexResponsePayload where
  Typ : Bytes
  Role : Bytes
  Content : List codexContentItem
  deriving DecidableEq, Repr

/-- The functions of the Go standard library the parsers and the indexer call.
`unmarshal...` is `json.Unmarshal` into the named Go type (`none` = it returns
an error), `timeParse layout s` is `time.Parse`, `timeFormat t layout` is
`t.Format(layout)`, `filepathRel base target` is `filepath.Rel`. -/
structure GoLib where
  trimSpace : Bytes → Bytes
  timeParse : Bytes → Bytes → Option Time
  timeFormat : Time → Bytes → Bytes
  filepathRel : Bytes → Bytes → Option Bytes
  unmarshalClaudeRecord : Bytes → Option claudeRecord
  unmarshalClaudeMessage : Bytes → Option claudeMessage
  unmarshalString : Bytes → Option Bytes
  unmarshalContentBlocks : Bytes → Option (List claudeContentBlock)
  unmarshalCodexRecord : Bytes → Option codexRecord
  unmarshalCodexSessionMeta : Bytes → Option codexSessionMeta
  unmarshalCodexEventPayload : Bytes → Option codexEventPayload
  unmarshalCodexResponsePayload : Bytes → Option codexResponsePayload

/-! ## Files -/

/-- What `os.Open`, `f.Stat()` and reading give for one path: modification
time, size in bytes, and the lines of the file, that is the byte runs between
line feeds (a last run without line feed counts when it is not empty). -/
structure FileData where
  ModTime : Time
  Size : Int
  lines : List Bytes
  deriving DecidableEq, Repr

/-- A file found by the scanner (`scan.FileInfo`). -/
structure FileInfo where
  Path : Bytes
  Source : Bytes
  Mtime : Int
  Size : Int
  deriving DecidableEq, Repr

/-- The order in which a Go `range` over a map visits the keys: unspecified,
some permutation of them. -/
structure MapOrder where
  order : List Bytes → List Bytes
  perm : ∀ keys, (order keys).Perm keys

/-- The environment of one indexing run: the outcome of
`scan.ScanRoots(claudeRoot, codexRoot)`, the files by path (`none` = the file
cannot be opened or stat-ed), and the map iteration order. -/
structure World where
  scan : Except String (List FileInfo)
  files : Bytes → Option FileData
  mapOrder : MapOrder

/-! ## Parsers (`internal/parse/claude.go`, `internal/parse/codex.go`) -/

/-- Line ceiling of the scanner, 10 MiB. -/
def maxLineSize : Nat := 10 * 1024 * 1024

/-- Text ceiling of a chunk, 8 KiB. -/
def maxTextSize : Nat := 8 * 1024

/-- Function `strings.TrimSuffix`. -/
def trimSuffix (s suffix : Bytes) : Bytes :=
  if suffix.isSuffixOf s then s.take (s.length - suffix.length) else s

/-- Function `strings.Join(parts, "\n")`. -/
def joinLines (parts : List Bytes) : Bytes := List.intercalate (str "\n") parts

/-- Function `strings.ReplaceAll(s, "\n", " ")`. -/
def collapseNewlines (s : Bytes) : Bytes := s.map (fun b => if b = 10 then 32 else b)

/-- The token `bufio.ScanLines` returns for a line: a trailing carriage return
is dropped. -/
def dropCR (line : Bytes) : Bytes :=
  if line.getLast? = some 13 then line.dropLast else line

/-- The tokens a `bufio.Scanner` with a buffer ceiling of `maxLineSize` yields
for the lines of a file, and its final `scanner.Err()`: a line of `maxLineSize`
bytes or more does not fit the buffer, scanning stops there with
`ErrTooLong`. -/
def scanTokens : List Bytes → List Bytes × Option String
  | [] => ([], none)
  | line :: rest =>
    if maxLineSize ≤ line.length then ([], some "bufio.Scanner: token too long")
    else (dropCR line :: (scanTokens rest).1, (scanTokens rest).2)

/-- Function `parseTimestamp`: RFC 3339, then RFC 3339 with nanoseconds, then the layout
without zone; the zero time when the text is empty or none applies. -/
def parseTimestamp (lib : GoLib) (s : Bytes) : Time :=
  if s = [] then Time.zero
  else match lib.timeParse (str "2006-01-02T15:04:05Z07:00") s with
    | some t => t
    | none =>
      match lib.timeParse (str "2006-01-02T15:04:05.999999999Z07:00") s with
      | some t => t
      | none =>
        match lib.timeParse (str "2006-01-02T15:04:05") s with
        | some t => t
        | none => Time.zero

/-- Text and thinking text extracted from a message (`extractedContent`). -/
structure extractedContent where
  Text : Bytes
  Thinking : Bytes
  deriving DecidableEq, Repr

/-- Function `extractClaudeContent`: a JSON string gives its trimmed value as text; a
list of blocks gives the non-empty `text` blocks and the non-empty `thinking`
blocks, each joined by newline and trimmed; anything else gives nothing. -/
def extractClaudeContent (lib : GoLib) (raw : Bytes) : extractedContent :=
  match lib.unmarshalString raw with
  | some s => { Text := lib.trimSpace s, Thinking := [] }
  | none =>
    match lib.unmarshalContentBlocks raw with
    | some blocks =>
      { Text := lib.trimSpace (joinLines
          ((blocks.filter (fun b => b.Text ≠ [] ∧ b.Typ = str "text")).map (fun b => b.Text))),
        Thinking := lib.trimSpace (joinLines
          ((blocks.filter (fun b => b.Text ≠ [] ∧ b.Typ = str "thinking")).map
            (fun b => b.Text))) }
    | none => { Text := [], Thinking := [] }

/-- The text stored for a chunk: cut to `maxTextSize` bytes when longer. -/
def capText (text : Bytes) : Bytes :=
  if text.length > maxTextSize then text.take maxTextSize else text

/-- The variables of the parse loops of `ParseClaude` and `ParseCodex`. -/
structure ParseState where
  result : ParseResult
  chunkID : Nat
  lineNum : Nat
  firstTS : Time
  lastTS : Time
  summaryFromRecord : Bytes
  deriving DecidableEq, Repr

/-- Statement `result.Chunks = append(result.Chunks, Chunk{...}); chunkID++`. -/
def ParseState.emit (st : ParseState) (sessionKey : Bytes) (ts : Time) (role kind text : Bytes) :
    ParseState :=
  { st with
    result := { st.result with
      Chunks := st.result.Chunks ++
        [{ SessionKey := sessionKey, ChunkID := st.chunkID, Timestamp := ts, Role := role,
           Kind := kind, Text := text, LineNumber := st.lineNum }] },
    chunkID := st.chunkID + 1 }

/-- Statement `if firstTS.IsZero() { firstTS = ts }; lastTS = ts`. -/
def ParseState.stamp (st : ParseState) (ts : Time) : ParseState :=
  { st with firstTS := if st.firstTS.IsZero then ts else st.firstTS, lastTS := ts }

/-- The thinking chunk of a Claude record, when its thinking text is not empty. -/
def emitThinking (sessionKey : Bytes) (ts : Time) (role : Bytes) (content : extractedContent)
    (st : ParseState) : ParseState :=
  if content.Thinking ≠ [] then
    st.emit sessionKey ts role (str "thinking") (capText content.Thinking)
  else st

/-- The text chunk of a Claude record, when its text is not empty. -/
def emitText (sessionKey : Bytes) (ts : Time) (role : Bytes) (content : extractedContent)
    (st : ParseState) : ParseState :=
  if content.Text ≠ [] then
    st.emit sessionKey ts role (str "text") (capText content.Text)
  else st

/-- Statement `if rec.Cwd != "" && result.Meta.RepoCwd == "" { result.Meta.RepoCwd = rec.Cwd }`. -/
def captureCwd (cwd : Bytes) (st : ParseState) : ParseState :=
  if cwd ≠ [] ∧ st.result.Meta.RepoCwd = [] then
    { st with result := { st.result with Meta := { st.result.Meta with RepoCwd := cwd } } }
  else st

/-- The body of the scan loop of `ParseClaude` once `lineNum` is incremented. -/
def claudeRecordStep (lib : GoLib) (sessionKey : Bytes) (st : ParseState) (line : Bytes) :
    ParseState :=
  if line.length = 0 then st
  else match lib.unmarshalClaudeRecord line with
    | none => st
    | some rec =>
      if rec.Typ = str "summary" ∧ rec.Summary ≠ [] then
        { st with summaryFromRecord := rec.Summary }
      else if rec.IsMeta then captureCwd rec.Cwd st
      else if rec.Typ ≠ str "user" ∧ rec.Typ ≠ str "assistant" then captureCwd rec.Cwd st
      else match lib.unmarshalClaudeMessage rec.Message with
        | none => captureCwd rec.Cwd st
        | some msg =>
          if (extractClaudeContent lib msg.Content).Text = []
              ∧ (extractClaudeContent lib msg.Content).Thinking = [] then captureCwd rec.Cwd st
          else
            emitText sessionKey (parseTimestamp lib rec.Timestamp) rec.Typ
              (extractClaudeContent lib msg.Content)
              (emitThinking sessionKey (parseTimestamp lib rec.Timestamp) rec.Typ
                (extractClaudeContent lib msg.Content)
                ((captureCwd rec.Cwd st).stamp (parseTimestamp lib rec.Timestamp)))

/-- One iteration of the scan loop of `ParseClaude`. -/
def claudeStep (lib : GoLib) (sessionKey : Bytes) (st : ParseState) (line : Bytes) : ParseState :=
  claudeRecordStep lib sessionKey { st with lineNum := st.lineNum + 1 } line

/-- The summary taken from the first chunk: its first 200 bytes, newlines
replaced by spaces. -/
def summaryOfChunk (c : Chunk) : Bytes :=
  collapseNewlines (if c.Text.length > 200 then c.Text.take 200 else c.Text)

/-- The state of a parse loop before the first line. -/
def initState (sessionKey source filePath : Bytes) (data : FileData) : ParseState :=
  { result :=
      { Meta := { SessionKey := sessionKey, Source := source, FilePath := filePath, RepoCwd := [],
                  CreatedAt := Time.zero, UpdatedAt := Time.zero, Summary := [],
                  Mtime := data.ModTime, Size := data.Size },
        Chunks := [] },
    chunkID := 0, lineNum := 0, firstTS := Time.zero, lastTS := Time.zero,
    summaryFromRecord := [] }

/-- The session key of a file: the source name, a colon, and the path relative
to the root (the path itself when `filepath.Rel` fails) without a trailing
`.jsonl`. -/
def sessionKeyOf (lib : GoLib) (source filePath root : Bytes) : Bytes :=
  source ++ str ":" ++
    trimSuffix (match lib.filepathRel root filePath with
      | some rel => rel
      | none => filePath) (str ".jsonl")

/-- The end of `ParseClaude`: timestamps and summary of the session. -/
def claudeFinish (st : ParseState) : ParseResult :=
  { st.result with
    Meta := { st.result.Meta with
      CreatedAt := st.firstTS,
      UpdatedAt := st.lastTS,
      Summary :=
        if st.summaryFromRecord ≠ [] then st.summaryFromRecord
        else match st.result.Chunks with
          | c :: _ => summaryOfChunk c
          | [] => st.result.Meta.Summary } }

/-- Function `ParseClaude(filePath, claudeRoot)`: the pair `(result, err)` it returns.
The result is `nil` only when the file cannot be opened; a scanner error is
returned next to the result built from the lines before it. -/
def ParseClaude (lib : GoLib) (w : World) (filePath claudeRoot : Bytes) :
    Option ParseResult × Option String :=
  match w.files filePath with
  | none => (none, some "open")
  | some data =>
    (some (claudeFinish
      ((scanTokens data.lines).1.foldl
        (claudeStep lib (sessionKeyOf lib (str "claude") filePath claudeRoot))
        (initState (sessionKeyOf lib (str "claude") filePath claudeRoot) (str "claude")
          filePath data))),
     (scanTokens data.lines).2)

/-- The `event_msg` case of `ParseCodex`. -/
def codexEvent (lib : GoLib) (sessionKey : Bytes) (ts : Time) (st : ParseState)
    (payload : Bytes) : ParseState :=
  match lib.unmarshalCodexEventPayload payload with
  | none => st
  | some evt =>
    if evt.Typ = str "user_message" then
      if lib.trimSpace evt.Message = [] then st
      else (st.stamp ts).emit sessionKey ts (str "user") (str "text")
        (capText (lib.trimSpace evt.Message))
    else if evt.Typ = str "agent_reasoning" then
      if lib.trimSpace evt.Text = [] then st
      else (st.stamp ts).emit sessionKey ts (str "assistant") (str "thinking")
        (capText (lib.trimSpace evt.Text))
    else st

/-- The text of a `response_item` message: its non-empty `input_text`,
`output_text` and `text` blocks joined by newline, trimmed. -/
def codexItemText (lib : GoLib) (item : codexResponsePayload) : Bytes :=
  lib.trimSpace (joinLines
    ((item.Content.filter (fun c =>
        (c.Typ = str "input_text" ∨ c.Typ = str "output_text" ∨ c.Typ = str "text")
          ∧ c.Text ≠ [])).map (fun c => c.Text)))

/-- The `response_item` case of `ParseCodex`. -/
def codexResponse (lib : GoLib) (sessionKey : Bytes) (ts : Time) (st : ParseState)
    (payload : Bytes) : ParseState :=
  match lib.unmarshalCodexResponsePayload payload with
  | none => st
  | some item =>
    if item.Typ ≠ str "message" then st
    else if codexItemText lib item = [] then st
    else (st.stamp ts).emit sessionKey ts
      (if item.Role = [] then str "assistant" else item.Role) (str "text")
      (capText (codexItemText lib item))

/-- The body of the scan loop of `ParseCodex` once `lineNum` is incremented. -/
def codexRecordStep (lib : GoLib) (sessionKey : Bytes) (st : ParseState) (line : Bytes) :
    ParseState :=
  if line.length = 0 then st
  else match lib.unmarshalCodexRecord line with
    | none => st
    | some rec =>
      if rec.Typ = str "session_meta" then
        match lib.unmarshalCodexSessionMeta rec.Payload with
        | some m =>
          { st with result := { st.result with Meta := { st.result.Meta with RepoCwd := m.Cwd } } }
        | none => st
      else if rec.Typ = str "event_msg" then
        codexEvent lib sessionKey (parseTimestamp lib rec.Timestamp) st rec.Payload
      else if rec.Typ = str "response_item" then
        codexResponse lib sessionKey (parseTimestamp lib rec.Timestamp) st rec.Payload
      else st

/-- One iteration of the scan loop of `ParseCodex`. -/
def codexStep (lib : GoLib) (sessionKey : Bytes) (st : ParseState) (line : Bytes) : ParseState :=
  codexRecordStep lib sessionKey { st with lineNum := st.lineNum + 1 } line

/-- The end of `ParseCodex`: timestamps and summary of the session. -/
def codexFinish (st : ParseState) : ParseResult :=
  { st.result with
    Meta := { st.result.Meta with
      CreatedAt := st.firstTS,
      UpdatedAt := st.lastTS,
      Summary :=
        match st.result.Chunks with
        | c :: _ => summaryOfChunk c
        | [] => st.result.Meta.Summary } }

/-- Function `ParseCodex(filePath, codexRoot)`: the pair `(result, err)` it returns. -/
def ParseCodex (lib : GoLib) (w : World) (filePath codexRoot : Bytes) :
    Option ParseResult × Option String :=
  match w.files filePath with
  | none => (none, some "open")
  | some data =>
    (some (codexFinish
      ((scanTokens data.lines).1.foldl
        (codexStep lib (sessionKeyOf lib (str "codex") filePath codexRoot))
        (initState (sessionKeyOf lib (str "codex") filePath codexRoot) (str "codex")
          filePath data))),
     (scanTokens data.lines).2)

/-! ## What a line contributes

The chunks a parse loop appends for a line depend on the line alone (the state
only supplies the next chunk id and the line number).  `claudeEmits` and
`codexEmits` give, for a line, the chunks it produces before truncation. -/

/-- A chunk to be appended: timestamp, role, kind, and the trimmed text
extracted from the record, not yet cut to the text ceiling. -/
structure Emit where
  ts : Time
  role : Bytes
  kind : Bytes
  text : Bytes
  deriving DecidableEq, Repr

/-- The chunks `ParseClaude` produces for a line: for a `user` or `assistant`
record that is not metadata and whose message decodes, the thinking text and
then the text of `extractClaudeContent`, each when not empty. -/
def claudeEmits (lib : GoLib) (line : Bytes) : List Emit :=
  if line.length = 0 then []
  else match lib.unmarshalClaudeRecord line with
    | none => []
    | some rec =>
      if rec.Typ = str "summary" ∧ rec.Summary ≠ [] then []
      else if rec.IsMeta then []
      else if rec.Typ ≠ str "user" ∧ rec.Typ ≠ str "assistant" then []
      else match lib.unmarshalClaudeMessage rec.Message with
        | none => []
        | some msg =>
          (if (extractClaudeContent lib msg.Content).Thinking ≠ [] then
            [{ ts := parseTimestamp lib rec.Timestamp, role := rec.Typ, kind := str "thinking",
               text := (extractClaudeContent lib msg.Content).Thinking }]
           else []) ++
          (if (extractClaudeContent lib msg.Content).Text ≠ [] then
            [{ ts := parseTimestamp lib rec.Timestamp, role := rec.Typ, kind := str "text",
               text := (extractClaudeContent lib msg.Content).Text }]
           else [])

/-- The chunk `ParseCodex` produces for an `event_msg` payload. -/
def codexEventEmits (lib : GoLib) (ts : Time) (payload : Bytes) : List Emit :=
  match lib.unmarshalCodexEventPayload payload with
  | none => []
  | some evt =>
    if evt.Typ = str "user_message" then
      if lib.trimSpace evt.Message = [] then []
      else [{ ts := ts, role := str "user", kind := str "text", text := lib.trimSpace evt.Message }]
    else if evt.Typ = str "agent_reasoning" then
      if lib.trimSpace evt.Text = [] then []
      else [{ ts := ts, role := str "assistant", kind := str "thinking",
              text := lib.trimSpace evt.Text }]
    else []

/-- The chunk `ParseCodex` produces for a `response_item` payload. -/
def codexResponseEmits (lib : GoLib) (ts : Time) (payload : Bytes) : List Emit :=
  match lib.unmarshalCodexResponsePayload payload with
  | none => []
  | some item =>
    if item.Typ ≠ str "message" then []
    else if codexItemText lib item = [] then []
    else [{ ts := ts, role := if item.Role = [] then str "assistant" else item.Role,
            kind := str "text", text := codexItemText lib item }]

/-- The chunks `ParseCodex` produces for a line. -/
def codexEmits (lib : GoLib) (line : Bytes) : List Emit :=
  if line.length = 0 then []
  else match lib.unmarshalCodexRecord line with
    | none => []
    | some rec =>
      if rec.Typ = str "session_meta" then []
      else if rec.Typ = str "event_msg" then
        codexEventEmits lib (parseTimestamp lib rec.Timestamp) rec.Payload
      else if rec.Typ = str "response_item" then
        codexResponseEmits lib (parseTimestamp lib rec.Timestamp) rec.Payload
      else []

/-- The chunks appended for the emits of one line: consecutive ids from
`chunkID`, the line number `lineNum`, the text cut to the ceiling. -/
def chunksOf (sessionKey : Bytes) (lineNum : Nat) : Nat → List Emit → List Chunk
  | _, [] => []
  | chunkID, e :: es =>
    { SessionKey := sessionKey, ChunkID := chunkID, Timestamp := e.ts, Role := e.role,
      Kind := e.kind, Text := capText e.text, LineNumber := lineNum }
      :: chunksOf sessionKey lineNum (chunkID + 1) es

/-- The chunks of the lines of a file, given what each line emits: `chunkID` is
the next free id and `lineNum` the number of lines already read. -/
def fileChunks (sessionKey : Bytes) (emits : Bytes → List Emit) :
    Nat → Nat → List Bytes → List Chunk
  | _, _, [] => []
  | chunkID, lineNum, line :: rest =>
    chunksOf sessionKey (lineNum + 1) chunkID (emits line)
      ++ fileChunks sessionKey emits (chunkID + (emits line).length) (lineNum + 1) rest

/-- The lines of a file paired with their 1-based line numbers, each with the
texts `emits` extracts from it. -/
def numberedTexts (emits : Bytes → List Emit) (firstLine : Nat) (tokens : List Bytes) :
    List (Nat × Bytes) :=
  (tokens.enumFrom firstLine).flatMap
    (fun p => (emits p.2).map (fun e => (p.1, e.text.take (min maxTextSize e.text.length))))

/-! ## Store (`internal/index/db.go`) -/

/-- A row of the table `sessions`; `session_key` is its primary key. -/
structure SessionsRow where
  SessionKey : Bytes
  Source : Bytes
  FilePath : Bytes
  RepoCwd : Bytes
  CreatedAt : Bytes
  UpdatedAt : Bytes
  Summary : Bytes
  Mtime : Int
  Size : Int
  deriving DecidableEq, Repr

/-- A row of the table `chunks` (`index.ChunkRow`); `(session_key, chunk_id)`
is its primary key. -/
structure ChunkRow where
  SessionKey : Bytes
  ChunkID : Nat
  Ts : Bytes
  Role : Bytes
  Kind : Bytes
  Text : Bytes
  LineNumber : Nat
  deriving DecidableEq, Repr

/-- What `GetSessionInfo` reads of a session (`index.SessionInfo`). -/
structure SessionInfo where
  Mtime : Int
  Size : Int
  deriving DecidableEq, Repr

/-- What `GetSessionByKey` reads of a session (`index.SessionRow`). -/
structure SessionRow where
  SessionKey : Bytes
  Source : Bytes
  FilePath : Bytes
  RepoCwd : Bytes
  CreatedAt : Bytes
  UpdatedAt : Bytes
  Summary : Bytes
  deriving DecidableEq, Repr

/-- The database behind an `index.DB` handle: the rows of its tables in
insertion order, and the failure schedule of the connection.  Every SQL
statement the sources execute (`Begin`, `Exec`, `Prepare`, `Query`, `Commit`)
consumes the head of `faults`; `true` makes that statement return an error.
An exhausted schedule means no further failure. -/
structure DB where
  sessions : List SessionsRow
  chunks : List ChunkRow
  meta : List (Bytes × Bytes)
  faults : List Bool
  deriving DecidableEq, Repr

/-- Whether the next statement fails. -/
def DB.fails (d : DB) : Bool := d.faults.headD false

/-- The handle after one statement was attempted. -/
def DB.next (d : DB) : DB := { d with faults := d.faults.tail }

/-- The tables of `d` as they were in `orig`, what a rollback of the open
transaction leaves; the failure schedule keeps its position.  A `Commit` that
returns an error has committed nothing: it leaves the tables as a rollback
does. -/
def DB.rollback (orig d : DB) : DB := { orig with faults := d.faults }

/-- Function `GetSessionInfo`: the stored `(mtime, size)` of a session, `nil` when the
key has no row. -/
def GetSessionInfo (d : DB) (sessionKey : Bytes) : Except String (Option SessionInfo) × DB :=
  if d.fails then (.error "query", d.next)
  else
    (.ok ((d.sessions.find? (fun s => s.SessionKey = sessionKey)).map
      (fun s => { Mtime := s.Mtime, Size := s.Size })), d.next)

/-- Function `AllSessionKeys`: the set of stored session keys (a Go map), as a list
without repetition. -/
def AllSessionKeys (d : DB) : Except String (List Bytes) × DB :=
  if d.fails then (.error "query", d.next)
  else (.ok (d.sessions.map (fun s => s.SessionKey)).dedup, d.next)

/-- Function `DeleteSession`: one transaction deleting the chunk rows and the session
row of a key.  A statement that fails returns the error and the deferred
`Rollback` undoes the transaction. -/
def DeleteSession (d : DB) (sessionKey : Bytes) : Option String × DB :=
  if d.fails then (some "begin", d.next)
  else if d.next.fails then (some "delete chunks", d.rollback d.next.next)
  else if d.next.next.fails then (some "delete session", d.rollback d.next.next.next)
  else if d.next.next.next.fails then (some "commit", d.rollback d.next.next.next.next)
  else
    (none,
      { d.next.next.next.next with
        chunks := d.chunks.filter (fun c => c.SessionKey ≠ sessionKey),
        sessions := d.sessions.filter (fun s => s.SessionKey ≠ sessionKey) })

/-- Function `GetSessionByKey`: the session row of a key, `nil` when absent. -/
def GetSessionByKey (d : DB) (sessionKey : Bytes) : Except String (Option SessionRow) × DB :=
  if d.fails then (.error "query", d.next)
  else
    (.ok ((d.sessions.find? (fun s => s.SessionKey = sessionKey)).map
      (fun s => { SessionKey := s.SessionKey, Source := s.Source, FilePath := s.FilePath,
                  RepoCwd := s.RepoCwd, CreatedAt := s.CreatedAt, UpdatedAt := s.UpdatedAt,
                  Summary := s.Summary })), d.next)

/-- The rows of the query `SELECT ... FROM chunks WHERE session_key = ? ORDER BY
chunk_id`: the chunk rows of the session, sorted by chunk id. -/
def orderedChunks (d : DB) (sessionKey : Bytes) : List ChunkRow :=
  (d.chunks.filter (fun c => c.SessionKey = sessionKey)).insertionSort
    (fun a b => a.ChunkID ≤ b.ChunkID)

/-- The row loop of `GetChunksWindow`: every row is appended to `result`, and a
row whose chunk id is the hit id sets `localHitIdx` to its index. -/
def windowLoop (hitChunkID : Int) : List ChunkRow → List ChunkRow → Int → List ChunkRow × Int
  | [], result, localHitIdx => (result, localHitIdx)
  | c :: rest, result, localHitIdx =>
    windowLoop hitChunkID rest (result ++ [c])
      (if (c.ChunkID : Int) = hitChunkID then (result.length : Int) else localHitIdx)

/-- The position of the hit chunk as `GetChunksWindow` looks it up: `-1` for a
negative hit id (no query is made) and when the position query finds no row,
else the 0-based row number of the chunk in the order of the chunk ids. -/
def hitPosition (d : DB) (sessionKey : Bytes) (hitChunkID : Int) : Int :=
  if hitChunkID ≥ 0 then
    match (orderedChunks d sessionKey).findIdx? (fun c => (c.ChunkID : Int) = hitChunkID) with
    | some i => (i : Int)
    | none => -1
  else -1

/-- The offset of the window of `GetChunksWindow` (`startPos`), in `int`
arithmetic. -/
def windowStart (hitPos context : Int) : Int :=
  if hitPos ≥ 0 then (if wrapInt (hitPos - context) < 0 then 0 else wrapInt (hitPos - context))
  else 0

/-- The row limit of the window of `GetChunksWindow` (`limit`), in `int`
arithmetic. -/
def windowLimit (totalCount hitPos context : Int) : Int :=
  if hitPos ≥ 0 then
    wrapInt
      ((if wrapInt (hitPos + context + 1) > totalCount then totalCount
        else wrapInt (hitPos + context + 1)) - windowStart hitPos context)
  else totalCount

/-- Function `GetChunksWindow(sessionKey, hitChunkID, context)`: the tuple
`(chunks, hitIdx, startPos, totalCount)` it returns, or its error.  It runs the
count query, the position query when the hit id is not negative, and the
window query `... ORDER BY chunk_id LIMIT limit OFFSET startPos`; a failure of
any of them is returned. -/
def GetChunksWindow (d : DB) (sessionKey : Bytes) (hitChunkID context : Int) :
    Except String (List ChunkRow × Int × Int × Int) × DB :=
  if d.fails then (.error "count", d.next)
  else if hitChunkID ≥ 0 ∧ d.next.fails = true then (.error "position", d.next.next)
  else
    (fun (d2 : DB) =>
      if d2.fails then (.error "query", d2.next)
      else
        (.ok
          ((windowLoop hitChunkID
              (sqlLimit
                (windowLimit (orderedChunks d sessionKey).length
                  (hitPosition d sessionKey hitChunkID) context)
                ((orderedChunks d sessionKey).drop
                  (windowStart (hitPosition d sessionKey hitChunkID) context).toNat))
              [] (-1)).1,
            (windowLoop hitChunkID
              (sqlLimit
                (windowLimit (orderedChunks d sessionKey).length
                  (hitPosition d sessionKey hitChunkID) context)
                ((orderedChunks d sessionKey).drop
                  (windowStart (hitPosition d sessionKey hitChunkID) context).toNat))
              [] (-1)).2,
            windowStart (hitPosition d sessionKey hitChunkID) context,
            ((orderedChunks d sessionKey).length : Int)), d2.next))
      (if hitChunkID ≥ 0 then d.next.next else d.next)

/-! ## Indexer (`internal/index/indexer.go`) -/

/-- Counters of one run (`index.Stats`). -/
structure Stats where
  Scanned : Nat
  Updated : Nat
  Skipped : Nat
  Pruned : Nat
  Errors : Nat
  deriving DecidableEq, Repr

/-- Function `parseFile`: the parser of the file's source variant. -/
def parseFile (lib : GoLib) (w : World) (fi : FileInfo) (claudeRoot codexRoot : Bytes) :
    Option ParseResult × Option String :=
  if fi.Source = str "claude" then ParseClaude lib w fi.Path claudeRoot
  else if fi.Source = str "codex" then ParseCodex lib w fi.Path codexRoot
  else (none, some "unknown source")

/-- Function `needsUpdate`: a session is stale when it has no row or its stored
`(mtime, size)` differs. -/
def needsUpdate (d : DB) (sessionKey : Bytes) (mtime size : Int) : Except String Bool × DB :=
  match GetSessionInfo d sessionKey with
  | (.error e, d1) => (.error e, d1)
  | (.ok none, d1) => (.ok true, d1)
  | (.ok (some info), d1) => (.ok (decide (info.Mtime ≠ mtime ∨ info.Size ≠ size)), d1)

/-- The layout the indexer formats timestamps with. -/
def tsLayout : Bytes := str "2006-01-02T15:04:05Z"

/-- The `sessions` row `indexSession` inserts for a parse result. -/
def sessionRowOf (lib : GoLib) (m : SessionMeta) : SessionsRow :=
  { SessionKey := m.SessionKey, Source := m.Source, FilePath := m.FilePath, RepoCwd := m.RepoCwd,
    CreatedAt := lib.timeFormat m.CreatedAt tsLayout,
    UpdatedAt := lib.timeFormat m.UpdatedAt tsLayout,
    Summary := m.Summary, Mtime := m.Mtime.Unix, Size := m.Size }

/-- The `chunks` row `indexSession` inserts for a chunk: an empty kind is
stored as `text`. -/
def chunkRowOf (lib : GoLib) (c : Chunk) : ChunkRow :=
  { SessionKey := c.SessionKey, ChunkID := c.ChunkID, Ts := lib.timeFormat c.Timestamp tsLayout,
    Role := c.Role, Kind := if c.Kind = [] then str "text" else c.Kind, Text := c.Text,
    LineNumber := c.LineNumber }

/-- Statement `INSERT INTO sessions` inside a transaction: fails on a statement failure
and when the primary key is taken. -/
def insertSession (t : DB) (row : SessionsRow) : Option String × DB :=
  if t.fails then (some "insert session", t.next)
  else if t.sessions.any (fun s => s.SessionKey = row.SessionKey) then
    (some "UNIQUE constraint failed: sessions.session_key", t.next)
  else (none, { t.next with sessions := t.sessions ++ [row] })

/-- Statement `INSERT INTO chunks` inside a transaction: fails on a statement failure
and when the primary key is taken. -/
def insertChunk (t : DB) (row : ChunkRow) : Option String × DB :=
  if t.fails then (some "insert chunk", t.next)
  else if t.chunks.any (fun c => c.SessionKey = row.SessionKey ∧ c.ChunkID = row.ChunkID) then
    (some "UNIQUE constraint failed: chunks.session_key, chunks.chunk_id", t.next)
  else (none, { t.next with chunks := t.chunks ++ [row] })

/-- The loop of `indexSession` inserting the chunks, stopping at the first
error. -/
def insertChunks (lib : GoLib) : List Chunk → DB → Option String × DB
  | [], t => (none, t)
  | c :: cs, t =>
    match insertChunk t (chunkRowOf lib c) with
    | (some e, t1) => (some e, t1)
    | (none, t1) => insertChunks lib cs t1

/-- The second transaction of `indexSession`, on the database `d` left by
`DeleteSession`: `Begin`, insert the session row, `Prepare`, insert the chunks,
`Commit`.  Any failure returns the error and rolls back to `d`. -/
def insertSessionTx (lib : GoLib) (d : DB) (result : ParseResult) : Option String × DB :=
  if d.fails then (some "begin", d.next)
  else
    match insertSession d.next (sessionRowOf lib result.Meta) with
    | (some e, t1) => (some e, d.rollback t1)
    | (none, t1) =>
      if t1.fails then (some "prepare", d.rollback t1.next)
      else
        match insertChunks lib result.Chunks t1.next with
        | (some e, t2) => (some e, d.rollback t2)
        | (none, t2) =>
          if t2.fails then (some "commit", d.rollback t2.next)
          else (none, t2.next)

/-- Function `indexSession`: delete the old data of the session (a transaction of its
own, committed), then insert the session row and its chunks in a second
transaction. -/
def indexSession (lib : GoLib) (d : DB) (result : ParseResult) : Option String × DB :=
  match DeleteSession d result.Meta.SessionKey with
  | (some e, d1) => (some e, d1)
  | (none, d1) => insertSessionTx lib d1 result

/-- The loop of `pruneSessions` over the stored keys: a key that was not seen
is deleted and counted; the first failing deletion ends the loop. -/
def pruneLoop : List Bytes → List Bytes → Nat → DB → (Nat × Option String) × DB
  | [], _, pruned, d => ((pruned, none), d)
  | key :: rest, seenKeys, pruned, d =>
    if key ∈ seenKeys then pruneLoop rest seenKeys pruned d
    else
      match DeleteSession d key with
      | (some e, d1) => ((pruned, some e), d1)
      | (none, d1) => pruneLoop rest seenKeys (pruned + 1) d1

/-- Function `pruneSessions`: the pair `(pruned, err)` it returns and the database. -/
def pruneSessions (order : MapOrder) (d : DB) (seenKeys : List Bytes) :
    (Nat × Option String) × DB :=
  match AllSessionKeys d with
  | (.error e, d1) => ((0, some e), d1)
  | (.ok allKeys, d1) => pruneLoop (order.order allKeys) seenKeys 0 d1

/-- The variables of the file loop of `IndexAll`. -/
structure RunState where
  stats : Stats
  seenKeys : List Bytes
  db : DB
  deriving DecidableEq, Repr

/-- The outcome of the file loop body for one file. -/
inductive FileOutcome where
  | parseError
  | noChunks
  | infoError
  | skipped
  | indexError
  | updated
  deriving DecidableEq, Repr

/-- One iteration of the file loop of `IndexAll`, with the branch it took. -/
def indexFileOutcome (lib : GoLib) (w : World) (claudeRoot codexRoot : Bytes) (st : RunState)
    (fi : FileInfo) : FileOutcome × RunState :=
  match parseFile lib w fi claudeRoot codexRoot with
  | (_, some _) => (.parseError, { st with stats := { st.stats with Errors := st.stats.Errors + 1 } })
  | (none, none) => (.noChunks, st)
  | (some result, none) =>
    if result.Chunks.length = 0 then (.noChunks, st)
    else
      match needsUpdate st.db result.Meta.SessionKey fi.Mtime fi.Size with
      | (.error _, d1) =>
        (.infoError,
          { stats := { st.stats with Errors := st.stats.Errors + 1 },
            seenKeys := result.Meta.SessionKey :: st.seenKeys, db := d1 })
      | (.ok false, d1) =>
        (.skipped,
          { stats := { st.stats with Skipped := st.stats.Skipped + 1 },
            seenKeys := result.Meta.SessionKey :: st.seenKeys, db := d1 })
      | (.ok true, d1) =>
        match indexSession lib d1 result with
        | (some _, d2) =>
          (.indexError,
            { stats := { st.stats with Errors := st.stats.Errors + 1 },
              seenKeys := result.Meta.SessionKey :: st.seenKeys, db := d2 })
        | (none, d2) =>
          (.updated,
            { stats := { st.stats with Updated := st.stats.Updated + 1 },
              seenKeys := result.Meta.SessionKey :: st.seenKeys, db := d2 })

/-- One iteration of the file loop of `IndexAll`. -/
def indexFile (lib : GoLib) (w : World) (claudeRoot codexRoot : Bytes) (st : RunState)
    (fi : FileInfo) : RunState :=
  (indexFileOutcome lib w claudeRoot codexRoot st fi).2

/-- The state of `IndexAll` after the file loop. -/
def indexLoop (lib : GoLib) (w : World) (claudeRoot codexRoot : Bytes) (db : DB)
    (files : List FileInfo) : RunState :=
  files.foldl (indexFile lib w claudeRoot codexRoot)
    { stats := { Scanned := files.length, Updated := 0, Skipped := 0, Pruned := 0, Errors := 0 },
      seenKeys := [], db := db }

/-- Function `IndexAll(db, claudeRoot, codexRoot)`: the pair `(stats, err)` it returns
and the database afterwards. -/
def IndexAll (lib : GoLib) (w : World) (db : DB) (claudeRoot codexRoot : Bytes) :
    (Stats × Option String) × DB :=
  match w.scan with
  | .error e =>
    (({ Scanned := 0, Updated := 0, Skipped := 0, Pruned := 0, Errors := 0 },
      some ("scan: " ++ e)), db)
  | .ok files =>
    match pruneSessions w.mapOrder (indexLoop lib w claudeRoot codexRoot db files).db
        (indexLoop lib w claudeRoot codexRoot db files).seenKeys with
    | ((_, some e), d1) =>
      (((indexLoop lib w claudeRoot codexRoot db files).stats, some ("prune: " ++ e)), d1)
    | ((pruned, none), d1) =>
      (({ (indexLoop lib w claudeRoot codexRoot db files).stats with Pruned := pruned }, none), d1)

/-! ## Timestamp texts (`time.Time.Format` under the layout of the indexer) -/

/-- The decimal digits of `n`, padded with zeros to `width` digits (the digits
of `n` alone when they are more). -/
def padDigits (width n : Nat) : Bytes :=
  List.replicate (width - (Nat.toDigits 10 n).length) 48
    ++ (Nat.toDigits 10 n).map (fun c => UInt8.ofNat c.toNat)

/-- The civil date `(year, month, day)` of the day number `days`, counted from
January 1 of year 1 in the proleptic Gregorian calendar: the days are regrouped
in cycles of 400 years (146097 days) that start on a March 1, `yoe` is the year
in the cycle, `doy` the day in the year that starts in March, `mp` the month
counted from March. -/
def civilDate (days : Nat) : Nat × Nat × Nat :=
  let doe := (days + 306) % 146097
  let yoe := (doe - doe / 1460 + doe / 36524 - doe / 146096) / 365
  let doy := doe - (365 * yoe + yoe / 4 - yoe / 100)
  let mp := (5 * doy + 2) / 153
  (yoe + (days + 306) / 146097 * 400 + (if mp < 10 then 0 else 1),
    if mp < 10 then mp + 3 else mp - 9,
    doy - (153 * mp + 2) / 5 + 1)

/-- The text `YYYY-MM-DDThh:mm:ss` of the clock reading that is `secs` seconds
after `0001-01-01T00:00:00` (a reading before that is not represented: such a
timestamp is read as that instant). -/
def clockText (secs : Int) : Bytes :=
  padDigits 4 (civilDate (secs.toNat / 86400)).1 ++ str "-"
    ++ padDigits 2 (civilDate (secs.toNat / 86400)).2.1 ++ str "-"
    ++ padDigits 2 (civilDate (secs.toNat / 86400)).2.2 ++ str "T"
    ++ padDigits 2 (secs.toNat % 86400 / 3600) ++ str ":"
    ++ padDigits 2 (secs.toNat % 3600 / 60) ++ str ":"
    ++ padDigits 2 (secs.toNat % 60)

/-- The ISO-8601 UTC text of the instant `sec` seconds after
`0001-01-01T00:00:00Z`: its clock reading at offset zero, then `Z`. -/
def utcText (sec : Int) : Bytes := clockText sec ++ str "Z"

/-- What `t.Format("2006-01-02T15:04:05Z")` returns.  The layout has the
elements year, month, day, hour, minute and second; its last letter `Z` is not
followed by a zone pattern (`Z07:00`, `Z0700`, `Z07`), so it is literal text.
The fields are those of the clock of `t` in its own location, that is at its
own offset from UTC, and the fraction of the second is dropped. -/
def formatStamp (t : Time) : Bytes := clockText (t.sec + t.offset) ++ str "Z"

/-! ## Notions used by the theorems -/

/-- Summary of the effect of a loop iteration on the chunk list. -/
def Appends (key : Bytes) (st st' : ParseState) (es : List Emit) : Prop :=
  st'.result.Chunks = st.result.Chunks ++ chunksOf key st.lineNum st.chunkID es ∧
  st'.chunkID = st.chunkID + es.length ∧
  st'.lineNum = st.lineNum ∧
  st'.result.Meta.SessionKey = st.result.Meta.SessionKey ∧
  st'.result.Meta.Mtime = st.result.Meta.Mtime ∧
  st'.result.Meta.Size = st.result.Meta.Size

/-- What one loop iteration does to the chunk list and the counters. -/
def StepSpec (key : Bytes) (emits : Bytes → List Emit)
    (step : ParseState → Bytes → ParseState) : Prop :=
  ∀ st line,
    (step st line).result.Chunks
        = st.result.Chunks ++ chunksOf key (st.lineNum + 1) st.chunkID (emits line) ∧
      (step st line).chunkID = st.chunkID + (emits line).length ∧
      (step st line).lineNum = st.lineNum + 1 ∧
      (step st line).result.Meta.SessionKey = st.result.Meta.SessionKey ∧
      (step st line).result.Meta.Mtime = st.result.Meta.Mtime ∧
      (step st line).result.Meta.Size = st.result.Meta.Size

/-- The session key `parseFile` derives for a scanned file. -/
def fileKey (lib : GoLib) (fi : FileInfo) (claudeRoot codexRoot : Bytes) : Bytes :=
  if fi.Source = str "claude" then sessionKeyOf lib (str "claude") fi.Path claudeRoot
  else sessionKeyOf lib (str "codex") fi.Path codexRoot

/-- The file parses without error to at least one chunk. -/
def indexable (lib : GoLib) (w : World) (claudeRoot codexRoot : Bytes) (fi : FileInfo) : Bool :=
  match parseFile lib w fi claudeRoot codexRoot with
  | (some r, none) => decide (r.Chunks.length ≠ 0)
  | _ => false

/-- The parse of the file returns an error. -/
def parseFails (lib : GoLib) (w : World) (claudeRoot codexRoot : Bytes) (fi : FileInfo) : Bool :=
  (parseFile lib w fi claudeRoot codexRoot).2.isSome

/-- The file parses without error to zero chunks. -/
def parsesEmpty (lib : GoLib) (w : World) (claudeRoot codexRoot : Bytes) (fi : FileInfo) : Bool :=
  !parseFails lib w claudeRoot codexRoot fi && !indexable lib w claudeRoot codexRoot fi

/-- The stored `(mtime, size)` of a session equals the given pair. -/
def upToDate (d : DB) (sessionKey : Bytes) (mtime size : Int) : Bool :=
  match d.sessions.find? (fun s => s.SessionKey = sessionKey) with
  | some s => decide (s.Mtime = mtime ∧ s.Size = size)
  | none => false

/-- The tables after a successful `indexSession`: the rows of the session are
removed, the fresh session row and chunk rows are appended. -/
def replaceSession (lib : GoLib) (d : DB) (r : ParseResult) : DB :=
  { d with
    sessions := d.sessions.filter (fun s => s.SessionKey ≠ r.Meta.SessionKey)
      ++ [sessionRowOf lib r.Meta],
    chunks := d.chunks.filter (fun c => c.SessionKey ≠ r.Meta.SessionKey)
      ++ r.Chunks.map (chunkRowOf lib) }

/-- The tables after a successful `pruneSessions`: the session rows whose key
was not seen are removed, with the chunk rows of the removed sessions. -/
def pruned (d : DB) (seenKeys : List Bytes) : DB :=
  { d with
    sessions := d.sessions.filter (fun s => s.SessionKey ∈ seenKeys),
    chunks := d.chunks.filter
      (fun c => c.SessionKey ∈ seenKeys ∨ c.SessionKey ∉ d.sessions.map (fun s => s.SessionKey)) }

/-- Chunks as the parsers build them: all under the session key of the result,
with pairwise distinct ids. -/
def WellFormed (r : ParseResult) : Prop :=
  (∀ c ∈ r.Chunks, c.SessionKey = r.Meta.SessionKey) ∧ (r.Chunks.map (fun c => c.ChunkID)).Nodup

/-- The rows of the table `sessions` stored under a session key. -/
def sessionRows (d : DB) (sessionKey : Bytes) : List SessionsRow :=
  d.sessions.filter (fun s => s.SessionKey = sessionKey)

/-- The rows of the table `chunks` stored under a session key. -/
def chunkRows (d : DB) (sessionKey : Bytes) : List ChunkRow :=
  d.chunks.filter (fun c => c.SessionKey = sessionKey)

/-- The summary a line of a Claude log sets: the summary text of a record of
type `summary` whose summary is not empty. -/
def claudeSummaryOf (lib : GoLib) (line : Bytes) : Option Bytes :=
  if line.length = 0 then none
  else match lib.unmarshalClaudeRecord line with
    | none => none
    | some rec => if rec.Typ = str "summary" ∧ rec.Summary ≠ [] then some rec.Summary else none

/-- The value of `firstTS` after the statement
`if firstTS.IsZero() { firstTS = ts }` ran once for each listed timestamp. -/
def firstStamp (first : Time) : List Time → Time
  | [] => first
  | t :: ts => firstStamp (if first.IsZero then t else first) ts

/-- The value of `lastTS` after the statement `lastTS = ts` ran once for each
listed timestamp. -/
def lastStamp (last : Time) : List Time → Time
  | [] => last
  | t :: ts => lastStamp t ts

/-- Order of two instants (`!t.After(u)`): the location plays no part. -/
def Time.le (t u : Time) : Prop := t.sec < u.sec ∨ (t.sec = u.sec ∧ t.nsec ≤ u.nsec)

instance (t u : Time) : Decidable (Time.le t u) := by
  unfold Time.le; exact inferInstance

/-- The text `extractClaudeContent` builds from the blocks of one type: the
texts of the non-empty blocks of that type joined by newline, then trimmed. -/
def blockText (lib : GoLib) (typ : Bytes) (blocks : List claudeContentBlock) : Bytes :=
  lib.trimSpace (joinLines
    ((blocks.filter (fun b => b.Text ≠ [] ∧ b.Typ = typ)).map (fun b => b.Text)))

/-- The path of a file relative to its root, as the parsers take it: the result
of `filepath.Rel(root, path)`, and the path itself when that fails. -/
def relPath (lib : GoLib) (root path : Bytes) : Bytes :=
  match lib.filepathRel root path with
  | some rel => rel
  | none => path

/-- The root a scanned file is parsed against: `claudeRoot` for the source
`claude`, `codexRoot` otherwise. -/
def rootOf (fi : FileInfo) (claudeRoot codexRoot : Bytes) : Bytes :=
  if fi.Source = str "claude" then claudeRoot else codexRoot

/-- The working directory a line of a Claude log supplies: the `cwd` of its
record, unless the line is empty, does not decode, or is a `summary` record
with a non-empty summary (the loop leaves these before it looks at `cwd`). -/
def claudeCwdOf (lib : GoLib) (line : Bytes) : Bytes :=
  if line.length = 0 then []
  else match lib.unmarshalClaudeRecord line with
    | none => []
    | some rec => if rec.Typ = str "summary" ∧ rec.Summary ≠ [] then [] else rec.Cwd

/-- The working directory a line of a Codex log sets: the `cwd` of the payload
of a `session_meta` record whose payload decodes. -/
def codexCwdOf (lib : GoLib) (line : Bytes) : Option Bytes :=
  if line.length = 0 then none
  else match lib.unmarshalCodexRecord line with
    | none => none
    | some rec =>
      if rec.Typ = str "session_meta" then
        (lib.unmarshalCodexSessionMeta rec.Payload).map (fun m => m.Cwd)
      else none

/-- The value of `result.Meta.RepoCwd` after the statement
`if cwd != "" && RepoCwd == "" { RepoCwd = cwd }` ran once for each listed
`cwd`. -/
def firstHint (hint : Bytes) : List Bytes → Bytes
  | [] => hint
  | cwd :: rest => firstHint (if cwd ≠ [] ∧ hint = [] then cwd else hint) rest

/-- Two outcomes `(result, err)` of a parser agree on what they found: the same
error, a result in both, the same chunks (ids, roles, kinds, texts, timestamps
and line numbers), the same summary and the same creation and update
instants. -/
def sameFindings (a b : Option ParseResult × Option String) : Prop :=
  a.2 = b.2 ∧ a.1.isSome = true ∧
    a.1.map (fun r => r.Chunks) = b.1.map (fun r => r.Chunks) ∧
    a.1.map (fun r => r.Meta.Summary) = b.1.map (fun r => r.Meta.Summary) ∧
    a.1.map (fun r => r.Meta.CreatedAt) = b.1.map (fun r => r.Meta.CreatedAt) ∧
    a.1.map (fun r => r.Meta.UpdatedAt) = b.1.map (fun r => r.Meta.UpdatedAt)

instance (a b : Option ParseResult × Option String) : Decidable (sameFindings a b) := by
  unfold sameFindings
  exact inferInstance

/-- Two outcomes `(result, err)` of a parser carry the same working-directory
hint. -/
def sameHint (a b : Option ParseResult × Option String) : Prop :=
  a.1.map (fun r => r.Meta.RepoCwd) = b.1.map (fun r => r.Meta.RepoCwd)

instance (a b : Option ParseResult × Option String) : Decidable (sameHint a b) := by
  unfold sameHint
  exact inferInstance

/-- The UTF-8 encoding of the code point `c`, as `utf8.AppendRune` writes it and
as a Go string holds the character: one to four bytes; a surrogate or a value
above U+10FFFF is written as U+FFFD. -/
def encodeRune (c : Nat) : Bytes :=
  if c < 0x80 then [UInt8.ofNat c]
  else if c < 0x800 then [UInt8.ofNat (0xC0 + c / 64), UInt8.ofNat (0x80 + c % 64)]
  else if 0x10FFFF < c ∨ (0xD800 ≤ c ∧ c ≤ 0xDFFF) then [0xEF, 0xBF, 0xBD]
  else if c < 0x10000 then
    [UInt8.ofNat (0xE0 + c / 4096), UInt8.ofNat (0x80 + c / 64 % 64), UInt8.ofNat (0x80 + c % 64)]
  else
    [UInt8.ofNat (0xF0 + c / 262144), UInt8.ofNat (0x80 + c / 4096 % 64),
     UInt8.ofNat (0x80 + c / 64 % 64), UInt8.ofNat (0x80 + c % 64)]

/-- The deduplication of `Search` applied to the outcome of a query path: an
error is passed on, rows go through the deduplication loop with the caller's
limit. -/
def dedupOutcome (opts : Options) : Except String (List Result) → Except String (List Result)
  | .error e => .error e
  | .ok rows => .ok (dedupLoop (effectiveLimit opts.Limit) rows [] [])

/-! ## Snippets (`makeSnippet` of `internal/search/search.go`) -/

/-- The conversion `string(runes)` of a rune slice: the UTF-8 encodings of the
runes, one after the other. -/
def encodeRunes : List Nat → Bytes
  | [] => []
  | r :: rest => encodeRune r ++ encodeRunes rest

/-- Function `strings.ToLower`: every rune of `s`, as a `range` loop yields
them, is replaced by its lower-case rune and written in UTF-8, so a byte that
is not part of a well-formed sequence comes out as the three bytes of U+FFFD.
The table `unicode.ToLower` is the argument `lowerRune`. -/
def goToLower (lowerRune : Nat → Nat) (s : Bytes) : Bytes :=
  encodeRunes ((decodeRunes s).map lowerRune)

/-- Search loop of `stringsIndex`: `i` is the byte index of the position
examined. -/
def indexFrom (substr : Bytes) : Bytes → Nat → Int
  | [], i => if substr = [] then (i : Int) else -1
  | b :: rest, i =>
    if substr.isPrefixOf (b :: rest) then (i : Int) else indexFrom substr rest (i + 1)

/-- Function `strings.Index`: the byte index of the first occurrence of
`substr` in `s`, or `-1`. -/
def stringsIndex (s substr : Bytes) : Int := indexFrom substr s 0

/-- The slice expression `runes[lo:hi]` on `runes := []rune(text)`; `none` is
the run-time panic for bounds out of range.  Go checks `0 <= lo <= hi` and
`hi <= cap(runes)`; the check here is `hi <= len(runes)`.  In `makeSnippet`
this makes no difference to the outcome: `end` is at most `len(runes)`, so
whenever the upper bound `runePos` or `runePos+len(qRunes)` of one of the
first two slices is above `len(runes)`, the lower bound of the third slice
`runes[runePos+len(qRunes):end]` is above its upper bound and the call
panics there. -/
def sliceRunes (runes : List Nat) (lo hi : Int) : Option (List Nat) :=
  if 0 ≤ lo ∧ lo ≤ hi ∧ hi ≤ (runes.length : Int) then
    some ((runes.take hi.toNat).drop lo.toNat)
  else none

/-- The window bound `start` of `makeSnippet`. -/
def snippetStart (runePos contextChars : Int) : Int :=
  if wrapInt (runePos - contextChars) < 0 then 0 else wrapInt (runePos - contextChars)

/-- The window bound `end` of `makeSnippet`. -/
def snippetEnd (runePos qLen contextChars len : Int) : Int :=
  if wrapInt (wrapInt (runePos + qLen) + contextChars) > len then len
  else wrapInt (wrapInt (runePos + qLen) + contextChars)

/-- The match branch of `makeSnippet`, from `runes`, `len(qRunes)` and
`runePos` on: the three slices, the markers and the two ellipses. -/
def snippetAround (runes : List Nat) (qLen runePos contextChars : Int) : Option Bytes :=
  match sliceRunes runes (snippetStart runePos contextChars) runePos,
    sliceRunes runes runePos (wrapInt (runePos + qLen)),
    sliceRunes runes (wrapInt (runePos + qLen))
      (snippetEnd runePos qLen contextChars runes.length) with
  | some before, some hit, some after =>
    some ((if snippetStart runePos contextChars > 0 then str "..." else [])
      ++ (encodeRunes before ++ str ">>>" ++ encodeRunes hit ++ str "<<<" ++ encodeRunes after)
      ++ (if snippetEnd runePos qLen contextChars runes.length < (runes.length : Int)
          then str "..." else []))
  | _, _, _ => none

/-- Function `makeSnippet`; `none` is a run-time panic.  `idx` is the byte index
of the lower-cased query in the lower-cased text.  Without a match the head of
`contextChars*2` runes of the text is returned, followed by `...` when the
text is longer.  With a match, `text[:idx]` (a panic when `idx > len(text)`)
is converted to runes and its length is `runePos`. -/
def makeSnippet (lowerRune : Nat → Nat) (text query : Bytes) (contextChars : Int) :
    Option Bytes :=
  if stringsIndex (goToLower lowerRune text) (goToLower lowerRune query) < 0 then
    if ((decodeRunes text).length : Int) > wrapInt (contextChars * 2) then
      (sliceRunes (decodeRunes text) 0 (wrapInt (contextChars * 2))).map
        (fun head => encodeRunes head ++ str "...")
    else some text
  else if stringsIndex (goToLower lowerRune text) (goToLower lowerRune query)
      > (text.length : Int) then none
  else
    snippetAround (decodeRunes text) (decodeRunes query).length
      (decodeRunes (text.take
        (stringsIndex (goToLower lowerRune text) (goToLower lowerRune query)).toNat)).length
      contextChars

/-! ## Scanner (`internal/scan/scanner.go`) -/

/-- What `os.Lstat` and the reading of directories show at a path: nothing that
can be stat-ed (`noStat`: the path does not exist or `Lstat` fails), an entry
that is not a directory (`regular` is false for a symbolic link, a named pipe,
a socket or a device), with its modification time in Unix seconds and its
size, or a directory with the names `readDirNames` lists, in its order, and
what is found under each name; a directory whose names cannot be read is not
`readable`. -/
inductive FsEntry where
  | noStat
  | file (regular : Bool) (mtime size : Int)
  | dir (readable : Bool) (entries : List (Bytes × FsEntry))

/-- The part of an `os.FileInfo` the callbacks read. -/
structure FileStat where
  IsDir : Bool
  ModTime : Int
  Size : Int
  deriving DecidableEq, Repr

/-- The error a walk callback returns, when it returns one: `filepath.SkipDir`
or another error, for which `notExist` is the answer of `os.IsNotExist`. -/
inductive WalkErr where
  | skipDir
  | other (notExist : Bool)
  deriving DecidableEq, Repr

/-- Whether the entry is a directory for `Lstat`. -/
def FsEntry.isFile : FsEntry → Bool
  | .file _ _ _ => true
  | _ => false

/-- Scan of `filepathExt`, from the last byte backwards: `acc` is the part of
the path already passed. -/
def extLoop : Bytes → Bytes → Bytes
  | [], _ => []
  | b :: rest, acc =>
    if b = 47 then [] else if b = 46 then b :: acc else extLoop rest (b :: acc)

/-- Function `filepath.Ext` with the separator `/`: the part of the path from
the last dot of its last element on, empty if there is no dot. -/
def filepathExt (path : Bytes) : Bytes := extLoop path.reverse []

/-- Function `filepath.Base` with the separator `/`: the last element of the
path, trailing separators removed; `.` for the empty path and `/` for a path
of separators only. -/
def filepathBase (path : Bytes) : Bytes :=
  if path = [] then str "."
  else if ((path.reverse.dropWhile (fun b => b = 47)).takeWhile (fun b => b ≠ 47)).reverse = []
    then str "/"
  else ((path.reverse.dropWhile (fun b => b = 47)).takeWhile (fun b => b ≠ 47)).reverse

/-- Function `strings.Contains`. -/
def stringsContains (s substr : Bytes) : Bool := decide (stringsIndex s substr ≥ 0)

mutual
/-- Function `walk` of `path/filepath`, together with the `Lstat` its caller
makes: `fn` is the callback, which takes the path, the file information
(`none` when `Lstat` failed), whether it is handed an error, and the variable
`files` it appends to.  For an entry that cannot be stat-ed the callback gets
the error; for a directory it gets the error of the listing, if any, and the
names are visited when both the listing and the callback succeed. -/
def walk (join : Bytes → Bytes → Bytes)
    (fn : Bytes → Option FileStat → Bool → List FileInfo → List FileInfo × Option WalkErr)
    (path : Bytes) : FsEntry → List FileInfo → List FileInfo × Option WalkErr
  | .noStat, files => fn path none true files
  | .file _ mtime size, files =>
    fn path (some { IsDir := false, ModTime := mtime, Size := size }) false files
  | .dir readable entries, files =>
    match fn path (some { IsDir := true, ModTime := 0, Size := 0 }) (!readable) files with
    | (files1, some err) => (files1, some err)
    | (files1, none) =>
      if readable then walkNames join fn path entries files1 else (files1, none)
/-- The loop of `walk` over the names of a directory: `SkipDir` returned for
a directory, or by the callback for a name that cannot be stat-ed, lets the
loop go on; any other error ends the walk of the directory. -/
def walkNames (join : Bytes → Bytes → Bytes)
    (fn : Bytes → Option FileStat → Bool → List FileInfo → List FileInfo × Option WalkErr)
    (path : Bytes) : List (Bytes × FsEntry) → List FileInfo → List FileInfo × Option WalkErr
  | [], files => (files, none)
  | (name, e) :: rest, files =>
    match walk join fn (join path name) e files with
    | (files1, none) => walkNames join fn path rest files1
    | (files1, some err) =>
      if err = WalkErr.skipDir ∧ e.isFile = false then walkNames join fn path rest files1
      else (files1, some err)
end

/-- Function `filepath.Walk`: the walk from the root; `SkipDir` from the root is
no error. -/
def Walk (join : Bytes → Bytes → Bytes)
    (fn : Bytes → Option FileStat → Bool → List FileInfo → List FileInfo × Option WalkErr)
    (root : Bytes) (e : FsEntry) (files : List FileInfo) : List FileInfo × Option WalkErr :=
  match walk join fn root e files with
  | (files1, some WalkErr.skipDir) => (files1, none)
  | r => r

/-- The callback of `scanClaude`. -/
def claudeVisit (path : Bytes) (info : Option FileStat) (err : Bool) (files : List FileInfo) :
    List FileInfo × Option WalkErr :=
  if err then (files, none)
  else
    match info with
    | none => (files, none)
    | some info =>
      if info.IsDir then
        if filepathBase path = str "subagents" then (files, some WalkErr.skipDir)
        else (files, none)
      else if filepathExt path ≠ str ".jsonl" then (files, none)
      else if stringsContains (filepathBase path) (str "sessions-index") then (files, none)
      else
        (files ++ [{ Path := path, Source := str "claude", Mtime := info.ModTime,
                     Size := info.Size }], none)

/-- The callback of `scanCodex`. -/
def codexVisit (path : Bytes) (info : Option FileStat) (err : Bool) (files : List FileInfo) :
    List FileInfo × Option WalkErr :=
  if err then (files, none)
  else
    match info with
    | none => (files, none)
    | some info =>
      if info.IsDir then (files, none)
      else if filepathExt path ≠ str ".jsonl" then (files, none)
      else
        (files ++ [{ Path := path, Source := str "codex", Mtime := info.ModTime,
                     Size := info.Size }], none)

/-- Function `scanClaude`: the files collected and the error of the walk.
`look` is the file system: what is found at a root path. -/
def scanClaude (join : Bytes → Bytes → Bytes) (look : Bytes → FsEntry) (root : Bytes) :
    List FileInfo × Option WalkErr :=
  Walk join claudeVisit root (look root) []

/-- Function `scanCodex`. -/
def scanCodex (join : Bytes → Bytes → Bytes) (look : Bytes → FsEntry) (root : Bytes) :
    List FileInfo × Option WalkErr :=
  Walk join codexVisit root (look root) []

/-- One of the two blocks of `ScanRoots`: nothing for an empty root; an error
of the scan that is not a not-exist error is returned, otherwise the files of
the scan are appended. -/
def addRoot (files : List FileInfo) (root : Bytes) (scanned : List FileInfo × Option WalkErr) :
    Except String (List FileInfo) :=
  if root = [] then .ok files
  else
    match scanned.2 with
    | none => .ok (files ++ scanned.1)
    | some (WalkErr.other true) => .ok (files ++ scanned.1)
    | some _ => .error "scan"

/-- Function `ScanRoots`. -/
def ScanRoots (join : Bytes → Bytes → Bytes) (look : Bytes → FsEntry)
    (claudeRoot codexRoot : Bytes) : Except String (List FileInfo) :=
  match addRoot [] claudeRoot (scanClaude join look claudeRoot) with
  | .error e => .error e
  | .ok files => addRoot files codexRoot (scanCodex join look codexRoot)

/-- An entry found at or beneath a root: the directories passed on the way down
to it, each with its path and whether it is readable, the first being the root
when the entry lies under it; the path of the entry; the entry. -/
structure Located where
  dirs : List (Bytes × Bool)
  path : Bytes
  entry : FsEntry

mutual
/-- The entry at `path` and all entries beneath it, in the order of the
directory listings; `dirs` are the directories above `path`. -/
def beneath (join : Bytes → Bytes → Bytes) (dirs : List (Bytes × Bool)) (path : Bytes) :
    FsEntry → List Located
  | .noStat => [{ dirs := dirs, path := path, entry := .noStat }]
  | .file regular mtime size =>
    [{ dirs := dirs, path := path, entry := .file regular mtime size }]
  | .dir readable entries =>
    { dirs := dirs, path := path, entry := .dir readable entries }
      :: beneathNames join (dirs ++ [(path, readable)]) path entries
/-- The entries under the names of the directory `path`. -/
def beneathNames (join : Bytes → Bytes → Bytes) (dirs : List (Bytes × Bool)) (path : Bytes) :
    List (Bytes × FsEntry) → List Located
  | [] => []
  | (name, e) :: rest =>
    beneath join dirs (join path name) e ++ beneathNames join dirs path rest
end

/-- The file descriptor for a located entry that is not a directory. -/
def Located.descriptor (source : Bytes) (l : Located) : Option FileInfo :=
  match l.entry with
  | .file _ mtime size => some { Path := l.path, Source := source, Mtime := mtime, Size := size }
  | _ => none

/-- All directories above the entry are readable. -/
def Located.reachable (l : Located) : Bool := l.dirs.all (fun d => d.2)

/-- Some directory above the entry has the base name `subagents`. -/
def Located.inSubagents (l : Located) : Bool :=
  l.dirs.any (fun d => decide (filepathBase d.1 = str "subagents"))

/-- What the scan of the Claude root keeps of a located entry. -/
def claudeKeeps (l : Located) : Option FileInfo :=
  if l.reachable ∧ l.inSubagents = false ∧ filepathExt l.path = str ".jsonl"
      ∧ stringsContains (filepathBase l.path) (str "sessions-index") = false then
    l.descriptor (str "claude")
  else none

/-- What the scan of the Codex root keeps of a located entry. -/
def codexKeeps (l : Located) : Option FileInfo :=
  if l.reachable ∧ filepathExt l.path = str ".jsonl" then l.descriptor (str "codex") else none

/-- The directories above are all readable and none is named `subagents`. -/
def claudeOpen (dirs : List (Bytes × Bool)) : Prop :=
  dirs.all (fun d => d.2) = true
    ∧ dirs.any (fun d => decide (filepathBase d.1 = str "subagents")) = false

/-- The directories above are all readable. -/
def codexOpen (dirs : List (Bytes × Bool)) : Prop := dirs.all (fun d => d.2) = true

/-- What `walk` returns besides the files, with the callback of `scanClaude`:
`SkipDir` for a readable directory named `subagents`. -/
def claudeSkips (path : Bytes) : FsEntry → Option WalkErr
  | .dir true _ => if filepathBase path = str "subagents" then some WalkErr.skipDir else none
  | _ => none

/-! ## Example data -/

/-- A result row with the given session key and chunk id. -/
def mkRow (key : String) (chunk : Int) : Result :=
  { SessionKey := str key, ChunkID := chunk, UpdatedAt := [], Source := str "claude",
    RepoCwd := [], Summary := [], Snippet := [], Role := str "user", Rank := 0 }

/-- Five ranked hits in three sessions. -/
def sampleRows : List Result :=
  [mkRow "claude:a" 4, mkRow "claude:b" 0, mkRow "claude:a" 1, mkRow "claude:c" 2, mkRow "claude:b" 7]

/-- An engine that answers every query with `sampleRows`. -/
def sampleEngine : QueryEngine :=
  { selectFTS := fun _ _ _ _ => .ok sampleRows,
    selectLike := fun _ _ _ _ => .ok (sampleRows.map (fun r => (r, []))) }

/-- Options with the query `world` and the given limit. -/
def sampleOptions (limit : Int) : Options :=
  { Query := str "world", Source := [], Role := [], Since := [], Limit := limit }

/-- The part of a byte string before the first `|` and the part after it. -/
def splitBar (s : Bytes) : Option (Bytes × Bytes) :=
  if (124 : UInt8) ∈ s then
    some (s.takeWhile (fun b => b ≠ 124), (s.dropWhile (fun b => b ≠ 124)).drop 1)
  else none

/-- Removal of leading and trailing ASCII spaces. -/
def toyTrim (s : Bytes) : Bytes :=
  ((s.dropWhile (fun b => b = 32)).reverse.dropWhile (fun b => b = 32)).reverse

/-- A small library for the examples.  A line `type|payload` decodes to a
record of that type whose message, payload and summary are `payload`; a line
without `|` is malformed.  A message content always decodes as a string, an
event payload `subtype|text` decodes to that sub-type, a response payload
decodes to a message with one `text` block.  No timestamp parses. -/
def toyLib : GoLib :=
  { trimSpace := toyTrim,
    timeParse := fun _ _ => none,
    timeFormat := fun _ _ => str "0001-01-01T00:00:00Z",
    filepathRel := fun base target =>
      if (base ++ str "/").isPrefixOf target then some (target.drop (base.length + 1)) else none,
    unmarshalClaudeRecord := fun line =>
      (splitBar line).map (fun p =>
        { Typ := p.1, IsMeta := false, Timestamp := [], Cwd := [], Message := p.2,
          Summary := p.2 }),
    unmarshalClaudeMessage := fun raw => some { Role := [], Content := raw },
    unmarshalString := fun raw => some raw,
    unmarshalContentBlocks := fun _ => none,
    unmarshalCodexRecord := fun line =>
      (splitBar line).map (fun p => { Timestamp := [], Typ := p.1, Payload := p.2 }),
    unmarshalCodexSessionMeta := fun raw => some { Cwd := raw },
    unmarshalCodexEventPayload := fun raw =>
      (splitBar raw).map (fun p => { Typ := p.1, Message := p.2, Text := p.2 }),
    unmarshalCodexResponsePayload := fun raw =>
      some { Typ := str "message", Role := [], Content := [{ Typ := str "text", Text := raw }] } }

/-- A Claude log of four lines: two records with text, an empty line and a
malformed line. -/
def fileA : FileData :=
  { ModTime := { sec := 62135596800 + 1700000000, nsec := 5, offset := 0 }, Size := 30,
    lines := [str "user|hello world", str "", str "oops", str "assistant| hi there "] }

/-- A Codex log of two records with text. -/
def fileB : FileData :=
  { ModTime := { sec := 62135596800 + 1700000100, nsec := 0, offset := 0 }, Size := 40,
    lines := [str "event_msg|user_message|fix the bug", str "response_item|done"] }

/-- A Claude log without any record that yields a chunk. -/
def fileE : FileData :=
  { ModTime := { sec := 62135596800 + 1700000200, nsec := 0, offset := 0 }, Size := 12,
    lines := [str "oops", str "system|boot"] }

/-- The scanner's entry for `fileA`. -/
def fiA : FileInfo :=
  { Path := str "/c/a.jsonl", Source := str "claude", Mtime := 1700000000, Size := 30 }

/-- The scanner's entry for `fileB`. -/
def fiB : FileInfo :=
  { Path := str "/x/b.jsonl", Source := str "codex", Mtime := 1700000100, Size := 40 }

/-- The scanner's entry for `fileE`. -/
def fiE : FileInfo :=
  { Path := str "/c/e.jsonl", Source := str "claude", Mtime := 1700000200, Size := 12 }

/-- The scanner's entry for a file that cannot be opened. -/
def fiM : FileInfo :=
  { Path := str "/c/m.jsonl", Source := str "claude", Mtime := 1700000300, Size := 7 }

/-- The files by path: `fileA`, `fileB`, `fileE`; no other path opens. -/
def sampleFiles (p : Bytes) : Option FileData :=
  if p = str "/c/a.jsonl" then some fileA
  else if p = str "/x/b.jsonl" then some fileB
  else if p = str "/c/e.jsonl" then some fileE
  else none

/-- A map iteration order: the keys as listed. -/
def listedOrder : MapOrder := { order := id, perm := fun _ => List.Perm.refl _ }

/-- A world in which the scanner finds `fileA` and `fileB`. -/
def sampleWorld : World :=
  { scan := .ok [fiA, fiB], files := sampleFiles, mapOrder := listedOrder }

/-- A world in which the scanner finds four files: two with chunks, one without
chunks and one that cannot be opened. -/
def mixedWorld : World :=
  { scan := .ok [fiA, fiM, fiE, fiB], files := sampleFiles, mapOrder := listedOrder }

/-- A world in which the scanner still finds `/c/a.jsonl` but the file can no
longer be opened. -/
def unreadableWorld : World :=
  { scan := .ok [fiA], files := fun _ => none, mapOrder := listedOrder }

/-- An empty database on a connection without failures. -/
def emptyDB : DB := { sessions := [], chunks := [], meta := [], faults := [] }

/-- A chunk row of the session `key` with the given id. -/
def oldChunk (key : String) (id : Nat) : ChunkRow :=
  { SessionKey := str key, ChunkID := id, Ts := [], Role := str "user", Kind := str "text",
    Text := str "old", LineNumber := id + 1 }

/-- A session row of the session `key` with the given `(mtime, size)`. -/
def oldSession (key : String) (mtime size : Int) : SessionsRow :=
  { SessionKey := str key, Source := str "claude", FilePath := [], RepoCwd := [], CreatedAt := [],
    UpdatedAt := [], Summary := str "old", Mtime := mtime, Size := size }

/-- A database holding the session `claude:a` as indexed from an older state of
the file (three chunks, other `(mtime, size)`), with the given failure
schedule. -/
def staleDB (faults : List Bool) : DB :=
  { sessions := [oldSession "claude:a" 1600000000 99],
    chunks := [oldChunk "claude:a" 0, oldChunk "claude:a" 1, oldChunk "claude:a" 2],
    meta := [], faults := faults }

/-- A database holding the session `claude:gone`, whose file no longer exists,
next to the up-to-date session `codex:b`. -/
def goneDB : DB :=
  { sessions := [oldSession "claude:gone" 1600000000 50, oldSession "codex:b" 1700000100 40],
    chunks := [oldChunk "claude:gone" 0, oldChunk "codex:b" 0, oldChunk "claude:gone" 1],
    meta := [], faults := [] }

/-- A world in which the scanner finds only `fileE`, which has no chunk. -/
def emptiedWorld : World :=
  { scan := .ok [fiE], files := sampleFiles, mapOrder := listedOrder }

/-- A database holding the session `claude:e` as indexed when its file still had
a chunk. -/
def emptiedDB : DB :=
  { sessions := [oldSession "claude:e" 1600000000 99], chunks := [oldChunk "claude:e" 0],
    meta := [], faults := [] }

/-- A failure schedule for one session update: the stale check, the deletion
transaction and the `Begin` of the insertion succeed, the `INSERT` of the
session row fails. -/
def insertFails : List Bool := [false, false, false, false, false, false, true]

/-- The state of the file loop before the first file, on the given database. -/
def startState (scanned : Nat) (db : DB) : RunState :=
  { stats := { Scanned := scanned, Updated := 0, Skipped := 0, Pruned := 0, Errors := 0 },
    seenKeys := [], db := db }

/-! ### JSON examples -/

/-- Removal of leading and trailing ASCII white space (tab, line feed, vertical
tab, form feed, carriage return, space): what `strings.TrimSpace` does to a
string whose first and last characters are ASCII. -/
def trimAscii (s : Bytes) : Bytes :=
  ((s.dropWhile (fun b => b ∈ [9, 10, 11, 12, 13, 32])).reverse.dropWhile
    (fun b => b ∈ [9, 10, 11, 12, 13, 32])).reverse

/-- A decoder given by the table of the texts it decodes; any other text is an
error. -/
def decodeBy {α : Type} (table : List (Bytes × α)) (raw : Bytes) : Option α :=
  (table.find? (fun p => p.1 = raw)).map (fun p => p.2)

/-- The JSON text of a string without characters that need escaping. -/
def jsonString (s : Bytes) : Bytes := str "\"" ++ s ++ str "\""

/-- The JSON text `[{"type":t,"text":x}, ...]` of a list of content blocks. -/
def jsonBlocks (blocks : List (String × Bytes)) : Bytes :=
  str "[" ++ List.intercalate (str ",")
    (blocks.map (fun b => str "\x7b\"type\":\"" ++ str b.1 ++ str "\",\"text\":" ++ jsonString b.2
      ++ str "\x7d")) ++ str "]"

/-- The JSON text `{"role":role,"content":content}` of a message. -/
def jsonMessage (role : String) (content : Bytes) : Bytes :=
  str "\x7b\"role\":\"" ++ str role ++ str "\",\"content\":" ++ content ++ str "\x7d"

/-- The JSON text `{"type":typ<fields>,"message":message}` of a record of a Claude
log; `fields` is the text of further members, each with its leading comma. -/
def jsonRecord (typ : String) (fields : String) (message : Bytes) : Bytes :=
  str "\x7b\"type\":\"" ++ str typ ++ str "\"" ++ str fields ++ str ",\"message\":" ++ message
    ++ str "\x7d"

/-- The JSON text of a `user` or `assistant` record of a Claude log with the
given members (`isMeta`, `timestamp` and `cwd` are left out when false or
empty) and the given text of the `message` member. -/
def claudeLine (typ : String) (isMeta : Bool) (ts cwd : String) (message : Bytes) : Bytes :=
  str "\x7b\"type\":\"" ++ str typ ++ str "\""
    ++ (if isMeta then str ",\"isMeta\":true" else [])
    ++ (if ts = "" then [] else str ",\"timestamp\":\"" ++ str ts ++ str "\"")
    ++ (if cwd = "" then [] else str ",\"cwd\":\"" ++ str cwd ++ str "\"")
    ++ str ",\"message\":" ++ message ++ str "\x7d"

/-- What `json.Unmarshal` stores in a `claudeRecord` for `claudeLine`. -/
def claudeRec (typ : String) (isMeta : Bool) (ts cwd : String) (message : Bytes) : claudeRecord :=
  { Typ := str typ, IsMeta := isMeta, Timestamp := str ts, Cwd := str cwd, Message := message,
    Summary := [] }

/-- The JSON text `{"type":"summary","summary":s,"leafUuid":"u1"}` of a summary
record. -/
def summaryLine (s : String) : Bytes :=
  str "\x7b\"type\":\"summary\",\"summary\":" ++ jsonString (str s) ++ str ",\"leafUuid\":\"u1\"\x7d"

/-- The text of 67 copies of the ideograph U+4E2D: 67 characters, 201 bytes. -/
def ideographs : Bytes := (List.replicate 67 [0xE4, 0xB8, 0xAD]).flatten

/-- The strings of the example records. -/
def sampleStrings : List Bytes :=
  [str "hello world", str "hi", ideographs, str "second day", str "first day", str "oops"]

/-- The block lists of the example records. -/
def sampleBlocks : List (List (String × Bytes)) :=
  [[("thinking", str "t1"), ("text", str "a1")], [("thinking", str " "), ("text", str "a1")]]

/-- The messages of the example records: role and text of the content. -/
def sampleMessages : List (String × Bytes) :=
  [("user", jsonString (str "hello world")),
   ("assistant", jsonString (str "hi")),
   ("user", jsonString ideographs),
   ("user", jsonString (str "second day")),
   ("assistant", jsonString (str "first day")),
   ("assistant", jsonBlocks [("thinking", str "t1"), ("text", str "a1")]),
   ("user", jsonBlocks [("thinking", str "t1"), ("text", str "a1")]),
   ("assistant", jsonBlocks [("thinking", str " "), ("text", str "a1")])]

/-- The example records of a Claude log: type, `isMeta`, timestamp, `cwd`, and
the text of the message. -/
def sampleRecords : List (String × Bool × String × String × Bytes) :=
  [("user", false, "", "", jsonMessage "user" (jsonString (str "hello world"))),
   ("user", true, "", "", jsonMessage "user" (jsonString (str "hello world"))),
   ("assistant", false, "2024-01-01T00:00:00Z", "", jsonMessage "assistant" (jsonString (str "hi"))),
   ("user", false, "", "", jsonMessage "user" (jsonString ideographs)),
   ("user", false, "2024-01-02T00:00:00Z", "", jsonMessage "user" (jsonString (str "second day"))),
   ("assistant", false, "2024-01-01T00:00:00Z", "",
      jsonMessage "assistant" (jsonString (str "first day"))),
   ("assistant", false, "", "",
      jsonMessage "assistant" (jsonBlocks [("thinking", str "t1"), ("text", str "a1")])),
   ("user", true, "", "",
      jsonMessage "user" (jsonBlocks [("thinking", str "t1"), ("text", str "a1")])),
   ("assistant", false, "", "",
      jsonMessage "assistant" (jsonBlocks [("thinking", str " "), ("text", str "a1")])),
   ("user", false, "", "/work", jsonString (str "oops"))]

/-- The example timestamps with their instants (seconds since year 1, UTC). -/
def sampleTimes : List (Bytes × Time) :=
  [(str "2024-01-01T00:00:00Z", { sec := 63839664000, nsec := 0, offset := 0 }),
   (str "2024-01-02T00:00:00Z", { sec := 63839750400, nsec := 0, offset := 0 })]

/-- The example records of a Codex log: JSON text and decoded record. -/
def sampleCodexRecords : List (Bytes × codexRecord) :=
  [(str ("\x7b\"timestamp\":\"2024-01-01T00:00:00Z\",\"type\":\"event_msg\",\"payload\":"
      ++ "\x7b\"type\":\"user_message\",\"message\":\"hello codex\"\x7d\x7d"),
    { Timestamp := str "2024-01-01T00:00:00Z", Typ := str "event_msg",
      Payload := str "\x7b\"type\":\"user_message\",\"message\":\"hello codex\"\x7d" })]

/-- The example event payloads of a Codex log. -/
def sampleCodexEvents : List (Bytes × codexEventPayload) :=
  [(str "\x7b\"type\":\"user_message\",\"message\":\"hello codex\"\x7d",
    { Typ := str "user_message", Message := str "hello codex", Text := [] })]

/-- The library of the JSON examples: each decoder returns, for the JSON texts
of the example records, what `encoding/json` returns for them, and an error for
any other text; `time.Parse` knows the example timestamps under the two
RFC 3339 layouts.  Formatting of times is not used by the examples. -/
def jsonLib : GoLib :=
  { trimSpace := trimAscii,
    timeParse := fun layout s =>
      if layout = str "2006-01-02T15:04:05Z07:00"
          ∨ layout = str "2006-01-02T15:04:05.999999999Z07:00" then decodeBy sampleTimes s
      else none,
    timeFormat := fun _ _ => [],
    filepathRel := fun base target =>
      if (base ++ str "/").isPrefixOf target then some (target.drop (base.length + 1)) else none,
    unmarshalClaudeRecord := decodeBy
      ((sampleRecords.map (fun r =>
          (claudeLine r.1 r.2.1 r.2.2.1 r.2.2.2.1 r.2.2.2.2,
            claudeRec r.1 r.2.1 r.2.2.1 r.2.2.2.1 r.2.2.2.2)))
        ++ [(summaryLine "Fix the parser",
            { Typ := str "summary", IsMeta := false, Timestamp := [], Cwd := [], Message := [],
              Summary := str "Fix the parser" })]),
    unmarshalClaudeMessage := decodeBy
      (sampleMessages.map (fun m => (jsonMessage m.1 m.2, { Role := str m.1, Content := m.2 }))),
    unmarshalString := decodeBy (sampleStrings.map (fun s => (jsonString s, s))),
    unmarshalContentBlocks := decodeBy
      (sampleBlocks.map (fun bs =>
        (jsonBlocks bs, bs.map (fun b => { Typ := str b.1, Text := b.2 })))),
    unmarshalCodexRecord := decodeBy sampleCodexRecords,
    unmarshalCodexSessionMeta := fun _ => none,
    unmarshalCodexEventPayload := decodeBy sampleCodexEvents,
    unmarshalCodexResponsePayload := fun _ => none }

/-- A log file with the given lines, each ended by a line feed. -/
def logFile (lines : List Bytes) : FileData :=
  { ModTime := { sec := 63839664000, nsec := 0, offset := 0 },
    Size := ((lines.map (fun l => l.length + 1)).sum : Nat), lines := lines }

/-- A world whose only file is the log `/r/s.jsonl` with the given lines. -/
def logWorld (source : String) (lines : List Bytes) : World :=
  { scan := .ok [{ Path := str "/r/s.jsonl", Source := str source, Mtime := 1704067200,
                   Size := (logFile lines).Size }],
    files := fun p => if p = str "/r/s.jsonl" then some (logFile lines) else none,
    mapOrder := listedOrder }

/-- A chunk of the session `claude:s`. -/
def sampleChunk (id : Nat) (ts : Time) (role kind : String) (text : Bytes) (line : Nat) : Chunk :=
  { SessionKey := str "claude:s", ChunkID := id, Timestamp := ts, Role := str role,
    Kind := str kind, Text := text, LineNumber := line }

/-- The record `{"type":"user","message":{"role":"user","content":"hello world"}}`. -/
def helloLine : Bytes :=
  claudeLine "user" false "" "" (jsonMessage "user" (jsonString (str "hello world")))

/-- The record of `helloLine` flagged `"isMeta":true`. -/
def metaHelloLine : Bytes :=
  claudeLine "user" true "" "" (jsonMessage "user" (jsonString (str "hello world")))

/-- An assistant record with the timestamp `2024-01-01T00:00:00Z` and the content `"hi"`. -/
def hiLine : Bytes :=
  claudeLine "assistant" false "2024-01-01T00:00:00Z" ""
    (jsonMessage "assistant" (jsonString (str "hi")))

/-- A user record whose content is the string of 67 ideographs. -/
def ideographLine : Bytes :=
  claudeLine "user" false "" "" (jsonMessage "user" (jsonString ideographs))

/-- A user record with the timestamp `2024-01-02T00:00:00Z`. -/
def secondDayLine : Bytes :=
  claudeLine "user" false "2024-01-02T00:00:00Z" ""
    (jsonMessage "user" (jsonString (str "second day")))

/-- An assistant record with the timestamp `2024-01-01T00:00:00Z`. -/
def firstDayLine : Bytes :=
  claudeLine "assistant" false "2024-01-01T00:00:00Z" ""
    (jsonMessage "assistant" (jsonString (str "first day")))

/-- An assistant record with the content
`[{"type":"thinking","text":"t1"},{"type":"text","text":"a1"}]`. -/
def blocksLine : Bytes :=
  claudeLine "assistant" false "" ""
    (jsonMessage "assistant" (jsonBlocks [("thinking", str "t1"), ("text", str "a1")]))

/-- A user record with the content of `blocksLine`, flagged `"isMeta":true`. -/
def metaBlocksLine : Bytes :=
  claudeLine "user" true "" ""
    (jsonMessage "user" (jsonBlocks [("thinking", str "t1"), ("text", str "a1")]))

/-- An assistant record with the content
`[{"type":"thinking","text":" "},{"type":"text","text":"a1"}]`: its thinking
block is not empty and holds one space. -/
def blankThinkingLine : Bytes :=
  claudeLine "assistant" false "" ""
    (jsonMessage "assistant" (jsonBlocks [("thinking", str " "), ("text", str "a1")]))

/-- The record `{"type":"user","cwd":"/work","message":"oops"}`: it decodes, its
message payload is not an object and does not decode. -/
def badMessageLine : Bytes := claudeLine "user" false "" "/work" (jsonString (str "oops"))

/-- The instant `2024-01-01T00:00:00Z`. -/
def firstDay : Time := { sec := 63839664000, nsec := 0, offset := 0 }

/-- The instant `2024-01-02T00:00:00Z`. -/
def secondDay : Time := { sec := 63839750400, nsec := 0, offset := 0 }

/-- A text of 8193 bytes, one more than the text ceiling. -/
@[irreducible] def longText : Bytes := List.replicate 8193 97

/-- The JSON text of the block list
`[{"type":"thinking","text":"aa...a"},{"type":"text","text":"a1"}]` whose
thinking block holds `longText`. -/
def longContent : Bytes :=
  str "[\x7b\"type\":\"thinking\",\"text\":\"" ++ longText
    ++ str "\"\x7d,\x7b\"type\":\"text\",\"text\":\"a1\"\x7d]"

/-- The JSON text of the assistant message with the content `longContent`. -/
def longMessage : Bytes :=
  str "\x7b\"role\":\"assistant\",\"content\":" ++ longContent ++ str "\x7d"

/-- The JSON text of the assistant record with the message `longMessage`. -/
def longLine : Bytes :=
  str "\x7b\"type\":\"assistant\",\"message\":" ++ longMessage ++ str "\x7d"

/-- The library of the example with the long thinking block: the decoders
return what `encoding/json` returns for `longLine`, `longMessage` and
`longContent`, and an error for any other text. -/
def longLib : GoLib :=
  { jsonLib with
    unmarshalClaudeRecord := fun line =>
      if line = longLine then
        some { Typ := str "assistant", IsMeta := false, Timestamp := [], Cwd := [],
               Message := longMessage, Summary := [] }
      else none,
    unmarshalClaudeMessage := fun raw =>
      if raw = longMessage then some { Role := str "assistant", Content := longContent }
      else none,
    unmarshalString := fun _ => none,
    unmarshalContentBlocks := fun raw =>
      if raw = longContent then
        some [{ Typ := str "thinking", Text := longText }, { Typ := str "text", Text := str "a1" }]
      else none }

/-- A line longer than 10 MiB: `maxLineSize + 1` bytes `a`. -/
@[irreducible] def overlongLine : Bytes := List.replicate 10485761 97

/-- A line that is no JSON text. -/
def garbageLine : Bytes := str "not json"

/-- The `event_msg` record of a Codex log with the user message `hello codex`
and the timestamp `2024-01-01T00:00:00Z`. -/
def codexHelloLine : Bytes :=
  str ("\x7b\"timestamp\":\"2024-01-01T00:00:00Z\",\"type\":\"event_msg\",\"payload\":"
    ++ "\x7b\"type\":\"user_message\",\"message\":\"hello codex\"\x7d\x7d")

/-- The main block of the table `unicode.Han`: the CJK Unified Ideographs
U+4E00 to U+9FFF. -/
def hanBlock (r : Nat) : Bool := decide (0x4E00 ≤ r ∧ r ≤ 0x9FFF)

/-- A hit of the full-text query with the rank -1.0 (bit pattern
`0xBFF0000000000000`). -/
def rankedRow : Result := { mkRow "claude:a" 4 with Rank := 0xBFF0000000000000 }

/-- An engine whose full-text query finds `rankedRow` and whose substring query
finds one chunk of the session `claude:b`. -/
def pathEngine : QueryEngine :=
  { selectFTS := fun _ _ _ _ => .ok [rankedRow],
    selectLike := fun _ _ _ _ => .ok [(mkRow "claude:b" 0, str "fix it")] }

/-- Options with the query `fix` followed by a space and the ideograph U+4E2D,
and the limit 2. -/
def ideographOptions : Options :=
  { Query := str "fix " ++ [0xE4, 0xB8, 0xAD], Source := [], Role := [], Since := [], Limit := 2 }

/-- The record `{"type":"summary","summary":"Fix the parser","cwd":"/a"}`: a
summary record that carries a working directory. -/
def summaryCwdLine : Bytes :=
  str "\x7b\"type\":\"summary\",\"summary\":\"Fix the parser\",\"cwd\":\"/a\"\x7d"

/-- The record `{"type":"progress","cwd":"/c"}`: neither `user` nor `assistant`. -/
def progressCwdLine : Bytes := str "\x7b\"type\":\"progress\",\"cwd\":\"/c\"\x7d"

/-- A user record flagged `"isMeta":true` with the working directory `/b`. -/
def metaCwdLine : Bytes :=
  claudeLine "user" true "" "/b" (jsonMessage "user" (jsonString (str "hello world")))

/-- A user record with the working directory `/d`. -/
def helloCwdLine : Bytes :=
  claudeLine "user" false "" "/d" (jsonMessage "user" (jsonString (str "hello world")))

/-- The library of the examples on the working-directory hint: `jsonLib` with
a record decoder that knows `helloLine`, `summaryCwdLine`, `progressCwdLine`,
`metaCwdLine` and `helloCwdLine`, and an error for any other line. -/
def hintLib : GoLib :=
  { jsonLib with
    unmarshalClaudeRecord := decodeBy
      [(helloLine, claudeRec "user" false "" "" (jsonMessage "user" (jsonString (str "hello world")))),
       (summaryCwdLine,
          { Typ := str "summary", IsMeta := false, Timestamp := [], Cwd := str "/a", Message := [],
            Summary := str "Fix the parser" }),
       (progressCwdLine,
          { Typ := str "progress", IsMeta := false, Timestamp := [], Cwd := str "/c", Message := [],
            Summary := [] }),
       (metaCwdLine,
          claudeRec "user" true "" "/b" (jsonMessage "user" (jsonString (str "hello world")))),
       (helloCwdLine,
          claudeRec "user" false "" "/d" (jsonMessage "user" (jsonString (str "hello world"))))] }

/-- The `session_meta` record of a Codex log with the given JSON payload. -/
def codexMetaLine (payload : String) : Bytes :=
  str "\x7b\"type\":\"session_meta\",\"payload\":" ++ str payload ++ str "\x7d"

/-- The library of the Codex examples on the working-directory hint: `jsonLib`
with decoders that know three `session_meta` records, with the payloads
`{"cwd":"/a"}`, `{"cwd":"/b"}` and `{}`, and a fourth whose payload `7` does not
decode as an object. -/
def codexHintLib : GoLib :=
  { jsonLib with
    unmarshalCodexRecord := decodeBy
      (sampleCodexRecords ++
        (["\x7b\"cwd\":\"/a\"\x7d", "\x7b\"cwd\":\"/b\"\x7d", "\x7b\x7d", "7"].map (fun p =>
          (codexMetaLine p, { Timestamp := [], Typ := str "session_meta", Payload := str p })))),
    unmarshalCodexSessionMeta := decodeBy
      [(str "\x7b\"cwd\":\"/a\"\x7d", { Cwd := str "/a" }),
       (str "\x7b\"cwd\":\"/b\"\x7d", { Cwd := str "/b" }),
       (str "\x7b\x7d", { Cwd := [] })] }

/-- A world in which the scanner finds `fileA`, `fileE` (which has no chunk) and
`fileB`. -/
def threeWorld : World :=
  { scan := .ok [fiA, fiE, fiB], files := sampleFiles, mapOrder := listedOrder }

/-- The store `goneDB` with the current marker. -/
def currentVersionDB : DB := { goneDB with meta := [(str "schema_version", str "3")] }

/-- A store whose session `claude:a` has the seven chunks 0 to 6, stored out of
order, next to a chunk of another session. -/
def windowDB : DB :=
  { sessions := [oldSession "claude:a" 1700000000 30],
    chunks := [oldChunk "claude:a" 3, oldChunk "claude:a" 0, oldChunk "claude:b" 9,
               oldChunk "claude:a" 1, oldChunk "claude:a" 6, oldChunk "claude:a" 2,
               oldChunk "claude:a" 5, oldChunk "claude:a" 4],
    meta := [], faults := [] }

/-- An assistant record with the timestamp `2024-01-01T08:00:00+08:00` and the
content `"hi"`. -/
def zoneLine : Bytes :=
  claudeLine "assistant" false "2024-01-01T08:00:00+08:00" ""
    (jsonMessage "assistant" (jsonString (str "hi")))

/-- The library of the example with a zone offset: `jsonLib` with a record
decoder that knows `zoneLine` and `hiLine`, a `time.Parse` that knows
`2024-01-01T08:00:00+08:00` (the instant `2024-01-01T00:00:00Z`, at the offset
of 28800 seconds) and `2024-01-01T00:00:00Z` under the two RFC 3339 layouts,
and `Format` as `formatStamp` for the layout of the indexer. -/
def zoneLib : GoLib :=
  { jsonLib with
    timeParse := fun layout s =>
      if layout = str "2006-01-02T15:04:05Z07:00"
          ∨ layout = str "2006-01-02T15:04:05.999999999Z07:00" then
        decodeBy
          [(str "2024-01-01T08:00:00+08:00", { sec := 63839664000, nsec := 0, offset := 28800 }),
           (str "2024-01-01T00:00:00Z", { sec := 63839664000, nsec := 0, offset := 0 })] s
      else none,
    timeFormat := fun t layout => if layout = tsLayout then formatStamp t else [],
    unmarshalClaudeRecord := decodeBy
      [(zoneLine, claudeRec "assistant" false "2024-01-01T08:00:00+08:00" ""
          (jsonMessage "assistant" (jsonString (str "hi")))),
       (hiLine, claudeRec "assistant" false "2024-01-01T00:00:00Z" ""
          (jsonMessage "assistant" (jsonString (str "hi"))))] }

/-- A lower-case table for the examples.  It agrees with `unicode.ToLower` on
ASCII, on U+0130 (lower case U+0069, one byte instead of two), on U+023A
(lower case U+2C65, three bytes instead of two) and on every rune without
case, such as the Han runes; the other cased runes do not occur in the
examples. -/
def sampleLower (r : Nat) : Nat :=
  if 65 ≤ r ∧ r ≤ 90 then r + 32
  else if r = 0x130 then 0x69
  else if r = 0x23A then 0x2C65
  else r

/-- The ideograph U+4E2D as a query. -/
def ideographQuery : Bytes := encodeRunes [0x4E2D]

/-- The text of the runes U+023A, U+023A, U+4E2D: seven bytes, nine once
lower-cased. -/
def growText : Bytes := encodeRunes [0x23A, 0x23A, 0x4E2D]

/-- The text of four runes U+023A and U+4E2D: eleven bytes, fifteen once
lower-cased. -/
def longGrowText : Bytes := encodeRunes [0x23A, 0x23A, 0x23A, 0x23A, 0x4E2D]

/-- The text of the runes U+0130, U+0130, U+4E2D: seven bytes, five once
lower-cased. -/
def shrinkText : Bytes := encodeRunes [0x130, 0x130, 0x4E2D]

/-- The case folding of the SQLite operator `LIKE`: the ASCII letters only. -/
def asciiFold (r : Nat) : Nat := if 65 ≤ r ∧ r ≤ 90 then r + 32 else r

/-- Some final segment of the list satisfies `f`. -/
def anySuffix (f : List Nat → Bool) : List Nat → Bool
  | [] => f []
  | t :: ts => f (t :: ts) || anySuffix f ts

/-- The SQLite operator `text LIKE pattern` without `ESCAPE` clause, on
well-formed UTF-8 strings given as their characters: `%` (37) in the pattern
stands for any run of characters, `_` (95) for any one character, every other
character for itself up to the case of ASCII letters. -/
def likeMatch : List Nat → List Nat → Bool
  | [], ts => ts.isEmpty
  | p :: ps, ts =>
    if p = 37 then anySuffix (likeMatch ps) ts
    else
      match ts with
      | [] => false
      | t :: rest => (decide (p = 95) || decide (asciiFold p = asciiFold t)) && likeMatch ps rest

/-- An SQLite engine over a store whose join of `chunks` and `sessions` has
the rows `rows` (each with the chunk text), for the substring query: the rows
whose text is `LIKE` the pattern and that pass the source, role and since
conditions, by `updated_at` descending.  The full-text table is empty. -/
def likeEngine (rows : List (Result × Bytes)) : QueryEngine :=
  { selectFTS := fun _ _ _ _ => .ok [],
    selectLike := fun pattern source role since =>
      .ok ((rows.filter (fun r => likeMatch (decodeRunes pattern) (decodeRunes r.2)
          && (decide (source = []) || decide (r.1.Source = source))
          && (decide (role = []) || decide (r.1.Role = role))
          && (decide (since = []) || decide (since ≤ r.1.UpdatedAt)))).insertionSort
            (fun a b => b.1.UpdatedAt ≤ a.1.UpdatedAt)) }

/-- Options with the given query, no filter and the limit 10. -/
def queryOptions (query : Bytes) : Options :=
  { Query := query, Source := [], Role := [], Since := [], Limit := 10 }

/-- The query of the runes U+4E2D, `_`, U+6587. -/
def underscoreQuery : Bytes := encodeRunes [0x4E2D, 95, 0x6587]

/-- The text of the runes U+4E2D, `x`, U+6587. -/
def underscoreText : Bytes := encodeRunes [0x4E2D, 120, 0x6587]

/-- The query of the runes U+4E2D, `%`, U+6587. -/
def percentQuery : Bytes := encodeRunes [0x4E2D, 37, 0x6587]

/-- The text of the runes U+4E2D, `a`, `b`, U+6587. -/
def percentText : Bytes := encodeRunes [0x4E2D, 97, 98, 0x6587]

/-- The join of a clean directory path and a plain name, as `filepath.Join`
returns it: the two with a separator between them. -/
def joinSlash (dir name : Bytes) : Bytes := dir ++ str "/" ++ name

/-- A file system with two roots.  Under `/c`: the log `s.jsonl`, the note
`notes.txt`, the index artifact `sessions-index.jsonl`, the symbolic link
`link.jsonl`, a name that cannot be stat-ed, an unreadable directory, the
directory `subagents` with the log `a.jsonl`, and the directory `p` with the
log `t.jsonl`.  Under `/x`: the artifact `sessions-index.jsonl` and the
directory `subagents` with the log `a.jsonl`.  Nothing else exists. -/
def sampleTree (root : Bytes) : FsEntry :=
  if root = str "/c" then
    .dir true
      [(str "link.jsonl", .file false 5 9),
       (str "locked", .dir false [(str "u.jsonl", .file true 6 1)]),
       (str "lost.jsonl", .noStat),
       (str "notes.txt", .file true 1 10),
       (str "p", .dir true [(str "t.jsonl", .file true 2 20)]),
       (str "s.jsonl", .file true 3 30),
       (str "sessions-index.jsonl", .file true 4 40),
       (str "subagents", .dir true [(str "a.jsonl", .file true 7 70)])]
  else if root = str "/x" then
    .dir true
      [(str "sessions-index.jsonl", .file true 4 40),
       (str "subagents", .dir true [(str "a.jsonl", .file true 7 70)])]
  else .noStat

/-- The store after a run of `IndexAll` over the log of the records `helloLine`
and `hiLine`, from an empty store: the session `claude:s` with two chunks. -/
def helloStore : DB :=
  (IndexAll jsonLib (logWorld "claude" [helloLine, hiLine]) emptyDB (str "/r") (str "/x")).2

/-- The scanner's entry for `/c/a.jsonl` when that path is a symbolic link to
the log `fileA`: the modification time and the size are those `Lstat` reports
for the link, not those of the log. -/
def linkA : FileInfo :=
  { Path := str "/c/a.jsonl", Source := str "claude", Mtime := 1690000000, Size := 17 }

/-- A world in which `/c/a.jsonl` is a symbolic link to the log `fileA`: the
scanner reports the link, opening the path gives the log. -/
def linkWorld : World :=
  { scan := .ok [linkA], files := sampleFiles, mapOrder := listedOrder }

/-! # Theorems -/

set_option maxRecDepth 100000

/-! ## Search: deduplication and limit (C1, C2) -/

theorem effectiveLimit_pos (l : Int) : 1 ≤ effectiveLimit l := by
  unfold effectiveLimit; split <;> omega

theorem dedupLoop_eq (L : Int) (rows : List Result) :
    ∀ (seen : List Bytes) (acc : List Result), (acc.length : Int) < L →
      dedupLoop L rows seen acc = acc ++ (firstPerKey rows seen).take (L.toNat - acc.length) := by
  induction rows with
  | nil => intro seen acc _; simp [dedupLoop, firstPerKey]
  | cons r rest ih =>
    intro seen acc hacc
    by_cases hs : r.SessionKey ∈ seen
    · simp [dedupLoop, firstPerKey, hs, ih seen acc hacc]
    · by_cases hl : ((acc ++ [r]).length : Int) ≥ L
      · have h1 : L.toNat - acc.length = 1 := by
          simp at hl; omega
        rw [dedupLoop, if_neg hs, if_pos hl, firstPerKey, if_neg hs, h1]
        simp
      · have h2 : ((acc ++ [r]).length : Int) < L := by omega
        have h3 : L.toNat - acc.length = (L.toNat - (acc ++ [r]).length) + 1 := by
          simp at h2 ⊢; omega
        rw [dedupLoop, if_neg hs, if_neg hl, firstPerKey, if_neg hs, ih _ _ h2, h3,
          List.take_succ_cons]
        simp

theorem firstPerKey_sublist (rows : List Result) :
    ∀ seen : List Bytes, (firstPerKey rows seen).Sublist rows := by
  induction rows with
  | nil => intro seen; simp [firstPerKey]
  | cons r rest ih =>
    intro seen
    by_cases hs : r.SessionKey ∈ seen
    · simp only [firstPerKey, hs, if_true]; exact (ih seen).cons r
    · simp only [firstPerKey, hs, if_false]; exact (ih _).cons₂ r

theorem firstPerKey_key_not_seen (rows : List Result) :
    ∀ (seen : List Bytes) (r : Result), r ∈ firstPerKey rows seen → r.SessionKey ∉ seen := by
  induction rows with
  | nil => intro seen r h; simp [firstPerKey] at h
  | cons r0 rest ih =>
    intro seen r h
    by_cases hs : r0.SessionKey ∈ seen
    · simp only [firstPerKey, hs, if_true] at h; exact ih seen r h
    · simp only [firstPerKey, hs, if_false, List.mem_cons] at h
      rcases h with h | h
      · subst h; exact hs
      · have := ih _ r h
        simp at this; exact this.2

theorem firstPerKey_nodup (rows : List Result) :
    ∀ seen : List Bytes, ((firstPerKey rows seen).map (fun r => r.SessionKey)).Nodup := by
  induction rows with
  | nil => intro seen; simp [firstPerKey]
  | cons r0 rest ih =>
    intro seen
    by_cases hs : r0.SessionKey ∈ seen
    · simp only [firstPerKey, hs, if_true]; exact ih seen
    · simp only [firstPerKey, hs, if_false, List.map_cons, List.nodup_cons]
      refine ⟨?_, ih _⟩
      intro hmem
      rcases List.mem_map.1 hmem with ⟨r, hr, hk⟩
      have := firstPerKey_key_not_seen rest _ r hr
      simp [hk] at this

theorem firstPerKey_find (rows : List Result) :
    ∀ (seen : List Bytes) (r : Result), r ∈ firstPerKey rows seen →
      rows.find? (fun x => x.SessionKey == r.SessionKey) = some r := by
  induction rows with
  | nil => intro seen r h; simp [firstPerKey] at h
  | cons r0 rest ih =>
    intro seen r h
    by_cases hs : r0.SessionKey ∈ seen
    · simp only [firstPerKey, hs, if_true] at h
      have hne : r0.SessionKey ≠ r.SessionKey := by
        intro e; exact firstPerKey_key_not_seen rest seen r h (e ▸ hs)
      have hb : (r0.SessionKey == r.SessionKey) = false := by simp [hne]
      rw [List.find?_cons, hb]; exact ih seen r h
    · simp only [firstPerKey, hs, if_false, List.mem_cons] at h
      rcases h with h | h
      · subst h; simp [List.find?]
      · have hk := firstPerKey_key_not_seen rest _ r h
        have hne : r0.SessionKey ≠ r.SessionKey := by
          intro e; apply hk; simp [e]
        have hb : (r0.SessionKey == r.SessionKey) = false := by simp [hne]
        rw [List.find?_cons, hb]; exact ih _ r h

theorem Search_eq_take (db : QueryEngine) (isHan : Nat → Bool)
    (mk : Bytes → Bytes → Int → Option Bytes) (opts : Options) (fetched : List Result)
    (h : fetchRows db isHan mk opts = some (.ok fetched)) :
    Search db isHan mk opts
      = some (.ok ((firstPerKey fetched []).take (effectiveLimit opts.Limit).toNat)) := by
  have hpos := effectiveLimit_pos opts.Limit
  unfold Search
  rw [h]
  simp only
  rw [dedupLoop_eq _ _ _ _ (by simpa using (by omega : (0 : Int) < effectiveLimit opts.Limit))]
  simp

/-- C1: whenever the query path returns rows (no query error, no panic of the
snippet builder), `Search` returns a list whose
session keys are pairwise distinct, that is a subsequence of the fetched rows,
and each of whose elements is the first fetched row with its session key. -/
theorem Search_keeps_best_row_per_session (db : QueryEngine) (isHan : Nat → Bool)
    (mk : Bytes → Bytes → Int → Option Bytes) (opts : Options) (fetched : List Result)
    (h : fetchRows db isHan mk opts = some (.ok fetched)) :
    ∃ out, Search db isHan mk opts = some (.ok out) ∧
      (out.map (fun r => r.SessionKey)).Nodup ∧
      out.Sublist fetched ∧
      ∀ r ∈ out, fetched.find? (fun x => x.SessionKey == r.SessionKey) = some r := by
  refine ⟨_, Search_eq_take db isHan mk opts fetched h, ?_, ?_, ?_⟩
  · exact ((firstPerKey_nodup fetched []).sublist ((List.take_sublist _ _).map _))
  · exact (List.take_sublist _ _).trans (firstPerKey_sublist fetched [])
  · intro r hr
    exact firstPerKey_find fetched [] r (List.mem_of_mem_take hr)

/-- Witness of C1: five ranked hits in three sessions, limit 2. -/
theorem Search_keeps_best_row_per_session_witness :
    fetchRows sampleEngine (fun _ => false) (fun _ _ _ => some []) (sampleOptions 2) = some (.ok sampleRows) ∧
    ∃ out, Search sampleEngine (fun _ => false) (fun _ _ _ => some []) (sampleOptions 2) = some (.ok out) ∧
      (out.map (fun r => r.SessionKey)).Nodup ∧
      out.Sublist sampleRows ∧
      ∀ r ∈ out, sampleRows.find? (fun x => x.SessionKey == r.SessionKey) = some r :=
  ⟨by decide,
    Search_keeps_best_row_per_session sampleEngine (fun _ => false) (fun _ _ _ => some [])
      (sampleOptions 2) sampleRows (by decide)⟩

theorem Appends.refl (key : Bytes) (st : ParseState) : Appends key st st [] := by
  simp [Appends, chunksOf]

theorem appends_captureCwd (key cwd : Bytes) (st : ParseState) :
    Appends key st (captureCwd cwd st) [] := by
  unfold captureCwd; split <;> simp [Appends, chunksOf]

theorem appends_stamp (key : Bytes) (ts : Time) (st : ParseState) :
    Appends key st (st.stamp ts) [] := by
  simp [Appends, chunksOf, ParseState.stamp]

theorem appends_emit (key : Bytes) (ts : Time) (role kind text : Bytes) (st : ParseState) :
    Appends key st (st.emit key ts role kind (capText text))
      [{ ts := ts, role := role, kind := kind, text := text }] := by
  simp [Appends, chunksOf, ParseState.emit]

theorem chunksOf_append (key : Bytes) (ln : Nat) (es₁ es₂ : List Emit) :
    ∀ id, chunksOf key ln id (es₁ ++ es₂)
      = chunksOf key ln id es₁ ++ chunksOf key ln (id + es₁.length) es₂ := by
  induction es₁ with
  | nil => intro id; simp [chunksOf]
  | cons e es ih =>
    intro id
    simp [chunksOf, ih (id + 1)]
    congr 1; omega

theorem Appends.trans {key : Bytes} {a b c : ParseState} {es₁ es₂ : List Emit}
    (h₁ : Appends key a b es₁) (h₂ : Appends key b c es₂) : Appends key a c (es₁ ++ es₂) := by
  obtain ⟨h1, h2, h3, h4, h5, h6⟩ := h₁
  obtain ⟨g1, g2, g3, g4, g5, g6⟩ := h₂
  refine ⟨?_, ?_, ?_, ?_, ?_, ?_⟩
  · rw [g1, h1, chunksOf_append, h2, h3, List.append_assoc]
  · rw [g2, h2, List.length_append]; omega
  · rw [g3, h3]
  · rw [g4, h4]
  · rw [g5, h5]
  · rw [g6, h6]

theorem claudeRecordStep_appends (lib : GoLib) (key : Bytes) (st : ParseState) (line : Bytes) :
    Appends key st (claudeRecordStep lib key st line) (claudeEmits lib line) := by
  unfold claudeRecordStep claudeEmits
  by_cases h0 : line.length = 0
  · simp only [h0, if_true]; exact Appends.refl key st
  · simp only [h0, if_false]
    cases hrec : lib.unmarshalClaudeRecord line with
    | none => exact Appends.refl key st
    | some rec =>
      simp only
      by_cases hs : rec.Typ = str "summary" ∧ rec.Summary ≠ []
      · rw [if_pos hs, if_pos hs]; simp [Appends, chunksOf]
      · rw [if_neg hs, if_neg hs]
        by_cases hm : rec.IsMeta = true
        · simp only [hm, if_true]; exact appends_captureCwd key _ st
        · simp only [hm]
          by_cases ht : rec.Typ ≠ str "user" ∧ rec.Typ ≠ str "assistant"
          · rw [if_pos ht, if_pos ht]; exact appends_captureCwd key _ st
          · rw [if_neg ht, if_neg ht]
            cases hmsg : lib.unmarshalClaudeMessage rec.Message with
            | none => exact appends_captureCwd key _ st
            | some msg =>
              simp only []
              have hbase := (appends_captureCwd key rec.Cwd st).trans
                (appends_stamp key (parseTimestamp lib rec.Timestamp) (captureCwd rec.Cwd st))
              by_cases hT : (extractClaudeContent lib msg.Content).Text = []
              <;> by_cases hK : (extractClaudeContent lib msg.Content).Thinking = []
              · simp only [hT, hK, and_self, if_true, ne_eq, not_true_eq_false, if_false,
                  List.append_nil]
                exact appends_captureCwd key _ st
              · simp only [hT, hK, and_false, if_false, ne_eq, not_true_eq_false,
                  not_false_eq_true, if_true, List.append_nil, emitText, emitThinking]
                exact hbase.trans (appends_emit key _ _ _ _ _)
              · simp only [hT, hK, false_and, if_false, ne_eq, not_true_eq_false,
                  not_false_eq_true, if_true, List.nil_append, emitText, emitThinking]
                exact hbase.trans (appends_emit key _ _ _ _ _)
              · simp only [hT, hK, false_and, if_false, ne_eq,
                  not_false_eq_true, if_true, emitText, emitThinking]
                exact (hbase.trans (appends_emit key _ _ _ _ _)).trans (appends_emit key _ _ _ _ _)

theorem codexRecordStep_appends (lib : GoLib) (key : Bytes) (st : ParseState) (line : Bytes) :
    Appends key st (codexRecordStep lib key st line) (codexEmits lib line) := by
  unfold codexRecordStep codexEmits
  by_cases h0 : line.length = 0
  · simp only [h0, if_true]; exact Appends.refl key st
  · simp only [h0, if_false]
    cases hrec : lib.unmarshalCodexRecord line with
    | none => exact Appends.refl key st
    | some rec =>
      simp only
      by_cases h1 : rec.Typ = str "session_meta"
      · simp only [h1, if_true]
        split <;> simp [Appends, chunksOf]
      · simp only [h1, if_false]
        by_cases h2 : rec.Typ = str "event_msg"
        · simp only [h2, if_true]
          unfold codexEvent codexEventEmits
          cases hevt : lib.unmarshalCodexEventPayload rec.Payload with
          | none => exact Appends.refl key st
          | some evt =>
            simp only
            by_cases e1 : evt.Typ = str "user_message"
            · simp only [e1, if_true]
              split
              · exact Appends.refl key st
              · exact (appends_stamp key _ st).trans (appends_emit key _ _ _ _ _)
            · simp only [e1, if_false]
              by_cases e2 : evt.Typ = str "agent_reasoning"
              · simp only [e2, if_true]
                split
                · exact Appends.refl key st
                · exact (appends_stamp key _ st).trans (appends_emit key _ _ _ _ _)
              · simp only [e2, if_false]; exact Appends.refl key st
        · simp only [h2, if_false]
          by_cases h3 : rec.Typ = str "response_item"
          · simp only [h3, if_true]
            unfold codexResponse codexResponseEmits
            cases hitem : lib.unmarshalCodexResponsePayload rec.Payload with
            | none => exact Appends.refl key st
            | some item =>
              simp only
              by_cases i1 : item.Typ ≠ str "message"
              · rw [if_pos i1, if_pos i1]; exact Appends.refl key st
              · rw [if_neg i1, if_neg i1]
                split
                · exact Appends.refl key st
                · exact (appends_stamp key _ st).trans (appends_emit key _ _ _ _ _)
          · simp only [h3, if_false]; exact Appends.refl key st

theorem claudeStep_spec (lib : GoLib) (key : Bytes) :
    StepSpec key (claudeEmits lib) (claudeStep lib key) := by
  intro st line
  have h := claudeRecordStep_appends lib key { st with lineNum := st.lineNum + 1 } line
  simpa [Appends, claudeStep] using h

theorem codexStep_spec (lib : GoLib) (key : Bytes) :
    StepSpec key (codexEmits lib) (codexStep lib key) := by
  intro st line
  have h := codexRecordStep_appends lib key { st with lineNum := st.lineNum + 1 } line
  simpa [Appends, codexStep] using h

theorem foldl_chunks {key : Bytes} {emits : Bytes → List Emit}
    {step : ParseState → Bytes → ParseState} (hstep : StepSpec key emits step)
    (tokens : List Bytes) :
    ∀ st : ParseState,
      (tokens.foldl step st).result.Chunks
          = st.result.Chunks ++ fileChunks key emits st.chunkID st.lineNum tokens ∧
        (tokens.foldl step st).result.Meta.SessionKey = st.result.Meta.SessionKey ∧
        (tokens.foldl step st).result.Meta.Mtime = st.result.Meta.Mtime ∧
        (tokens.foldl step st).result.Meta.Size = st.result.Meta.Size := by
  induction tokens with
  | nil => intro st; simp [fileChunks]
  | cons line rest ih =>
    intro st
    obtain ⟨h1, h2, h3, h4, h5, h6⟩ := hstep st line
    obtain ⟨g1, g2, g3, g4⟩ := ih (step st line)
    simp only [List.foldl_cons, fileChunks]
    refine ⟨?_, ?_, ?_, ?_⟩
    · rw [g1, h1, h2, h3, List.append_assoc]
    · rw [g2, h4]
    · rw [g3, h5]
    · rw [g4, h6]

theorem ParseClaude_some (lib : GoLib) (w : World) (filePath root : Bytes) (data : FileData)
    (h : w.files filePath = some data) :
    ∃ r, ParseClaude lib w filePath root = (some r, (scanTokens data.lines).2) ∧
      r.Chunks = fileChunks (sessionKeyOf lib (str "claude") filePath root) (claudeEmits lib) 0 0
        (scanTokens data.lines).1 ∧
      r.Meta.SessionKey = sessionKeyOf lib (str "claude") filePath root ∧
      r.Meta.Mtime = data.ModTime ∧ r.Meta.Size = data.Size := by
  obtain ⟨g1, g2, g3, g4⟩ := foldl_chunks (claudeStep_spec lib
    (sessionKeyOf lib (str "claude") filePath root)) (scanTokens data.lines).1
    (initState (sessionKeyOf lib (str "claude") filePath root) (str "claude") filePath data)
  refine ⟨claudeFinish ((scanTokens data.lines).1.foldl
      (claudeStep lib (sessionKeyOf lib (str "claude") filePath root))
      (initState (sessionKeyOf lib (str "claude") filePath root) (str "claude") filePath data)),
    by simp only [ParseClaude, h], ?_, ?_, ?_, ?_⟩
  · simpa [claudeFinish, initState] using g1
  · simpa [claudeFinish, initState] using g2
  · simpa [claudeFinish, initState] using g3
  · simpa [claudeFinish, initState] using g4

theorem ParseCodex_some (lib : GoLib) (w : World) (filePath root : Bytes) (data : FileData)
    (h : w.files filePath = some data) :
    ∃ r, ParseCodex lib w filePath root = (some r, (scanTokens data.lines).2) ∧
      r.Chunks = fileChunks (sessionKeyOf lib (str "codex") filePath root) (codexEmits lib) 0 0
        (scanTokens data.lines).1 ∧
      r.Meta.SessionKey = sessionKeyOf lib (str "codex") filePath root ∧
      r.Meta.Mtime = data.ModTime ∧ r.Meta.Size = data.Size := by
  obtain ⟨g1, g2, g3, g4⟩ := foldl_chunks (codexStep_spec lib
    (sessionKeyOf lib (str "codex") filePath root)) (scanTokens data.lines).1
    (initState (sessionKeyOf lib (str "codex") filePath root) (str "codex") filePath data)
  refine ⟨codexFinish ((scanTokens data.lines).1.foldl
      (codexStep lib (sessionKeyOf lib (str "codex") filePath root))
      (initState (sessionKeyOf lib (str "codex") filePath root) (str "codex") filePath data)),
    by simp only [ParseCodex, h], ?_, ?_, ?_, ?_⟩
  · simpa [codexFinish, initState] using g1
  · simpa [codexFinish, initState] using g2
  · simpa [codexFinish, initState] using g3
  · simpa [codexFinish, initState] using g4

theorem chunksOf_ids (key : Bytes) (ln : Nat) (es : List Emit) :
    ∀ id, (chunksOf key ln id es).map (fun c => c.ChunkID) = List.range' id es.length := by
  induction es with
  | nil => intro id; simp [chunksOf]
  | cons e es ih => intro id; simp [chunksOf, ih (id + 1), List.range'_succ]

theorem chunksOf_length (key : Bytes) (ln : Nat) (es : List Emit) :
    ∀ id, (chunksOf key ln id es).length = es.length := by
  induction es with
  | nil => intro id; simp [chunksOf]
  | cons e es ih => intro id; simp [chunksOf, ih (id + 1)]

theorem chunksOf_key (key : Bytes) (ln : Nat) (es : List Emit) :
    ∀ id, ∀ c ∈ chunksOf key ln id es, c.SessionKey = key := by
  induction es with
  | nil => intro id c hc; simp [chunksOf] at hc
  | cons e es ih =>
    intro id c hc
    simp only [chunksOf, List.mem_cons] at hc
    rcases hc with hc | hc
    · subst hc; rfl
    · exact ih _ c hc

theorem chunksOf_texts (key : Bytes) (ln : Nat) (es : List Emit) :
    ∀ id, (chunksOf key ln id es).map (fun c => (c.LineNumber, c.Text))
      = es.map (fun e => (ln, e.text.take (min maxTextSize e.text.length))) := by
  have hcap : ∀ t : Bytes, capText t = t.take (min maxTextSize t.length) := by
    intro t
    unfold capText
    split
    · rename_i h; rw [Nat.min_eq_left (by omega)]
    · rename_i h; rw [Nat.min_eq_right (by omega), List.take_length]
  induction es with
  | nil => intro id; simp [chunksOf]
  | cons e es ih => intro id; simp [chunksOf, ih (id + 1), hcap]

theorem fileChunks_ids (key : Bytes) (emits : Bytes → List Emit) (tokens : List Bytes) :
    ∀ id ln, (fileChunks key emits id ln tokens).map (fun c => c.ChunkID)
      = List.range' id (fileChunks key emits id ln tokens).length := by
  induction tokens with
  | nil => intro id ln; simp [fileChunks]
  | cons line rest ih =>
    intro id ln
    simp only [fileChunks, List.map_append, List.length_append, chunksOf_ids, chunksOf_length,
      ih (id + (emits line).length) (ln + 1)]
    rw [List.range'_append_1, Nat.add_comm]

theorem fileChunks_key (key : Bytes) (emits : Bytes → List Emit) (tokens : List Bytes) :
    ∀ id ln, ∀ c ∈ fileChunks key emits id ln tokens, c.SessionKey = key := by
  induction tokens with
  | nil => intro id ln c hc; simp [fileChunks] at hc
  | cons line rest ih =>
    intro id ln c hc
    simp only [fileChunks, List.mem_append] at hc
    rcases hc with hc | hc
    · exact chunksOf_key key _ _ _ c hc
    · exact ih _ _ c hc

theorem fileChunks_texts (key : Bytes) (emits : Bytes → List Emit) (tokens : List Bytes) :
    ∀ id ln, (fileChunks key emits id ln tokens).map (fun c => (c.LineNumber, c.Text))
      = numberedTexts emits (ln + 1) tokens := by
  induction tokens with
  | nil => intro id ln; simp [fileChunks, numberedTexts]
  | cons line rest ih =>
    intro id ln
    have := ih (id + (emits line).length) (ln + 1)
    simp only [numberedTexts] at this ⊢
    simp only [fileChunks, List.map_append, chunksOf_texts, this, List.enumFrom_cons,
      List.flatMap_cons]

theorem chunksOf_lines (key : Bytes) (ln : Nat) (es : List Emit) :
    ∀ id, ∀ c ∈ chunksOf key ln id es, c.LineNumber = ln := by
  induction es with
  | nil => intro id c hc; simp [chunksOf] at hc
  | cons e es ih =>
    intro id c hc
    simp only [chunksOf, List.mem_cons] at hc
    rcases hc with hc | hc
    · subst hc; rfl
    · exact ih _ c hc

theorem fileChunks_lines_gt (key : Bytes) (emits : Bytes → List Emit) (tokens : List Bytes) :
    ∀ id ln, ∀ c ∈ fileChunks key emits id ln tokens, ln < c.LineNumber := by
  induction tokens with
  | nil => intro id ln c hc; simp [fileChunks] at hc
  | cons line rest ih =>
    intro id ln c hc
    simp only [fileChunks, List.mem_append] at hc
    rcases hc with hc | hc
    · rw [chunksOf_lines key _ _ _ c hc]; omega
    · have := ih _ _ c hc; omega

theorem fileChunks_lines_sorted (key : Bytes) (emits : Bytes → List Emit) (tokens : List Bytes) :
    ∀ id ln, ((fileChunks key emits id ln tokens).map (fun c => c.LineNumber)).Pairwise
      (fun a b => a ≤ b) := by
  induction tokens with
  | nil => intro id ln; simp [fileChunks]
  | cons line rest ih =>
    intro id ln
    simp only [fileChunks, List.map_append, List.pairwise_append]
    refine ⟨?_, ih _ _, ?_⟩
    · rw [List.pairwise_map]
      apply List.pairwise_of_forall_mem_list
      intro a ha b hb
      rw [chunksOf_lines key _ _ _ a ha, chunksOf_lines key _ _ _ b hb]
    · intro a ha b hb
      rcases List.mem_map.1 ha with ⟨ca, hca, rfl⟩
      rcases List.mem_map.1 hb with ⟨cb, hcb, rfl⟩
      rw [chunksOf_lines key _ _ _ ca hca]
      have := fileChunks_lines_gt key emits rest _ _ cb hcb
      omega

theorem claudeEmits_kind (lib : GoLib) (line : Bytes) :
    ∀ e ∈ claudeEmits lib line, e.kind = str "thinking" ∨ e.kind = str "text" := by
  intro e he
  unfold claudeEmits at he
  split at he
  · simp at he
  · split at he
    · simp at he
    · split at he
      · simp at he
      · split at he
        · simp at he
        · split at he
          · simp at he
          · split at he
            · simp at he
            · simp only [List.mem_append] at he
              rcases he with he | he
              · split at he
                · simp at he; subst he; left; rfl
                · simp at he
              · split at he
                · simp at he; subst he; right; rfl
                · simp at he

theorem codexEmits_kind (lib : GoLib) (line : Bytes) :
    ∀ e ∈ codexEmits lib line, e.kind = str "thinking" ∨ e.kind = str "text" := by
  intro e he
  unfold codexEmits at he
  split at he
  · simp at he
  · split at he
    · simp at he
    · split at he
      · simp at he
      · split at he
        · unfold codexEventEmits at he
          split at he
          · simp at he
          · split at he
            · split at he
              · simp at he
              · simp at he; subst he; right; rfl
            · split at he
              · split at he
                · simp at he
                · simp at he; subst he; left; rfl
              · simp at he
        · split at he
          · unfold codexResponseEmits at he
            split at he
            · simp at he
            · split at he
              · simp at he
              · split at he
                · simp at he
                · simp at he; subst he; right; rfl
          · simp at he

theorem chunksOf_kind (key : Bytes) (ln : Nat) (es : List Emit) :
    ∀ id, ∀ c ∈ chunksOf key ln id es, ∃ e ∈ es, c.Kind = e.kind := by
  induction es with
  | nil => intro id c hc; simp [chunksOf] at hc
  | cons e es ih =>
    intro id c hc
    simp only [chunksOf, List.mem_cons] at hc
    rcases hc with hc | hc
    · subst hc; exact ⟨e, List.mem_cons_self _ _, rfl⟩
    · obtain ⟨e', he', h⟩ := ih _ c hc
      exact ⟨e', List.mem_cons_of_mem _ he', h⟩

theorem fileChunks_kind (key : Bytes) (emits : Bytes → List Emit)
    (hk : ∀ line, ∀ e ∈ emits line, e.kind = str "thinking" ∨ e.kind = str "text")
    (tokens : List Bytes) :
    ∀ id ln, ∀ c ∈ fileChunks key emits id ln tokens, c.Kind ≠ [] := by
  induction tokens with
  | nil => intro id ln c hc; simp [fileChunks] at hc
  | cons line rest ih =>
    intro id ln c hc
    simp only [fileChunks, List.mem_append] at hc
    rcases hc with hc | hc
    · obtain ⟨e, he, h⟩ := chunksOf_kind key _ _ _ c hc
      rw [h]
      rcases hk line e he with h' | h' <;> rw [h'] <;> decide
    · exact ih _ _ c hc

theorem claudeEmits_text (lib : GoLib) (line : Bytes) :
    ∀ e ∈ claudeEmits lib line, e.text ≠ [] := by
  intro e he
  unfold claudeEmits at he
  split at he
  · simp at he
  · split at he
    · simp at he
    · split at he
      · simp at he
      · split at he
        · simp at he
        · split at he
          · simp at he
          · split at he
            · simp at he
            · simp only [List.mem_append] at he
              rcases he with he | he
              · split at he
                · rename_i hne; simp at he; subst he; exact hne
                · simp at he
              · split at he
                · rename_i hne; simp at he; subst he; exact hne
                · simp at he

theorem codexEmits_text (lib : GoLib) (line : Bytes) :
    ∀ e ∈ codexEmits lib line, e.text ≠ [] := by
  intro e he
  unfold codexEmits at he
  split at he
  · simp at he
  · split at he
    · simp at he
    · split at he
      · simp at he
      · split at he
        · unfold codexEventEmits at he
          split at he
          · simp at he
          · split at he
            · split at he
              · simp at he
              · rename_i hne; simp at he; subst he; exact hne
            · split at he
              · split at he
                · simp at he
                · rename_i hne; simp at he; subst he; exact hne
              · simp at he
        · split at he
          · unfold codexResponseEmits at he
            split at he
            · simp at he
            · split at he
              · simp at he
              · split at he
                · simp at he
                · rename_i hne; simp at he; subst he; exact hne
          · simp at he

theorem chunksOf_text (key : Bytes) (ln : Nat) (es : List Emit) :
    ∀ id, ∀ c ∈ chunksOf key ln id es, ∃ e ∈ es, c.Text = capText e.text := by
  induction es with
  | nil => intro id c hc; simp [chunksOf] at hc
  | cons e es ih =>
    intro id c hc
    simp only [chunksOf, List.mem_cons] at hc
    rcases hc with hc | hc
    · subst hc; exact ⟨e, List.mem_cons_self _ _, rfl⟩
    · obtain ⟨e', he', h⟩ := ih _ c hc
      exact ⟨e', List.mem_cons_of_mem _ he', h⟩

theorem capText_bounds (t : Bytes) (h : t ≠ []) :
    capText t ≠ [] ∧ (capText t).length ≤ maxTextSize := by
  unfold capText
  split
  · rename_i hlen
    constructor
    · intro hnil
      have := congrArg List.length hnil
      rw [List.length_take] at this
      simp only [List.length_nil] at this
      have hm : 0 < maxTextSize := by decide
      omega
    · rw [List.length_take]; omega
  · rename_i hlen
    exact ⟨h, by omega⟩

theorem fileChunks_text_bounds (key : Bytes) (emits : Bytes → List Emit)
    (hk : ∀ line, ∀ e ∈ emits line, e.text ≠ []) (tokens : List Bytes) :
    ∀ id ln, ∀ c ∈ fileChunks key emits id ln tokens,
      c.Text ≠ [] ∧ c.Text.length ≤ maxTextSize := by
  induction tokens with
  | nil => intro id ln c hc; simp [fileChunks] at hc
  | cons line rest ih =>
    intro id ln c hc
    simp only [fileChunks, List.mem_append] at hc
    rcases hc with hc | hc
    · obtain ⟨e, he, h⟩ := chunksOf_text key _ _ _ c hc
      rw [h]
      exact capText_bounds e.text (hk line e he)
    · exact ih _ _ c hc

/-! ## Parsers: chunk ids (C9) and text ceiling (C10) -/

/-- C9: for every file that can be opened, `ParseClaude` and `ParseCodex`
return a result whose i-th chunk has `ChunkID = i` (the ids are `0, 1, ..., n-1`
in the order of the chunk list, which is the order of the lines) and all of
whose chunks carry the session key of the result. -/
theorem parse_chunk_ids_contiguous (lib : GoLib) (w : World) (filePath root : Bytes)
    (data : FileData) (h : w.files filePath = some data) :
    (∃ r, (ParseClaude lib w filePath root).1 = some r ∧
      r.Chunks.map (fun c => c.ChunkID) = List.range r.Chunks.length ∧
      (∀ c ∈ r.Chunks, c.SessionKey = r.Meta.SessionKey) ∧
      (r.Chunks.map (fun c => c.LineNumber)).Pairwise (fun a b => a ≤ b)) ∧
    (∃ r, (ParseCodex lib w filePath root).1 = some r ∧
      r.Chunks.map (fun c => c.ChunkID) = List.range r.Chunks.length ∧
      (∀ c ∈ r.Chunks, c.SessionKey = r.Meta.SessionKey) ∧
      (r.Chunks.map (fun c => c.LineNumber)).Pairwise (fun a b => a ≤ b)) := by
  constructor
  · obtain ⟨r, hr, hc, hk, _⟩ := ParseClaude_some lib w filePath root data h
    refine ⟨r, by rw [hr], ?_, ?_, ?_⟩
    · rw [hc, fileChunks_ids, List.range_eq_range']
    · intro c hmem; rw [hc] at hmem; rw [hk]; exact fileChunks_key _ _ _ 0 0 c hmem
    · rw [hc]; exact fileChunks_lines_sorted _ _ _ 0 0
  · obtain ⟨r, hr, hc, hk, _⟩ := ParseCodex_some lib w filePath root data h
    refine ⟨r, by rw [hr], ?_, ?_, ?_⟩
    · rw [hc, fileChunks_ids, List.range_eq_range']
    · intro c hmem; rw [hc] at hmem; rw [hk]; exact fileChunks_key _ _ _ 0 0 c hmem
    · rw [hc]; exact fileChunks_lines_sorted _ _ _ 0 0

/-- Witness of C9: the four-line Claude log `fileA`. -/
theorem parse_chunk_ids_contiguous_witness :
    sampleWorld.files (str "/c/a.jsonl") = some fileA ∧
    ((∃ r, (ParseClaude toyLib sampleWorld (str "/c/a.jsonl") (str "/c")).1 = some r ∧
      r.Chunks.map (fun c => c.ChunkID) = List.range r.Chunks.length ∧
      (∀ c ∈ r.Chunks, c.SessionKey = r.Meta.SessionKey) ∧
      (r.Chunks.map (fun c => c.LineNumber)).Pairwise (fun a b => a ≤ b)) ∧
    (∃ r, (ParseCodex toyLib sampleWorld (str "/c/a.jsonl") (str "/c")).1 = some r ∧
      r.Chunks.map (fun c => c.ChunkID) = List.range r.Chunks.length ∧
      (∀ c ∈ r.Chunks, c.SessionKey = r.Meta.SessionKey) ∧
      (r.Chunks.map (fun c => c.LineNumber)).Pairwise (fun a b => a ≤ b))) :=
  ⟨by decide,
    parse_chunk_ids_contiguous toyLib sampleWorld (str "/c/a.jsonl") (str "/c") fileA (by decide)⟩

/-- C10: for every file that can be opened and both parsers, the chunks are, in
order, the trimmed texts extracted from the records of the lines (`claudeEmits`,
`codexEmits`), each cut to its first `min 8192 n` bytes, `n` its length, and
paired with the number of its line: no extracted text is dropped for its
length.  Every chunk text is non-empty and at most 8192 bytes long. -/
theorem chunk_text_truncated_not_rejected (lib : GoLib) (w : World) (filePath root : Bytes)
    (data : FileData) (h : w.files filePath = some data) :
    (∃ r, (ParseClaude lib w filePath root).1 = some r ∧
      r.Chunks.map (fun c => (c.LineNumber, c.Text))
        = ((scanTokens data.lines).1.enumFrom 1).flatMap (fun p =>
            (claudeEmits lib p.2).map (fun e => (p.1, e.text.take (min 8192 e.text.length)))) ∧
      ∀ c ∈ r.Chunks, c.Text ≠ [] ∧ c.Text.length ≤ 8192) ∧
    (∃ r, (ParseCodex lib w filePath root).1 = some r ∧
      r.Chunks.map (fun c => (c.LineNumber, c.Text))
        = ((scanTokens data.lines).1.enumFrom 1).flatMap (fun p =>
            (codexEmits lib p.2).map (fun e => (p.1, e.text.take (min 8192 e.text.length)))) ∧
      ∀ c ∈ r.Chunks, c.Text ≠ [] ∧ c.Text.length ≤ 8192) := by
  have hmax : maxTextSize = 8192 := by decide
  constructor
  · obtain ⟨r, hr, hc, _⟩ := ParseClaude_some lib w filePath root data h
    refine ⟨r, by rw [hr], ?_, ?_⟩
    · rw [hc, fileChunks_texts, numberedTexts, hmax]
    · intro c hmem
      rw [hc] at hmem
      rw [← hmax]
      exact fileChunks_text_bounds _ _ (claudeEmits_text lib) _ 0 0 c hmem
  · obtain ⟨r, hr, hc, _⟩ := ParseCodex_some lib w filePath root data h
    refine ⟨r, by rw [hr], ?_, ?_⟩
    · rw [hc, fileChunks_texts, numberedTexts, hmax]
    · intro c hmem
      rw [hc] at hmem
      rw [← hmax]
      exact fileChunks_text_bounds _ _ (codexEmits_text lib) _ 0 0 c hmem

/-- Witness of C10: the four-line Claude log `fileA`. -/
theorem chunk_text_truncated_not_rejected_witness :
    sampleWorld.files (str "/c/a.jsonl") = some fileA ∧
    ((∃ r, (ParseClaude toyLib sampleWorld (str "/c/a.jsonl") (str "/c")).1 = some r ∧
      r.Chunks.map (fun c => (c.LineNumber, c.Text))
        = ((scanTokens fileA.lines).1.enumFrom 1).flatMap (fun p =>
            (claudeEmits toyLib p.2).map (fun e => (p.1, e.text.take (min 8192 e.text.length)))) ∧
      ∀ c ∈ r.Chunks, c.Text ≠ [] ∧ c.Text.length ≤ 8192) ∧
    (∃ r, (ParseCodex toyLib sampleWorld (str "/c/a.jsonl") (str "/c")).1 = some r ∧
      r.Chunks.map (fun c => (c.LineNumber, c.Text))
        = ((scanTokens fileA.lines).1.enumFrom 1).flatMap (fun p =>
            (codexEmits toyLib p.2).map (fun e => (p.1, e.text.take (min 8192 e.text.length)))) ∧
      ∀ c ∈ r.Chunks, c.Text ≠ [] ∧ c.Text.length ≤ 8192)) :=
  ⟨by decide,
    chunk_text_truncated_not_rejected toyLib sampleWorld (str "/c/a.jsonl") (str "/c") fileA
      (by decide)⟩

/-! ## Store: statements on a connection without failures -/

theorem DB.fails_of_nofaults {d : DB} (h : d.faults = []) : d.fails = false := by
  simp [DB.fails, h]

theorem DB.next_of_nofaults {d : DB} (h : d.faults = []) : d.next = d := by
  cases d; simp_all [DB.next]

theorem DeleteSession_nofaults (d : DB) (k : Bytes) (h : d.faults = []) :
    DeleteSession d k =
      (none, { d with chunks := d.chunks.filter (fun c => c.SessionKey ≠ k),
                      sessions := d.sessions.filter (fun s => s.SessionKey ≠ k) }) := by
  unfold DeleteSession
  simp only [DB.next_of_nofaults h, DB.fails_of_nofaults h]
  simp

theorem GetSessionInfo_nofaults (d : DB) (k : Bytes) (h : d.faults = []) :
    GetSessionInfo d k =
      (.ok ((d.sessions.find? (fun s => s.SessionKey = k)).map
        (fun s => { Mtime := s.Mtime, Size := s.Size })), d) := by
  unfold GetSessionInfo
  simp only [DB.next_of_nofaults h, DB.fails_of_nofaults h]
  simp

theorem insertChunks_nofaults (lib : GoLib) (cs : List Chunk) :
    ∀ t : DB, t.faults = [] →
      (∀ c ∈ cs, ∀ x ∈ t.chunks, ¬ (x.SessionKey = c.SessionKey ∧ x.ChunkID = c.ChunkID)) →
      (cs.map (fun c => (c.SessionKey, c.ChunkID))).Nodup →
      insertChunks lib cs t = (none, { t with chunks := t.chunks ++ cs.map (chunkRowOf lib) }) := by
  induction cs with
  | nil => intro t _ _ _; simp [insertChunks]
  | cons c cs ih =>
    intro t ht hfresh hnd
    have hc : (t.chunks.any fun x =>
        decide (x.SessionKey = (chunkRowOf lib c).SessionKey ∧ x.ChunkID = (chunkRowOf lib c).ChunkID))
        = false := by
      rw [List.any_eq_false]
      intro x hx
      simpa [chunkRowOf] using hfresh c (List.mem_cons_self _ _) x hx
    simp only [insertChunks, insertChunk, DB.fails_of_nofaults ht, DB.next_of_nofaults ht, hc]
    simp only [Bool.false_eq_true, if_false]
    rw [ih]
    · simp
    · exact ht
    · intro c' hc' x hx
      simp only [List.mem_append, List.mem_singleton] at hx
      rcases hx with hx | hx
      · exact hfresh c' (List.mem_cons_of_mem _ hc') x hx
      · subst hx
        simp only [chunkRowOf]
        intro hEq
        simp only [List.map_cons, List.nodup_cons, List.mem_map, not_exists, not_and] at hnd
        exact hnd.1 c' hc' (by rw [hEq.1, hEq.2])
    · simp only [List.map_cons, List.nodup_cons] at hnd
      exact hnd.2

theorem indexSession_nofaults (lib : GoLib) (d : DB) (r : ParseResult) (h : d.faults = [])
    (hwf : WellFormed r) : indexSession lib d r = (none, replaceSession lib d r) := by
  unfold indexSession
  rw [DeleteSession_nofaults d _ h]
  simp only
  set d1 : DB := { d with
    chunks := d.chunks.filter (fun c => c.SessionKey ≠ r.Meta.SessionKey),
    sessions := d.sessions.filter (fun s => s.SessionKey ≠ r.Meta.SessionKey) } with hd1
  have h1 : d1.faults = [] := h
  unfold insertSessionTx
  have hany : (d1.sessions.any fun s => decide (s.SessionKey = (sessionRowOf lib r.Meta).SessionKey))
      = false := by
    rw [List.any_eq_false]
    intro x hx
    simp only [hd1, List.mem_filter] at hx
    simpa [sessionRowOf] using hx.2
  simp only [DB.fails_of_nofaults h1, DB.next_of_nofaults h1, insertSession, hany,
    Bool.false_eq_true, if_false]
  set t1 : DB := { d1 with sessions := d1.sessions ++ [sessionRowOf lib r.Meta] } with ht1
  have h2 : t1.faults = [] := h
  simp only [DB.fails_of_nofaults h2, DB.next_of_nofaults h2, Bool.false_eq_true, if_false]
  rw [insertChunks_nofaults lib r.Chunks t1 h2]
  · set t2 : DB := { t1 with chunks := t1.chunks ++ r.Chunks.map (chunkRowOf lib) } with ht2
    have h3 : t2.faults = [] := h
    simp only [DB.fails_of_nofaults h3, DB.next_of_nofaults h3, Bool.false_eq_true, if_false]
    simp [ht2, ht1, hd1, replaceSession]
  · intro c hc x hx
    simp only [ht1, hd1, List.mem_filter] at hx
    intro hEq
    have := hx.2
    simp [hEq.1, hwf.1 c hc] at this
  · have hmap : r.Chunks.map (fun c => (c.SessionKey, c.ChunkID))
        = (r.Chunks.map (fun c => c.ChunkID)).map (fun i => (r.Meta.SessionKey, i)) := by
      rw [List.map_map]
      apply List.map_congr_left
      intro c hc
      simp [hwf.1 c hc]
    rw [hmap]
    exact hwf.2.map (fun a b hab => by simpa using hab)

theorem needsUpdate_nofaults (d : DB) (k : Bytes) (m s : Int) (h : d.faults = []) :
    needsUpdate d k m s = (.ok (!upToDate d k m s), d) := by
  unfold needsUpdate upToDate
  rw [GetSessionInfo_nofaults d k h]
  cases hf : d.sessions.find? (fun s => decide (s.SessionKey = k)) with
  | none => simp
  | some row =>
    simp only [Option.map_some']
    congr 2
    by_cases h1 : row.Mtime = m <;> by_cases h2 : row.Size = s <;> simp [h1, h2]

theorem pruneLoop_nofaults (seen : List Bytes) (keys : List Bytes) :
    ∀ (n : Nat) (d : DB), d.faults = [] →
      pruneLoop keys seen n d =
        ((n + (keys.filter (fun k => k ∉ seen)).length, none),
          { d with
            sessions := d.sessions.filter (fun s => ¬ (s.SessionKey ∈ keys ∧ s.SessionKey ∉ seen)),
            chunks := d.chunks.filter (fun c => ¬ (c.SessionKey ∈ keys ∧ c.SessionKey ∉ seen)) }) := by
  induction keys with
  | nil =>
    intro n d _
    simp [pruneLoop]
  | cons k rest ih =>
    intro n d hd
    by_cases hk : k ∈ seen
    · rw [pruneLoop, if_pos hk, ih n d hd]
      have hf : (List.filter (fun k => decide (k ∉ seen)) (k :: rest))
          = List.filter (fun k => decide (k ∉ seen)) rest := by
        simp [List.filter_cons, hk]
      have e2 : d.sessions.filter (fun s => ¬ (s.SessionKey ∈ rest ∧ s.SessionKey ∉ seen))
          = d.sessions.filter (fun s => ¬ (s.SessionKey ∈ k :: rest ∧ s.SessionKey ∉ seen)) := by
        apply List.filter_congr
        intro s _
        by_cases e : s.SessionKey = k
        · simp [e, hk]
        · simp [e]
      have e3 : d.chunks.filter (fun s => ¬ (s.SessionKey ∈ rest ∧ s.SessionKey ∉ seen))
          = d.chunks.filter (fun s => ¬ (s.SessionKey ∈ k :: rest ∧ s.SessionKey ∉ seen)) := by
        apply List.filter_congr
        intro s _
        by_cases e : s.SessionKey = k
        · simp [e, hk]
        · simp [e]
      rw [hf, e2, e3]
    · rw [pruneLoop, if_neg hk, DeleteSession_nofaults d k hd]
      simp only
      rw [ih (n + 1) _ (show ({ d with
          chunks := d.chunks.filter (fun c => c.SessionKey ≠ k),
          sessions := d.sessions.filter (fun s => s.SessionKey ≠ k) } : DB).faults = [] from hd)]
      have hf : n + 1 + (List.filter (fun k => decide (k ∉ seen)) rest).length
          = n + (List.filter (fun k => decide (k ∉ seen)) (k :: rest)).length := by
        simp [List.filter_cons, hk]; omega
      have e2 : (d.sessions.filter (fun s => s.SessionKey ≠ k)).filter
            (fun s => ¬ (s.SessionKey ∈ rest ∧ s.SessionKey ∉ seen))
          = d.sessions.filter (fun s => ¬ (s.SessionKey ∈ k :: rest ∧ s.SessionKey ∉ seen)) := by
        rw [List.filter_filter]
        apply List.filter_congr
        intro s _
        by_cases e : s.SessionKey = k
        · simp [e, hk]
        · simp [e]
      have e3 : (d.chunks.filter (fun s => s.SessionKey ≠ k)).filter
            (fun s => ¬ (s.SessionKey ∈ rest ∧ s.SessionKey ∉ seen))
          = d.chunks.filter (fun s => ¬ (s.SessionKey ∈ k :: rest ∧ s.SessionKey ∉ seen)) := by
        rw [List.filter_filter]
        apply List.filter_congr
        intro s _
        by_cases e : s.SessionKey = k
        · simp [e, hk]
        · simp [e]
      simp only [hf, e2, e3]

theorem pruneSessions_nofaults (mo : MapOrder) (d : DB) (seen : List Bytes) (hd : d.faults = []) :
    pruneSessions mo d seen =
      ((((d.sessions.map (fun s => s.SessionKey)).dedup.filter (fun k => k ∉ seen)).length, none),
        pruned d seen) := by
  unfold pruneSessions AllSessionKeys
  simp only [DB.fails_of_nofaults hd, DB.next_of_nofaults hd, Bool.false_eq_true, if_false]
  rw [pruneLoop_nofaults seen _ 0 d hd]
  have hperm := mo.perm (d.sessions.map (fun s => s.SessionKey)).dedup
  have hmem : ∀ k, k ∈ mo.order (d.sessions.map (fun s => s.SessionKey)).dedup
      ↔ k ∈ d.sessions.map (fun s => s.SessionKey) := by
    intro k; rw [hperm.mem_iff, List.mem_dedup]
  have e1 : 0 + ((mo.order (d.sessions.map (fun s => s.SessionKey)).dedup).filter
        (fun k => decide (k ∉ seen))).length
      = ((d.sessions.map (fun s => s.SessionKey)).dedup.filter (fun k => decide (k ∉ seen))).length := by
    rw [Nat.zero_add]
    exact (hperm.filter _).length_eq
  have e2 : d.sessions.filter (fun s => ¬ (s.SessionKey ∈
        mo.order (d.sessions.map (fun s => s.SessionKey)).dedup ∧ s.SessionKey ∉ seen))
      = d.sessions.filter (fun s => s.SessionKey ∈ seen) := by
    apply List.filter_congr
    intro s hs
    have : s.SessionKey ∈ d.sessions.map (fun s => s.SessionKey) :=
      List.mem_map_of_mem (fun s => s.SessionKey) hs
    simp [hmem, this]
  have e3 : d.chunks.filter (fun c => ¬ (c.SessionKey ∈
        mo.order (d.sessions.map (fun s => s.SessionKey)).dedup ∧ c.SessionKey ∉ seen))
      = d.chunks.filter (fun c => c.SessionKey ∈ seen
          ∨ c.SessionKey ∉ d.sessions.map (fun s => s.SessionKey)) := by
    apply List.filter_congr
    intro c _
    by_cases h1 : c.SessionKey ∈ d.sessions.map (fun s => s.SessionKey)
    · simp only [hmem, h1, true_and, not_not, not_true_eq_false, or_false]
    · simp only [hmem, h1, false_and, not_false_eq_true, or_true]
  rw [e1, e2, e3]
  rfl

/-! ## Store: transactions under failures -/

/-- Function `DeleteSession` is all-or-nothing: without error both tables lose exactly
the rows of the key, with an error they are unchanged. -/
theorem DeleteSession_atomic (d : DB) (k : Bytes) :
    ((DeleteSession d k).1 = none ∧
        (DeleteSession d k).2.sessions = d.sessions.filter (fun s => s.SessionKey ≠ k) ∧
        (DeleteSession d k).2.chunks = d.chunks.filter (fun c => c.SessionKey ≠ k)) ∨
      ((DeleteSession d k).1 ≠ none ∧
        (DeleteSession d k).2.sessions = d.sessions ∧
        (DeleteSession d k).2.chunks = d.chunks) := by
  unfold DeleteSession
  split
  · right; simp [DB.next]
  · split
    · right; simp [DB.rollback]
    · split
      · right; simp [DB.rollback]
      · split
        · right; simp [DB.rollback]
        · left; simp

/-- The insertion transaction of `indexSession` is all-or-nothing: when it
returns an error the tables are those it started from. -/
theorem insertSessionTx_error (lib : GoLib) (d : DB) (r : ParseResult)
    (h : (insertSessionTx lib d r).1 ≠ none) :
    (insertSessionTx lib d r).2.sessions = d.sessions ∧
      (insertSessionTx lib d r).2.chunks = d.chunks := by
  unfold insertSessionTx at h ⊢
  split
  · simp [DB.next]
  · split
    · simp [DB.rollback]
    · split
      · simp [DB.rollback]
      · split
        · simp [DB.rollback]
        · split
          · simp [DB.rollback]
          · simp_all

theorem indexSession_error (lib : GoLib) (d : DB) (r : ParseResult)
    (h : (indexSession lib d r).1 ≠ none) :
    ((indexSession lib d r).2.sessions = d.sessions ∧
        (indexSession lib d r).2.chunks = d.chunks) ∨
      ((indexSession lib d r).2.sessions
          = d.sessions.filter (fun s => s.SessionKey ≠ r.Meta.SessionKey) ∧
        (indexSession lib d r).2.chunks
          = d.chunks.filter (fun c => c.SessionKey ≠ r.Meta.SessionKey)) := by
  unfold indexSession at h ⊢
  rcases DeleteSession_atomic d r.Meta.SessionKey with ⟨h1, h2, h3⟩ | ⟨h1, h2, h3⟩
  · rcases hd : DeleteSession d r.Meta.SessionKey with ⟨eo, d1⟩
    rw [hd] at h h1 h2 h3
    simp only at h1 h2 h3
    subst h1
    simp only at h ⊢
    right
    obtain ⟨g1, g2⟩ := insertSessionTx_error lib d1 r h
    rw [g1, g2, h2, h3]
    exact ⟨rfl, rfl⟩
  · rcases hd : DeleteSession d r.Meta.SessionKey with ⟨eo, d1⟩
    rw [hd] at h h1 h2 h3
    simp only at h1 h2 h3
    cases eo with
    | none => exact absurd rfl h1
    | some e => left; exact ⟨h2, h3⟩

theorem needsUpdate_tables (d : DB) (k : Bytes) (m s : Int) :
    (needsUpdate d k m s).2.sessions = d.sessions ∧ (needsUpdate d k m s).2.chunks = d.chunks := by
  have hg : (GetSessionInfo d k).2.sessions = d.sessions ∧ (GetSessionInfo d k).2.chunks = d.chunks := by
    unfold GetSessionInfo
    split <;> simp [DB.next]
  unfold needsUpdate
  rcases hq : GetSessionInfo d k with ⟨res, d1⟩
  rw [hq] at hg
  cases res with
  | error e => exact hg
  | ok o => cases o <;> exact hg

theorem insertChunks_ok (lib : GoLib) (cs : List Chunk) :
    ∀ t t' : DB, insertChunks lib cs t = (none, t') →
      t'.chunks = t.chunks ++ cs.map (chunkRowOf lib) ∧ t'.sessions = t.sessions := by
  induction cs with
  | nil =>
    intro t t' h
    simp only [insertChunks, Prod.mk.injEq, true_and] at h
    subst h; simp
  | cons c cs ih =>
    intro t t' h
    simp only [insertChunks] at h
    rcases hi : insertChunk t (chunkRowOf lib c) with ⟨eo, t1⟩
    rw [hi] at h
    cases eo with
    | some e => simp at h
    | none =>
      simp only at h
      obtain ⟨h1, h2⟩ := ih t1 t' h
      have ht1 : t1.chunks = t.chunks ++ [chunkRowOf lib c] ∧ t1.sessions = t.sessions := by
        unfold insertChunk at hi
        split at hi
        · simp at hi
        · split at hi
          · simp at hi
          · simp only [Prod.mk.injEq, true_and] at hi
            subst hi; simp [DB.next]
      rw [h1, h2, ht1.1, ht1.2]
      simp

theorem insertSessionTx_ok (lib : GoLib) (d d' : DB) (r : ParseResult)
    (h : insertSessionTx lib d r = (none, d')) :
    d'.sessions = d.sessions ++ [sessionRowOf lib r.Meta] ∧
      d'.chunks = d.chunks ++ r.Chunks.map (chunkRowOf lib) := by
  unfold insertSessionTx at h
  split at h
  · simp at h
  · rcases hs : insertSession d.next (sessionRowOf lib r.Meta) with ⟨eo, t1⟩
    rw [hs] at h
    cases eo with
    | some e => simp at h
    | none =>
      simp only at h
      have ht1 : t1.sessions = d.sessions ++ [sessionRowOf lib r.Meta] ∧ t1.chunks = d.chunks := by
        unfold insertSession at hs
        split at hs
        · simp at hs
        · split at hs
          · simp at hs
          · simp only [Prod.mk.injEq, true_and] at hs
            subst hs; simp [DB.next]
      split at h
      · simp at h
      · rcases hc : insertChunks lib r.Chunks t1.next with ⟨eo, t2⟩
        rw [hc] at h
        cases eo with
        | some e => simp at h
        | none =>
          simp only at h
          obtain ⟨g1, g2⟩ := insertChunks_ok lib r.Chunks t1.next t2 hc
          split at h
          · simp at h
          · simp only [Prod.mk.injEq, true_and] at h
            subst h
            simp only [DB.next] at g1 g2 ⊢
            rw [g1, g2, ht1.1, ht1.2]
            exact ⟨rfl, rfl⟩

theorem indexSession_ok (lib : GoLib) (d d' : DB) (r : ParseResult)
    (h : indexSession lib d r = (none, d')) :
    d'.sessions = (replaceSession lib d r).sessions ∧
      d'.chunks = (replaceSession lib d r).chunks := by
  unfold indexSession at h
  rcases DeleteSession_atomic d r.Meta.SessionKey with ⟨h1, h2, h3⟩ | ⟨h1, h2, h3⟩
  · rcases hd : DeleteSession d r.Meta.SessionKey with ⟨eo, d1⟩
    rw [hd] at h h1 h2 h3
    simp only at h1 h2 h3
    subst h1
    simp only at h
    obtain ⟨g1, g2⟩ := insertSessionTx_ok lib d1 d' r h
    rw [g1, g2, h2, h3]
    exact ⟨rfl, rfl⟩
  · rcases hd : DeleteSession d r.Meta.SessionKey with ⟨eo, d1⟩
    rw [hd] at h h1
    simp only at h1
    cases eo with
    | none => exact absurd rfl h1
    | some e => simp at h

theorem needsUpdate_ok (d : DB) (k : Bytes) (m s : Int) (b : Bool)
    (h : (needsUpdate d k m s).1 = .ok b) : b = !upToDate d k m s := by
  unfold needsUpdate at h
  unfold upToDate
  rcases hq : GetSessionInfo d k with ⟨res, d1⟩
  rw [hq] at h
  have hres : (∃ e, res = .error e) ∨
      res = .ok ((d.sessions.find? (fun s => s.SessionKey = k)).map
        (fun s => { Mtime := s.Mtime, Size := s.Size })) := by
    unfold GetSessionInfo at hq
    split at hq
    · left; exact ⟨_, (Prod.mk.inj hq).1.symm⟩
    · right; exact (Prod.mk.inj hq).1.symm
  rcases hres with ⟨e, rfl⟩ | hres
  · simp at h
  · subst hres
    cases hf : d.sessions.find? (fun s => decide (s.SessionKey = k)) with
    | none =>
      rw [hf] at h
      simp only [Option.map_none', Except.ok.injEq] at h
      rw [← h]; rfl
    | some row =>
      rw [hf] at h
      simp only [Option.map_some', Except.ok.injEq] at h
      rw [← h]
      by_cases h1 : row.Mtime = m <;> by_cases h2 : row.Size = s <;> simp [h1, h2]

/-! ## Store: the rows under a session key -/

theorem sessionRows_congr {d d' : DB} (h : d'.sessions = d.sessions) (k : Bytes) :
    sessionRows d' k = sessionRows d k := by
  unfold sessionRows; rw [h]

theorem chunkRows_congr {d d' : DB} (h : d'.chunks = d.chunks) (k : Bytes) :
    chunkRows d' k = chunkRows d k := by
  unfold chunkRows; rw [h]

theorem sessionRows_deleted {d d' : DB} {k' : Bytes}
    (h : d'.sessions = d.sessions.filter (fun s => s.SessionKey ≠ k')) (k : Bytes) :
    sessionRows d' k = if k = k' then [] else sessionRows d k := by
  unfold sessionRows
  rw [h, List.filter_filter]
  by_cases hk : k = k'
  · rw [if_pos hk, List.filter_eq_nil_iff]
    intro s _
    by_cases e : s.SessionKey = k
    · simp [e, hk]
    · simp [e]
  · rw [if_neg hk]
    apply List.filter_congr
    intro s _
    by_cases e : s.SessionKey = k
    · simp [e, hk]
    · simp [e]

theorem chunkRows_deleted {d d' : DB} {k' : Bytes}
    (h : d'.chunks = d.chunks.filter (fun c => c.SessionKey ≠ k')) (k : Bytes) :
    chunkRows d' k = if k = k' then [] else chunkRows d k := by
  unfold chunkRows
  rw [h, List.filter_filter]
  by_cases hk : k = k'
  · rw [if_pos hk, List.filter_eq_nil_iff]
    intro s _
    by_cases e : s.SessionKey = k
    · simp [e, hk]
    · simp [e]
  · rw [if_neg hk]
    apply List.filter_congr
    intro s _
    by_cases e : s.SessionKey = k
    · simp [e, hk]
    · simp [e]

theorem upToDate_congr {d d' : DB} {k : Bytes} (h : sessionRows d k = sessionRows d' k)
    (m s : Int) : upToDate d k m s = upToDate d' k m s := by
  unfold upToDate
  have h1 : d.sessions.find? (fun s => s.SessionKey = k) = d'.sessions.find? (fun s => s.SessionKey = k) := by
    rw [← List.filter_head?, ← List.filter_head?]
    exact congrArg List.head? h
  rw [h1]

theorem mem_keys_iff_sessionRows (d : DB) (k : Bytes) :
    k ∈ d.sessions.map (fun s => s.SessionKey) ↔ sessionRows d k ≠ [] := by
  unfold sessionRows
  rw [Ne, List.filter_eq_nil_iff]
  simp only [List.mem_map, decide_eq_true_eq, not_forall, Classical.not_imp, not_not]
  constructor
  · rintro ⟨s, hs, rfl⟩; exact ⟨s, hs, rfl⟩
  · rintro ⟨s, hs, h⟩; exact ⟨s, hs, h⟩

theorem GetSessionByKey_absent (d : DB) (k : Bytes) (hf : d.fails = false)
    (h : sessionRows d k = []) : (GetSessionByKey d k).1 = .ok none := by
  unfold GetSessionByKey
  simp only [hf, Bool.false_eq_true, if_false]
  have : d.sessions.find? (fun s => s.SessionKey = k) = none := by
    rw [← List.filter_head?]
    unfold sessionRows at h
    rw [h]; rfl
  rw [this]; rfl

theorem sessionRows_replaceSession (lib : GoLib) (d : DB) (r : ParseResult) (k : Bytes) :
    sessionRows (replaceSession lib d r) k
      = if k = r.Meta.SessionKey then [sessionRowOf lib r.Meta] else sessionRows d k := by
  unfold sessionRows replaceSession
  simp only [List.filter_append, List.filter_filter]
  by_cases hk : k = r.Meta.SessionKey
  · subst hk
    simp [sessionRowOf]
  · rw [if_neg hk]
    have h1 : List.filter (fun s => decide (s.SessionKey = k)) [sessionRowOf lib r.Meta] = [] := by
      simp [sessionRowOf, Ne.symm hk]
    rw [h1, List.append_nil]
    apply List.filter_congr
    intro s _
    by_cases e : s.SessionKey = k
    · simp [e, hk]
    · simp [e]

theorem chunkRows_replaceSession (lib : GoLib) (d : DB) (r : ParseResult) (hwf : WellFormed r)
    (k : Bytes) :
    chunkRows (replaceSession lib d r) k
      = if k = r.Meta.SessionKey then r.Chunks.map (chunkRowOf lib) else chunkRows d k := by
  unfold chunkRows replaceSession
  simp only [List.filter_append, List.filter_filter]
  by_cases hk : k = r.Meta.SessionKey
  · subst hk
    rw [if_pos rfl]
    have h1 : List.filter (fun c => decide (c.SessionKey = r.Meta.SessionKey)
        && decide (c.SessionKey ≠ r.Meta.SessionKey)) d.chunks = [] := by
      rw [List.filter_eq_nil_iff]
      intro c _
      by_cases e : c.SessionKey = r.Meta.SessionKey <;> simp [e]
    rw [h1, List.nil_append, List.filter_eq_self]
    intro c hc
    rcases List.mem_map.1 hc with ⟨c0, hc0, rfl⟩
    simp [chunkRowOf, hwf.1 c0 hc0]
  · rw [if_neg hk]
    have h1 : List.filter (fun c => decide (c.SessionKey = k)) (r.Chunks.map (chunkRowOf lib)) = [] := by
      rw [List.filter_eq_nil_iff]
      intro c hc
      rcases List.mem_map.1 hc with ⟨c0, hc0, rfl⟩
      simp [chunkRowOf, hwf.1 c0 hc0, Ne.symm hk]
    rw [h1, List.append_nil]
    apply List.filter_congr
    intro s _
    by_cases e : s.SessionKey = k
    · simp [e, hk]
    · simp [e]

theorem sessionRows_pruned (d : DB) (seen : List Bytes) (k : Bytes) :
    sessionRows (pruned d seen) k = if k ∈ seen then sessionRows d k else [] := by
  unfold sessionRows pruned
  simp only [List.filter_filter]
  by_cases hk : k ∈ seen
  · rw [if_pos hk]
    apply List.filter_congr
    intro s _
    by_cases e : s.SessionKey = k
    · simp [e, hk]
    · simp [e]
  · rw [if_neg hk, List.filter_eq_nil_iff]
    intro s _
    by_cases e : s.SessionKey = k
    · simp [e, hk]
    · simp [e]

theorem chunkRows_pruned (d : DB) (seen : List Bytes) (k : Bytes) :
    chunkRows (pruned d seen) k
      = if k ∈ seen ∨ k ∉ d.sessions.map (fun s => s.SessionKey) then chunkRows d k else [] := by
  unfold chunkRows pruned
  simp only [List.filter_filter]
  by_cases hk : k ∈ seen ∨ k ∉ d.sessions.map (fun s => s.SessionKey)
  · rw [if_pos hk]
    apply List.filter_congr
    intro s _
    by_cases e : s.SessionKey = k
    · subst e; simpa using hk
    · simp [e]
  · rw [if_neg hk, List.filter_eq_nil_iff]
    intro s _
    by_cases e : s.SessionKey = k
    · subst e; simpa using hk
    · simp [e]

/-- The prune loop, when it ends without error, has deleted exactly the rows of
the listed keys that were not seen, and counted those keys. -/
theorem pruneLoop_ok (seen : List Bytes) (keys : List Bytes) :
    ∀ (n m : Nat) (d d' : DB), pruneLoop keys seen n d = ((m, none), d') →
      m = n + (keys.filter (fun k => k ∉ seen)).length ∧
      d'.sessions = d.sessions.filter (fun s => ¬ (s.SessionKey ∈ keys ∧ s.SessionKey ∉ seen)) ∧
      d'.chunks = d.chunks.filter (fun c => ¬ (c.SessionKey ∈ keys ∧ c.SessionKey ∉ seen)) := by
  induction keys with
  | nil =>
    intro n m d d' h
    simp only [pruneLoop, Prod.mk.injEq, and_true] at h
    obtain ⟨h1, h2⟩ := h
    subst h1 h2
    simp
  | cons k rest ih =>
    intro n m d d' h
    by_cases hk : k ∈ seen
    · rw [pruneLoop, if_pos hk] at h
      obtain ⟨h1, h2, h3⟩ := ih n m d d' h
      refine ⟨?_, ?_, ?_⟩
      · rw [h1]; simp [List.filter_cons, hk]
      · rw [h2]
        apply List.filter_congr
        intro s _
        by_cases e : s.SessionKey = k
        · simp [e, hk]
        · simp [e]
      · rw [h3]
        apply List.filter_congr
        intro s _
        by_cases e : s.SessionKey = k
        · simp [e, hk]
        · simp [e]
    · rw [pruneLoop, if_neg hk] at h
      rcases DeleteSession_atomic d k with ⟨a1, a2, a3⟩ | ⟨a1, a2, a3⟩
      · rcases hd : DeleteSession d k with ⟨eo, d1⟩
        rw [hd] at h a1 a2 a3
        simp only at a1 a2 a3
        subst a1
        simp only at h
        obtain ⟨h1, h2, h3⟩ := ih (n + 1) m d1 d' h
        refine ⟨?_, ?_, ?_⟩
        · rw [h1]; simp [List.filter_cons, hk]; omega
        · rw [h2, a2, List.filter_filter]
          apply List.filter_congr
          intro s _
          by_cases e : s.SessionKey = k
          · simp [e, hk]
          · simp [e]
        · rw [h3, a3, List.filter_filter]
          apply List.filter_congr
          intro s _
          by_cases e : s.SessionKey = k
          · simp [e, hk]
          · simp [e]
      · rcases hd : DeleteSession d k with ⟨eo, d1⟩
        rw [hd] at h a1
        simp only at a1
        cases eo with
        | none => exact absurd rfl a1
        | some e => simp at h

theorem pruneSessions_ok (mo : MapOrder) (d d' : DB) (seen : List Bytes) (m : Nat)
    (h : pruneSessions mo d seen = ((m, none), d')) :
    m = ((d.sessions.map (fun s => s.SessionKey)).dedup.filter (fun k => k ∉ seen)).length ∧
      d'.sessions = (pruned d seen).sessions ∧ d'.chunks = (pruned d seen).chunks := by
  unfold pruneSessions AllSessionKeys at h
  by_cases hf : d.fails = true
  · rw [if_pos hf] at h; simp at h
  · rw [if_neg hf] at h
    simp only at h
    obtain ⟨h1, h2, h3⟩ := pruneLoop_ok seen _ 0 m d.next d' h
    have hperm := mo.perm (d.sessions.map (fun s => s.SessionKey)).dedup
    have hmem : ∀ k, k ∈ mo.order (d.sessions.map (fun s => s.SessionKey)).dedup
        ↔ k ∈ d.sessions.map (fun s => s.SessionKey) := by
      intro k; rw [hperm.mem_iff, List.mem_dedup]
    refine ⟨?_, ?_, ?_⟩
    · rw [h1, Nat.zero_add]
      exact (hperm.filter _).length_eq
    · rw [h2]
      simp only [DB.next, pruned]
      apply List.filter_congr
      intro s hs
      have : s.SessionKey ∈ d.sessions.map (fun s => s.SessionKey) :=
        List.mem_map_of_mem (fun s => s.SessionKey) hs
      simp [hmem, this]
    · rw [h3]
      simp only [DB.next, pruned]
      apply List.filter_congr
      intro c _
      by_cases h1 : c.SessionKey ∈ d.sessions.map (fun s => s.SessionKey)
      · simp only [hmem, h1, true_and, not_not, not_true_eq_false, or_false]
      · simp only [hmem, h1, false_and, not_false_eq_true, or_true]

/-! ## Indexer: the file loop, whatever the store does -/

theorem fileChunks_wellFormed (key : Bytes) (emits : Bytes → List Emit) (tokens : List Bytes)
    (r : ParseResult) (hk : r.Meta.SessionKey = key) (hc : r.Chunks = fileChunks key emits 0 0 tokens) :
    WellFormed r := by
  constructor
  · intro c hmem
    rw [hc] at hmem
    rw [hk]
    exact fileChunks_key key emits tokens 0 0 c hmem
  · rw [hc, fileChunks_ids]
    exact List.nodup_range' _ _

theorem parseFile_some (lib : GoLib) (w : World) (fi : FileInfo) (cr xr : Bytes)
    (r : ParseResult) (e : Option String) (h : parseFile lib w fi cr xr = (some r, e)) :
    WellFormed r ∧ r.Meta.SessionKey = fileKey lib fi cr xr ∧
      ∃ data, w.files fi.Path = some data ∧ r.Meta.Mtime = data.ModTime ∧
        r.Meta.Size = data.Size := by
  unfold parseFile at h
  unfold fileKey
  by_cases h1 : fi.Source = str "claude"
  · rw [if_pos h1] at h
    rw [if_pos h1]
    cases hf : w.files fi.Path with
    | none => simp [ParseClaude, hf] at h
    | some data =>
      obtain ⟨r', hr', hc, hk, hm, hs⟩ := ParseClaude_some lib w fi.Path cr data hf
      rw [hr'] at h
      have : r' = r := by simpa using (Prod.mk.inj h).1
      subst this
      exact ⟨fileChunks_wellFormed _ _ _ _ hk hc, hk, data, rfl, hm, hs⟩
  · rw [if_neg h1] at h
    rw [if_neg h1]
    by_cases h2 : fi.Source = str "codex"
    · rw [if_pos h2] at h
      cases hf : w.files fi.Path with
      | none => simp [ParseCodex, hf] at h
      | some data =>
        obtain ⟨r', hr', hc, hk, hm, hs⟩ := ParseCodex_some lib w fi.Path xr data hf
        rw [hr'] at h
        have : r' = r := by simpa using (Prod.mk.inj h).1
        subst this
        exact ⟨fileChunks_wellFormed _ _ _ _ hk hc, hk, data, rfl, hm, hs⟩
    · rw [if_neg h2] at h
      simp at h

theorem parseFile_kind (lib : GoLib) (w : World) (fi : FileInfo) (cr xr : Bytes)
    (r : ParseResult) (e : Option String) (h : parseFile lib w fi cr xr = (some r, e)) :
    ∀ c ∈ r.Chunks, c.Kind ≠ [] := by
  unfold parseFile at h
  by_cases h1 : fi.Source = str "claude"
  · rw [if_pos h1] at h
    cases hf : w.files fi.Path with
    | none => simp [ParseClaude, hf] at h
    | some data =>
      obtain ⟨r', hr', hc, _⟩ := ParseClaude_some lib w fi.Path cr data hf
      rw [hr'] at h
      have : r' = r := by simpa using (Prod.mk.inj h).1
      subst this
      rw [hc]
      exact fileChunks_kind _ _ (claudeEmits_kind lib) _ 0 0
  · rw [if_neg h1] at h
    by_cases h2 : fi.Source = str "codex"
    · rw [if_pos h2] at h
      cases hf : w.files fi.Path with
      | none => simp [ParseCodex, hf] at h
      | some data =>
        obtain ⟨r', hr', hc, _⟩ := ParseCodex_some lib w fi.Path xr data hf
        rw [hr'] at h
        have : r' = r := by simpa using (Prod.mk.inj h).1
        subst this
        rw [hc]
        exact fileChunks_kind _ _ (codexEmits_kind lib) _ 0 0
    · rw [if_neg h2] at h
      simp at h

/-- What the loop body does to the counters, whatever the store does: a file
whose parse fails adds one error and touches nothing else; a file that parses to
no chunk changes nothing; any other file adds one to exactly one of `errors`,
`skipped`, `updated`. -/
theorem indexFile_stats (lib : GoLib) (w : World) (cr xr : Bytes) (st : RunState)
    (fi : FileInfo) :
    (parseFails lib w cr xr fi = true →
      indexFile lib w cr xr st fi
        = { st with stats := { st.stats with Errors := st.stats.Errors + 1 } }) ∧
    (parsesEmpty lib w cr xr fi = true → indexFile lib w cr xr st fi = st) ∧
    (indexable lib w cr xr fi = true →
      (indexFile lib w cr xr st fi).stats = { st.stats with Errors := st.stats.Errors + 1 } ∨
      (indexFile lib w cr xr st fi).stats = { st.stats with Skipped := st.stats.Skipped + 1 } ∨
      (indexFile lib w cr xr st fi).stats = { st.stats with Updated := st.stats.Updated + 1 }) := by
  unfold parsesEmpty parseFails indexable indexFile indexFileOutcome
  rcases hp : parseFile lib w fi cr xr with ⟨ro, eo⟩
  cases eo with
  | some e => cases ro <;> simp
  | none =>
    cases ro with
    | none => simp
    | some r =>
      by_cases hz : r.Chunks.length = 0
      · simp [hz]
      · simp only [hz, if_false, Option.isSome_none, Bool.false_eq_true, false_implies, true_and,
          ne_eq, not_false_eq_true, decide_True, Bool.not_false, Bool.not_true, Bool.and_false,
          forall_const]
        rcases hn : needsUpdate st.db r.Meta.SessionKey fi.Mtime fi.Size with ⟨res, d1⟩
        cases res with
        | error e => simp
        | ok b =>
          cases b with
          | false => simp
          | true =>
            simp only
            rcases hi : indexSession lib d1 r with ⟨eo, d2⟩
            cases eo <;> simp

theorem file_trichotomy (lib : GoLib) (w : World) (cr xr : Bytes) (fi : FileInfo) :
    (parseFails lib w cr xr fi = true ∧ parsesEmpty lib w cr xr fi = false ∧
        indexable lib w cr xr fi = false) ∨
      (parseFails lib w cr xr fi = false ∧ parsesEmpty lib w cr xr fi = true ∧
        indexable lib w cr xr fi = false) ∨
      (parseFails lib w cr xr fi = false ∧ parsesEmpty lib w cr xr fi = false ∧
        indexable lib w cr xr fi = true) := by
  unfold parsesEmpty parseFails indexable
  rcases hp : parseFile lib w fi cr xr with ⟨ro, eo⟩
  cases eo with
  | some e => cases ro <;> simp
  | none =>
    cases ro with
    | none => simp
    | some r => by_cases hz : r.Chunks.length = 0 <;> simp [hz]

theorem foldl_indexFile_stats (lib : GoLib) (w : World) (cr xr : Bytes) (files : List FileInfo) :
    ∀ st : RunState,
      (files.foldl (indexFile lib w cr xr) st).stats.Scanned = st.stats.Scanned ∧
      (files.foldl (indexFile lib w cr xr) st).stats.Pruned = st.stats.Pruned ∧
      (files.foldl (indexFile lib w cr xr) st).stats.Updated
          + (files.foldl (indexFile lib w cr xr) st).stats.Skipped
          + (files.foldl (indexFile lib w cr xr) st).stats.Errors
          + (files.filter (parsesEmpty lib w cr xr)).length
        = st.stats.Updated + st.stats.Skipped + st.stats.Errors + files.length ∧
      st.stats.Errors + (files.filter (parseFails lib w cr xr)).length
        ≤ (files.foldl (indexFile lib w cr xr) st).stats.Errors := by
  induction files with
  | nil => intro st; simp
  | cons fi rest ih =>
    intro st
    obtain ⟨g1, g2, g3, g4⟩ := ih (indexFile lib w cr xr st fi)
    obtain ⟨h1, h2, h3⟩ := indexFile_stats lib w cr xr st fi
    rw [List.foldl_cons]
    have key : ∀ s1 : Stats, (indexFile lib w cr xr st fi).stats = s1 →
        s1.Scanned = st.stats.Scanned → s1.Pruned = st.stats.Pruned →
        s1.Updated + s1.Skipped + s1.Errors
            + (if parsesEmpty lib w cr xr fi = true then 1 else 0)
          = st.stats.Updated + st.stats.Skipped + st.stats.Errors + 1 →
        st.stats.Errors + (if parseFails lib w cr xr fi = true then 1 else 0) ≤ s1.Errors →
        (rest.foldl (indexFile lib w cr xr) (indexFile lib w cr xr st fi)).stats.Scanned
            = st.stats.Scanned ∧
          (rest.foldl (indexFile lib w cr xr) (indexFile lib w cr xr st fi)).stats.Pruned
            = st.stats.Pruned ∧
          (rest.foldl (indexFile lib w cr xr) (indexFile lib w cr xr st fi)).stats.Updated
              + (rest.foldl (indexFile lib w cr xr) (indexFile lib w cr xr st fi)).stats.Skipped
              + (rest.foldl (indexFile lib w cr xr) (indexFile lib w cr xr st fi)).stats.Errors
              + ((fi :: rest).filter (parsesEmpty lib w cr xr)).length
            = st.stats.Updated + st.stats.Skipped + st.stats.Errors + (fi :: rest).length ∧
          st.stats.Errors + ((fi :: rest).filter (parseFails lib w cr xr)).length
            ≤ (rest.foldl (indexFile lib w cr xr) (indexFile lib w cr xr st fi)).stats.Errors := by
      intro s1 hs1 e1 e2 e3 e4
      rw [hs1] at g1 g2 g3 g4
      have l1 : ((fi :: rest).filter (parsesEmpty lib w cr xr)).length
          = (if parsesEmpty lib w cr xr fi = true then 1 else 0)
            + (rest.filter (parsesEmpty lib w cr xr)).length := by
        rw [List.filter_cons]; split <;> simp [Nat.add_comm]
      have l2 : ((fi :: rest).filter (parseFails lib w cr xr)).length
          = (if parseFails lib w cr xr fi = true then 1 else 0)
            + (rest.filter (parseFails lib w cr xr)).length := by
        rw [List.filter_cons]; split <;> simp [Nat.add_comm]
      rw [l1, l2, List.length_cons]
      refine ⟨by omega, by omega, by omega, by omega⟩
    rcases file_trichotomy lib w cr xr fi with ⟨a, b, c⟩ | ⟨a, b, c⟩ | ⟨a, b, c⟩
    · exact key _ (congrArg RunState.stats (h1 a)) rfl rfl (by simp [a, b]; omega) (by simp [a])
    · exact key _ (congrArg RunState.stats (h2 b)) rfl rfl (by simp [a, b]) (by simp [a])
    · rcases h3 c with hs | hs | hs
      · exact key _ hs rfl rfl (by simp [a, b]; omega) (by simp [a])
      · exact key _ hs rfl rfl (by simp [a, b]; omega) (by simp [a])
      · exact key _ hs rfl rfl (by simp [a, b]; omega) (by simp [a])

theorem indexFile_update_error (lib : GoLib) (w : World) (cr xr : Bytes) (st : RunState)
    (fi : FileInfo)
    (h : (indexFileOutcome lib w cr xr st fi).1 = .infoError ∨
      (indexFileOutcome lib w cr xr st fi).1 = .indexError) :
    (indexFile lib w cr xr st fi).stats = { st.stats with Errors := st.stats.Errors + 1 } := by
  unfold indexFile
  unfold indexFileOutcome at h ⊢
  rcases hp : parseFile lib w fi cr xr with ⟨ro, eo⟩
  rw [hp] at h
  cases eo with
  | some e => cases ro <;> simp at h
  | none =>
    cases ro with
    | none => simp at h
    | some r =>
      by_cases hz : r.Chunks.length = 0
      · simp [hz] at h
      · simp only [hz, if_false] at h ⊢
        rcases hn : needsUpdate st.db r.Meta.SessionKey fi.Mtime fi.Size with ⟨res, d1⟩
        rw [hn] at h
        cases res with
        | error e => simp
        | ok b =>
          cases b with
          | false => simp at h
          | true =>
            simp only at h ⊢
            rcases hi : indexSession lib d1 r with ⟨eo, d2⟩
            rw [hi] at h
            cases eo with
            | none => simp at h
            | some e => simp

/-- The branches of the loop body for a file that parses to at least one
chunk, whatever the store does: what each does to the tables and counters. -/
theorem indexFile_general (lib : GoLib) (w : World) (cr xr : Bytes) (st : RunState)
    (fi : FileInfo) :
    (indexable lib w cr xr fi = false ∧
      (indexFile lib w cr xr st fi).db = st.db ∧
      (indexFile lib w cr xr st fi).seenKeys = st.seenKeys ∧
      (indexFile lib w cr xr st fi).stats.Updated = st.stats.Updated ∧
      (indexFile lib w cr xr st fi).stats.Skipped = st.stats.Skipped ∧
      st.stats.Errors ≤ (indexFile lib w cr xr st fi).stats.Errors) ∨
    (∃ r, parseFile lib w fi cr xr = (some r, none) ∧ indexable lib w cr xr fi = true ∧
      WellFormed r ∧ r.Meta.SessionKey = fileKey lib fi cr xr ∧
      (indexFile lib w cr xr st fi).seenKeys = fileKey lib fi cr xr :: st.seenKeys ∧
      (indexFile lib w cr xr st fi).stats.Scanned = st.stats.Scanned ∧
      (((indexFileOutcome lib w cr xr st fi).1 = .infoError ∧
          (indexFile lib w cr xr st fi).db.sessions = st.db.sessions ∧
          (indexFile lib w cr xr st fi).db.chunks = st.db.chunks ∧
          (indexFile lib w cr xr st fi).stats.Errors = st.stats.Errors + 1 ∧
          (indexFile lib w cr xr st fi).stats.Updated = st.stats.Updated ∧
          (indexFile lib w cr xr st fi).stats.Skipped = st.stats.Skipped) ∨
        ((indexFileOutcome lib w cr xr st fi).1 = .skipped ∧
          upToDate st.db (fileKey lib fi cr xr) fi.Mtime fi.Size = true ∧
          (indexFile lib w cr xr st fi).db.sessions = st.db.sessions ∧
          (indexFile lib w cr xr st fi).db.chunks = st.db.chunks ∧
          (indexFile lib w cr xr st fi).stats.Errors = st.stats.Errors ∧
          (indexFile lib w cr xr st fi).stats.Updated = st.stats.Updated ∧
          (indexFile lib w cr xr st fi).stats.Skipped = st.stats.Skipped + 1) ∨
        ((indexFileOutcome lib w cr xr st fi).1 = .indexError ∧
          upToDate st.db (fileKey lib fi cr xr) fi.Mtime fi.Size = false ∧
          (((indexFile lib w cr xr st fi).db.sessions = st.db.sessions ∧
              (indexFile lib w cr xr st fi).db.chunks = st.db.chunks) ∨
            ((indexFile lib w cr xr st fi).db.sessions
                = st.db.sessions.filter (fun s => s.SessionKey ≠ r.Meta.SessionKey) ∧
              (indexFile lib w cr xr st fi).db.chunks
                = st.db.chunks.filter (fun c => c.SessionKey ≠ r.Meta.SessionKey))) ∧
          (indexFile lib w cr xr st fi).stats.Errors = st.stats.Errors + 1 ∧
          (indexFile lib w cr xr st fi).stats.Updated = st.stats.Updated ∧
          (indexFile lib w cr xr st fi).stats.Skipped = st.stats.Skipped) ∨
        ((indexFileOutcome lib w cr xr st fi).1 = .updated ∧
          upToDate st.db (fileKey lib fi cr xr) fi.Mtime fi.Size = false ∧
          (indexFile lib w cr xr st fi).db.sessions = (replaceSession lib st.db r).sessions ∧
          (indexFile lib w cr xr st fi).db.chunks = (replaceSession lib st.db r).chunks ∧
          (indexFile lib w cr xr st fi).stats.Errors = st.stats.Errors ∧
          (indexFile lib w cr xr st fi).stats.Updated = st.stats.Updated + 1 ∧
          (indexFile lib w cr xr st fi).stats.Skipped = st.stats.Skipped))) := by
  unfold indexFile
  unfold indexable
  rcases hp : parseFile lib w fi cr xr with ⟨ro, eo⟩
  cases eo with
  | some e =>
    left
    unfold indexFileOutcome
    rw [hp]
    cases ro <;> simp
  | none =>
    cases ro with
    | none =>
      left
      unfold indexFileOutcome
      rw [hp]
      simp
    | some r =>
      obtain ⟨hwf, hkey, _⟩ := parseFile_some lib w fi cr xr r none hp
      by_cases hz : r.Chunks.length = 0
      · left
        unfold indexFileOutcome
        rw [hp]
        simp [hz]
      · right
        refine ⟨r, rfl, by simp [hz], hwf, hkey, ?_⟩
        unfold indexFileOutcome
        rw [hp]
        simp only [hz, if_false]
        rw [← hkey]
        obtain ⟨t1, t2⟩ := needsUpdate_tables st.db r.Meta.SessionKey fi.Mtime fi.Size
        have hok := needsUpdate_ok st.db r.Meta.SessionKey fi.Mtime fi.Size
        rcases hn : needsUpdate st.db r.Meta.SessionKey fi.Mtime fi.Size with ⟨res, d1⟩
        rw [hn] at t1 t2 hok
        simp only at t1 t2 hok
        cases res with
        | error e =>
          refine ⟨rfl, rfl, ?_⟩
          left
          exact ⟨rfl, t1, t2, rfl, rfl, rfl⟩
        | ok b =>
          have hb := hok b rfl
          cases b with
          | false =>
            refine ⟨rfl, rfl, ?_⟩
            right; left
            refine ⟨rfl, ?_, t1, t2, rfl, rfl, rfl⟩
            simpa using hb.symm
          | true =>
            have hu : upToDate st.db r.Meta.SessionKey fi.Mtime fi.Size = false := by
              simpa using hb.symm
            simp only
            rcases hi : indexSession lib d1 r with ⟨eo, d2⟩
            cases eo with
            | some e =>
              refine ⟨rfl, rfl, ?_⟩
              right; right; left
              have herr : (indexSession lib d1 r).1 ≠ none := by rw [hi]; simp
              have hrows := indexSession_error lib d1 r herr
              rw [hi] at hrows
              simp only at hrows
              refine ⟨rfl, hu, ?_, rfl, rfl, rfl⟩
              rw [← t1, ← t2]
              exact hrows
            | none =>
              refine ⟨rfl, rfl, ?_⟩
              right; right; right
              obtain ⟨g1, g2⟩ := indexSession_ok lib d1 d2 r hi
              refine ⟨rfl, hu, ?_, ?_, rfl, rfl, rfl⟩
              · rw [g1]; simp only [replaceSession]; rw [t1]
              · rw [g2]; simp only [replaceSession]; rw [t2]

/-- Whatever the store does, a step for a file with another key leaves the rows
of key `k` as they are. -/
theorem indexFile_rows_other (lib : GoLib) (w : World) (cr xr : Bytes) (st : RunState)
    (fi : FileInfo) (k : Bytes)
    (hk : indexable lib w cr xr fi = true → fileKey lib fi cr xr ≠ k) :
    sessionRows (indexFile lib w cr xr st fi).db k = sessionRows st.db k ∧
      chunkRows (indexFile lib w cr xr st fi).db k = chunkRows st.db k := by
  rcases indexFile_general lib w cr xr st fi with ⟨_, hdb, _⟩ | ⟨r, _, hix, hwf, hkey, _, _, hc⟩
  · rw [hdb]; exact ⟨rfl, rfl⟩
  · have hne : k ≠ r.Meta.SessionKey := by rw [hkey]; exact Ne.symm (hk hix)
    rcases hc with ⟨_, h1, h2, _⟩ | ⟨_, _, h1, h2, _⟩ | ⟨_, _, hrows, _⟩ | ⟨_, _, h1, h2, _⟩
    · exact ⟨sessionRows_congr h1 k, chunkRows_congr h2 k⟩
    · exact ⟨sessionRows_congr h1 k, chunkRows_congr h2 k⟩
    · rcases hrows with ⟨h1, h2⟩ | ⟨h1, h2⟩
      · exact ⟨sessionRows_congr h1 k, chunkRows_congr h2 k⟩
      · rw [sessionRows_deleted h1, chunkRows_deleted h2, if_neg hne, if_neg hne]
        exact ⟨rfl, rfl⟩
    · rw [sessionRows_congr h1, chunkRows_congr h2, sessionRows_replaceSession,
        chunkRows_replaceSession lib _ _ hwf, if_neg hne, if_neg hne]
      exact ⟨rfl, rfl⟩

theorem indexFile_seen (lib : GoLib) (w : World) (cr xr : Bytes) (st : RunState)
    (fi : FileInfo) :
    (indexFile lib w cr xr st fi).seenKeys
      = if indexable lib w cr xr fi = true then fileKey lib fi cr xr :: st.seenKeys
        else st.seenKeys := by
  rcases indexFile_general lib w cr xr st fi with ⟨hix, _, hs, _⟩ | ⟨r, _, hix, _, _, hs, _⟩
  · rw [hs, hix]; simp
  · rw [hs, hix]; simp

theorem foldl_indexFile_rows_other (lib : GoLib) (w : World) (cr xr : Bytes) (k : Bytes)
    (files : List FileInfo) :
    ∀ st : RunState,
      (∀ fi ∈ files, indexable lib w cr xr fi = true → fileKey lib fi cr xr ≠ k) →
      sessionRows (files.foldl (indexFile lib w cr xr) st).db k = sessionRows st.db k ∧
        chunkRows (files.foldl (indexFile lib w cr xr) st).db k = chunkRows st.db k := by
  induction files with
  | nil => intro st _; exact ⟨rfl, rfl⟩
  | cons fi rest ih =>
    intro st hk
    obtain ⟨h1, h2⟩ := indexFile_rows_other lib w cr xr st fi k
      (hk fi (List.mem_cons_self _ _))
    obtain ⟨g1, g2⟩ := ih (indexFile lib w cr xr st fi)
      (fun g hg => hk g (List.mem_cons_of_mem _ hg))
    exact ⟨by rw [List.foldl_cons, g1, h1], by rw [List.foldl_cons, g2, h2]⟩

theorem foldl_indexFile_seen (lib : GoLib) (w : World) (cr xr : Bytes)
    (files : List FileInfo) :
    ∀ st : RunState,
      (files.foldl (indexFile lib w cr xr) st).seenKeys
        = ((files.filter (indexable lib w cr xr)).map (fun fi => fileKey lib fi cr xr)).reverse
            ++ st.seenKeys := by
  induction files with
  | nil => intro st; simp
  | cons fi rest ih =>
    intro st
    rw [List.foldl_cons, ih, indexFile_seen, List.filter_cons]
    by_cases hix : indexable lib w cr xr fi = true
    · simp [hix]
    · simp [hix]

theorem indexLoop_seen (lib : GoLib) (w : World) (cr xr : Bytes) (db : DB)
    (files : List FileInfo) :
    (indexLoop lib w cr xr db files).seenKeys
      = ((files.filter (indexable lib w cr xr)).map (fun fi => fileKey lib fi cr xr)).reverse := by
  unfold indexLoop
  rw [foldl_indexFile_seen lib w cr xr files _]
  simp

theorem mem_indexLoop_seen (lib : GoLib) (w : World) (cr xr : Bytes) (db : DB)
    (files : List FileInfo) (k : Bytes) :
    k ∈ (indexLoop lib w cr xr db files).seenKeys
      ↔ ∃ fi ∈ files, indexable lib w cr xr fi = true ∧ fileKey lib fi cr xr = k := by
  rw [indexLoop_seen lib w cr xr db files]
  simp only [List.mem_reverse, List.mem_map, List.mem_filter]
  constructor
  · rintro ⟨fi, ⟨h1, h2⟩, h3⟩; exact ⟨fi, h1, h2, h3⟩
  · rintro ⟨fi, h1, h2, h3⟩; exact ⟨fi, ⟨h1, h2⟩, h3⟩

theorem indexLoop_rows_other (lib : GoLib) (w : World) (cr xr : Bytes) (db : DB)
    (files : List FileInfo) (k : Bytes)
    (hk : ∀ fi ∈ files, indexable lib w cr xr fi = true → fileKey lib fi cr xr ≠ k) :
    sessionRows (indexLoop lib w cr xr db files).db k = sessionRows db k ∧
      chunkRows (indexLoop lib w cr xr db files).db k = chunkRows db k :=
  foldl_indexFile_rows_other lib w cr xr k files _ hk

theorem indexLoop_unseen_stored (lib : GoLib) (w : World) (cr xr : Bytes) (db : DB)
    (files : List FileInfo) (k : Bytes)
    (hk : k ∉ (indexLoop lib w cr xr db files).seenKeys) :
    (k ∈ (indexLoop lib w cr xr db files).db.sessions.map (fun s => s.SessionKey)
      ↔ k ∈ db.sessions.map (fun s => s.SessionKey)) ∧
    chunkRows (indexLoop lib w cr xr db files).db k = chunkRows db k := by
  have hother : ∀ fi ∈ files, indexable lib w cr xr fi = true → fileKey lib fi cr xr ≠ k := by
    intro fi hfi hix hEq
    exact hk ((mem_indexLoop_seen lib w cr xr db files k).2 ⟨fi, hfi, hix, hEq⟩)
  obtain ⟨h1, h2⟩ := indexLoop_rows_other lib w cr xr db files k hother
  refine ⟨?_, h2⟩
  rw [mem_keys_iff_sessionRows, mem_keys_iff_sessionRows, h1]

theorem pruned_count_eq (lib : GoLib) (w : World) (cr xr : Bytes) (db : DB)
    (files : List FileInfo) :
    (((indexLoop lib w cr xr db files).db.sessions.map (fun s => s.SessionKey)).dedup.filter
        (fun k => k ∉ (indexLoop lib w cr xr db files).seenKeys)).length
      = ((db.sessions.map (fun s => s.SessionKey)).dedup.filter
        (fun k => k ∉ (indexLoop lib w cr xr db files).seenKeys)).length := by
  apply List.Perm.length_eq
  rw [List.perm_ext_iff_of_nodup ((List.nodup_dedup _).filter _) ((List.nodup_dedup _).filter _)]
  intro k
  simp only [List.mem_filter, List.mem_dedup, decide_eq_true_eq]
  constructor
  · rintro ⟨h1, h2⟩
    exact ⟨(indexLoop_unseen_stored lib w cr xr db files k h2).1.1 h1, h2⟩
  · rintro ⟨h1, h2⟩
    exact ⟨(indexLoop_unseen_stored lib w cr xr db files k h2).1.2 h1, h2⟩

/-- The rows of the session of a scanned file after a file loop in which no
session update failed (`errors` counts parse failures only): untouched when the
stored pair matched, replaced by the fresh parse otherwise. -/
theorem indexLoop_rows_self (lib : GoLib) (w : World) (cr xr : Bytes) (db : DB)
    (files : List FileInfo) (fi : FileInfo) (r : ParseResult)
    (hE : (indexLoop lib w cr xr db files).stats.Errors
      ≤ (files.filter (parseFails lib w cr xr)).length)
    (hkeys : (files.map (fun f => fileKey lib f cr xr)).Nodup)
    (hfi : fi ∈ files) (hparse : parseFile lib w fi cr xr = (some r, none))
    (hchunks : r.Chunks ≠ []) :
    r.Meta.SessionKey ∈ (indexLoop lib w cr xr db files).seenKeys ∧
    (upToDate db r.Meta.SessionKey fi.Mtime fi.Size = true →
      sessionRows (indexLoop lib w cr xr db files).db r.Meta.SessionKey
          = sessionRows db r.Meta.SessionKey ∧
        chunkRows (indexLoop lib w cr xr db files).db r.Meta.SessionKey
          = chunkRows db r.Meta.SessionKey) ∧
    (upToDate db r.Meta.SessionKey fi.Mtime fi.Size = false →
      sessionRows (indexLoop lib w cr xr db files).db r.Meta.SessionKey
          = [sessionRowOf lib r.Meta] ∧
        chunkRows (indexLoop lib w cr xr db files).db r.Meta.SessionKey
          = r.Chunks.map (chunkRowOf lib)) := by
  obtain ⟨hwf, hkey, _⟩ := parseFile_some lib w fi cr xr r none hparse
  have hix : indexable lib w cr xr fi = true := by
    unfold indexable
    rw [hparse]
    simpa using hchunks
  have hnofail : parseFails lib w cr xr fi = false := by
    unfold parseFails
    rw [hparse]; rfl
  have hseen : r.Meta.SessionKey ∈ (indexLoop lib w cr xr db files).seenKeys :=
    (mem_indexLoop_seen lib w cr xr db files _).2 ⟨fi, hfi, hix, hkey.symm⟩
  obtain ⟨P, S, hsplit⟩ := List.append_of_mem hfi
  subst hsplit
  have hnd := hkeys
  rw [List.map_append, List.map_cons, List.nodup_append] at hnd
  obtain ⟨_, hndS, hdisj⟩ := hnd
  have hP : ∀ g ∈ P, indexable lib w cr xr g = true → fileKey lib g cr xr ≠ r.Meta.SessionKey := by
    intro g hg _ hEq
    have h1 : fileKey lib g cr xr ∈ P.map (fun f => fileKey lib f cr xr) :=
      List.mem_map_of_mem (fun f => fileKey lib f cr xr) hg
    have h2 : fileKey lib g cr xr ∈ fileKey lib fi cr xr :: S.map (fun f => fileKey lib f cr xr) := by
      rw [hEq, hkey]; exact List.mem_cons_self _ _
    exact hdisj h1 h2
  have hS : ∀ g ∈ S, indexable lib w cr xr g = true → fileKey lib g cr xr ≠ r.Meta.SessionKey := by
    intro g hg _ hEq
    rw [List.nodup_cons] at hndS
    have h1 : fileKey lib g cr xr ∈ S.map (fun f => fileKey lib f cr xr) :=
      List.mem_map_of_mem (fun f => fileKey lib f cr xr) hg
    rw [hEq, hkey] at h1
    exact hndS.1 h1
  -- the state after the files before `fi`
  set st0 : RunState :=
    { stats := { Scanned := (P ++ fi :: S).length, Updated := 0, Skipped := 0, Pruned := 0,
                 Errors := 0 },
      seenKeys := [], db := db } with hst0
  set stP := P.foldl (indexFile lib w cr xr) st0 with hstP
  obtain ⟨hP1, hP2⟩ := foldl_indexFile_rows_other lib w cr xr r.Meta.SessionKey P st0 hP
  have hloopst : indexLoop lib w cr xr db (P ++ fi :: S)
      = S.foldl (indexFile lib w cr xr) (indexFile lib w cr xr stP fi) := by
    unfold indexLoop
    rw [List.foldl_append, List.foldl_cons]
  obtain ⟨hS1, hS2⟩ := foldl_indexFile_rows_other lib w cr xr r.Meta.SessionKey S
    (indexFile lib w cr xr stP fi) hS
  have hup : upToDate stP.db r.Meta.SessionKey fi.Mtime fi.Size
      = upToDate db r.Meta.SessionKey fi.Mtime fi.Size := upToDate_congr hP1 _ _
  -- the step of `fi` did not count an error
  have hnoerr : (indexFile lib w cr xr stP fi).stats.Errors ≤ stP.stats.Errors := by
    have e1 : 0 + (P.filter (parseFails lib w cr xr)).length ≤ stP.stats.Errors :=
      (foldl_indexFile_stats lib w cr xr P st0).2.2.2
    have e2 := (foldl_indexFile_stats lib w cr xr S (indexFile lib w cr xr stP fi)).2.2.2
    rw [hloopst] at hE
    have e3 : ((P ++ fi :: S).filter (parseFails lib w cr xr)).length
        = (P.filter (parseFails lib w cr xr)).length
          + (S.filter (parseFails lib w cr xr)).length := by
      rw [List.filter_append, List.filter_cons, hnofail]
      simp
    rw [e3] at hE
    omega
  rw [hloopst] at hseen
  rw [hloopst, hS1, hS2]
  rcases indexFile_general lib w cr xr stP fi with ⟨hno, _⟩ | ⟨r', hp', _, _, _, _, _, hc⟩
  · rw [hix] at hno; cases hno
  · have hr : r' = r := by
      rw [hparse] at hp'
      simpa using (Prod.mk.inj hp').1.symm
    subst hr
    rw [← hkey, hup] at hc
    rcases hc with ⟨_, _, _, he, _⟩ | ⟨_, hu', h1, h2, _⟩ | ⟨_, _, _, he, _⟩ | ⟨_, hu', h1, h2, _⟩
    · omega
    · refine ⟨hseen, fun _ => ?_, fun hu => ?_⟩
      · rw [sessionRows_congr h1, chunkRows_congr h2]; exact ⟨hP1, hP2⟩
      · rw [hu] at hu'; cases hu'
    · omega
    · refine ⟨hseen, fun hu => ?_, fun _ => ?_⟩
      · rw [hu] at hu'; cases hu'
      · rw [sessionRows_congr h1, chunkRows_congr h2, sessionRows_replaceSession,
          chunkRows_replaceSession lib _ _ hwf, if_pos rfl, if_pos rfl]
        exact ⟨rfl, rfl⟩

/-- A run that returns without error: the scan succeeded, the prune step went
through, and the tables are those of the file loop after pruning. -/
theorem IndexAll_ok (lib : GoLib) (w : World) (db : DB) (cr xr : Bytes)
    (h : (IndexAll lib w db cr xr).1.2 = none) :
    ∃ files, w.scan = .ok files ∧
      (IndexAll lib w db cr xr).1.1
        = { (indexLoop lib w cr xr db files).stats with
            Pruned := (((indexLoop lib w cr xr db files).db.sessions.map
              (fun s => s.SessionKey)).dedup.filter
                (fun k => k ∉ (indexLoop lib w cr xr db files).seenKeys)).length } ∧
      (IndexAll lib w db cr xr).2.sessions
        = (pruned (indexLoop lib w cr xr db files).db
            (indexLoop lib w cr xr db files).seenKeys).sessions ∧
      (IndexAll lib w db cr xr).2.chunks
        = (pruned (indexLoop lib w cr xr db files).db
            (indexLoop lib w cr xr db files).seenKeys).chunks := by
  unfold IndexAll at h ⊢
  cases hs : w.scan with
  | error e => rw [hs] at h; simp at h
  | ok files =>
    rw [hs] at h
    refine ⟨files, rfl, ?_⟩
    simp only at h ⊢
    rcases hp : pruneSessions w.mapOrder (indexLoop lib w cr xr db files).db
      (indexLoop lib w cr xr db files).seenKeys with ⟨⟨n, eo⟩, d1⟩
    rw [hp] at h
    cases eo with
    | some e => simp at h
    | none =>
      obtain ⟨h1, h2, h3⟩ := pruneSessions_ok _ _ _ _ _ hp
      simp only
      rw [h1]
      exact ⟨rfl, h2, h3⟩

/-! ## Indexer: a run on a connection without failures -/

/-- The loop body on a connection without failures. -/
theorem indexFileOutcome_nofaults (lib : GoLib) (w : World) (cr xr : Bytes) (st : RunState)
    (fi : FileInfo) (h : st.db.faults = []) :
    indexFileOutcome lib w cr xr st fi =
      match parseFile lib w fi cr xr with
      | (_, some _) =>
        (.parseError, { st with stats := { st.stats with Errors := st.stats.Errors + 1 } })
      | (none, none) => (.noChunks, st)
      | (some r, none) =>
        if r.Chunks.length = 0 then (.noChunks, st)
        else if upToDate st.db r.Meta.SessionKey fi.Mtime fi.Size then
          (.skipped,
            { stats := { st.stats with Skipped := st.stats.Skipped + 1 },
              seenKeys := r.Meta.SessionKey :: st.seenKeys, db := st.db })
        else
          (.updated,
            { stats := { st.stats with Updated := st.stats.Updated + 1 },
              seenKeys := r.Meta.SessionKey :: st.seenKeys, db := replaceSession lib st.db r }) := by
  unfold indexFileOutcome
  rcases hp : parseFile lib w fi cr xr with ⟨ro, eo⟩
  cases eo with
  | some e => cases ro <;> rfl
  | none =>
    cases ro with
    | none => rfl
    | some r =>
      simp only
      by_cases hz : r.Chunks.length = 0
      · simp [hz]
      · simp only [hz, if_false]
        rw [needsUpdate_nofaults _ _ _ _ h]
        cases hu : upToDate st.db r.Meta.SessionKey fi.Mtime fi.Size with
        | true => simp
        | false =>
          simp only [Bool.not_false]
          rw [indexSession_nofaults lib _ r h (parseFile_some lib w fi cr xr r none hp).1]
          simp

/-- The two ways the loop body can go on a connection without failures. -/
theorem indexFile_cases (lib : GoLib) (w : World) (cr xr : Bytes) (st : RunState)
    (fi : FileInfo) (h : st.db.faults = []) :
    (indexable lib w cr xr fi = false ∧
      (indexFile lib w cr xr st fi).db = st.db ∧
      (indexFile lib w cr xr st fi).seenKeys = st.seenKeys ∧
      (indexFile lib w cr xr st fi).stats.Updated = st.stats.Updated ∧
      (indexFile lib w cr xr st fi).stats.Skipped = st.stats.Skipped) ∨
    (∃ r, parseFile lib w fi cr xr = (some r, none) ∧ indexable lib w cr xr fi = true ∧
      WellFormed r ∧ r.Meta.SessionKey = fileKey lib fi cr xr ∧
      (indexFile lib w cr xr st fi).seenKeys = fileKey lib fi cr xr :: st.seenKeys ∧
      ((upToDate st.db (fileKey lib fi cr xr) fi.Mtime fi.Size = true ∧
          (indexFile lib w cr xr st fi).db = st.db ∧
          (indexFile lib w cr xr st fi).stats.Updated = st.stats.Updated ∧
          (indexFile lib w cr xr st fi).stats.Skipped = st.stats.Skipped + 1) ∨
        (upToDate st.db (fileKey lib fi cr xr) fi.Mtime fi.Size = false ∧
          (indexFile lib w cr xr st fi).db = replaceSession lib st.db r ∧
          (indexFile lib w cr xr st fi).stats.Updated = st.stats.Updated + 1 ∧
          (indexFile lib w cr xr st fi).stats.Skipped = st.stats.Skipped))) := by
  unfold indexFile
  rw [indexFileOutcome_nofaults lib w cr xr st fi h]
  unfold indexable
  rcases hp : parseFile lib w fi cr xr with ⟨ro, eo⟩
  cases eo with
  | some e => left; cases ro <;> simp
  | none =>
    cases ro with
    | none => left; simp
    | some r =>
      obtain ⟨hwf, hkey, _⟩ := parseFile_some lib w fi cr xr r none hp
      by_cases hz : r.Chunks.length = 0
      · left; simp [hz]
      · right
        refine ⟨r, rfl, by simp [hz], hwf, hkey, ?_⟩
        simp only [hz, if_false]
        rw [← hkey]
        cases hu : upToDate st.db r.Meta.SessionKey fi.Mtime fi.Size with
        | true => simp
        | false => simp

theorem indexFile_faults (lib : GoLib) (w : World) (cr xr : Bytes) (st : RunState)
    (fi : FileInfo) (h : st.db.faults = []) : (indexFile lib w cr xr st fi).db.faults = [] := by
  rcases indexFile_cases lib w cr xr st fi h with ⟨_, hdb, _⟩ | ⟨r, _, _, _, _, _, hc⟩
  · rw [hdb]; exact h
  · rcases hc with ⟨_, hdb, _⟩ | ⟨_, hdb, _⟩
    · rw [hdb]; exact h
    · rw [hdb]; exact h

theorem foldl_indexFile_faults (lib : GoLib) (w : World) (cr xr : Bytes) (files : List FileInfo) :
    ∀ st : RunState, st.db.faults = [] →
      (files.foldl (indexFile lib w cr xr) st).db.faults = [] := by
  induction files with
  | nil => intro st h; exact h
  | cons fi rest ih =>
    intro st h
    exact ih _ (indexFile_faults lib w cr xr st fi h)

theorem indexLoop_faults (lib : GoLib) (w : World) (cr xr : Bytes) (db : DB)
    (files : List FileInfo) (hd : db.faults = []) :
    (indexLoop lib w cr xr db files).db.faults = [] :=
  foldl_indexFile_faults lib w cr xr files _ hd

theorem IndexAll_nofaults (lib : GoLib) (w : World) (db : DB) (cr xr : Bytes)
    (files : List FileInfo) (hscan : w.scan = .ok files) (hd : db.faults = []) :
    IndexAll lib w db cr xr =
      (({ (indexLoop lib w cr xr db files).stats with
          Pruned := (((indexLoop lib w cr xr db files).db.sessions.map
            (fun s => s.SessionKey)).dedup.filter
              (fun k => k ∉ (indexLoop lib w cr xr db files).seenKeys)).length }, none),
        pruned (indexLoop lib w cr xr db files).db (indexLoop lib w cr xr db files).seenKeys) := by
  unfold IndexAll
  rw [hscan]
  simp only
  rw [pruneSessions_nofaults _ _ _ (indexLoop_faults lib w cr xr db files hd)]

/-- C4: when a file that is already indexed has a stored `(mtime, size)` pair
different from the scanned one and parses without error, a run that returns no
error and counts no error other than the files that failed to parse (whatever
else the store did) leaves under its session key exactly the chunk rows of the
new parse, in order, with the ids, roles, kinds, texts and line numbers of the
parsed chunks and no row of the old parse; the session row is the one of the
new parse (none when the new parse has no chunk). -/
theorem IndexAll_replaces_stale_session (lib : GoLib) (w : World) (db : DB) (cr xr : Bytes)
    (files : List FileInfo) (fi : FileInfo) (r : ParseResult)
    (hscan : w.scan = .ok files)
    (hok : (IndexAll lib w db cr xr).1.2 = none)
    (hE : (IndexAll lib w db cr xr).1.1.Errors ≤ (files.filter (parseFails lib w cr xr)).length)
    (hkeys : (files.map (fun f => fileKey lib f cr xr)).Nodup)
    (hfi : fi ∈ files) (hparse : parseFile lib w fi cr xr = (some r, none))
    (hstale : ∃ s, db.sessions.find? (fun s => s.SessionKey = r.Meta.SessionKey) = some s ∧
      (s.Mtime ≠ fi.Mtime ∨ s.Size ≠ fi.Size)) :
    chunkRows (IndexAll lib w db cr xr).2 r.Meta.SessionKey = r.Chunks.map (chunkRowOf lib) ∧
    sessionRows (IndexAll lib w db cr xr).2 r.Meta.SessionKey
      = (if r.Chunks = [] then [] else [sessionRowOf lib r.Meta]) ∧
    (chunkRows (IndexAll lib w db cr xr).2 r.Meta.SessionKey).map
        (fun x => (x.SessionKey, x.ChunkID, x.Role, x.Kind, x.Text, x.LineNumber))
      = r.Chunks.map (fun c => (c.SessionKey, c.ChunkID, c.Role, c.Kind, c.Text, c.LineNumber)) := by
  have hu : upToDate db r.Meta.SessionKey fi.Mtime fi.Size = false := by
    obtain ⟨s, hs, hne⟩ := hstale
    unfold upToDate
    rw [hs]
    simp only [decide_eq_false_iff_not, not_and_or]
    exact hne
  have htuple : ∀ rows : List ChunkRow, rows = r.Chunks.map (chunkRowOf lib) →
      rows.map (fun x => (x.SessionKey, x.ChunkID, x.Role, x.Kind, x.Text, x.LineNumber))
        = r.Chunks.map
          (fun c => (c.SessionKey, c.ChunkID, c.Role, c.Kind, c.Text, c.LineNumber)) := by
    intro rows hrows
    rw [hrows, List.map_map]
    apply List.map_congr_left
    intro c hcmem
    have hk := parseFile_kind lib w fi cr xr r none hparse c hcmem
    simp [chunkRowOf, hk]
  obtain ⟨files', hscan', hstats, hsess, hch⟩ := IndexAll_ok lib w db cr xr hok
  have hfiles : files' = files := by
    rw [hscan] at hscan'
    exact (Except.ok.inj hscan').symm
  subst hfiles
  have hE' : (indexLoop lib w cr xr db files').stats.Errors
      ≤ (files'.filter (parseFails lib w cr xr)).length := by
    rw [hstats] at hE
    exact hE
  rw [sessionRows_congr hsess, chunkRows_congr hch]
  by_cases hchunks : r.Chunks = []
  · -- the new parse has no chunk: the key is not seen and the session is pruned
    obtain ⟨_, hkey, _⟩ := parseFile_some lib w fi cr xr r none hparse
    have hix : indexable lib w cr xr fi = false := by
      unfold indexable
      rw [hparse]
      simp [hchunks]
    have hunseen : r.Meta.SessionKey ∉ (indexLoop lib w cr xr db files').seenKeys := by
      intro hmem
      obtain ⟨g, hg, hgix, hgk⟩ := (mem_indexLoop_seen lib w cr xr db files' _).1 hmem
      have : g = fi := List.inj_on_of_nodup_map hkeys hg hfi (by rw [hgk, hkey])
      rw [this, hix] at hgix
      cases hgix
    have hstored : r.Meta.SessionKey ∈ db.sessions.map (fun s => s.SessionKey) := by
      obtain ⟨s, hs, _⟩ := hstale
      have h1 := List.mem_of_find?_eq_some hs
      have h2 := List.find?_some hs
      exact List.mem_map.2 ⟨s, h1, by simpa using h2⟩
    have hstoredL := (indexLoop_unseen_stored lib w cr xr db files' _ hunseen).1.2 hstored
    have hc : chunkRows (pruned (indexLoop lib w cr xr db files').db
        (indexLoop lib w cr xr db files').seenKeys) r.Meta.SessionKey
        = r.Chunks.map (chunkRowOf lib) := by
      rw [chunkRows_pruned, if_neg, hchunks]
      · rfl
      · rintro (h | h)
        · exact hunseen h
        · exact h hstoredL
    refine ⟨hc, ?_, htuple _ hc⟩
    rw [sessionRows_pruned, if_neg hunseen, if_pos hchunks]
  · obtain ⟨hseen, _, hnew⟩ :=
      indexLoop_rows_self lib w cr xr db files' fi r hE' hkeys hfi hparse hchunks
    obtain ⟨h1, h2⟩ := hnew hu
    have hc : chunkRows (pruned (indexLoop lib w cr xr db files').db
        (indexLoop lib w cr xr db files').seenKeys) r.Meta.SessionKey
        = r.Chunks.map (chunkRowOf lib) := by
      rw [chunkRows_pruned, if_pos (Or.inl hseen), h2]
    refine ⟨hc, ?_, htuple _ hc⟩
    rw [sessionRows_pruned, if_pos hseen, h1, if_neg hchunks]

/-- Witness of C4: `claude:a` is stored with three chunks of an older parse and
another `(mtime, size)`; the new parse of `fileA` has two chunks. -/
theorem IndexAll_replaces_stale_session_witness :
    (∃ r, parseFile toyLib sampleWorld fiA (str "/c") (str "/x") = (some r, none) ∧
      r.Meta.SessionKey = str "claude:a" ∧ r.Chunks.length = 2 ∧
      (chunkRows (staleDB []) r.Meta.SessionKey).length = 3 ∧
      (IndexAll toyLib sampleWorld (staleDB []) (str "/c") (str "/x")).1.2 = none ∧
      chunkRows (IndexAll toyLib sampleWorld (staleDB []) (str "/c") (str "/x")).2 r.Meta.SessionKey
        = r.Chunks.map (chunkRowOf toyLib)) :=
  match hp : parseFile toyLib sampleWorld fiA (str "/c") (str "/x") with
  | (some r, none) =>
    have hk : r.Meta.SessionKey = str "claude:a" := by
      have h2 : (parseFile toyLib sampleWorld fiA (str "/c") (str "/x")).1.map
          (fun r => r.Meta.SessionKey) = some (str "claude:a") := by decide
      rw [hp] at h2; exact Option.some.inj h2
    have hl : r.Chunks.length = 2 := by
      have h2 : (parseFile toyLib sampleWorld fiA (str "/c") (str "/x")).1.map
          (fun r => r.Chunks.length) = some 2 := by decide
      rw [hp] at h2; exact Option.some.inj h2
    have h := IndexAll_replaces_stale_session toyLib sampleWorld (staleDB []) (str "/c") (str "/x")
      [fiA, fiB] fiA r rfl (by decide) (by decide) (by decide) (by decide) hp
      ⟨oldSession "claude:a" 1600000000 99, by rw [hk]; decide, Or.inl (by decide)⟩
    ⟨r, rfl, hk, hl, by rw [hk]; decide, by decide, h.1⟩
  | (none, _) => by
    have h2 : (parseFile toyLib sampleWorld fiA (str "/c") (str "/x")).1.isSome = true := by decide
    rw [hp] at h2; cases h2
  | (some _, some _) => by
    have h2 : (parseFile toyLib sampleWorld fiA (str "/c") (str "/x")).2 = none := by decide
    rw [hp] at h2; cases h2

/-! ## Indexer: pruning (C5, C6) -/

/-- C5: a stored session whose key is no longer derived from any scanned file
is removed, with all its chunks, by every run that returns no error (whatever
else the store did); it is counted in `pruned` (which is 1 when every other
stored session still has its file); `GetSessionByKey` then finds nothing (when
that query itself goes through); and the prune step leaves the rows of every
session seen in this run as they were. -/
theorem IndexAll_prunes_vanished_session (lib : GoLib) (w : World) (db : DB) (cr xr : Bytes)
    (files : List FileInfo) (k : Bytes)
    (hscan : w.scan = .ok files)
    (hok : (IndexAll lib w db cr xr).1.2 = none)
    (hstored : k ∈ db.sessions.map (fun s => s.SessionKey))
    (hgone : ∀ fi ∈ files, fileKey lib fi cr xr ≠ k) :
    sessionRows (IndexAll lib w db cr xr).2 k = [] ∧
    chunkRows (IndexAll lib w db cr xr).2 k = [] ∧
    ((IndexAll lib w db cr xr).2.fails = false →
      (GetSessionByKey (IndexAll lib w db cr xr).2 k).1 = .ok none) ∧
    (∀ row, (GetSessionByKey (IndexAll lib w db cr xr).2 k).1 ≠ .ok (some row)) ∧
    (IndexAll lib w db cr xr).1.1.Pruned
      = ((db.sessions.map (fun s => s.SessionKey)).dedup.filter
          (fun k' => k' ∉ (indexLoop lib w cr xr db files).seenKeys)).length ∧
    1 ≤ (IndexAll lib w db cr xr).1.1.Pruned ∧
    ((∀ s ∈ db.sessions, s.SessionKey ≠ k →
        ∃ fi ∈ files, indexable lib w cr xr fi = true ∧ fileKey lib fi cr xr = s.SessionKey) →
      (IndexAll lib w db cr xr).1.1.Pruned = 1) ∧
    (∀ k' ∈ (indexLoop lib w cr xr db files).seenKeys,
      sessionRows (IndexAll lib w db cr xr).2 k' = sessionRows (indexLoop lib w cr xr db files).db k' ∧
      chunkRows (IndexAll lib w db cr xr).2 k' = chunkRows (indexLoop lib w cr xr db files).db k') := by
  obtain ⟨files', hscan', hstats, hsess, hch⟩ := IndexAll_ok lib w db cr xr hok
  have hfiles : files' = files := by
    rw [hscan] at hscan'
    exact (Except.ok.inj hscan').symm
  subst hfiles
  have hunseen : k ∉ (indexLoop lib w cr xr db files').seenKeys := by
    intro hmem
    obtain ⟨fi, hfi, _, hEq⟩ := (mem_indexLoop_seen lib w cr xr db files' k).1 hmem
    exact hgone fi hfi hEq
  have hL := indexLoop_unseen_stored lib w cr xr db files' k hunseen
  have hstoredL : k ∈ (indexLoop lib w cr xr db files').db.sessions.map (fun s => s.SessionKey) :=
    hL.1.2 hstored
  have hmemB : k ∈ (db.sessions.map (fun s => s.SessionKey)).dedup.filter
      (fun k' => k' ∉ (indexLoop lib w cr xr db files').seenKeys) := by
    simp only [List.mem_filter, List.mem_dedup, decide_eq_true_eq]
    exact ⟨hstored, hunseen⟩
  have hrows : sessionRows (IndexAll lib w db cr xr).2 k = [] := by
    rw [sessionRows_congr hsess, sessionRows_pruned, if_neg hunseen]
  have hpruned : (IndexAll lib w db cr xr).1.1.Pruned
      = ((db.sessions.map (fun s => s.SessionKey)).dedup.filter
          (fun k' => k' ∉ (indexLoop lib w cr xr db files').seenKeys)).length := by
    rw [hstats]
    exact pruned_count_eq lib w cr xr db files'
  refine ⟨hrows, ?_, fun hf => GetSessionByKey_absent _ k hf hrows, ?_, hpruned, ?_, ?_, ?_⟩
  · rw [chunkRows_congr hch, chunkRows_pruned, if_neg]
    rintro (h | h)
    · exact hunseen h
    · exact h hstoredL
  · intro row hrow
    unfold GetSessionByKey at hrow
    by_cases hf : (IndexAll lib w db cr xr).2.fails = true
    · rw [if_pos hf] at hrow
      cases hrow
    · rw [if_neg hf] at hrow
      have hnone : (IndexAll lib w db cr xr).2.sessions.find? (fun s => s.SessionKey = k) = none := by
        rw [← List.filter_head?]
        unfold sessionRows at hrows
        rw [hrows]; rfl
      rw [hnone] at hrow
      cases hrow
  · rw [hpruned]
    exact List.length_pos_of_mem hmemB
  · intro honly
    rw [hpruned]
    have hperm : ((db.sessions.map (fun s => s.SessionKey)).dedup.filter
        (fun k' => k' ∉ (indexLoop lib w cr xr db files').seenKeys)).Perm [k] := by
      rw [List.perm_ext_iff_of_nodup ((List.nodup_dedup _).filter _) (List.nodup_singleton k)]
      intro k'
      simp only [List.mem_filter, List.mem_dedup, decide_eq_true_eq, List.mem_singleton,
        List.mem_map]
      constructor
      · rintro ⟨⟨s, hs, rfl⟩, h2⟩
        by_contra hne
        obtain ⟨fi, hfi, hix, hEq⟩ := honly s hs hne
        exact h2 ((mem_indexLoop_seen lib w cr xr db files' _).2 ⟨fi, hfi, hix, hEq⟩)
      · rintro rfl
        exact ⟨by simpa using hstored, hunseen⟩
    simpa using hperm.length_eq
  · intro k' hk'
    rw [sessionRows_congr hsess, chunkRows_congr hch, sessionRows_pruned, chunkRows_pruned,
      if_pos hk', if_pos (Or.inl hk')]
    exact ⟨rfl, rfl⟩

/-- Witness of C5: `claude:gone` is stored, no scanned file has that key, and
the other stored session `codex:b` still has its file. -/
theorem IndexAll_prunes_vanished_session_witness :
    (IndexAll toyLib sampleWorld goneDB (str "/c") (str "/x")).1.2 = none ∧
    sessionRows (IndexAll toyLib sampleWorld goneDB (str "/c") (str "/x")).2 (str "claude:gone") = [] ∧
    chunkRows (IndexAll toyLib sampleWorld goneDB (str "/c") (str "/x")).2 (str "claude:gone") = [] ∧
    (GetSessionByKey (IndexAll toyLib sampleWorld goneDB (str "/c") (str "/x")).2
      (str "claude:gone")).1 = .ok none ∧
    (IndexAll toyLib sampleWorld goneDB (str "/c") (str "/x")).1.1.Pruned = 1 :=
  have h := IndexAll_prunes_vanished_session toyLib sampleWorld goneDB (str "/c") (str "/x")
    [fiA, fiB] (str "claude:gone") rfl (by decide) (by decide) (by decide)
  ⟨by decide, h.1, h.2.1, h.2.2.1 (by decide), h.2.2.2.2.2.2.1 (by decide)⟩

/-- C6 (evaluation at the failing inputs).  The session `claude:a` is stored and
its file `/c/a.jsonl` is still returned by the scanner but can no longer be
opened: the run counts one error, deletes the session with its chunks and
reports `pruned = 1`.  Likewise the session `claude:e`, whose file is still
scanned and now parses to no chunk, is deleted and counted in `pruned`. -/
theorem IndexAll_prunes_session_of_scanned_file :
    (unreadableWorld.scan = .ok [fiA] ∧
      fileKey toyLib fiA (str "/c") (str "/x") = str "claude:a" ∧
      parseFails toyLib unreadableWorld (str "/c") (str "/x") fiA = true ∧
      (sessionRows (staleDB []) (str "claude:a")).length = 1 ∧
      (IndexAll toyLib unreadableWorld (staleDB []) (str "/c") (str "/x")).1
        = ({ Scanned := 1, Updated := 0, Skipped := 0, Pruned := 1, Errors := 1 }, none) ∧
      (IndexAll toyLib unreadableWorld (staleDB []) (str "/c") (str "/x")).2.sessions = [] ∧
      (IndexAll toyLib unreadableWorld (staleDB []) (str "/c") (str "/x")).2.chunks = []) ∧
    (emptiedWorld.scan = .ok [fiE] ∧
      fileKey toyLib fiE (str "/c") (str "/x") = str "claude:e" ∧
      parsesEmpty toyLib emptiedWorld (str "/c") (str "/x") fiE = true ∧
      (sessionRows emptiedDB (str "claude:e")).length = 1 ∧
      (IndexAll toyLib emptiedWorld emptiedDB (str "/c") (str "/x")).1
        = ({ Scanned := 1, Updated := 0, Skipped := 0, Pruned := 1, Errors := 0 }, none) ∧
      (IndexAll toyLib emptiedWorld emptiedDB (str "/c") (str "/x")).2.sessions = [] ∧
      (IndexAll toyLib emptiedWorld emptiedDB (str "/c") (str "/x")).2.chunks = []) := by
  decide

/-! ## Indexer: a failed session update (C7) -/

/-- C7 (counterexample).  The session `claude:a` is stored with three chunks;
its file changed; during the update the deletion is committed and the `INSERT`
of the fresh session row fails.  The update is counted as one error and the run
returns without failure, but the store no longer holds the session row and the
chunks it held before the update: it holds nothing under that key. -/
theorem failed_update_loses_old_rows :
    (indexFileOutcome toyLib sampleWorld (str "/c") (str "/x")
        (startState 2 (staleDB insertFails)) fiA).1 = .indexError ∧
    (IndexAll toyLib sampleWorld (staleDB insertFails) (str "/c") (str "/x")).1
      = ({ Scanned := 2, Updated := 1, Skipped := 0, Pruned := 0, Errors := 1 }, none) ∧
    sessionRows (staleDB insertFails) (str "claude:a") = [oldSession "claude:a" 1600000000 99] ∧
    (chunkRows (staleDB insertFails) (str "claude:a")).length = 3 ∧
    sessionRows (IndexAll toyLib sampleWorld (staleDB insertFails) (str "/c") (str "/x")).2
      (str "claude:a") = [] ∧
    chunkRows (IndexAll toyLib sampleWorld (staleDB insertFails) (str "/c") (str "/x")).2
      (str "claude:a") = [] := by
  decide

/-- C7 (amended): a session update is two transactions, each all-or-nothing.
When a write of the update fails, `errors` grows by exactly one and no other
counter changes, and the tables are either unchanged (the deletion failed) or
have lost exactly the session row and the chunks of that session key (the
deletion was committed, the insertion rolled back): no row of the fresh parse
is stored and the rows of the other sessions are untouched. -/
theorem failed_update_is_counted_and_leaves_no_partial_session (lib : GoLib) (w : World)
    (cr xr : Bytes) (st : RunState) (fi : FileInfo)
    (h : (indexFileOutcome lib w cr xr st fi).1 = .indexError) :
    ∃ r, parseFile lib w fi cr xr = (some r, none) ∧
      (indexFile lib w cr xr st fi).stats = { st.stats with Errors := st.stats.Errors + 1 } ∧
      (((indexFile lib w cr xr st fi).db.sessions = st.db.sessions ∧
          (indexFile lib w cr xr st fi).db.chunks = st.db.chunks) ∨
        ((indexFile lib w cr xr st fi).db.sessions
            = st.db.sessions.filter (fun s => s.SessionKey ≠ r.Meta.SessionKey) ∧
          (indexFile lib w cr xr st fi).db.chunks
            = st.db.chunks.filter (fun c => c.SessionKey ≠ r.Meta.SessionKey))) := by
  have hstats := indexFile_update_error lib w cr xr st fi (Or.inr h)
  unfold indexFile at hstats ⊢
  unfold indexFileOutcome at h hstats ⊢
  rcases hp : parseFile lib w fi cr xr with ⟨ro, eo⟩
  rw [hp] at h hstats
  cases eo with
  | some e => cases ro <;> simp at h
  | none =>
    cases ro with
    | none => simp at h
    | some r =>
      refine ⟨r, rfl, ?_⟩
      by_cases hz : r.Chunks.length = 0
      · simp [hz] at h
      · simp only [hz, if_false] at h hstats ⊢
        obtain ⟨t1, t2⟩ := needsUpdate_tables st.db r.Meta.SessionKey fi.Mtime fi.Size
        rcases hn : needsUpdate st.db r.Meta.SessionKey fi.Mtime fi.Size with ⟨res, d1⟩
        rw [hn] at h hstats t1 t2
        simp only at t1 t2
        cases res with
        | error e => simp at h
        | ok b =>
          cases b with
          | false => simp at h
          | true =>
            simp only at h hstats ⊢
            have herr : (indexSession lib d1 r).1 ≠ none := by
              rcases hi : indexSession lib d1 r with ⟨eo, d2⟩
              rw [hi] at h
              cases eo with
              | none => simp at h
              | some e => simp
            have hrows := indexSession_error lib d1 r herr
            rcases hi : indexSession lib d1 r with ⟨eo, d2⟩
            rw [hi] at h hstats hrows
            cases eo with
            | none => simp at h
            | some e =>
              simp only at hstats hrows ⊢
              refine ⟨hstats, ?_⟩
              rw [← t1, ← t2]
              exact hrows

/-- Witness of C7 (amended): the update of `claude:a` whose insertion fails. -/
theorem failed_update_is_counted_and_leaves_no_partial_session_witness :
    (indexFileOutcome toyLib sampleWorld (str "/c") (str "/x")
        (startState 2 (staleDB insertFails)) fiA).1 = .indexError ∧
    ∃ r, parseFile toyLib sampleWorld fiA (str "/c") (str "/x") = (some r, none) ∧
      (indexFile toyLib sampleWorld (str "/c") (str "/x") (startState 2 (staleDB insertFails))
          fiA).stats
        = { (startState 2 (staleDB insertFails)).stats with
            Errors := (startState 2 (staleDB insertFails)).stats.Errors + 1 } ∧
      (((indexFile toyLib sampleWorld (str "/c") (str "/x") (startState 2 (staleDB insertFails))
            fiA).db.sessions = (startState 2 (staleDB insertFails)).db.sessions ∧
          (indexFile toyLib sampleWorld (str "/c") (str "/x") (startState 2 (staleDB insertFails))
            fiA).db.chunks = (startState 2 (staleDB insertFails)).db.chunks) ∨
        ((indexFile toyLib sampleWorld (str "/c") (str "/x") (startState 2 (staleDB insertFails))
              fiA).db.sessions
            = (startState 2 (staleDB insertFails)).db.sessions.filter
                (fun s => s.SessionKey ≠ r.Meta.SessionKey) ∧
          (indexFile toyLib sampleWorld (str "/c") (str "/x") (startState 2 (staleDB insertFails))
              fiA).db.chunks
            = (startState 2 (staleDB insertFails)).db.chunks.filter
                (fun c => c.SessionKey ≠ r.Meta.SessionKey))) :=
  ⟨by decide,
    failed_update_is_counted_and_leaves_no_partial_session toyLib sampleWorld (str "/c") (str "/x")
      (startState 2 (staleDB insertFails)) fiA (by decide)⟩

/-! ## Indexer: one bad file never aborts the run (C8) -/

/-- C8: `IndexAll` fails only when the scan or the prune step fails; every
scanned file is counted exactly once, in `updated`, `skipped`, `errors` or as a
file without chunks; a file whose parse fails, or whose update fails in the
store, adds exactly one to `errors` and the loop goes on with the next file. -/
theorem IndexAll_accounts_every_file (lib : GoLib) (w : World) (db : DB) (cr xr : Bytes) :
    ((IndexAll lib w db cr xr).1.2 ≠ none →
      (∃ e, w.scan = .error e) ∨
      (∃ files, w.scan = .ok files ∧
        (pruneSessions w.mapOrder (indexLoop lib w cr xr db files).db
          (indexLoop lib w cr xr db files).seenKeys).1.2 ≠ none)) ∧
    (∀ files, w.scan = .ok files →
      (IndexAll lib w db cr xr).1.1.Scanned = files.length ∧
      (IndexAll lib w db cr xr).1.1.Scanned
        = (IndexAll lib w db cr xr).1.1.Updated + (IndexAll lib w db cr xr).1.1.Skipped
          + (IndexAll lib w db cr xr).1.1.Errors + (files.filter (parsesEmpty lib w cr xr)).length ∧
      (files.filter (parseFails lib w cr xr)).length ≤ (IndexAll lib w db cr xr).1.1.Errors) ∧
    (∀ st fi, parseFails lib w cr xr fi = true →
      indexFile lib w cr xr st fi
        = { st with stats := { st.stats with Errors := st.stats.Errors + 1 } }) ∧
    (∀ st fi, (indexFileOutcome lib w cr xr st fi).1 = .infoError ∨
        (indexFileOutcome lib w cr xr st fi).1 = .indexError →
      (indexFile lib w cr xr st fi).stats = { st.stats with Errors := st.stats.Errors + 1 }) := by
  refine ⟨?_, ?_, fun st fi h => (indexFile_stats lib w cr xr st fi).1 h,
    fun st fi h => indexFile_update_error lib w cr xr st fi h⟩
  · intro herr
    cases hs : w.scan with
    | error e => exact Or.inl ⟨e, rfl⟩
    | ok files =>
      right
      refine ⟨files, rfl, ?_⟩
      unfold IndexAll at herr
      rw [hs] at herr
      simp only at herr
      rcases hp : pruneSessions w.mapOrder (indexLoop lib w cr xr db files).db
        (indexLoop lib w cr xr db files).seenKeys with ⟨⟨n, eo⟩, d1⟩
      rw [hp] at herr
      cases eo with
      | none => simp at herr
      | some e => simp
  · intro files hs
    obtain ⟨g1, g2, g3, g4⟩ := foldl_indexFile_stats lib w cr xr files
      { stats := { Scanned := files.length, Updated := 0, Skipped := 0, Pruned := 0, Errors := 0 },
        seenKeys := [], db := db }
    have e1 : (indexLoop lib w cr xr db files).stats.Scanned = files.length := g1
    have e3 : (indexLoop lib w cr xr db files).stats.Updated
        + (indexLoop lib w cr xr db files).stats.Skipped
        + (indexLoop lib w cr xr db files).stats.Errors
        + (files.filter (parsesEmpty lib w cr xr)).length = files.length := by
      have := g3
      simpa [indexLoop] using this
    have e4 : (files.filter (parseFails lib w cr xr)).length
        ≤ (indexLoop lib w cr xr db files).stats.Errors := by
      have := g4
      simpa [indexLoop] using this
    unfold IndexAll
    rw [hs]
    simp only
    rcases hp : pruneSessions w.mapOrder (indexLoop lib w cr xr db files).db
      (indexLoop lib w cr xr db files).seenKeys with ⟨⟨n, eo⟩, d1⟩
    cases eo with
    | none => simp only; exact ⟨e1, by omega, e4⟩
    | some e => simp only; exact ⟨e1, by omega, e4⟩

/-- Witness of C8: four scanned files, one that cannot be opened and one
without chunks. -/
theorem IndexAll_accounts_every_file_witness :
    mixedWorld.scan = .ok [fiA, fiM, fiE, fiB] ∧
    (IndexAll toyLib mixedWorld emptyDB (str "/c") (str "/x")).1
      = ({ Scanned := 4, Updated := 2, Skipped := 0, Pruned := 0, Errors := 1 }, none) ∧
    ([fiA, fiM, fiE, fiB].filter (parsesEmpty toyLib mixedWorld (str "/c") (str "/x"))).length = 1 ∧
    (IndexAll toyLib mixedWorld emptyDB (str "/c") (str "/x")).1.1.Scanned
      = (IndexAll toyLib mixedWorld emptyDB (str "/c") (str "/x")).1.1.Updated
        + (IndexAll toyLib mixedWorld emptyDB (str "/c") (str "/x")).1.1.Skipped
        + (IndexAll toyLib mixedWorld emptyDB (str "/c") (str "/x")).1.1.Errors
        + ([fiA, fiM, fiE, fiB].filter (parsesEmpty toyLib mixedWorld (str "/c") (str "/x"))).length :=
  ⟨rfl, by decide, by decide,
    ((IndexAll_accounts_every_file toyLib mixedWorld emptyDB (str "/c") (str "/x")).2.1
      [fiA, fiM, fiE, fiB] rfl).2.1⟩

/-! ## Parsers: summary and timestamps of the session -/

theorem captureCwd_fields (cwd : Bytes) (st : ParseState) :
    (captureCwd cwd st).firstTS = st.firstTS ∧ (captureCwd cwd st).lastTS = st.lastTS ∧
      (captureCwd cwd st).summaryFromRecord = st.summaryFromRecord ∧
      (captureCwd cwd st).result.Chunks = st.result.Chunks ∧
      (captureCwd cwd st).chunkID = st.chunkID ∧ (captureCwd cwd st).lineNum = st.lineNum ∧
      (captureCwd cwd st).result.Meta.Summary = st.result.Meta.Summary := by
  unfold captureCwd; split <;> simp

theorem firstStamp_twice (f t : Time) :
    firstStamp f [t, t] = firstStamp f [t] := by
  simp only [firstStamp]
  by_cases h : f.IsZero = true
  · simp [h]
  · simp [h]

/-- What a line of a Claude log does to the loop variables `summaryFromRecord`,
`firstTS` and `lastTS`. -/
theorem claudeRecordStep_vars (lib : GoLib) (key : Bytes) (st : ParseState) (line : Bytes) :
    (claudeRecordStep lib key st line).summaryFromRecord
        = (claudeSummaryOf lib line).getD st.summaryFromRecord ∧
      (claudeRecordStep lib key st line).firstTS
        = firstStamp st.firstTS ((claudeEmits lib line).map (fun e => e.ts)) ∧
      (claudeRecordStep lib key st line).lastTS
        = lastStamp st.lastTS ((claudeEmits lib line).map (fun e => e.ts)) ∧
      (claudeRecordStep lib key st line).result.Meta.Summary = st.result.Meta.Summary := by
  unfold claudeRecordStep claudeEmits claudeSummaryOf
  by_cases h0 : line.length = 0
  · simp only [h0, if_true]; simp [firstStamp, lastStamp]
  · simp only [h0, if_false]
    cases hrec : lib.unmarshalClaudeRecord line with
    | none => simp [firstStamp, lastStamp]
    | some rec =>
      simp only
      obtain ⟨c1, c2, c3, _, _, _, c4⟩ := captureCwd_fields rec.Cwd st
      by_cases hs : rec.Typ = str "summary" ∧ rec.Summary ≠ []
      · rw [if_pos hs, if_pos hs, if_pos hs]; simp [firstStamp, lastStamp]
      · rw [if_neg hs, if_neg hs, if_neg hs]
        by_cases hm : rec.IsMeta = true
        · simp only [hm, if_true]; simp [firstStamp, lastStamp, c1, c2, c3, c4]
        · simp only [hm]
          by_cases ht : rec.Typ ≠ str "user" ∧ rec.Typ ≠ str "assistant"
          · rw [if_pos ht, if_pos ht]; simp [firstStamp, lastStamp, c1, c2, c3, c4]
          · rw [if_neg ht, if_neg ht]
            cases hmsg : lib.unmarshalClaudeMessage rec.Message with
            | none => simp [firstStamp, lastStamp, c1, c2, c3, c4]
            | some msg =>
              simp only []
              by_cases hT : (extractClaudeContent lib msg.Content).Text = []
              <;> by_cases hK : (extractClaudeContent lib msg.Content).Thinking = []
              · simp [hT, hK, firstStamp, lastStamp, c1, c2, c3, c4]
              · simp [hT, hK, firstStamp, lastStamp, c1, c2, c3, c4, emitText, emitThinking,
                  ParseState.emit, ParseState.stamp]
              · simp [hT, hK, firstStamp, lastStamp, c1, c2, c3, c4, emitText, emitThinking,
                  ParseState.emit, ParseState.stamp]
              · simp only [hT, hK, false_and, if_false, ne_eq, not_false_eq_true, if_true,
                  List.map_append, List.map_cons, List.map_nil, List.singleton_append,
                  firstStamp_twice]
                simp [firstStamp, lastStamp, c1, c2, c3, c4, emitText, emitThinking,
                  ParseState.emit, ParseState.stamp, hT, hK]
                by_cases hz : st.firstTS.IsZero = true
                · simp [hz]
                · simp [hz]

/-- What a line of a Codex log does to the loop variables `firstTS` and
`lastTS`. -/
theorem codexRecordStep_vars (lib : GoLib) (key : Bytes) (st : ParseState) (line : Bytes) :
    (codexRecordStep lib key st line).firstTS
        = firstStamp st.firstTS ((codexEmits lib line).map (fun e => e.ts)) ∧
      (codexRecordStep lib key st line).lastTS
        = lastStamp st.lastTS ((codexEmits lib line).map (fun e => e.ts)) ∧
      (codexRecordStep lib key st line).summaryFromRecord = st.summaryFromRecord ∧
      (codexRecordStep lib key st line).result.Meta.Summary = st.result.Meta.Summary := by
  unfold codexRecordStep codexEmits
  by_cases h0 : line.length = 0
  · simp only [h0, if_true]; simp [firstStamp, lastStamp]
  · simp only [h0, if_false]
    cases hrec : lib.unmarshalCodexRecord line with
    | none => simp [firstStamp, lastStamp]
    | some rec =>
      simp only
      by_cases h1 : rec.Typ = str "session_meta"
      · simp only [h1, if_true]
        split <;> simp [firstStamp, lastStamp]
      · simp only [h1, if_false]
        by_cases h2 : rec.Typ = str "event_msg"
        · simp only [h2, if_true]
          unfold codexEvent codexEventEmits
          cases hevt : lib.unmarshalCodexEventPayload rec.Payload with
          | none => simp [firstStamp, lastStamp]
          | some evt =>
            simp only
            by_cases e1 : evt.Typ = str "user_message"
            · simp only [e1, if_true]
              split <;> simp [firstStamp, lastStamp, ParseState.emit, ParseState.stamp]
            · simp only [e1, if_false]
              by_cases e2 : evt.Typ = str "agent_reasoning"
              · simp only [e2, if_true]
                split <;> simp [firstStamp, lastStamp, ParseState.emit, ParseState.stamp]
              · simp only [e2, if_false]; simp [firstStamp, lastStamp]
        · simp only [h2, if_false]
          by_cases h3 : rec.Typ = str "response_item"
          · simp only [h3, if_true]
            unfold codexResponse codexResponseEmits
            cases hitem : lib.unmarshalCodexResponsePayload rec.Payload with
            | none => simp [firstStamp, lastStamp]
            | some item =>
              simp only
              by_cases i1 : item.Typ ≠ str "message"
              · rw [if_pos i1, if_pos i1]; simp [firstStamp, lastStamp]
              · rw [if_neg i1, if_neg i1]
                split <;> simp [firstStamp, lastStamp, ParseState.emit, ParseState.stamp]
          · simp only [h3, if_false]; simp [firstStamp, lastStamp]

theorem firstStamp_append (a b : List Time) : ∀ f, firstStamp f (a ++ b) = firstStamp (firstStamp f a) b := by
  induction a with
  | nil => intro f; rfl
  | cons t ts ih => intro f; simp only [List.cons_append, firstStamp]; exact ih _

theorem lastStamp_append (a b : List Time) : ∀ l, lastStamp l (a ++ b) = lastStamp (lastStamp l a) b := by
  induction a with
  | nil => intro l; rfl
  | cons t ts ih => intro l; simp only [List.cons_append, lastStamp]; exact ih _

theorem getLast?_getD_cons {α : Type} (u : α) (rest : List α) (a b : α) :
    (u :: rest).getLast?.getD a = (u :: rest).getLast?.getD b := by
  cases h : (u :: rest).getLast? with
  | none => simp [List.getLast?_eq_none_iff] at h
  | some v => rfl

theorem lastStamp_eq (ts : List Time) : ∀ l, lastStamp l ts = ts.getLast?.getD l := by
  induction ts with
  | nil => intro l; rfl
  | cons t rest ih =>
    intro l
    simp only [lastStamp]
    rw [ih t]
    cases rest with
    | nil => simp
    | cons u rest2 =>
      rw [List.getLast?_cons_cons]
      exact getLast?_getD_cons u rest2 t l

/-- Once a non-zero instant is held, no later timestamp replaces it. -/
theorem firstStamp_of_nonzero (ts : List Time) : ∀ f, f.IsZero = false → firstStamp f ts = f := by
  induction ts with
  | nil => intro f _; rfl
  | cons t rest ih =>
    intro f hf
    simp only [firstStamp, hf, Bool.false_eq_true, if_false]
    exact ih f hf

/-- Starting from a zero instant, `firstStamp` ends with the first listed
timestamp that is not a zero instant, and with the last listed timestamp when
every one is a zero instant. -/
theorem firstStamp_eq (ts : List Time) : ∀ f, f.IsZero = true →
    firstStamp f ts = match ts.find? (fun t => !t.IsZero) with
      | some t => t
      | none => ts.getLast?.getD f := by
  induction ts with
  | nil => intro f _; rfl
  | cons t rest ih =>
    intro f hf
    simp only [firstStamp, hf, if_true]
    by_cases ht : t.IsZero = true
    · rw [ih t ht, List.find?_cons]
      simp only [ht, Bool.not_true]
      cases hfind : rest.find? (fun t => !t.IsZero) with
      | some u => rfl
      | none =>
        simp only
        cases rest with
        | nil => simp
        | cons u rest2 =>
          rw [List.getLast?_cons_cons]
          exact getLast?_getD_cons u rest2 t f
    · have ht' : t.IsZero = false := by simpa using ht
      rw [firstStamp_of_nonzero rest t ht', List.find?_cons]
      simp [ht']

theorem chunksOf_timestamps (key : Bytes) (ln : Nat) (es : List Emit) :
    ∀ id, (chunksOf key ln id es).map (fun c => c.Timestamp) = es.map (fun e => e.ts) := by
  induction es with
  | nil => intro id; simp [chunksOf]
  | cons e es ih => intro id; simp [chunksOf, ih (id + 1)]

theorem fileChunks_timestamps (key : Bytes) (emits : Bytes → List Emit) (tokens : List Bytes) :
    ∀ id ln, (fileChunks key emits id ln tokens).map (fun c => c.Timestamp)
      = (tokens.flatMap emits).map (fun e => e.ts) := by
  induction tokens with
  | nil => intro id ln; simp [fileChunks]
  | cons line rest ih =>
    intro id ln
    simp only [fileChunks, List.map_append, chunksOf_timestamps, ih, List.flatMap_cons]

/-- The loop variables of `ParseClaude` after the lines `tokens`. -/
theorem foldl_claudeStep_vars (lib : GoLib) (key : Bytes) (tokens : List Bytes) :
    ∀ st : ParseState,
      (tokens.foldl (claudeStep lib key) st).summaryFromRecord
          = ((tokens.filterMap (claudeSummaryOf lib)).getLast?).getD st.summaryFromRecord ∧
        (tokens.foldl (claudeStep lib key) st).firstTS
          = firstStamp st.firstTS ((tokens.flatMap (claudeEmits lib)).map (fun e => e.ts)) ∧
        (tokens.foldl (claudeStep lib key) st).lastTS
          = lastStamp st.lastTS ((tokens.flatMap (claudeEmits lib)).map (fun e => e.ts)) ∧
        (tokens.foldl (claudeStep lib key) st).result.Meta.Summary = st.result.Meta.Summary := by
  induction tokens with
  | nil => intro st; simp [firstStamp, lastStamp]
  | cons line rest ih =>
    intro st
    obtain ⟨h1, h2, h3, h4⟩ := claudeRecordStep_vars lib key { st with lineNum := st.lineNum + 1 } line
    obtain ⟨g1, g2, g3, g4⟩ := ih (claudeStep lib key st line)
    simp only [List.foldl_cons, List.flatMap_cons, List.map_append, firstStamp_append,
      lastStamp_append]
    refine ⟨?_, ?_, ?_, by rw [g4]; unfold claudeStep; rw [h4]⟩
    · rw [g1]
      unfold claudeStep
      rw [h1, List.filterMap_cons]
      cases hsum : claudeSummaryOf lib line with
      | none => simp
      | some s =>
        simp only [Option.getD_some]
        cases hl : (rest.filterMap (claudeSummaryOf lib)).getLast? with
        | none =>
          have : rest.filterMap (claudeSummaryOf lib) = [] := by
            simpa [List.getLast?_eq_none_iff] using hl
          simp [this]
        | some u =>
          have hne : rest.filterMap (claudeSummaryOf lib) ≠ [] := by
            intro h; rw [h] at hl; simp at hl
          rw [List.getLast?_cons, hl]
          simp
    · rw [g2]; unfold claudeStep; rw [h2]
    · rw [g3]; unfold claudeStep; rw [h3]

/-- The loop variables of `ParseCodex` after the lines `tokens`. -/
theorem foldl_codexStep_vars (lib : GoLib) (key : Bytes) (tokens : List Bytes) :
    ∀ st : ParseState,
      (tokens.foldl (codexStep lib key) st).firstTS
          = firstStamp st.firstTS ((tokens.flatMap (codexEmits lib)).map (fun e => e.ts)) ∧
        (tokens.foldl (codexStep lib key) st).lastTS
          = lastStamp st.lastTS ((tokens.flatMap (codexEmits lib)).map (fun e => e.ts)) ∧
        (tokens.foldl (codexStep lib key) st).result.Meta.Summary = st.result.Meta.Summary := by
  induction tokens with
  | nil => intro st; simp [firstStamp, lastStamp]
  | cons line rest ih =>
    intro st
    obtain ⟨h1, h2, _, h4⟩ := codexRecordStep_vars lib key { st with lineNum := st.lineNum + 1 } line
    obtain ⟨g1, g2, g4⟩ := ih (codexStep lib key st line)
    simp only [List.foldl_cons, List.flatMap_cons, List.map_append, firstStamp_append,
      lastStamp_append]
    refine ⟨?_, ?_, by rw [g4]; unfold codexStep; rw [h4]⟩
    · rw [g1]; unfold codexStep; rw [h1]
    · rw [g2]; unfold codexStep; rw [h2]

theorem claudeSummaryOf_ne_nil (lib : GoLib) (line s : Bytes)
    (h : claudeSummaryOf lib line = some s) : s ≠ [] := by
  unfold claudeSummaryOf at h
  split at h
  · cases h
  · split at h
    · cases h
    · split at h
      · rename_i hs
        cases h
        exact hs.2
      · cases h

/-- The session metadata `ParseClaude` computes at the end of the loop, in terms
of the chunks and of the summary records among the lines read. -/
theorem ParseClaude_meta (lib : GoLib) (w : World) (filePath root : Bytes) (data : FileData)
    (h : w.files filePath = some data) :
    ∃ r, ParseClaude lib w filePath root = (some r, (scanTokens data.lines).2) ∧
      r.Chunks = fileChunks (sessionKeyOf lib (str "claude") filePath root) (claudeEmits lib) 0 0
        (scanTokens data.lines).1 ∧
      r.Meta.CreatedAt = firstStamp Time.zero (r.Chunks.map (fun c => c.Timestamp)) ∧
      r.Meta.UpdatedAt = lastStamp Time.zero (r.Chunks.map (fun c => c.Timestamp)) ∧
      r.Meta.Summary
        = (match ((scanTokens data.lines).1.filterMap (claudeSummaryOf lib)).getLast? with
          | some s => s
          | none =>
            match r.Chunks with
            | c :: _ => summaryOfChunk c
            | [] => []) := by
  obtain ⟨g1, _, _, _⟩ := foldl_chunks (claudeStep_spec lib
    (sessionKeyOf lib (str "claude") filePath root)) (scanTokens data.lines).1
    (initState (sessionKeyOf lib (str "claude") filePath root) (str "claude") filePath data)
  obtain ⟨v1, v2, v3, v4⟩ := foldl_claudeStep_vars lib
    (sessionKeyOf lib (str "claude") filePath root) (scanTokens data.lines).1
    (initState (sessionKeyOf lib (str "claude") filePath root) (str "claude") filePath data)
  have hc : (claudeFinish ((scanTokens data.lines).1.foldl
      (claudeStep lib (sessionKeyOf lib (str "claude") filePath root))
      (initState (sessionKeyOf lib (str "claude") filePath root) (str "claude") filePath data))).Chunks
      = fileChunks (sessionKeyOf lib (str "claude") filePath root) (claudeEmits lib) 0 0
        (scanTokens data.lines).1 := by
    simpa [claudeFinish, initState] using g1
  refine ⟨claudeFinish ((scanTokens data.lines).1.foldl
      (claudeStep lib (sessionKeyOf lib (str "claude") filePath root))
      (initState (sessionKeyOf lib (str "claude") filePath root) (str "claude") filePath data)),
    by simp only [ParseClaude, h], hc, ?_, ?_, ?_⟩
  · rw [hc, fileChunks_timestamps]
    simpa [claudeFinish, initState] using v2
  · rw [hc, fileChunks_timestamps]
    simpa [claudeFinish, initState] using v3
  · rw [hc]
    have hc2 : ((scanTokens data.lines).1.foldl
        (claudeStep lib (sessionKeyOf lib (str "claude") filePath root))
        (initState (sessionKeyOf lib (str "claude") filePath root) (str "claude") filePath
          data)).result.Chunks
        = fileChunks (sessionKeyOf lib (str "claude") filePath root) (claudeEmits lib) 0 0
          (scanTokens data.lines).1 := by
      simpa [initState] using g1
    simp only [claudeFinish]
    rw [v1, v4, hc2]
    cases hl : ((scanTokens data.lines).1.filterMap (claudeSummaryOf lib)).getLast? with
    | none =>
      simp only [initState, Option.getD_none, ne_eq, not_true_eq_false, if_false]
    | some s =>
      have hmem := List.mem_of_getLast?_eq_some hl
      obtain ⟨line, _, hline⟩ := List.mem_filterMap.1 hmem
      have hne := claudeSummaryOf_ne_nil lib line s hline
      simp [hne]

/-- The session metadata `ParseCodex` computes at the end of the loop, in terms
of the chunks. -/
theorem ParseCodex_meta (lib : GoLib) (w : World) (filePath root : Bytes) (data : FileData)
    (h : w.files filePath = some data) :
    ∃ r, ParseCodex lib w filePath root = (some r, (scanTokens data.lines).2) ∧
      r.Chunks = fileChunks (sessionKeyOf lib (str "codex") filePath root) (codexEmits lib) 0 0
        (scanTokens data.lines).1 ∧
      r.Meta.CreatedAt = firstStamp Time.zero (r.Chunks.map (fun c => c.Timestamp)) ∧
      r.Meta.UpdatedAt = lastStamp Time.zero (r.Chunks.map (fun c => c.Timestamp)) ∧
      r.Meta.Summary
        = (match r.Chunks with
          | c :: _ => summaryOfChunk c
          | [] => []) := by
  obtain ⟨g1, _, _, _⟩ := foldl_chunks (codexStep_spec lib
    (sessionKeyOf lib (str "codex") filePath root)) (scanTokens data.lines).1
    (initState (sessionKeyOf lib (str "codex") filePath root) (str "codex") filePath data)
  obtain ⟨v2, v3, v4⟩ := foldl_codexStep_vars lib
    (sessionKeyOf lib (str "codex") filePath root) (scanTokens data.lines).1
    (initState (sessionKeyOf lib (str "codex") filePath root) (str "codex") filePath data)
  have hc : (codexFinish ((scanTokens data.lines).1.foldl
      (codexStep lib (sessionKeyOf lib (str "codex") filePath root))
      (initState (sessionKeyOf lib (str "codex") filePath root) (str "codex") filePath data))).Chunks
      = fileChunks (sessionKeyOf lib (str "codex") filePath root) (codexEmits lib) 0 0
        (scanTokens data.lines).1 := by
    simpa [codexFinish, initState] using g1
  refine ⟨codexFinish ((scanTokens data.lines).1.foldl
      (codexStep lib (sessionKeyOf lib (str "codex") filePath root))
      (initState (sessionKeyOf lib (str "codex") filePath root) (str "codex") filePath data)),
    by simp only [ParseCodex, h], hc, ?_, ?_, ?_⟩
  · rw [hc, fileChunks_timestamps]
    simpa [codexFinish, initState] using v2
  · rw [hc, fileChunks_timestamps]
    simpa [codexFinish, initState] using v3
  · rw [hc]
    have hc2 : ((scanTokens data.lines).1.foldl
        (codexStep lib (sessionKeyOf lib (str "codex") filePath root))
        (initState (sessionKeyOf lib (str "codex") filePath root) (str "codex") filePath
          data)).result.Chunks
        = fileChunks (sessionKeyOf lib (str "codex") filePath root) (codexEmits lib) 0 0
          (scanTokens data.lines).1 := by
      simpa [initState] using g1
    simp only [codexFinish]
    rw [v4, hc2]
    simp only [initState]

/-! ## Parsers: summary (C13, C14) and timestamps (C15, C16) -/

theorem scanTokens_of_short (lines : List Bytes) (h : ∀ l ∈ lines, l.length < maxLineSize) :
    scanTokens lines = (lines.map dropCR, none) := by
  induction lines with
  | nil => rfl
  | cons l rest ih =>
    have h1 : ¬ maxLineSize ≤ l.length := by
      have := h l (List.mem_cons_self _ _); omega
    have h2 := ih (fun x hx => h x (List.mem_cons_of_mem _ hx))
    simp only [scanTokens, h1, if_false, h2, List.map_cons]

/-- A line of `maxLineSize` bytes or more ends the scan: the tokens are the
lines before it and the scanner reports an error. -/
theorem scanTokens_overlong (pre post : List Bytes) (line : Bytes)
    (hpre : ∀ l ∈ pre, l.length < maxLineSize) (hlong : maxLineSize ≤ line.length) :
    scanTokens (pre ++ line :: post) = (pre.map dropCR, some "bufio.Scanner: token too long") := by
  induction pre with
  | nil => simp only [List.nil_append, scanTokens, hlong, if_true, List.map_nil]
  | cons l rest ih =>
    have h1 : ¬ maxLineSize ≤ l.length := by
      have := hpre l (List.mem_cons_self _ _); omega
    have h2 := ih (fun x hx => hpre x (List.mem_cons_of_mem _ hx))
    simp only [List.cons_append, scanTokens, h1, if_false, List.append_eq, h2, List.map_cons]

theorem claudeEmits_summary (lib : GoLib) (line : Bytes) (rec : claudeRecord)
    (h : lib.unmarshalClaudeRecord line = some rec) (ht : rec.Typ = str "summary") :
    claudeEmits lib line = [] := by
  have hne : rec.Typ ≠ str "user" ∧ rec.Typ ≠ str "assistant" := by
    rw [ht]; decide
  unfold claudeEmits
  by_cases h0 : line.length = 0
  · rw [if_pos h0]
  · rw [if_neg h0, h]
    simp only
    by_cases hs : rec.Typ = str "summary" ∧ rec.Summary ≠ []
    · rw [if_pos hs]
    · rw [if_neg hs]
      by_cases hm : rec.IsMeta = true
      · rw [if_pos hm]
      · rw [if_neg hm, if_pos hne]

theorem claudeSummaryOf_some (lib : GoLib) (line : Bytes) (rec : claudeRecord)
    (h0 : line.length ≠ 0)
    (h : lib.unmarshalClaudeRecord line = some rec) (ht : rec.Typ = str "summary")
    (hs : rec.Summary ≠ []) : claudeSummaryOf lib line = some rec.Summary := by
  unfold claudeSummaryOf
  rw [if_neg h0, h]
  simp only
  rw [if_pos ⟨ht, hs⟩]

theorem filterMap_none {α β : Type} (f : α → Option β) (l : List α)
    (h : ∀ x ∈ l, f x = none) : l.filterMap f = [] := by
  induction l with
  | nil => rfl
  | cons x rest ih =>
    rw [List.filterMap_cons, h x (List.mem_cons_self _ _)]
    exact ih (fun y hy => h y (List.mem_cons_of_mem _ hy))

/-- C13 (amended): when the lines read from a Claude log contain a record of
type `summary` with a non-empty summary, and no later line read is such a
record, the summary of the session `ParseClaude` returns is the summary text of
that record, unchanged, whatever the chunks are; a record of type `summary`
contributes no chunk to the chunk list.  The lines read are all the lines of
the file when none reaches the line ceiling of 10 MiB, and the lines before the
first line that reaches it otherwise. -/
theorem ParseClaude_summary_record_wins (lib : GoLib) (w : World) (filePath root : Bytes)
    (data : FileData) (pre post : List Bytes) (line : Bytes) (rec : claudeRecord)
    (h : w.files filePath = some data)
    (hlines : (scanTokens data.lines).1 = pre ++ line :: post)
    (h0 : line.length ≠ 0)
    (hrec : lib.unmarshalClaudeRecord line = some rec)
    (htyp : rec.Typ = str "summary") (hsum : rec.Summary ≠ [])
    (hlast : ∀ l ∈ post, claudeSummaryOf lib l = none) :
    (∃ r, ParseClaude lib w filePath root = (some r, (scanTokens data.lines).2) ∧
      r.Meta.Summary = rec.Summary ∧
      r.Chunks = fileChunks (sessionKeyOf lib (str "claude") filePath root) (claudeEmits lib) 0 0
        (pre ++ line :: post)) ∧
    (∀ l r, lib.unmarshalClaudeRecord l = some r → r.Typ = str "summary" →
      claudeEmits lib l = []) ∧
    ((∀ l ∈ data.lines, l.length < maxLineSize) →
      scanTokens data.lines = (data.lines.map dropCR, none)) ∧
    (∀ before long after, data.lines = before ++ long :: after →
      (∀ l ∈ before, l.length < maxLineSize) → maxLineSize ≤ long.length →
      scanTokens data.lines = (before.map dropCR, some "bufio.Scanner: token too long")) := by
  refine ⟨?_, fun l r hl hr => claudeEmits_summary lib l r hl hr,
    scanTokens_of_short data.lines,
    fun before long after hl hb hlong => by
      rw [hl]; exact scanTokens_overlong before after long hb hlong⟩
  obtain ⟨r, hr, hc, _, _, hs⟩ := ParseClaude_meta lib w filePath root data h
  refine ⟨r, hr, ?_, by rw [hc, hlines]⟩
  rw [hs, hlines, List.filterMap_append, List.filterMap_cons,
    claudeSummaryOf_some lib line rec h0 hrec htyp hsum, filterMap_none _ post hlast]
  simp

/-- Witness of C13: a log with a user record, a summary record and an assistant
record. -/
theorem ParseClaude_summary_record_wins_witness :
    ∃ r, ParseClaude jsonLib
        (logWorld "claude" [helloLine, summaryLine "Fix the parser", hiLine])
        (str "/r/s.jsonl") (str "/r") = (some r, none) ∧
      r.Meta.Summary = str "Fix the parser" ∧ r.Chunks.length = 2 := by
  obtain ⟨r, hr, hs, hc⟩ := (ParseClaude_summary_record_wins jsonLib
      (logWorld "claude" [helloLine, summaryLine "Fix the parser", hiLine])
      (str "/r/s.jsonl") (str "/r")
      (logFile [helloLine, summaryLine "Fix the parser", hiLine])
      [helloLine] [hiLine] (summaryLine "Fix the parser")
      { Typ := str "summary", IsMeta := false, Timestamp := [], Cwd := [], Message := [],
        Summary := str "Fix the parser" }
      (by decide) (by decide) (by decide) (by decide) (by decide) (by decide) (by decide)).1
  have he : (scanTokens (logFile [helloLine, summaryLine "Fix the parser", hiLine]).lines).2
      = none := by decide
  rw [he] at hr
  exact ⟨r, hr, hs, by rw [hc]; decide⟩

theorem summaryOfChunk_eq (c : Chunk) : summaryOfChunk c = collapseNewlines (c.Text.take 200) := by
  unfold summaryOfChunk
  split
  · rfl
  · rw [List.take_of_length_le (by omega)]

theorem collapseNewlines_length (s : Bytes) : (collapseNewlines s).length = s.length := by
  simp [collapseNewlines]

theorem collapseNewlines_no_newline (s : Bytes) : (10 : UInt8) ∉ collapseNewlines s := by
  unfold collapseNewlines
  intro hmem
  obtain ⟨b, _, hb⟩ := List.mem_map.1 hmem
  by_cases h : b = 10
  · rw [if_pos h] at hb; cases hb
  · rw [if_neg h] at hb; exact h hb

theorem decodeRunesAux_length (fuel : Nat) : ∀ s, (decodeRunesAux fuel s).length ≤ fuel := by
  induction fuel with
  | zero => intro s; simp [decodeRunesAux]
  | succ n ih =>
    intro s
    cases s with
    | nil => simp [decodeRunesAux]
    | cons b bs =>
      simp only [decodeRunesAux, List.length_cons]
      have := ih ((b :: bs).drop (decodeRune (b :: bs)).2)
      omega

/-- A string has at most as many runes as bytes. -/
theorem decodeRunes_length (s : Bytes) : (decodeRunes s).length ≤ s.length :=
  decodeRunesAux_length s.length s

theorem fileChunks_head_id (key : Bytes) (emits : Bytes → List Emit) (tokens : List Bytes)
    (c : Chunk) (rest : List Chunk) (h : fileChunks key emits 0 0 tokens = c :: rest) :
    c.ChunkID = 0 := by
  have hids := fileChunks_ids key emits tokens 0 0
  rw [h] at hids
  simp only [List.map_cons, List.length_cons] at hids
  rw [List.range'_succ] at hids
  exact (List.cons.inj hids).1

theorem summary_facts (c : Chunk) :
    (collapseNewlines (c.Text.take 200)).length ≤ 200 ∧
      (10 : UInt8) ∉ collapseNewlines (c.Text.take 200) ∧
      (decodeRunes (collapseNewlines (c.Text.take 200))).length ≤ 200 := by
  have h1 : (collapseNewlines (c.Text.take 200)).length ≤ 200 := by
    rw [collapseNewlines_length, List.length_take]; omega
  exact ⟨h1, collapseNewlines_no_newline _, Nat.le_trans (decodeRunes_length _) h1⟩

/-- C14 (amended): for a Claude log none of whose lines read is a summary
record with a non-empty summary, and for every Codex log, a parse with at
least one chunk has as summary the text of chunk 0 cut to its first 200 bytes,
with every line feed replaced by a space; so the summary has at most 200
bytes, hence at most 200 characters, and no line feed. -/
theorem summary_is_first_200_bytes_of_first_chunk (lib : GoLib) (w : World)
    (filePath root : Bytes) (data : FileData) (h : w.files filePath = some data) :
    ((∀ l ∈ (scanTokens data.lines).1, claudeSummaryOf lib l = none) →
      ∃ r, ParseClaude lib w filePath root = (some r, (scanTokens data.lines).2) ∧
        ∀ c rest, r.Chunks = c :: rest →
          c.ChunkID = 0 ∧ r.Meta.Summary = collapseNewlines (c.Text.take 200) ∧
          r.Meta.Summary.length ≤ 200 ∧ (10 : UInt8) ∉ r.Meta.Summary ∧
          (decodeRunes r.Meta.Summary).length ≤ 200) ∧
    (∃ r, ParseCodex lib w filePath root = (some r, (scanTokens data.lines).2) ∧
      ∀ c rest, r.Chunks = c :: rest →
        c.ChunkID = 0 ∧ r.Meta.Summary = collapseNewlines (c.Text.take 200) ∧
        r.Meta.Summary.length ≤ 200 ∧ (10 : UInt8) ∉ r.Meta.Summary ∧
        (decodeRunes r.Meta.Summary).length ≤ 200) := by
  constructor
  · intro hno
    obtain ⟨r, hr, hc, _, _, hs⟩ := ParseClaude_meta lib w filePath root data h
    refine ⟨r, hr, ?_⟩
    intro c rest hcr
    rw [filterMap_none _ _ hno] at hs
    rw [hcr] at hs
    simp only [List.getLast?_nil] at hs
    rw [summaryOfChunk_eq] at hs
    rw [hc] at hcr
    obtain ⟨f1, f2, f3⟩ := summary_facts c
    rw [hs]
    exact ⟨fileChunks_head_id _ _ _ c rest hcr, rfl, f1, f2, f3⟩
  · obtain ⟨r, hr, hc, _, _, hs⟩ := ParseCodex_meta lib w filePath root data h
    refine ⟨r, hr, ?_⟩
    intro c rest hcr
    rw [hcr] at hs
    simp only at hs
    rw [summaryOfChunk_eq] at hs
    rw [hc] at hcr
    obtain ⟨f1, f2, f3⟩ := summary_facts c
    rw [hs]
    exact ⟨fileChunks_head_id _ _ _ c rest hcr, rfl, f1, f2, f3⟩

/-- C14 (counterexample).  The only record of the log has as content a string
of 67 ideographs, 201 bytes without line feed: the text of chunk 0 has at most
200 characters, yet the summary is not that text: it is its first 200 bytes,
which end inside the last character. -/
theorem summary_cut_inside_character :
    claudeSummaryOf jsonLib ideographLine = none ∧
    (ParseClaude jsonLib (logWorld "claude" [ideographLine]) (str "/r/s.jsonl") (str "/r")).1.map
        (fun r => r.Chunks.map (fun c => c.Text)) = some [ideographs] ∧
    (decodeRunes ideographs).length = 67 ∧ ideographs.length = 201 ∧
    (10 : UInt8) ∉ ideographs ∧
    (ParseClaude jsonLib (logWorld "claude" [ideographLine]) (str "/r/s.jsonl") (str "/r")).1.map
        (fun r => r.Meta.Summary) = some (ideographs.take 200) ∧
    ideographs.take 200 ≠ ideographs ∧
    (decodeRunes (ideographs.take 200)).getLast? = some runeError := by
  decide

/-- Witness of C14 (amended): the log with the record `helloLine`. -/
theorem summary_is_first_200_bytes_of_first_chunk_witness :
    ∃ r, ParseClaude jsonLib (logWorld "claude" [helloLine]) (str "/r/s.jsonl") (str "/r")
        = (some r, none) ∧
      r.Chunks = [sampleChunk 0 Time.zero "user" "text" (str "hello world") 1] ∧
      r.Meta.Summary = str "hello world" := by
  obtain ⟨r, hr, hall⟩ := (summary_is_first_200_bytes_of_first_chunk jsonLib
      (logWorld "claude" [helloLine]) (str "/r/s.jsonl") (str "/r") (logFile [helloLine])
      (by decide)).1 (by decide)
  have he : (scanTokens (logFile [helloLine]).lines).2 = none := by decide
  rw [he] at hr
  have hch : (ParseClaude jsonLib (logWorld "claude" [helloLine]) (str "/r/s.jsonl")
      (str "/r")).1.map (fun r => r.Chunks)
      = some [sampleChunk 0 Time.zero "user" "text" (str "hello world") 1] := by decide
  rw [hr] at hch
  have hch2 : r.Chunks = [sampleChunk 0 Time.zero "user" "text" (str "hello world") 1] := by
    simpa using hch
  obtain ⟨_, hsum, _⟩ := hall _ _ hch2
  exact ⟨r, hr, hch2, hsum.trans (by decide)⟩

theorem firstStamp_after_zeros (pre : List Time) (hpre : ∀ x ∈ pre, x.IsZero = true) :
    ∀ f, f.IsZero = true → (firstStamp f pre).IsZero = true := by
  induction pre with
  | nil => intro f hf; exact hf
  | cons t rest ih =>
    intro f hf
    simp only [firstStamp, hf, if_true]
    exact ih (fun x hx => hpre x (List.mem_cons_of_mem _ hx)) t (hpre t (List.mem_cons_self _ _))

theorem firstStamp_first_nonzero (pre post : List Time) (t : Time)
    (hpre : ∀ x ∈ pre, x.IsZero = true) (ht : t.IsZero = false) :
    firstStamp Time.zero (pre ++ t :: post) = t := by
  rw [firstStamp_append]
  simp only [firstStamp]
  rw [if_pos (firstStamp_after_zeros pre hpre Time.zero rfl)]
  exact firstStamp_of_nonzero post t ht

/-- What `CreatedAt = firstStamp ...` and `UpdatedAt = lastStamp ...` say about a
non-empty chunk list. -/
theorem stamps_of_chunks (chunks : List Chunk) (created updated : Time)
    (hc : created = firstStamp Time.zero (chunks.map (fun c => c.Timestamp)))
    (hu : updated = lastStamp Time.zero (chunks.map (fun c => c.Timestamp)))
    (hne : chunks ≠ []) :
    chunks.getLast?.map (fun c => c.Timestamp) = some updated ∧
      (∀ pre c post, chunks = pre ++ c :: post → (∀ x ∈ pre, x.Timestamp.IsZero = true) →
        c.Timestamp.IsZero = false → created = c.Timestamp) ∧
      ((∀ c ∈ chunks, c.Timestamp.IsZero = true) → created.IsZero = true) := by
  refine ⟨?_, ?_, ?_⟩
  · rw [hu, lastStamp_eq]
    cases chunks with
    | nil => exact absurd rfl hne
    | cons c rest =>
      rw [← List.getLast?_map]
      cases hl : (List.map (fun c => c.Timestamp) (c :: rest)).getLast? with
      | none => simp [List.getLast?_eq_none_iff] at hl
      | some v => rfl
  · intro pre c post hsplit hpre hc0
    rw [hc, hsplit, List.map_append, List.map_cons]
    exact firstStamp_first_nonzero _ _ _
      (by intro x hx
          obtain ⟨y, hy, rfl⟩ := List.mem_map.1 hx
          exact hpre y hy) hc0
  · intro hall
    rw [hc]
    exact firstStamp_after_zeros _
      (by intro x hx
          obtain ⟨y, hy, rfl⟩ := List.mem_map.1 hx
          exact hall y hy) Time.zero rfl

/-- C15 (amended): for both parsers and every parse with at least one chunk,
`UpdatedAt` is the timestamp of the last chunk; `CreatedAt` is the timestamp of
the first chunk whose timestamp is not the zero instant (so that of chunk 0
when that one is not zero), and a zero instant when every chunk timestamp is
one. -/
theorem created_first_nonzero_updated_last (lib : GoLib) (w : World) (filePath root : Bytes)
    (data : FileData) (h : w.files filePath = some data) :
    (∃ r, ParseClaude lib w filePath root = (some r, (scanTokens data.lines).2) ∧
      (r.Chunks ≠ [] →
        r.Chunks.getLast?.map (fun c => c.Timestamp) = some r.Meta.UpdatedAt ∧
        (∀ pre c post, r.Chunks = pre ++ c :: post → (∀ x ∈ pre, x.Timestamp.IsZero = true) →
          c.Timestamp.IsZero = false → r.Meta.CreatedAt = c.Timestamp) ∧
        ((∀ c ∈ r.Chunks, c.Timestamp.IsZero = true) → r.Meta.CreatedAt.IsZero = true))) ∧
    (∃ r, ParseCodex lib w filePath root = (some r, (scanTokens data.lines).2) ∧
      (r.Chunks ≠ [] →
        r.Chunks.getLast?.map (fun c => c.Timestamp) = some r.Meta.UpdatedAt ∧
        (∀ pre c post, r.Chunks = pre ++ c :: post → (∀ x ∈ pre, x.Timestamp.IsZero = true) →
          c.Timestamp.IsZero = false → r.Meta.CreatedAt = c.Timestamp) ∧
        ((∀ c ∈ r.Chunks, c.Timestamp.IsZero = true) → r.Meta.CreatedAt.IsZero = true))) := by
  constructor
  · obtain ⟨r, hr, _, hc, hu, _⟩ := ParseClaude_meta lib w filePath root data h
    exact ⟨r, hr, stamps_of_chunks r.Chunks _ _ hc hu⟩
  · obtain ⟨r, hr, _, hc, hu, _⟩ := ParseCodex_meta lib w filePath root data h
    exact ⟨r, hr, stamps_of_chunks r.Chunks _ _ hc hu⟩

/-- C15 (counterexample).  The first record of the log has no timestamp, the
second has the timestamp `2024-01-01T00:00:00Z`; both produce a chunk.  Chunk 0
has the zero timestamp and `CreatedAt` is not that timestamp: it is the
timestamp of the second record. -/
theorem created_skips_zero_timestamp :
    (ParseClaude jsonLib (logWorld "claude" [helloLine, hiLine]) (str "/r/s.jsonl")
        (str "/r")).1.map (fun r => r.Chunks.map (fun c => c.Timestamp))
      = some [Time.zero, firstDay] ∧
    (ParseClaude jsonLib (logWorld "claude" [helloLine, hiLine]) (str "/r/s.jsonl")
        (str "/r")).1.map (fun r => r.Meta.CreatedAt) = some firstDay ∧
    (ParseClaude jsonLib (logWorld "claude" [helloLine, hiLine]) (str "/r/s.jsonl")
        (str "/r")).1.map (fun r => r.Meta.UpdatedAt) = some firstDay ∧
    firstDay ≠ Time.zero := by
  decide

/-- Witness of C15 (amended): the log of the counterexample. -/
theorem created_first_nonzero_updated_last_witness :
    ∃ r, ParseClaude jsonLib (logWorld "claude" [helloLine, hiLine]) (str "/r/s.jsonl") (str "/r")
        = (some r, none) ∧
      r.Chunks.map (fun c => c.Timestamp) = [Time.zero, firstDay] ∧
      r.Meta.UpdatedAt = firstDay := by
  obtain ⟨r, hr, hall⟩ := (created_first_nonzero_updated_last jsonLib
      (logWorld "claude" [helloLine, hiLine]) (str "/r/s.jsonl") (str "/r")
      (logFile [helloLine, hiLine]) (by decide)).1
  have he : (scanTokens (logFile [helloLine, hiLine]).lines).2 = none := by decide
  rw [he] at hr
  have hch : (ParseClaude jsonLib (logWorld "claude" [helloLine, hiLine]) (str "/r/s.jsonl")
      (str "/r")).1.map (fun r => r.Chunks)
      = some [sampleChunk 0 Time.zero "user" "text" (str "hello world") 1,
              sampleChunk 1 firstDay "assistant" "text" (str "hi") 2] := by decide
  rw [hr] at hch
  have hch2 : r.Chunks = [sampleChunk 0 Time.zero "user" "text" (str "hello world") 1,
      sampleChunk 1 firstDay "assistant" "text" (str "hi") 2] := by simpa using hch
  obtain ⟨hlast, _, _⟩ := hall (by rw [hch2]; simp)
  rw [hch2] at hlast
  refine ⟨r, hr, by rw [hch2]; rfl, ?_⟩
  have : some firstDay = some r.Meta.UpdatedAt := hlast
  exact (Option.some.inj this).symm

theorem Time.le_refl (t : Time) : Time.le t t := Or.inr ⟨rfl, Nat.le_refl _⟩

/-- With chunk timestamps that never decrease in file order and a first one
that is not zero, `CreatedAt` and `UpdatedAt` bound every chunk timestamp. -/
theorem stamps_bound_sorted (chunks : List Chunk) (created updated : Time)
    (hc : created = firstStamp Time.zero (chunks.map (fun c => c.Timestamp)))
    (hu : updated = lastStamp Time.zero (chunks.map (fun c => c.Timestamp)))
    (c0 : Chunk) (rest : List Chunk) (hsplit : chunks = c0 :: rest)
    (hz : c0.Timestamp.IsZero = false)
    (hsorted : (chunks.map (fun c => c.Timestamp)).Pairwise Time.le) :
    created = c0.Timestamp ∧ chunks.getLast?.map (fun c => c.Timestamp) = some updated ∧
      ∀ c ∈ chunks, Time.le created c.Timestamp ∧ Time.le c.Timestamp updated := by
  obtain ⟨hlast, hfirst, _⟩ := stamps_of_chunks chunks created updated hc hu
    (by rw [hsplit]; exact List.cons_ne_nil _ _)
  have hcreated : created = c0.Timestamp :=
    hfirst [] c0 rest hsplit (fun x hx => absurd hx (List.not_mem_nil x)) hz
  refine ⟨hcreated, hlast, ?_⟩
  intro c hmem
  constructor
  · rw [hcreated]
    rw [hsplit, List.map_cons, List.pairwise_cons] at hsorted
    rw [hsplit, List.mem_cons] at hmem
    rcases hmem with rfl | hmem
    · exact Time.le_refl _
    · exact hsorted.1 _ (List.mem_map_of_mem (fun c => c.Timestamp) hmem)
  · -- the last chunk
    have hne : chunks ≠ [] := by rw [hsplit]; exact List.cons_ne_nil _ _
    have hdl := List.dropLast_append_getLast hne
    have hl2 : chunks.getLast? = some (chunks.getLast hne) := List.getLast?_eq_getLast chunks hne
    rw [hl2] at hlast
    have hupd : updated = (chunks.getLast hne).Timestamp := by
      simpa using hlast.symm
    rw [hupd]
    rw [← hdl, List.map_append, List.pairwise_append] at hsorted
    rw [← hdl, List.mem_append] at hmem
    rcases hmem with hmem | hmem
    · exact hsorted.2.2 _ (List.mem_map_of_mem (fun c => c.Timestamp) hmem) _
        (by simp)
    · have : c = chunks.getLast hne := by simpa using hmem
      rw [this]; exact Time.le_refl _

/-- C16 (amended): `CreatedAt` and `UpdatedAt` are taken in file order, not by
comparison.  For both parsers, when the chunk timestamps never decrease in file
order and the timestamp of chunk 0 is not the zero instant, `CreatedAt` is the
timestamp of chunk 0, `UpdatedAt` that of the last chunk, and
`CreatedAt <= c.Timestamp <= UpdatedAt` for every chunk `c`. -/
theorem created_updated_bound_chunks_in_order (lib : GoLib) (w : World) (filePath root : Bytes)
    (data : FileData) (h : w.files filePath = some data) :
    (∃ r, ParseClaude lib w filePath root = (some r, (scanTokens data.lines).2) ∧
      ∀ c0 rest, r.Chunks = c0 :: rest → c0.Timestamp.IsZero = false →
        (r.Chunks.map (fun c => c.Timestamp)).Pairwise Time.le →
        r.Meta.CreatedAt = c0.Timestamp ∧
        r.Chunks.getLast?.map (fun c => c.Timestamp) = some r.Meta.UpdatedAt ∧
        ∀ c ∈ r.Chunks, Time.le r.Meta.CreatedAt c.Timestamp ∧
          Time.le c.Timestamp r.Meta.UpdatedAt) ∧
    (∃ r, ParseCodex lib w filePath root = (some r, (scanTokens data.lines).2) ∧
      ∀ c0 rest, r.Chunks = c0 :: rest → c0.Timestamp.IsZero = false →
        (r.Chunks.map (fun c => c.Timestamp)).Pairwise Time.le →
        r.Meta.CreatedAt = c0.Timestamp ∧
        r.Chunks.getLast?.map (fun c => c.Timestamp) = some r.Meta.UpdatedAt ∧
        ∀ c ∈ r.Chunks, Time.le r.Meta.CreatedAt c.Timestamp ∧
          Time.le c.Timestamp r.Meta.UpdatedAt) := by
  constructor
  · obtain ⟨r, hr, _, hc, hu, _⟩ := ParseClaude_meta lib w filePath root data h
    exact ⟨r, hr, fun c0 rest hs hz hp => stamps_bound_sorted r.Chunks _ _ hc hu c0 rest hs hz hp⟩
  · obtain ⟨r, hr, _, hc, hu, _⟩ := ParseCodex_meta lib w filePath root data h
    exact ⟨r, hr, fun c0 rest hs hz hp => stamps_bound_sorted r.Chunks _ _ hc hu c0 rest hs hz hp⟩

/-- C16 (counterexample).  The first record of the log is stamped
`2024-01-02T00:00:00Z`, the second `2024-01-01T00:00:00Z`.  `CreatedAt` is the
later instant and `UpdatedAt` the earlier one: `CreatedAt` is after the
timestamp of chunk 1, and `UpdatedAt` before the timestamp of chunk 0. -/
theorem created_after_a_chunk_out_of_order :
    (ParseClaude jsonLib (logWorld "claude" [secondDayLine, firstDayLine]) (str "/r/s.jsonl")
        (str "/r")).1.map (fun r => r.Chunks.map (fun c => c.Timestamp))
      = some [secondDay, firstDay] ∧
    (ParseClaude jsonLib (logWorld "claude" [secondDayLine, firstDayLine]) (str "/r/s.jsonl")
        (str "/r")).1.map (fun r => r.Meta.CreatedAt) = some secondDay ∧
    (ParseClaude jsonLib (logWorld "claude" [secondDayLine, firstDayLine]) (str "/r/s.jsonl")
        (str "/r")).1.map (fun r => r.Meta.UpdatedAt) = some firstDay ∧
    ¬ Time.le secondDay firstDay := by
  decide

/-- Witness of C16 (amended): a log stamped `2024-01-01` then `2024-01-02`. -/
theorem created_updated_bound_chunks_in_order_witness :
    ∃ r, ParseClaude jsonLib (logWorld "claude" [hiLine, secondDayLine]) (str "/r/s.jsonl")
        (str "/r") = (some r, none) ∧
      r.Meta.CreatedAt = firstDay ∧
      ∀ c ∈ r.Chunks, Time.le r.Meta.CreatedAt c.Timestamp ∧
        Time.le c.Timestamp r.Meta.UpdatedAt := by
  obtain ⟨r, hr, hall⟩ := (created_updated_bound_chunks_in_order jsonLib
      (logWorld "claude" [hiLine, secondDayLine]) (str "/r/s.jsonl") (str "/r")
      (logFile [hiLine, secondDayLine]) (by decide)).1
  have he : (scanTokens (logFile [hiLine, secondDayLine]).lines).2 = none := by decide
  rw [he] at hr
  have hch : (ParseClaude jsonLib (logWorld "claude" [hiLine, secondDayLine]) (str "/r/s.jsonl")
      (str "/r")).1.map (fun r => r.Chunks)
      = some [sampleChunk 0 firstDay "assistant" "text" (str "hi") 1,
              sampleChunk 1 secondDay "user" "text" (str "second day") 2] := by decide
  rw [hr] at hch
  have hch2 : r.Chunks = [sampleChunk 0 firstDay "assistant" "text" (str "hi") 1,
      sampleChunk 1 secondDay "user" "text" (str "second day") 2] := by simpa using hch
  obtain ⟨hcr, _, hb⟩ := hall _ _ hch2 (by decide) (by rw [hch2]; decide)
  exact ⟨r, hr, hcr.trans rfl, hb⟩

/-! ## Parsers: the chunks of a record (C11, C12) -/

theorem capText_eq_take (t : Bytes) : capText t = t.take 8192 := by
  unfold capText
  have hmax : maxTextSize = 8192 := by decide
  rw [hmax]
  split
  · rfl
  · rw [List.take_of_length_le (by omega)]

theorem fileChunks_length (key : Bytes) (emits : Bytes → List Emit) (tokens : List Bytes) :
    ∀ id ln, (fileChunks key emits id ln tokens).length = (tokens.flatMap emits).length := by
  induction tokens with
  | nil => intro id ln; simp [fileChunks]
  | cons line rest ih =>
    intro id ln
    simp only [fileChunks, List.length_append, chunksOf_length, ih, List.flatMap_cons]

theorem fileChunks_append (key : Bytes) (emits : Bytes → List Emit) (a b : List Bytes) :
    ∀ id ln, fileChunks key emits id ln (a ++ b)
      = fileChunks key emits id ln a
        ++ fileChunks key emits (id + (fileChunks key emits id ln a).length) (ln + a.length) b := by
  induction a with
  | nil => intro id ln; simp [fileChunks]
  | cons line rest ih =>
    intro id ln
    have e1 : id + (chunksOf key (ln + 1) id (emits line)
          ++ fileChunks key emits (id + (emits line).length) (ln + 1) rest).length
        = id + (emits line).length
          + (fileChunks key emits (id + (emits line).length) (ln + 1) rest).length := by
      rw [List.length_append, chunksOf_length]; omega
    have e2 : ln + (line :: rest).length = ln + 1 + rest.length := by
      rw [List.length_cons]; omega
    simp only [List.cons_append, fileChunks, List.append_eq]
    rw [ih, e1, e2, List.append_assoc]

theorem extractClaudeContent_blocks (lib : GoLib) (raw : Bytes) (blocks : List claudeContentBlock)
    (hstr : lib.unmarshalString raw = none) (hb : lib.unmarshalContentBlocks raw = some blocks) :
    extractClaudeContent lib raw
      = { Text := blockText lib (str "text") blocks,
          Thinking := blockText lib (str "thinking") blocks } := by
  unfold extractClaudeContent blockText
  rw [hstr, hb]

theorem extractClaudeContent_string (lib : GoLib) (raw s : Bytes)
    (hstr : lib.unmarshalString raw = some s) :
    extractClaudeContent lib raw = { Text := lib.trimSpace s, Thinking := [] } := by
  unfold extractClaudeContent
  rw [hstr]

/-- The chunks a line gives when it decodes to a `user` or `assistant` record
that is not flagged as metadata and whose message decodes. -/
theorem claudeEmits_message (lib : GoLib) (line : Bytes) (rec : claudeRecord)
    (msg : claudeMessage) (h0 : line.length ≠ 0)
    (hrec : lib.unmarshalClaudeRecord line = some rec)
    (htyp : rec.Typ = str "user" ∨ rec.Typ = str "assistant") (hmeta : rec.IsMeta = false)
    (hmsg : lib.unmarshalClaudeMessage rec.Message = some msg) :
    claudeEmits lib line
      = (if (extractClaudeContent lib msg.Content).Thinking ≠ [] then
          [{ ts := parseTimestamp lib rec.Timestamp, role := rec.Typ, kind := str "thinking",
             text := (extractClaudeContent lib msg.Content).Thinking }]
         else []) ++
        (if (extractClaudeContent lib msg.Content).Text ≠ [] then
          [{ ts := parseTimestamp lib rec.Timestamp, role := rec.Typ, kind := str "text",
             text := (extractClaudeContent lib msg.Content).Text }]
         else []) := by
  have hns : ¬ (rec.Typ = str "summary" ∧ rec.Summary ≠ []) := by
    rintro ⟨hs, _⟩
    rcases htyp with h | h
    · rw [h] at hs; exact absurd hs (by decide)
    · rw [h] at hs; exact absurd hs (by decide)
  have hnt : ¬ (rec.Typ ≠ str "user" ∧ rec.Typ ≠ str "assistant") := by
    rintro ⟨h1, h2⟩
    rcases htyp with h | h
    · exact h1 h
    · exact h2 h
  unfold claudeEmits
  rw [if_neg h0, hrec]
  simp only
  rw [if_neg hns, hmeta, if_neg (by simp), if_neg hnt, hmsg]

theorem claudeSummaryOf_message (lib : GoLib) (line : Bytes) (rec : claudeRecord)
    (hrec : lib.unmarshalClaudeRecord line = some rec)
    (htyp : rec.Typ = str "user" ∨ rec.Typ = str "assistant") :
    claudeSummaryOf lib line = none := by
  have hns : ¬ (rec.Typ = str "summary" ∧ rec.Summary ≠ []) := by
    rintro ⟨hs, _⟩
    rcases htyp with h | h
    · rw [h] at hs; exact absurd hs (by decide)
    · rw [h] at hs; exact absurd hs (by decide)
  unfold claudeSummaryOf
  split
  · rfl
  · rw [hrec]
    simp only
    rw [if_neg hns]

/-- C11 (amended): a line read from a Claude log that decodes to a `user` or
`assistant` record not flagged as metadata, whose content is a block list for
which the newline-joined non-empty thinking blocks, trimmed as a whole, are
not empty, and likewise the text blocks, gives exactly two consecutive chunks:
a chunk of kind `thinking` then a chunk of kind `text`, with ids `k` and
`k + 1` (`k` the number of chunks of the lines before), the type of the record
as role, its timestamp and its line number; the text of each is the joined
and trimmed text of its blocks, cut to its first 8192 bytes. -/
theorem thinking_chunk_then_text_chunk (lib : GoLib) (w : World) (filePath root : Bytes)
    (data : FileData) (pre post : List Bytes) (line : Bytes) (rec : claudeRecord)
    (msg : claudeMessage) (blocks : List claudeContentBlock)
    (h : w.files filePath = some data)
    (hlines : (scanTokens data.lines).1 = pre ++ line :: post)
    (h0 : line.length ≠ 0)
    (hrec : lib.unmarshalClaudeRecord line = some rec)
    (htyp : rec.Typ = str "user" ∨ rec.Typ = str "assistant") (hmeta : rec.IsMeta = false)
    (hmsg : lib.unmarshalClaudeMessage rec.Message = some msg)
    (hstr : lib.unmarshalString msg.Content = none)
    (hblocks : lib.unmarshalContentBlocks msg.Content = some blocks)
    (hthink : blockText lib (str "thinking") blocks ≠ [])
    (htext : blockText lib (str "text") blocks ≠ []) :
    ∃ r, ParseClaude lib w filePath root = (some r, (scanTokens data.lines).2) ∧
      r.Chunks
        = fileChunks (sessionKeyOf lib (str "claude") filePath root) (claudeEmits lib) 0 0 pre
          ++ [{ SessionKey := sessionKeyOf lib (str "claude") filePath root,
                ChunkID := (fileChunks (sessionKeyOf lib (str "claude") filePath root)
                  (claudeEmits lib) 0 0 pre).length,
                Timestamp := parseTimestamp lib rec.Timestamp, Role := rec.Typ,
                Kind := str "thinking",
                Text := (blockText lib (str "thinking") blocks).take 8192,
                LineNumber := pre.length + 1 },
              { SessionKey := sessionKeyOf lib (str "claude") filePath root,
                ChunkID := (fileChunks (sessionKeyOf lib (str "claude") filePath root)
                  (claudeEmits lib) 0 0 pre).length + 1,
                Timestamp := parseTimestamp lib rec.Timestamp, Role := rec.Typ,
                Kind := str "text",
                Text := (blockText lib (str "text") blocks).take 8192,
                LineNumber := pre.length + 1 }]
          ++ fileChunks (sessionKeyOf lib (str "claude") filePath root) (claudeEmits lib)
              ((fileChunks (sessionKeyOf lib (str "claude") filePath root)
                  (claudeEmits lib) 0 0 pre).length + 2) (pre.length + 1) post := by
  obtain ⟨r, hr, hc, _⟩ := ParseClaude_meta lib w filePath root data h
  refine ⟨r, hr, ?_⟩
  have hem := claudeEmits_message lib line rec msg h0 hrec htyp hmeta hmsg
  rw [extractClaudeContent_blocks lib msg.Content blocks hstr hblocks] at hem
  simp only [ne_eq, hthink, htext, not_false_eq_true, if_true] at hem
  rw [hc, hlines, fileChunks_append, fileChunks, hem]
  simp only [chunksOf, capText_eq_take, List.length_cons, List.length_nil, List.append_assoc,
    Nat.zero_add, List.cons_append, List.nil_append, List.singleton_append]

theorem longText_ne_nil : longText ≠ [] := by
  unfold longText; rw [List.replicate_succ]; exact List.cons_ne_nil _ _

theorem longBlocks_thinking : ([{ Typ := str "thinking", Text := longText },
      { Typ := str "text", Text := str "a1" }] : List claudeContentBlock).filter
      (fun b => b.Text ≠ [] ∧ b.Typ = str "thinking")
      = [{ Typ := str "thinking", Text := longText }] := by
  have h1 : decide (({ Typ := str "thinking", Text := longText } : claudeContentBlock).Text ≠ []
      ∧ ({ Typ := str "thinking", Text := longText } : claudeContentBlock).Typ = str "thinking")
      = true := by
    simp [longText_ne_nil]
  have h2 : ¬ decide (({ Typ := str "text", Text := str "a1" } : claudeContentBlock).Text ≠ []
      ∧ ({ Typ := str "text", Text := str "a1" } : claudeContentBlock).Typ = str "thinking")
      = true := by
    decide
  rw [List.filter_cons, List.filter_cons, List.filter_nil, if_pos h1, if_neg h2]

theorem longBlocks_text : ([{ Typ := str "thinking", Text := longText },
      { Typ := str "text", Text := str "a1" }] : List claudeContentBlock).filter
      (fun b => b.Text ≠ [] ∧ b.Typ = str "text")
      = [{ Typ := str "text", Text := str "a1" }] := by
  have h1 : ¬ decide (({ Typ := str "thinking", Text := longText } : claudeContentBlock).Text ≠ []
      ∧ ({ Typ := str "thinking", Text := longText } : claudeContentBlock).Typ = str "text")
      = true := by
    have : str "thinking" ≠ str "text" := by decide
    simp [this]
  have h2 : decide (({ Typ := str "text", Text := str "a1" } : claudeContentBlock).Text ≠ []
      ∧ ({ Typ := str "text", Text := str "a1" } : claudeContentBlock).Typ = str "text")
      = true := by
    decide
  rw [List.filter_cons, List.filter_cons, List.filter_nil, if_neg h1, if_pos h2]

theorem joinLines_longText : joinLines [longText] = longText := by
  unfold joinLines
  simp [List.intercalate]

theorem trimAscii_longText : trimAscii longText = longText := by
  have hd : ∀ n, (List.replicate (n + 1) (97 : UInt8)).dropWhile
      (fun b => b ∈ [9, 10, 11, 12, 13, 32]) = List.replicate (n + 1) 97 := by
    intro n
    rw [List.replicate_succ, List.dropWhile_cons_of_neg (by decide)]
  unfold trimAscii longText
  rw [hd 8192, List.reverse_replicate, hd 8192, List.reverse_replicate]

theorem blockText_long :
    blockText longLib (str "thinking")
        [{ Typ := str "thinking", Text := longText }, { Typ := str "text", Text := str "a1" }]
      = longText ∧
    blockText longLib (str "text")
        [{ Typ := str "thinking", Text := longText }, { Typ := str "text", Text := str "a1" }]
      = str "a1" := by
  have e3 : longLib.trimSpace = trimAscii := rfl
  constructor
  · unfold blockText
    rw [longBlocks_thinking, e3, List.map_cons, List.map_nil, joinLines_longText, trimAscii_longText]
  · unfold blockText
    rw [longBlocks_text, e3]
    decide
theorem longLine_length : longLine.length < maxLineSize := by
  have h1 : (str "[\x7b\"type\":\"thinking\",\"text\":\"").length ≤ 100 := by decide
  have h2 : (str "\"\x7d,\x7b\"type\":\"text\",\"text\":\"a1\"\x7d]").length ≤ 100 := by decide
  have h3 : (str "\x7b\"role\":\"assistant\",\"content\":").length ≤ 100 := by decide
  have h4 : (str "\x7b\"type\":\"assistant\",\"message\":").length ≤ 100 := by decide
  have h5 : (str "\x7d").length = 1 := by decide
  have hm : maxLineSize = 10485760 := by decide
  simp only [longLine, longMessage, longContent, longText, List.length_append,
    List.length_replicate, h5, hm]
  omega

theorem longLine_dropCR : dropCR longLine = longLine := by
  unfold dropCR
  have hl : longLine.getLast? = some 125 := by
    unfold longLine
    rw [List.getLast?_append_of_ne_nil _ (by decide)]
    decide
  rw [hl, if_neg (by decide)]

theorem longLine_tokens : scanTokens (logFile [longLine]).lines = ([longLine], none) := by
  have h := longLine_length
  simp only [logFile, scanTokens, longLine_dropCR]
  rw [if_neg (by omega)]

theorem longLib_record : longLib.unmarshalClaudeRecord longLine
    = some { Typ := str "assistant", IsMeta := false, Timestamp := [], Cwd := [],
             Message := longMessage, Summary := [] } := by
  show (if longLine = longLine then _ else _) = _
  rw [if_pos rfl]

theorem longLib_message : longLib.unmarshalClaudeMessage longMessage
    = some { Role := str "assistant", Content := longContent } := by
  show (if longMessage = longMessage then _ else _) = _
  rw [if_pos rfl]

theorem longLib_blocks : longLib.unmarshalContentBlocks longContent
    = some [{ Typ := str "thinking", Text := longText }, { Typ := str "text", Text := str "a1" }] := by
  show (if longContent = longContent then _ else _) = _
  rw [if_pos rfl]

theorem longLib_string (raw : Bytes) : longLib.unmarshalString raw = none := rfl
theorem logWorld_files (source : String) (lines : List Bytes) :
    (logWorld source lines).files (str "/r/s.jsonl") = some (logFile lines) := by
  show (if str "/r/s.jsonl" = str "/r/s.jsonl" then some (logFile lines) else none) = _
  rw [if_pos rfl]

/-- An assistant record whose thinking block holds 8193 bytes: the thinking
chunk holds 8192 of them. -/
theorem long_thinking_block_cut :
    ∃ r, ParseClaude longLib (logWorld "claude" [longLine]) (str "/r/s.jsonl") (str "/r")
        = (some r, none) ∧
      (blockText longLib (str "thinking")
        [{ Typ := str "thinking", Text := longText }, { Typ := str "text", Text := str "a1" }]).length
        = 8193 ∧
      r.Chunks.map (fun c => (c.Kind, c.Text.length))
        = [(str "thinking", 8192), (str "text", 2)] := by
  obtain ⟨r, hr, hc, _⟩ := ParseClaude_meta longLib (logWorld "claude" [longLine])
    (str "/r/s.jsonl") (str "/r") (logFile [longLine]) (logWorld_files _ _)
  rw [longLine_tokens] at hr hc
  simp only at hr hc
  have h0 : longLine.length ≠ 0 := by
    unfold longLine
    rw [List.length_append, List.length_append]
    have : (str "\x7d").length = 1 := by decide
    omega
  have hem := claudeEmits_message longLib longLine
    { Typ := str "assistant", IsMeta := false, Timestamp := [], Cwd := [],
      Message := longMessage, Summary := [] }
    { Role := str "assistant", Content := longContent } h0
    longLib_record (Or.inr rfl) rfl longLib_message
  rw [extractClaudeContent_blocks longLib longContent
    [{ Typ := str "thinking", Text := longText }, { Typ := str "text", Text := str "a1" }]
    (longLib_string _) longLib_blocks] at hem
  simp only at hem
  rw [blockText_long.1, blockText_long.2] at hem
  rw [if_pos longText_ne_nil, if_pos (by decide)] at hem
  refine ⟨r, hr, ?_, ?_⟩
  · rw [blockText_long.1]; unfold longText; rw [List.length_replicate]
  · rw [hc]
    simp only [fileChunks, hem, chunksOf, capText_eq_take, List.append_nil, List.singleton_append,
      List.map_cons, List.map_nil, List.length_take, longText, List.length_replicate]
    decide

/-- C11 (counterexample).  Three records whose content is a block list with a
non-empty thinking block and a non-empty text block: a `user` record flagged
`"isMeta":true` gives no chunk; an `assistant` record whose thinking block
holds one space gives the text chunk only; an `assistant` record whose thinking
block holds 8193 bytes gives a thinking chunk with 8192 bytes of text, not the
text of the block. -/
theorem block_record_without_two_chunks :
    ((jsonLib.unmarshalClaudeRecord metaBlocksLine).map (fun r => (r.Typ, r.IsMeta))
        = some (str "user", true) ∧
      jsonLib.unmarshalContentBlocks (jsonBlocks [("thinking", str "t1"), ("text", str "a1")])
        = some [{ Typ := str "thinking", Text := str "t1" }, { Typ := str "text", Text := str "a1" }] ∧
      (ParseClaude jsonLib (logWorld "claude" [metaBlocksLine]) (str "/r/s.jsonl")
        (str "/r")).1.map (fun r => r.Chunks) = some []) ∧
    ((jsonLib.unmarshalClaudeRecord blankThinkingLine).map (fun r => (r.Typ, r.IsMeta))
        = some (str "assistant", false) ∧
      jsonLib.unmarshalContentBlocks (jsonBlocks [("thinking", str " "), ("text", str "a1")])
        = some [{ Typ := str "thinking", Text := str " " }, { Typ := str "text", Text := str "a1" }] ∧
      (ParseClaude jsonLib (logWorld "claude" [blankThinkingLine]) (str "/r/s.jsonl")
        (str "/r")).1.map (fun r => r.Chunks)
        = some [sampleChunk 0 Time.zero "assistant" "text" (str "a1") 1]) ∧
    (∃ r, ParseClaude longLib (logWorld "claude" [longLine]) (str "/r/s.jsonl") (str "/r")
        = (some r, none) ∧
      (blockText longLib (str "thinking")
        [{ Typ := str "thinking", Text := longText }, { Typ := str "text", Text := str "a1" }]).length
        = 8193 ∧
      r.Chunks.map (fun c => (c.Kind, c.Text.length))
        = [(str "thinking", 8192), (str "text", 2)]) :=
  ⟨by decide, by decide, long_thinking_block_cut⟩

/-- Witness of C11 (amended): the log with the record `blocksLine`. -/
theorem thinking_chunk_then_text_chunk_witness :
    ∃ r, ParseClaude jsonLib (logWorld "claude" [blocksLine]) (str "/r/s.jsonl") (str "/r")
        = (some r, none) ∧
      r.Chunks = [sampleChunk 0 Time.zero "assistant" "thinking" (str "t1") 1,
                  sampleChunk 1 Time.zero "assistant" "text" (str "a1") 1] := by
  obtain ⟨r, hr, hc⟩ := thinking_chunk_then_text_chunk jsonLib
      (logWorld "claude" [blocksLine]) (str "/r/s.jsonl") (str "/r") (logFile [blocksLine])
      [] [] blocksLine
      (claudeRec "assistant" false "" ""
        (jsonMessage "assistant" (jsonBlocks [("thinking", str "t1"), ("text", str "a1")])))
      { Role := str "assistant",
        Content := jsonBlocks [("thinking", str "t1"), ("text", str "a1")] }
      [{ Typ := str "thinking", Text := str "t1" }, { Typ := str "text", Text := str "a1" }]
      (by decide) (by decide) (by decide) (by decide) (by decide) (by decide) (by decide)
      (by decide) (by decide) (by decide) (by decide)
  have he : (scanTokens (logFile [blocksLine]).lines).2 = none := by decide
  rw [he] at hr
  exact ⟨r, hr, hc.trans (by decide)⟩

theorem collapseNewlines_of_no_newline (s : Bytes) (h : (10 : UInt8) ∉ s) :
    collapseNewlines s = s := by
  unfold collapseNewlines
  induction s with
  | nil => rfl
  | cons b bs ih =>
    have hb : b ≠ 10 := fun e => h (by rw [e]; exact List.mem_cons_self _ _)
    have hbs : (10 : UInt8) ∉ bs := fun e => h (List.mem_cons_of_mem _ e)
    rw [List.map_cons, if_neg hb, ih hbs]

/-- C12 (amended): a Claude log read as the single line of a `user` or
`assistant` record that is not flagged as metadata and whose content is a JSON
string with non-empty trimmed value `t`, `t` at most 200 bytes long and
without line feed, parses without error to exactly one chunk, with id 0, the
record's type as role, its timestamp, kind `text`, text `t` and line number 1,
and the summary of the session is `t`. -/
theorem single_string_record_one_chunk (lib : GoLib) (w : World) (filePath root : Bytes)
    (data : FileData) (line : Bytes) (rec : claudeRecord) (msg : claudeMessage) (s : Bytes)
    (h : w.files filePath = some data)
    (hlines : scanTokens data.lines = ([line], none))
    (h0 : line.length ≠ 0)
    (hrec : lib.unmarshalClaudeRecord line = some rec)
    (htyp : rec.Typ = str "user" ∨ rec.Typ = str "assistant") (hmeta : rec.IsMeta = false)
    (hmsg : lib.unmarshalClaudeMessage rec.Message = some msg)
    (hstr : lib.unmarshalString msg.Content = some s)
    (hne : lib.trimSpace s ≠ []) (hlen : (lib.trimSpace s).length ≤ 200)
    (hnl : (10 : UInt8) ∉ lib.trimSpace s) :
    ∃ r, ParseClaude lib w filePath root = (some r, none) ∧
      r.Chunks = [{ SessionKey := sessionKeyOf lib (str "claude") filePath root, ChunkID := 0,
                    Timestamp := parseTimestamp lib rec.Timestamp, Role := rec.Typ,
                    Kind := str "text", Text := lib.trimSpace s, LineNumber := 1 }] ∧
      r.Meta.Summary = lib.trimSpace s := by
  obtain ⟨r, hr, hc, _, _, hs⟩ := ParseClaude_meta lib w filePath root data h
  rw [hlines] at hr hc hs
  simp only at hr hc hs
  have hem := claudeEmits_message lib line rec msg h0 hrec htyp hmeta hmsg
  rw [extractClaudeContent_string lib msg.Content s hstr] at hem
  simp only [ne_eq, not_true_eq_false, if_false, hne, not_false_eq_true, if_true,
    List.nil_append] at hem
  have htake : (lib.trimSpace s).take 8192 = lib.trimSpace s :=
    List.take_of_length_le (by omega)
  have hchunks : r.Chunks
      = [{ SessionKey := sessionKeyOf lib (str "claude") filePath root, ChunkID := 0,
           Timestamp := parseTimestamp lib rec.Timestamp, Role := rec.Typ,
           Kind := str "text", Text := lib.trimSpace s, LineNumber := 1 }] := by
    rw [hc]
    simp only [fileChunks, hem, chunksOf, capText_eq_take, htake, List.append_nil, Nat.zero_add]
  refine ⟨r, hr, hchunks, ?_⟩
  rw [hs, List.filterMap_cons, claudeSummaryOf_message lib line rec hrec htyp, hchunks]
  simp only [List.filterMap_nil, List.getLast?_nil]
  rw [summaryOfChunk_eq]
  simp only
  rw [List.take_of_length_le (by omega), collapseNewlines_of_no_newline _ hnl]

/-- C12 (counterexample).  A log whose single record is `helloLine` flagged
`"isMeta":true` parses to no chunk and an empty summary; a log whose single
record has as content a string of 67 ideographs (67 characters, 201 bytes, no
line feed) parses to one chunk with that text, and its summary is not that
text: it is its first 200 bytes. -/
theorem single_string_record_other_outcome :
    ((jsonLib.unmarshalClaudeRecord metaHelloLine).map (fun r => (r.Typ, r.IsMeta))
        = some (str "user", true) ∧
      (ParseClaude jsonLib (logWorld "claude" [metaHelloLine]) (str "/r/s.jsonl")
        (str "/r")).1.map (fun r => (r.Chunks, r.Meta.Summary)) = some ([], [])) ∧
    ((jsonLib.unmarshalClaudeRecord ideographLine).map (fun r => (r.Typ, r.IsMeta))
        = some (str "user", false) ∧
      jsonLib.unmarshalString (jsonString ideographs) = some ideographs ∧
      trimAscii ideographs = ideographs ∧
      (decodeRunes ideographs).length = 67 ∧ (10 : UInt8) ∉ ideographs ∧
      (ParseClaude jsonLib (logWorld "claude" [ideographLine]) (str "/r/s.jsonl")
        (str "/r")).1.map (fun r => r.Chunks)
        = some [sampleChunk 0 Time.zero "user" "text" ideographs 1] ∧
      (ParseClaude jsonLib (logWorld "claude" [ideographLine]) (str "/r/s.jsonl")
        (str "/r")).1.map (fun r => r.Meta.Summary) = some (ideographs.take 200) ∧
      ideographs.take 200 ≠ ideographs) := by
  decide

/-- Witness of C12 (amended): the log with the single record `helloLine`. -/
theorem single_string_record_one_chunk_witness :
    ∃ r, ParseClaude jsonLib (logWorld "claude" [helloLine]) (str "/r/s.jsonl") (str "/r")
        = (some r, none) ∧
      r.Chunks = [sampleChunk 0 Time.zero "user" "text" (str "hello world") 1] ∧
      r.Meta.Summary = str "hello world" := by
  obtain ⟨r, hr, hc, hs⟩ := single_string_record_one_chunk jsonLib
      (logWorld "claude" [helloLine]) (str "/r/s.jsonl") (str "/r") (logFile [helloLine])
      helloLine
      (claudeRec "user" false "" "" (jsonMessage "user" (jsonString (str "hello world"))))
      { Role := str "user", Content := jsonString (str "hello world") }
      (str "hello world")
      (by decide) (by decide) (by decide) (by decide) (by decide) (by decide) (by decide)
      (by decide) (by decide) (by decide) (by decide)
  exact ⟨r, hr, hc.trans (by decide), hs.trans (by decide)⟩

/-! ## Session keys (C17) -/

theorem trimSuffix_append (s suffix : Bytes) (h : suffix.isSuffixOf s = true) :
    trimSuffix s suffix ++ suffix = s := by
  unfold trimSuffix
  rw [if_pos h]
  obtain ⟨t, rfl⟩ := List.isSuffixOf_iff_suffix.1 h
  rw [List.length_append, Nat.add_sub_cancel, List.take_left']
  rfl

theorem trimSuffix_eq_take (s suffix : Bytes) (h : suffix.isSuffixOf s = true) :
    trimSuffix s suffix = s.take (s.length - suffix.length) := by
  unfold trimSuffix
  rw [if_pos h]

theorem sessionKeyOf_eq (lib : GoLib) (source path root : Bytes) :
    sessionKeyOf lib source path root
      = source ++ str ":" ++ trimSuffix (relPath lib root path) (str ".jsonl") := rfl

theorem fileKey_eq (lib : GoLib) (fi : FileInfo) (cr xr : Bytes)
    (h : fi.Source = str "claude" ∨ fi.Source = str "codex") :
    fileKey lib fi cr xr
      = fi.Source ++ str ":"
        ++ trimSuffix (relPath lib (rootOf fi cr xr) fi.Path) (str ".jsonl") := by
  unfold fileKey rootOf
  rcases h with h | h
  · rw [if_pos h, if_pos h, sessionKeyOf_eq, h]
  · have hne : ¬ fi.Source = str "claude" := by rw [h]; decide
    rw [if_neg hne, if_neg hne, sessionKeyOf_eq, h]

/-- C17: for a scanned file of source `claude` or `codex` whose path relative to
its root ends in `.jsonl`, the session key is the source name, a colon, and
that relative path without its last six bytes `.jsonl`; a parse result of the
file carries that key; and two such files that differ in source or in relative
path have different keys. -/
theorem session_key_identifies_file (lib : GoLib) (w : World) (cr xr : Bytes) (f g : FileInfo)
    (hf : f.Source = str "claude" ∨ f.Source = str "codex")
    (hg : g.Source = str "claude" ∨ g.Source = str "codex")
    (hsf : (str ".jsonl").isSuffixOf (relPath lib (rootOf f cr xr) f.Path) = true)
    (hsg : (str ".jsonl").isSuffixOf (relPath lib (rootOf g cr xr) g.Path) = true) :
    fileKey lib f cr xr
        = f.Source ++ str ":" ++ (relPath lib (rootOf f cr xr) f.Path).take
            ((relPath lib (rootOf f cr xr) f.Path).length - 6) ∧
      (relPath lib (rootOf f cr xr) f.Path).take
            ((relPath lib (rootOf f cr xr) f.Path).length - 6) ++ str ".jsonl"
          = relPath lib (rootOf f cr xr) f.Path ∧
      (∀ r e, parseFile lib w f cr xr = (some r, e) → r.Meta.SessionKey = fileKey lib f cr xr) ∧
      (f.Source ≠ g.Source ∨
          relPath lib (rootOf f cr xr) f.Path ≠ relPath lib (rootOf g cr xr) g.Path →
        fileKey lib f cr xr ≠ fileKey lib g cr xr) := by
  have h6 : (str ".jsonl").length = 6 := by decide
  have hkf := fileKey_eq lib f cr xr hf
  have hkg := fileKey_eq lib g cr xr hg
  have htf := trimSuffix_eq_take _ _ hsf
  rw [h6] at htf
  refine ⟨by rw [hkf, htf], by rw [← htf]; exact trimSuffix_append _ _ hsf,
    fun r e hp => (parseFile_some lib w f cr xr r e hp).2.1, ?_⟩
  intro hdiff heq
  rw [hkf, hkg] at heq
  by_cases hsrc : f.Source = g.Source
  · rw [hsrc, List.append_assoc, List.append_assoc] at heq
    have h1 := List.append_cancel_left heq
    have h2 := List.append_cancel_left h1
    have h3 : relPath lib (rootOf f cr xr) f.Path = relPath lib (rootOf g cr xr) g.Path := by
      rw [← trimSuffix_append _ _ hsf, ← trimSuffix_append _ _ hsg, h2]
    rcases hdiff with hd | hd
    · exact hd hsrc
    · exact hd h3
  · have htake := congrArg (List.take 2) heq
    rcases hf with hf | hf <;> rcases hg with hg | hg
    · exact hsrc (hf.trans hg.symm)
    · rw [hf, hg, List.append_assoc, List.append_assoc,
        List.take_append_of_le_length (by decide), List.take_append_of_le_length (by decide)]
        at htake
      exact absurd htake (by decide)
    · rw [hf, hg, List.append_assoc, List.append_assoc,
        List.take_append_of_le_length (by decide), List.take_append_of_le_length (by decide)]
        at htake
      exact absurd htake (by decide)
    · exact hsrc (hf.trans hg.symm)

/-- Witness of C17: the files `/c/a.jsonl` and `/c/sub/a.jsonl` under the root
`/c`. -/
theorem session_key_identifies_file_witness :
    fileKey toyLib { Path := str "/c/a.jsonl", Source := str "claude", Mtime := 0, Size := 0 }
        (str "/c") (str "/x") = str "claude:a" ∧
      fileKey toyLib { Path := str "/c/a.jsonl", Source := str "claude", Mtime := 0, Size := 0 }
          (str "/c") (str "/x")
        ≠ fileKey toyLib
            { Path := str "/c/sub/a.jsonl", Source := str "claude", Mtime := 0, Size := 0 }
            (str "/c") (str "/x") :=
  have h := session_key_identifies_file toyLib sampleWorld (str "/c") (str "/x")
    { Path := str "/c/a.jsonl", Source := str "claude", Mtime := 0, Size := 0 }
    { Path := str "/c/sub/a.jsonl", Source := str "claude", Mtime := 0, Size := 0 }
    (by decide) (by decide) (by decide) (by decide)
  ⟨h.1.trans (by decide), h.2.2.2 (Or.inr (by decide))⟩

/-! ## Parsers: a line at or over the line ceiling (C18) -/

theorem overlongA (lib : GoLib) (w : World) (filePath root : Bytes) (data : FileData)
    (h : w.files filePath = some data) {toks : List Bytes} {e : String}
    (htok : scanTokens data.lines = (toks, some e)) :
    (ParseClaude lib w filePath root).2 = some e := by
  obtain ⟨r, hr, _⟩ := ParseClaude_meta lib w filePath root data h
  rw [hr, htok]

theorem overlongB (lib : GoLib) (w : World) (filePath root : Bytes) (data : FileData)
    (h : w.files filePath = some data) {toks : List Bytes} {e : String}
    (htok : scanTokens data.lines = (toks, some e)) :
    (ParseCodex lib w filePath root).2 = some e := by
  obtain ⟨r, hr, _⟩ := ParseCodex_meta lib w filePath root data h
  rw [hr, htok]

/-- A line of `maxLineSize` bytes or more ends the scan: both parsers return
the scanner's error with the result built from the lines before it, and the file
loop of `IndexAll` counts the file as an error. -/
theorem overlong_line_parse (lib : GoLib) (w : World) (filePath root : Bytes) (data : FileData)
    (pre post : List Bytes) (line : Bytes)
    (h : w.files filePath = some data) (hlines : data.lines = pre ++ line :: post)
    (hpre : ∀ l ∈ pre, l.length < maxLineSize) (hlong : maxLineSize ≤ line.length) :
    (∃ r, ParseClaude lib w filePath root = (some r, some "bufio.Scanner: token too long") ∧
      r.Chunks = fileChunks (sessionKeyOf lib (str "claude") filePath root) (claudeEmits lib) 0 0
        (pre.map dropCR)) ∧
    (∃ r, ParseCodex lib w filePath root = (some r, some "bufio.Scanner: token too long") ∧
      r.Chunks = fileChunks (sessionKeyOf lib (str "codex") filePath root) (codexEmits lib) 0 0
        (pre.map dropCR)) ∧
    (∀ fi cr xr st, fi.Path = filePath →
      indexFile lib w cr xr st fi
        = { st with stats := { st.stats with Errors := st.stats.Errors + 1 } }) := by
  have htok := scanTokens_overlong pre post line hpre hlong
  rw [← hlines] at htok
  have hA : ∃ r, ParseClaude lib w filePath root
      = (some r, some "bufio.Scanner: token too long") ∧
      r.Chunks = fileChunks (sessionKeyOf lib (str "claude") filePath root) (claudeEmits lib) 0 0
        (pre.map dropCR) := by
    obtain ⟨r, hr, hc, _⟩ := ParseClaude_meta lib w filePath root data h
    rw [htok] at hr hc
    exact ⟨r, hr, hc⟩
  have hB : ∃ r, ParseCodex lib w filePath root
      = (some r, some "bufio.Scanner: token too long") ∧
      r.Chunks = fileChunks (sessionKeyOf lib (str "codex") filePath root) (codexEmits lib) 0 0
        (pre.map dropCR) := by
    obtain ⟨r, hr, hc, _⟩ := ParseCodex_meta lib w filePath root data h
    rw [htok] at hr hc
    exact ⟨r, hr, hc⟩
  refine ⟨hA, hB, ?_⟩
  intro fi cr xr st hpath
  apply (indexFile_stats lib w cr xr st fi).1
  unfold parseFails parseFile
  rw [hpath]
  by_cases h1 : fi.Source = str "claude"
  · rw [if_pos h1]
    have hA2 := overlongA lib w filePath cr data h htok
    rw [hA2]; rfl
  · rw [if_neg h1]
    by_cases h2 : fi.Source = str "codex"
    · rw [if_pos h2]
      have hB2 := overlongB lib w filePath xr data h htok
      rw [hB2]; rfl
    · rw [if_neg h2]; rfl

/-- Files with pairwise distinct keys: a file that is not indexable shares its
key with no indexable file. -/
theorem key_of_unindexable (lib : GoLib) (w : World) (cr xr : Bytes) (files : List FileInfo)
    (fi : FileInfo) (hkeys : (files.map (fun f => fileKey lib f cr xr)).Nodup)
    (hfi : fi ∈ files) (hnot : indexable lib w cr xr fi = false) :
    ∀ f ∈ files, indexable lib w cr xr f = true → fileKey lib f cr xr ≠ fileKey lib fi cr xr := by
  intro f hf hix heq
  have := List.inj_on_of_nodup_map hkeys hf hfi heq
  rw [this, hnot] at hix
  cases hix

/-- The file loop of `IndexAll` and a scanned file that is not indexable, among
files with pairwise distinct keys: the loop leaves the rows under the key of
the file as they were and does not record the key as seen. -/
theorem indexLoop_unindexable (lib : GoLib) (w : World) (cr xr : Bytes) (db : DB)
    (files : List FileInfo) (fi : FileInfo)
    (hkeys : (files.map (fun f => fileKey lib f cr xr)).Nodup)
    (hfi : fi ∈ files) (hnot : indexable lib w cr xr fi = false) :
    fileKey lib fi cr xr ∉ (indexLoop lib w cr xr db files).seenKeys ∧
    sessionRows (indexLoop lib w cr xr db files).db (fileKey lib fi cr xr)
      = sessionRows db (fileKey lib fi cr xr) ∧
    chunkRows (indexLoop lib w cr xr db files).db (fileKey lib fi cr xr)
      = chunkRows db (fileKey lib fi cr xr) := by
  have hk := key_of_unindexable lib w cr xr files fi hkeys hfi hnot
  refine ⟨?_, indexLoop_rows_other lib w cr xr db files _ hk⟩
  rw [mem_indexLoop_seen]
  rintro ⟨f, hf, hix, heq⟩
  exact hk f hf hix heq

/-- After a run that returns without error, the rows under a key are among the
rows under that key after the file loop: the prune step only deletes. -/
theorem IndexAll_rows_sublist (lib : GoLib) (w : World) (db : DB) (cr xr : Bytes)
    (files : List FileInfo) (k : Bytes) (hscan : w.scan = .ok files)
    (hok : (IndexAll lib w db cr xr).1.2 = none) :
    (sessionRows (IndexAll lib w db cr xr).2 k).Sublist
      (sessionRows (indexLoop lib w cr xr db files).db k) ∧
    (chunkRows (IndexAll lib w db cr xr).2 k).Sublist
      (chunkRows (indexLoop lib w cr xr db files).db k) := by
  obtain ⟨files', hscan', _, hsess, hchunks⟩ := IndexAll_ok lib w db cr xr hok
  have hf : files' = files := by
    rw [hscan] at hscan'; exact (Except.ok.inj hscan').symm
  subst hf
  have e1 : sessionRows (IndexAll lib w db cr xr).2 k
      = sessionRows (pruned (indexLoop lib w cr xr db files').db
          (indexLoop lib w cr xr db files').seenKeys) k := by
    unfold sessionRows; rw [hsess]
  have e2 : chunkRows (IndexAll lib w db cr xr).2 k
      = chunkRows (pruned (indexLoop lib w cr xr db files').db
          (indexLoop lib w cr xr db files').seenKeys) k := by
    unfold chunkRows; rw [hchunks]
  rw [e1, e2, sessionRows_pruned, chunkRows_pruned]
  constructor
  · split
    · exact List.Sublist.refl _
    · exact List.nil_sublist _
  · split
    · exact List.Sublist.refl _
    · exact List.nil_sublist _

/-- The counters of `IndexAll` after a successful scan: those of the file loop,
the prune count apart. -/
theorem IndexAll_counters (lib : GoLib) (w : World) (db : DB) (cr xr : Bytes)
    (files : List FileInfo) (hscan : w.scan = .ok files) :
    (IndexAll lib w db cr xr).1.1.Updated = (indexLoop lib w cr xr db files).stats.Updated ∧
    (IndexAll lib w db cr xr).1.1.Skipped = (indexLoop lib w cr xr db files).stats.Skipped ∧
    (IndexAll lib w db cr xr).1.1.Errors = (indexLoop lib w cr xr db files).stats.Errors := by
  unfold IndexAll
  rw [hscan]
  simp only
  rcases hp : pruneSessions w.mapOrder (indexLoop lib w cr xr db files).db
    (indexLoop lib w cr xr db files).seenKeys with ⟨⟨n, eo⟩, d1⟩
  cases eo with
  | none => exact ⟨rfl, rfl, rfl⟩
  | some e => exact ⟨rfl, rfl, rfl⟩

/-- A run of `IndexAll` over scanned files one of which fails to parse: the
file is counted in `errors` and neither in `updated` nor in `skipped`; on a
connection without failures the run returns without error; among files with
pairwise distinct keys the file loop leaves the rows under the key of the file
as they were, and after a run that returns without error every row under that
key was there before the run. -/
theorem IndexAll_failed_parse (lib : GoLib) (w : World) (db : DB) (cr xr : Bytes)
    (files : List FileInfo) (fi : FileInfo) (hscan : w.scan = .ok files) (hfi : fi ∈ files)
    (hfail : parseFails lib w cr xr fi = true) :
    1 ≤ (IndexAll lib w db cr xr).1.1.Errors ∧
    (IndexAll lib w db cr xr).1.1.Updated + (IndexAll lib w db cr xr).1.1.Skipped + 1
      ≤ files.length ∧
    (db.faults = [] → (IndexAll lib w db cr xr).1.2 = none) ∧
    ((files.map (fun f => fileKey lib f cr xr)).Nodup →
      sessionRows (indexLoop lib w cr xr db files).db (fileKey lib fi cr xr)
        = sessionRows db (fileKey lib fi cr xr) ∧
      chunkRows (indexLoop lib w cr xr db files).db (fileKey lib fi cr xr)
        = chunkRows db (fileKey lib fi cr xr) ∧
      ((IndexAll lib w db cr xr).1.2 = none →
        (sessionRows (IndexAll lib w db cr xr).2 (fileKey lib fi cr xr)).Sublist
          (sessionRows db (fileKey lib fi cr xr)) ∧
        (chunkRows (IndexAll lib w db cr xr).2 (fileKey lib fi cr xr)).Sublist
          (chunkRows db (fileKey lib fi cr xr)))) := by
  obtain ⟨c1, c2, c3⟩ := IndexAll_counters lib w db cr xr files hscan
  obtain ⟨_, _, g3, g4⟩ := foldl_indexFile_stats lib w cr xr files
    { stats := { Scanned := files.length, Updated := 0, Skipped := 0, Pruned := 0, Errors := 0 },
      seenKeys := [], db := db }
  have e3 : (indexLoop lib w cr xr db files).stats.Updated
      + (indexLoop lib w cr xr db files).stats.Skipped
      + (indexLoop lib w cr xr db files).stats.Errors
      + (files.filter (parsesEmpty lib w cr xr)).length = files.length := by
    have := g3
    simpa [indexLoop] using this
  have e4 : (files.filter (parseFails lib w cr xr)).length
      ≤ (indexLoop lib w cr xr db files).stats.Errors := by
    have := g4
    simpa [indexLoop] using this
  have hpos : 1 ≤ (files.filter (parseFails lib w cr xr)).length :=
    List.length_pos_of_mem (List.mem_filter.2 ⟨hfi, hfail⟩)
  have hnot : indexable lib w cr xr fi = false := by
    rcases file_trichotomy lib w cr xr fi with ⟨_, _, c⟩ | ⟨a, _, _⟩ | ⟨a, _, _⟩
    · exact c
    · rw [hfail] at a; cases a
    · rw [hfail] at a; cases a
  refine ⟨by rw [c3]; omega, by rw [c1, c2]; omega, ?_, ?_⟩
  · intro hd
    rw [IndexAll_nofaults lib w db cr xr files hscan hd]
  · intro hkeys
    obtain ⟨_, h1, h2⟩ := indexLoop_unindexable lib w cr xr db files fi hkeys hfi hnot
    refine ⟨h1, h2, fun hok => ?_⟩
    obtain ⟨s1, s2⟩ := IndexAll_rows_sublist lib w db cr xr files (fileKey lib fi cr xr) hscan hok
    rw [h1] at s1
    rw [h2] at s2
    exact ⟨s1, s2⟩

/-- A file with a line of `maxLineSize` bytes or more fails to parse, whichever
parser its source selects. -/
theorem overlong_parseFails (lib : GoLib) (w : World) (filePath : Bytes) (data : FileData)
    (pre post : List Bytes) (line : Bytes)
    (h : w.files filePath = some data) (hlines : data.lines = pre ++ line :: post)
    (hpre : ∀ l ∈ pre, l.length < maxLineSize) (hlong : maxLineSize ≤ line.length)
    (fi : FileInfo) (cr xr : Bytes) (hpath : fi.Path = filePath) :
    parseFails lib w cr xr fi = true := by
  have htok := scanTokens_overlong pre post line hpre hlong
  rw [← hlines] at htok
  unfold parseFails parseFile
  rw [hpath]
  by_cases h1 : fi.Source = str "claude"
  · rw [if_pos h1]
    have hA2 := overlongA lib w filePath cr data h htok
    rw [hA2]; rfl
  · rw [if_neg h1]
    by_cases h2 : fi.Source = str "codex"
    · rw [if_pos h2]
      have hB2 := overlongB lib w filePath xr data h htok
      rw [hB2]; rfl
    · rw [if_neg h2]; rfl

/-- C18 (amended): a line of 10 MiB (10485760 bytes, a carriage return at its
end included) or more ends the scan of the file.  Both parsers return the
scanner's error together with the result built from the lines before that
line; no line from it on is parsed.  The loop body of `IndexAll` adds one to
`errors` for the file and changes nothing else.  In every run of `IndexAll`
that scans the file, it is counted in `errors` and neither in `updated` nor in
`skipped`; the run returns without error on a connection without failures; and,
the scanned files having pairwise distinct session keys, the file loop leaves
the rows and chunks stored under the key of the file as they were, and after a
run that returns without error every row and chunk under that key was stored
before the run: nothing is written for the file. -/
theorem overlong_line_ends_the_parse (lib : GoLib) (w : World) (filePath root : Bytes)
    (data : FileData) (pre post : List Bytes) (line : Bytes)
    (h : w.files filePath = some data) (hlines : data.lines = pre ++ line :: post)
    (hpre : ∀ l ∈ pre, l.length < 10485760) (hlong : 10485760 ≤ line.length) :
    (∃ r, ParseClaude lib w filePath root = (some r, some "bufio.Scanner: token too long") ∧
      r.Chunks = fileChunks (sessionKeyOf lib (str "claude") filePath root) (claudeEmits lib) 0 0
        (pre.map dropCR)) ∧
    (∃ r, ParseCodex lib w filePath root = (some r, some "bufio.Scanner: token too long") ∧
      r.Chunks = fileChunks (sessionKeyOf lib (str "codex") filePath root) (codexEmits lib) 0 0
        (pre.map dropCR)) ∧
    (∀ fi cr xr st, fi.Path = filePath →
      (indexFileOutcome lib w cr xr st fi).1 = .parseError ∧
      indexFile lib w cr xr st fi
        = { st with stats := { st.stats with Errors := st.stats.Errors + 1 } }) ∧
    (∀ db cr xr files fi, w.scan = .ok files → fi ∈ files → fi.Path = filePath →
      1 ≤ (IndexAll lib w db cr xr).1.1.Errors ∧
      (IndexAll lib w db cr xr).1.1.Updated + (IndexAll lib w db cr xr).1.1.Skipped + 1
        ≤ files.length ∧
      (db.faults = [] → (IndexAll lib w db cr xr).1.2 = none) ∧
      ((files.map (fun f => fileKey lib f cr xr)).Nodup →
        sessionRows (indexLoop lib w cr xr db files).db (fileKey lib fi cr xr)
          = sessionRows db (fileKey lib fi cr xr) ∧
        chunkRows (indexLoop lib w cr xr db files).db (fileKey lib fi cr xr)
          = chunkRows db (fileKey lib fi cr xr) ∧
        ((IndexAll lib w db cr xr).1.2 = none →
          (sessionRows (IndexAll lib w db cr xr).2 (fileKey lib fi cr xr)).Sublist
            (sessionRows db (fileKey lib fi cr xr)) ∧
          (chunkRows (IndexAll lib w db cr xr).2 (fileKey lib fi cr xr)).Sublist
            (chunkRows db (fileKey lib fi cr xr))))) := by
  have hm : maxLineSize = 10485760 := by decide
  obtain ⟨hA, hB, hC⟩ := overlong_line_parse lib w filePath root data pre post line h hlines
    (by rw [hm]; exact hpre) (by rw [hm]; exact hlong)
  refine ⟨hA, hB, fun fi cr xr st hp => ⟨?_, hC fi cr xr st hp⟩,
    fun db cr xr files fi hscan hfi hp =>
      IndexAll_failed_parse lib w db cr xr files fi hscan hfi
        (overlong_parseFails lib w filePath data pre post line h hlines
          (by rw [hm]; exact hpre) (by rw [hm]; exact hlong) fi cr xr hp)⟩
  have htok := scanTokens_overlong pre post line (by rw [hm]; exact hpre) (by rw [hm]; exact hlong)
  rw [← hlines] at htok
  unfold indexFileOutcome parseFile
  rw [hp]
  by_cases h1 : fi.Source = str "claude"
  · rw [if_pos h1]
    obtain ⟨r, hr, _⟩ := ParseClaude_meta lib w filePath cr data h
    rw [hr, htok]
  · rw [if_neg h1]
    by_cases h2 : fi.Source = str "codex"
    · rw [if_pos h2]
      obtain ⟨r, hr, _⟩ := ParseCodex_meta lib w filePath xr data h
      rw [hr, htok]
    · rw [if_neg h2]

theorem overlongLine_length : overlongLine.length = 10485761 := by
  unfold overlongLine
  rw [List.length_replicate]

/-- The parse of the log `helloLine`, a line of more than 10 MiB, `hiLine`. -/
theorem overlong_sample_parse :
    ∃ r, ParseClaude jsonLib (logWorld "claude" [helloLine, overlongLine, hiLine])
        (str "/r/s.jsonl") (str "/r") = (some r, some "bufio.Scanner: token too long") ∧
      r.Chunks = [sampleChunk 0 Time.zero "user" "text" (str "hello world") 1] := by
  have hm : maxLineSize = 10485760 := by decide
  obtain ⟨r, hr, hc⟩ := (overlong_line_parse jsonLib
    (logWorld "claude" [helloLine, overlongLine, hiLine]) (str "/r/s.jsonl") (str "/r")
    (logFile [helloLine, overlongLine, hiLine]) [helloLine] [hiLine] overlongLine
    (logWorld_files _ _) rfl (by decide) (by rw [hm, overlongLine_length]; decide)).1
  exact ⟨r, hr, hc.trans (by decide)⟩

/-- A run over a single file whose parse fails, on an empty database. -/
theorem IndexAll_single_parse_error (lib : GoLib) (w : World) (cr xr : Bytes) (fi : FileInfo)
    (hscan : w.scan = .ok [fi])
    (hstep : ∀ st, indexFile lib w cr xr st fi
      = { st with stats := { st.stats with Errors := st.stats.Errors + 1 } }) :
    IndexAll lib w emptyDB cr xr
      = (({ Scanned := 1, Updated := 0, Skipped := 0, Pruned := 0, Errors := 1 }, none),
          emptyDB) := by
  have hloop : indexLoop lib w cr xr emptyDB [fi]
      = { stats := { Scanned := 1, Updated := 0, Skipped := 0, Pruned := 0, Errors := 1 },
          seenKeys := [], db := emptyDB } := by
    unfold indexLoop
    rw [List.foldl_cons, List.foldl_nil, hstep]
    rfl
  rw [IndexAll_nofaults lib w emptyDB cr xr [fi] hscan rfl, hloop]
  rfl

/-- The run of `IndexAll` over the log `helloLine`, a line of more than 10 MiB,
`hiLine`, on an empty database. -/
theorem overlong_sample_index :
    IndexAll jsonLib (logWorld "claude" [helloLine, overlongLine, hiLine]) emptyDB
        (str "/r") (str "/x")
      = (({ Scanned := 1, Updated := 0, Skipped := 0, Pruned := 0, Errors := 1 }, none),
          emptyDB) := by
  have hm : maxLineSize = 10485760 := by decide
  have hstep := (overlong_line_parse jsonLib
    (logWorld "claude" [helloLine, overlongLine, hiLine]) (str "/r/s.jsonl") (str "/r")
    (logFile [helloLine, overlongLine, hiLine]) [helloLine] [hiLine] overlongLine
    (logWorld_files _ _) rfl (by decide) (by rw [hm, overlongLine_length]; decide)).2.2
  exact IndexAll_single_parse_error jsonLib _ (str "/r") (str "/x")
    { Path := str "/r/s.jsonl", Source := str "claude", Mtime := 1704067200,
      Size := (logFile [helloLine, overlongLine, hiLine]).Size }
    rfl (fun st => hstep _ _ _ st rfl)

/-- C18 (counterexample).  The log holds the record `helloLine`, a line of more
than 10 MiB and the record `hiLine`, which alone gives a chunk.  `ParseClaude`
returns an error, the chunks of its result are the chunk of `helloLine` only
(the record after the long line gives none), and `IndexAll` counts the file as
an error and stores nothing; without the long line both records give a chunk. -/
theorem overlong_line_aborts_the_file :
    10485760 < overlongLine.length ∧
    (claudeEmits jsonLib hiLine).length = 1 ∧
    (∃ r, ParseClaude jsonLib (logWorld "claude" [helloLine, overlongLine, hiLine])
        (str "/r/s.jsonl") (str "/r") = (some r, some "bufio.Scanner: token too long") ∧
      r.Chunks = [sampleChunk 0 Time.zero "user" "text" (str "hello world") 1]) ∧
    IndexAll jsonLib (logWorld "claude" [helloLine, overlongLine, hiLine]) emptyDB
        (str "/r") (str "/x")
      = (({ Scanned := 1, Updated := 0, Skipped := 0, Pruned := 0, Errors := 1 }, none),
          emptyDB) ∧
    (ParseClaude jsonLib (logWorld "claude" [helloLine, hiLine]) (str "/r/s.jsonl")
        (str "/r")).1.map (fun r => r.Chunks)
      = some [sampleChunk 0 Time.zero "user" "text" (str "hello world") 1,
              sampleChunk 1 firstDay "assistant" "text" (str "hi") 2] :=
  ⟨by rw [overlongLine_length]; decide, by decide, overlong_sample_parse,
    overlong_sample_index, by decide⟩

/-- A run over a single file whose parse fails, on a connection without
failures: one error, and every stored session is pruned. -/
theorem IndexAll_single_parse_error_on (lib : GoLib) (w : World) (db : DB) (cr xr : Bytes)
    (fi : FileInfo) (hscan : w.scan = .ok [fi]) (hd : db.faults = [])
    (hstep : ∀ st, indexFile lib w cr xr st fi
      = { st with stats := { st.stats with Errors := st.stats.Errors + 1 } }) :
    IndexAll lib w db cr xr
      = (({ Scanned := 1, Updated := 0, Skipped := 0,
            Pruned := ((db.sessions.map (fun s => s.SessionKey)).dedup.filter
              (fun k => k ∉ ([] : List Bytes))).length,
            Errors := 1 }, none),
          pruned db []) := by
  have hloop : indexLoop lib w cr xr db [fi]
      = { stats := { Scanned := 1, Updated := 0, Skipped := 0, Pruned := 0, Errors := 1 },
          seenKeys := [], db := db } := by
    unfold indexLoop
    rw [List.foldl_cons, List.foldl_nil, hstep]
    rfl
  rw [IndexAll_nofaults lib w db cr xr [fi] hscan hd, hloop]

/-- The run of `IndexAll` over the log `helloLine`, a line of more than 10 MiB,
`hiLine`, on the store `helloStore`, which holds the session of that log as
indexed before the long line was there. -/
theorem overlong_sample_index_stored :
    (IndexAll jsonLib (logWorld "claude" [helloLine, overlongLine, hiLine]) helloStore
        (str "/r") (str "/x")).1
      = ({ Scanned := 1, Updated := 0, Skipped := 0, Pruned := 1, Errors := 1 }, none) ∧
    (IndexAll jsonLib (logWorld "claude" [helloLine, overlongLine, hiLine]) helloStore
        (str "/r") (str "/x")).2.sessions = [] ∧
    (IndexAll jsonLib (logWorld "claude" [helloLine, overlongLine, hiLine]) helloStore
        (str "/r") (str "/x")).2.chunks = [] := by
  have hm : maxLineSize = 10485760 := by decide
  have hstep := (overlong_line_parse jsonLib
    (logWorld "claude" [helloLine, overlongLine, hiLine]) (str "/r/s.jsonl") (str "/r")
    (logFile [helloLine, overlongLine, hiLine]) [helloLine] [hiLine] overlongLine
    (logWorld_files _ _) rfl (by decide) (by rw [hm, overlongLine_length]; decide)).2.2
  rw [IndexAll_single_parse_error_on jsonLib _ helloStore (str "/r") (str "/x")
    { Path := str "/r/s.jsonl", Source := str "claude", Mtime := 1704067200,
      Size := (logFile [helloLine, overlongLine, hiLine]).Size }
    rfl (by decide) (fun st => hstep _ _ _ st rfl)]
  exact ⟨by decide, by decide, by decide⟩

/-- Witness of C18 (amended): the log of the counterexample, scanned on the
store `helloStore` that holds its session with two chunks.  The parse returns
the chunk of the first record with the scanner's error; the run counts one
error, updates and skips nothing and returns without error; no row under the
key `claude:s` is new.  (The stored session is deleted by the prune step, as
that of any scanned file whose parse fails.) -/
theorem overlong_line_ends_the_parse_witness :
    (∃ r, ParseClaude jsonLib (logWorld "claude" [helloLine, overlongLine, hiLine])
        (str "/r/s.jsonl") (str "/r") = (some r, some "bufio.Scanner: token too long") ∧
      r.Chunks = [sampleChunk 0 Time.zero "user" "text" (str "hello world") 1]) ∧
    (sessionRows helloStore (str "claude:s")).length = 1 ∧
    (chunkRows helloStore (str "claude:s")).length = 2 ∧
    1 ≤ (IndexAll jsonLib (logWorld "claude" [helloLine, overlongLine, hiLine]) helloStore
        (str "/r") (str "/x")).1.1.Errors ∧
    (IndexAll jsonLib (logWorld "claude" [helloLine, overlongLine, hiLine]) helloStore
        (str "/r") (str "/x")).1.2 = none ∧
    (sessionRows (IndexAll jsonLib (logWorld "claude" [helloLine, overlongLine, hiLine])
        helloStore (str "/r") (str "/x")).2 (str "claude:s")).Sublist
      (sessionRows helloStore (str "claude:s")) ∧
    (chunkRows (IndexAll jsonLib (logWorld "claude" [helloLine, overlongLine, hiLine])
        helloStore (str "/r") (str "/x")).2 (str "claude:s")).Sublist
      (chunkRows helloStore (str "claude:s")) ∧
    (IndexAll jsonLib (logWorld "claude" [helloLine, overlongLine, hiLine]) helloStore
        (str "/r") (str "/x")).1
      = ({ Scanned := 1, Updated := 0, Skipped := 0, Pruned := 1, Errors := 1 }, none) := by
  have h := overlong_line_ends_the_parse jsonLib
    (logWorld "claude" [helloLine, overlongLine, hiLine]) (str "/r/s.jsonl") (str "/r")
    (logFile [helloLine, overlongLine, hiLine]) [helloLine] [hiLine] overlongLine
    (logWorld_files _ _) rfl (by decide) (by rw [overlongLine_length]; decide)
  obtain ⟨r, hr, hc⟩ := h.1
  obtain ⟨e1, _, e3, e4⟩ := h.2.2.2 helloStore (str "/r") (str "/x")
    [{ Path := str "/r/s.jsonl", Source := str "claude", Mtime := 1704067200,
       Size := (logFile [helloLine, overlongLine, hiLine]).Size }]
    { Path := str "/r/s.jsonl", Source := str "claude", Mtime := 1704067200,
      Size := (logFile [helloLine, overlongLine, hiLine]).Size }
    rfl (List.mem_singleton.2 rfl) rfl
  have hok := e3 (by decide)
  have hsub := (e4 (List.nodup_singleton _)).2.2 hok
  exact ⟨⟨r, hr, hc.trans (by decide)⟩, by decide, by decide, e1, hok, hsub.1, hsub.2,
    overlong_sample_index_stored.1⟩

/-! ## Parsers: the working-directory hint -/

theorem captureCwd_hint (cwd : Bytes) (st : ParseState) :
    (captureCwd cwd st).result.Meta.RepoCwd
      = if cwd ≠ [] ∧ st.result.Meta.RepoCwd = [] then cwd else st.result.Meta.RepoCwd := by
  unfold captureCwd; split <;> rfl

/-- What a line of a Claude log does to the working-directory hint. -/
theorem claudeRecordStep_hint (lib : GoLib) (key : Bytes) (st : ParseState) (line : Bytes) :
    (claudeRecordStep lib key st line).result.Meta.RepoCwd
      = firstHint st.result.Meta.RepoCwd [claudeCwdOf lib line] := by
  unfold claudeRecordStep claudeCwdOf
  simp only [firstHint]
  by_cases h0 : line.length = 0
  · simp only [h0, if_true]; simp
  · simp only [h0, if_false]
    cases hrec : lib.unmarshalClaudeRecord line with
    | none => simp
    | some rec =>
      simp only
      have hc := captureCwd_hint rec.Cwd st
      by_cases hs : rec.Typ = str "summary" ∧ rec.Summary ≠ []
      · rw [if_pos hs, if_pos hs]; simp
      · rw [if_neg hs, if_neg hs]
        by_cases hm : rec.IsMeta = true
        · simp only [hm, if_true]; exact hc
        · simp only [hm]
          by_cases ht : rec.Typ ≠ str "user" ∧ rec.Typ ≠ str "assistant"
          · rw [if_pos ht]; exact hc
          · rw [if_neg ht]
            cases hmsg : lib.unmarshalClaudeMessage rec.Message with
            | none => exact hc
            | some msg =>
              simp only []
              rw [← hc]
              by_cases hT : (extractClaudeContent lib msg.Content).Text = []
              <;> by_cases hK : (extractClaudeContent lib msg.Content).Thinking = []
              <;> simp [hT, hK, emitText, emitThinking, ParseState.emit, ParseState.stamp]

/-- What a line of a Codex log does to the working-directory hint. -/
theorem codexRecordStep_hint (lib : GoLib) (key : Bytes) (st : ParseState) (line : Bytes) :
    (codexRecordStep lib key st line).result.Meta.RepoCwd
      = (codexCwdOf lib line).getD st.result.Meta.RepoCwd := by
  unfold codexRecordStep codexCwdOf
  by_cases h0 : line.length = 0
  · simp only [h0, if_true]; rfl
  · simp only [h0, if_false]
    cases hrec : lib.unmarshalCodexRecord line with
    | none => rfl
    | some rec =>
      simp only
      by_cases h1 : rec.Typ = str "session_meta"
      · simp only [h1, if_true]
        cases hm : lib.unmarshalCodexSessionMeta rec.Payload with
        | none => rfl
        | some m => rfl
      · simp only [h1, if_false]
        by_cases h2 : rec.Typ = str "event_msg"
        · simp only [h2, if_true]
          unfold codexEvent
          split
          · rfl
          · split
            · split <;> simp [ParseState.emit, ParseState.stamp]
            · split
              · split <;> simp [ParseState.emit, ParseState.stamp]
              · rfl
        · simp only [h2, if_false]
          by_cases h3 : rec.Typ = str "response_item"
          · simp only [h3, if_true]
            unfold codexResponse
            split
            · rfl
            · split
              · rfl
              · split <;> simp [ParseState.emit, ParseState.stamp]
          · simp only [h3, if_false]; rfl

theorem firstHint_append (a b : List Bytes) :
    ∀ h, firstHint h (a ++ b) = firstHint (firstHint h a) b := by
  induction a with
  | nil => intro h; rfl
  | cons c cs ih => intro h; simp only [List.cons_append, firstHint]; exact ih _

theorem foldl_claudeStep_hint (lib : GoLib) (key : Bytes) (tokens : List Bytes) :
    ∀ st : ParseState,
      (tokens.foldl (claudeStep lib key) st).result.Meta.RepoCwd
        = firstHint st.result.Meta.RepoCwd (tokens.map (claudeCwdOf lib)) := by
  induction tokens with
  | nil => intro st; rfl
  | cons line rest ih =>
    intro st
    have h := claudeRecordStep_hint lib key { st with lineNum := st.lineNum + 1 } line
    rw [List.foldl_cons, ih, List.map_cons]
    unfold claudeStep
    rw [h]
    rfl

theorem foldl_codexStep_hint (lib : GoLib) (key : Bytes) (tokens : List Bytes) :
    ∀ st : ParseState,
      (tokens.foldl (codexStep lib key) st).result.Meta.RepoCwd
        = ((tokens.filterMap (codexCwdOf lib)).getLast?).getD st.result.Meta.RepoCwd := by
  induction tokens with
  | nil => intro st; rfl
  | cons line rest ih =>
    intro st
    have h := codexRecordStep_hint lib key { st with lineNum := st.lineNum + 1 } line
    rw [List.foldl_cons, ih, List.filterMap_cons]
    unfold codexStep
    rw [h]
    cases hc : codexCwdOf lib line with
    | none => simp
    | some c =>
      simp only [Option.getD_some]
      cases hl : (rest.filterMap (codexCwdOf lib)).getLast? with
      | none =>
        have : rest.filterMap (codexCwdOf lib) = [] := by
          simpa [List.getLast?_eq_none_iff] using hl
        simp [this]
      | some u =>
        rw [List.getLast?_cons, hl]
        simp

/-- The working-directory hint `ParseClaude` returns. -/
theorem ParseClaude_hint (lib : GoLib) (w : World) (filePath root : Bytes) (data : FileData)
    (h : w.files filePath = some data) :
    ∃ r, ParseClaude lib w filePath root = (some r, (scanTokens data.lines).2) ∧
      r.Meta.RepoCwd = firstHint [] ((scanTokens data.lines).1.map (claudeCwdOf lib)) := by
  refine ⟨claudeFinish ((scanTokens data.lines).1.foldl
      (claudeStep lib (sessionKeyOf lib (str "claude") filePath root))
      (initState (sessionKeyOf lib (str "claude") filePath root) (str "claude") filePath data)),
    by simp only [ParseClaude, h], ?_⟩
  simp only [claudeFinish]
  rw [foldl_claudeStep_hint]
  rfl

/-- The working-directory hint `ParseCodex` returns. -/
theorem ParseCodex_hint (lib : GoLib) (w : World) (filePath root : Bytes) (data : FileData)
    (h : w.files filePath = some data) :
    ∃ r, ParseCodex lib w filePath root = (some r, (scanTokens data.lines).2) ∧
      r.Meta.RepoCwd
        = (((scanTokens data.lines).1.filterMap (codexCwdOf lib)).getLast?).getD [] := by
  refine ⟨codexFinish ((scanTokens data.lines).1.foldl
      (codexStep lib (sessionKeyOf lib (str "codex") filePath root))
      (initState (sessionKeyOf lib (str "codex") filePath root) (str "codex") filePath data)),
    by simp only [ParseCodex, h], ?_⟩
  simp only [codexFinish]
  rw [foldl_codexStep_hint]
  rfl


/-! ## Parsers: a line that does not decode (C19) -/

/-- Replacing a line under the ceiling by another one under the ceiling: either
the scan stops before that line in both files, or both scans read the lines
before it, the line, and the same lines after it. -/
theorem scanTokens_replace (pre post : List Bytes) (line line' : Bytes)
    (hs : line.length < maxLineSize) (hs' : line'.length < maxLineSize) :
    scanTokens (pre ++ line :: post) = scanTokens (pre ++ line' :: post) ∨
    ((scanTokens (pre ++ line :: post)
        = (pre.map dropCR ++ dropCR line :: (scanTokens post).1, (scanTokens post).2)) ∧
      (scanTokens (pre ++ line' :: post)
        = (pre.map dropCR ++ dropCR line' :: (scanTokens post).1, (scanTokens post).2))) := by
  induction pre with
  | nil =>
    right
    have h1 : ¬ maxLineSize ≤ line.length := by omega
    have h2 : ¬ maxLineSize ≤ line'.length := by omega
    simp only [List.nil_append, scanTokens, h1, h2, if_false, List.map_nil, and_self]
  | cons l rest ih =>
    by_cases hl : maxLineSize ≤ l.length
    · left
      simp only [List.cons_append, scanTokens, hl, if_true]
    · rcases ih with ih | ⟨ih1, ih2⟩
      · left
        simp only [List.cons_append, scanTokens, hl, if_false, List.append_eq, ih]
      · right
        simp only [List.cons_append, scanTokens, hl, if_false, List.append_eq, ih1, ih2,
          List.map_cons, and_self]

/-- Two lines that emit the same leave the chunks of the file the same. -/
theorem fileChunks_replace (key : Bytes) (emits : Bytes → List Emit) (a b : List Bytes)
    (x y : Bytes) (h : emits x = emits y) (id ln : Nat) :
    fileChunks key emits id ln (a ++ x :: b) = fileChunks key emits id ln (a ++ y :: b) := by
  rw [fileChunks_append, fileChunks_append]
  simp only [fileChunks, h]

theorem firstHint_of_ne_nil (l : List Bytes) : ∀ h, h ≠ [] → firstHint h l = h := by
  induction l with
  | nil => intro h _; rfl
  | cons c cs ih =>
    intro h hh
    simp only [firstHint, hh, and_false, if_false]
    exact ih h hh

theorem firstHint_ne_nil (l : List Bytes) (c : Bytes) (hc : c ∈ l) (hne : c ≠ []) :
    ∀ h, firstHint h l ≠ [] := by
  induction l with
  | nil => cases hc
  | cons d ds ih =>
    intro h
    simp only [firstHint]
    by_cases hh : h = []
    · rcases List.mem_cons.1 hc with e | e
      · subst e
        rw [if_pos ⟨hne, hh⟩, firstHint_of_ne_nil _ _ hne]
        exact hne
      · exact ih e _
    · rw [if_neg (fun hx => hh hx.2), firstHint_of_ne_nil _ _ hh]
      exact hh

theorem firstHint_skip (a b : List Bytes) (c : Bytes)
    (h : c = [] ∨ ∃ d ∈ a, d ≠ []) :
    firstHint [] (a ++ c :: b) = firstHint [] (a ++ [] :: b) := by
  rw [firstHint_append, firstHint_append]
  rcases h with h | ⟨d, hd, hne⟩
  · rw [h]
  · have := firstHint_ne_nil a d hd hne []
    simp only [firstHint, this, and_false, if_false]

theorem claudeEmits_nil (lib : GoLib) : claudeEmits lib [] = [] := by
  simp [claudeEmits]

theorem codexEmits_nil (lib : GoLib) : codexEmits lib [] = [] := by
  simp [codexEmits]

theorem dropCR_nil : dropCR [] = [] := rfl

/-- What `ParseClaude` finds is a function of what the lines read emit and of
their summaries; its hint is a function of the working directories they
supply. -/
theorem ParseClaude_findings (lib : GoLib) (w w' : World) (filePath root : Bytes)
    (data data' : FileData)
    (h : w.files filePath = some data) (h' : w'.files filePath = some data')
    (he : (scanTokens data.lines).2 = (scanTokens data'.lines).2)
    (hc : fileChunks (sessionKeyOf lib (str "claude") filePath root) (claudeEmits lib) 0 0
        (scanTokens data.lines).1
      = fileChunks (sessionKeyOf lib (str "claude") filePath root) (claudeEmits lib) 0 0
        (scanTokens data'.lines).1)
    (hs : (scanTokens data.lines).1.filterMap (claudeSummaryOf lib)
      = (scanTokens data'.lines).1.filterMap (claudeSummaryOf lib)) :
    sameFindings (ParseClaude lib w filePath root) (ParseClaude lib w' filePath root) := by
  obtain ⟨r, hr, c1, c2, c3, c4⟩ := ParseClaude_meta lib w filePath root data h
  obtain ⟨r', hr', d1, d2, d3, d4⟩ := ParseClaude_meta lib w' filePath root data' h'
  have hcc : r.Chunks = r'.Chunks := by rw [c1, d1, hc]
  unfold sameFindings
  rw [hr, hr']
  refine ⟨he, rfl, ?_, ?_, ?_, ?_⟩
  · simp only [Option.map_some', hcc]
  · simp only [Option.map_some', c4, d4, hs, hcc]
  · simp only [Option.map_some', c2, d2, hcc]
  · simp only [Option.map_some', c3, d3, hcc]

theorem ParseClaude_sameHint (lib : GoLib) (w w' : World) (filePath root : Bytes)
    (data data' : FileData)
    (h : w.files filePath = some data) (h' : w'.files filePath = some data')
    (hh : firstHint [] ((scanTokens data.lines).1.map (claudeCwdOf lib))
      = firstHint [] ((scanTokens data'.lines).1.map (claudeCwdOf lib))) :
    sameHint (ParseClaude lib w filePath root) (ParseClaude lib w' filePath root) := by
  obtain ⟨r, hr, c1⟩ := ParseClaude_hint lib w filePath root data h
  obtain ⟨r', hr', d1⟩ := ParseClaude_hint lib w' filePath root data' h'
  unfold sameHint
  rw [hr, hr']
  simp only [Option.map_some', c1, d1, hh]

theorem ParseCodex_findings (lib : GoLib) (w w' : World) (filePath root : Bytes)
    (data data' : FileData)
    (h : w.files filePath = some data) (h' : w'.files filePath = some data')
    (he : (scanTokens data.lines).2 = (scanTokens data'.lines).2)
    (hc : fileChunks (sessionKeyOf lib (str "codex") filePath root) (codexEmits lib) 0 0
        (scanTokens data.lines).1
      = fileChunks (sessionKeyOf lib (str "codex") filePath root) (codexEmits lib) 0 0
        (scanTokens data'.lines).1) :
    sameFindings (ParseCodex lib w filePath root) (ParseCodex lib w' filePath root) := by
  obtain ⟨r, hr, c1, c2, c3, c4⟩ := ParseCodex_meta lib w filePath root data h
  obtain ⟨r', hr', d1, d2, d3, d4⟩ := ParseCodex_meta lib w' filePath root data' h'
  have hcc : r.Chunks = r'.Chunks := by rw [c1, d1, hc]
  unfold sameFindings
  rw [hr, hr']
  refine ⟨he, rfl, ?_, ?_, ?_, ?_⟩
  · simp only [Option.map_some', hcc]
  · simp only [Option.map_some', c4, d4, hcc]
  · simp only [Option.map_some', c2, d2, hcc]
  · simp only [Option.map_some', c3, d3, hcc]

theorem ParseCodex_sameHint (lib : GoLib) (w w' : World) (filePath root : Bytes)
    (data data' : FileData)
    (h : w.files filePath = some data) (h' : w'.files filePath = some data')
    (hh : (scanTokens data.lines).1.filterMap (codexCwdOf lib)
      = (scanTokens data'.lines).1.filterMap (codexCwdOf lib)) :
    sameHint (ParseCodex lib w filePath root) (ParseCodex lib w' filePath root) := by
  obtain ⟨r, hr, c1⟩ := ParseCodex_hint lib w filePath root data h
  obtain ⟨r', hr', d1⟩ := ParseCodex_hint lib w' filePath root data' h'
  unfold sameHint
  rw [hr, hr']
  simp only [Option.map_some', c1, d1, hh]

/-- A line of a Claude log that emits nothing and is no summary record can be
replaced by an empty line. -/
theorem claude_silent_line (lib : GoLib) (w w' : World) (filePath root : Bytes)
    (data data' : FileData) (pre post : List Bytes) (line : Bytes)
    (h : w.files filePath = some data) (h' : w'.files filePath = some data')
    (hlines : data.lines = pre ++ line :: post) (hlines' : data'.lines = pre ++ [] :: post)
    (hshort : line.length < maxLineSize)
    (hemit : claudeEmits lib (dropCR line) = [])
    (hsum : claudeSummaryOf lib (dropCR line) = none) :
    sameFindings (ParseClaude lib w filePath root) (ParseClaude lib w' filePath root) ∧
    ((claudeCwdOf lib (dropCR line) = [] ∨ ∃ l ∈ pre, claudeCwdOf lib (dropCR l) ≠ []) →
      sameHint (ParseClaude lib w filePath root) (ParseClaude lib w' filePath root)) := by
  have h0 : ([] : Bytes).length < maxLineSize := by decide
  have hsum0 : claudeSummaryOf lib [] = none := by simp [claudeSummaryOf]
  have hcwd0 : claudeCwdOf lib [] = [] := by simp [claudeCwdOf]
  rcases scanTokens_replace pre post line [] hshort h0 with e | ⟨e1, e2⟩
  · rw [← hlines, ← hlines'] at e
    refine ⟨ParseClaude_findings lib w w' filePath root data data' h h' (by rw [e]) (by rw [e])
      (by rw [e]), fun _ => ParseClaude_sameHint lib w w' filePath root data data' h h'
        (by rw [e])⟩
  · rw [← hlines] at e1
    rw [← hlines'] at e2
    refine ⟨ParseClaude_findings lib w w' filePath root data data' h h' (by rw [e1, e2]) ?_ ?_,
      fun hh => ParseClaude_sameHint lib w w' filePath root data data' h h' ?_⟩
    · rw [e1, e2]
      exact fileChunks_replace _ _ _ _ _ _ (by rw [hemit, dropCR_nil, claudeEmits_nil]) 0 0
    · rw [e1, e2]
      simp only [List.filterMap_append, List.filterMap_cons, hsum, dropCR_nil, hsum0]
    · rw [e1, e2]
      simp only [List.map_append, List.map_cons, dropCR_nil, hcwd0]
      apply firstHint_skip
      rcases hh with hh | ⟨l, hl, hne⟩
      · exact Or.inl hh
      · exact Or.inr ⟨_, List.mem_map.2 ⟨dropCR l, List.mem_map.2 ⟨l, hl, rfl⟩, rfl⟩, hne⟩

/-- A line of a Codex log that does not decode can be replaced by an empty
line. -/
theorem codex_silent_line (lib : GoLib) (w w' : World) (filePath root : Bytes)
    (data data' : FileData) (pre post : List Bytes) (line : Bytes)
    (h : w.files filePath = some data) (h' : w'.files filePath = some data')
    (hlines : data.lines = pre ++ line :: post) (hlines' : data'.lines = pre ++ [] :: post)
    (hshort : line.length < maxLineSize)
    (hemit : codexEmits lib (dropCR line) = [])
    (hcwd : codexCwdOf lib (dropCR line) = none) :
    sameFindings (ParseCodex lib w filePath root) (ParseCodex lib w' filePath root) ∧
    sameHint (ParseCodex lib w filePath root) (ParseCodex lib w' filePath root) := by
  have h0 : ([] : Bytes).length < maxLineSize := by decide
  have hcwd0 : codexCwdOf lib [] = none := by simp [codexCwdOf]
  rcases scanTokens_replace pre post line [] hshort h0 with e | ⟨e1, e2⟩
  · rw [← hlines, ← hlines'] at e
    exact ⟨ParseCodex_findings lib w w' filePath root data data' h h' (by rw [e]) (by rw [e]),
      ParseCodex_sameHint lib w w' filePath root data data' h h' (by rw [e])⟩
  · rw [← hlines] at e1
    rw [← hlines'] at e2
    refine ⟨ParseCodex_findings lib w w' filePath root data data' h h' (by rw [e1, e2]) ?_,
      ParseCodex_sameHint lib w w' filePath root data data' h h' ?_⟩
    · rw [e1, e2]
      exact fileChunks_replace _ _ _ _ _ _ (by rw [hemit, dropCR_nil, codexEmits_nil]) 0 0
    · rw [e1, e2]
      simp only [List.filterMap_append, List.filterMap_cons, hcwd, dropCR_nil, hcwd0]

theorem decodeBy_none_of_longer {α : Type} (table : List (Bytes × α)) (raw : Bytes)
    (h : ∀ p ∈ table, p.1.length < raw.length) : decodeBy table raw = none := by
  unfold decodeBy
  rw [Option.map_eq_none', List.find?_eq_none]
  intro p hp hq
  have h1 := h p hp
  have h2 : p.1 = raw := by simpa using hq
  rw [h2] at h1
  exact Nat.lt_irrefl _ h1

/-- C19 (amended): replacing a line shorter than the 10 MiB line ceiling by an
empty line leaves the outcome of the parse unchanged — the same error or none,
the same chunks with the same ids, roles, kinds, texts, timestamps and line
numbers, the same summary and the same creation and update instants — when the
line does not decode as a record (either parser), or, for `ParseClaude`, when
it holds a `user` or `assistant` record whose message payload does not decode.
The working-directory hint is unchanged as well, with one exception: a Claude
record whose message payload does not decode still supplies its `cwd`, so the
hint is only guaranteed unchanged when that record has no `cwd` or a line
before it supplies one. -/
theorem undecodable_line_as_empty_line (lib : GoLib) (w w' : World) (filePath root : Bytes)
    (data data' : FileData) (pre post : List Bytes) (line : Bytes)
    (h : w.files filePath = some data) (h' : w'.files filePath = some data')
    (hlines : data.lines = pre ++ line :: post) (hlines' : data'.lines = pre ++ [] :: post)
    (hshort : line.length < 10485760) :
    (lib.unmarshalClaudeRecord (dropCR line) = none →
      sameFindings (ParseClaude lib w filePath root) (ParseClaude lib w' filePath root) ∧
      sameHint (ParseClaude lib w filePath root) (ParseClaude lib w' filePath root)) ∧
    (lib.unmarshalCodexRecord (dropCR line) = none →
      sameFindings (ParseCodex lib w filePath root) (ParseCodex lib w' filePath root) ∧
      sameHint (ParseCodex lib w filePath root) (ParseCodex lib w' filePath root)) ∧
    (∀ rec, lib.unmarshalClaudeRecord (dropCR line) = some rec →
      (rec.Typ = str "user" ∨ rec.Typ = str "assistant") →
      lib.unmarshalClaudeMessage rec.Message = none →
      sameFindings (ParseClaude lib w filePath root) (ParseClaude lib w' filePath root) ∧
      ((rec.Cwd = [] ∨ ∃ l ∈ pre, claudeCwdOf lib (dropCR l) ≠ []) →
        sameHint (ParseClaude lib w filePath root) (ParseClaude lib w' filePath root))) := by
  have hm : maxLineSize = 10485760 := by decide
  have hs : line.length < maxLineSize := by rw [hm]; exact hshort
  refine ⟨fun hrec => ?_, fun hrec => ?_, fun rec hrec htyp hmsg => ?_⟩
  · obtain ⟨a, b⟩ := claude_silent_line lib w w' filePath root data data' pre post line h h'
      hlines hlines' hs (by simp [claudeEmits, hrec]) (by simp [claudeSummaryOf, hrec])
    exact ⟨a, b (Or.inl (by simp [claudeCwdOf, hrec]))⟩
  · exact codex_silent_line lib w w' filePath root data data' pre post line h h'
      hlines hlines' hs (by simp [codexEmits, hrec]) (by simp [codexCwdOf, hrec])
  · have hns : ¬ (rec.Typ = str "summary" ∧ rec.Summary ≠ []) := by
      intro hx
      rcases htyp with e | e
      · rw [e] at hx; exact absurd hx.1 (by decide)
      · rw [e] at hx; exact absurd hx.1 (by decide)
    obtain ⟨a, b⟩ := claude_silent_line lib w w' filePath root data data' pre post line h h'
      hlines hlines' hs (by simp [claudeEmits, hrec, hns, hmsg])
      (by simp [claudeSummaryOf, hrec, hns])
    refine ⟨a, fun hh => b ?_⟩
    rcases hh with hh | hh
    · exact Or.inl (by simp [claudeCwdOf, hrec, hns, hh])
    · exact Or.inr hh

/-- C19 (counterexample).  First: the record `badMessageLine` decodes, its
type is `user`, and its message payload `"oops"` does not decode; the log made
of that line has the hint `/work`, the log made of an empty line has no hint.
Second: a line of more than 10 MiB that is no JSON text makes `ParseClaude` return an
error and no chunk for the log whose second line is `hiLine`; with an empty
line in its place the result has the chunk of `hiLine` and there is no
error. -/
theorem undecodable_line_unlike_empty_line :
    (jsonLib.unmarshalClaudeRecord (dropCR badMessageLine)
        = some (claudeRec "user" false "" "/work" (jsonString (str "oops"))) ∧
      jsonLib.unmarshalClaudeMessage (jsonString (str "oops")) = none ∧
      (ParseClaude jsonLib (logWorld "claude" [badMessageLine]) (str "/r/s.jsonl")
          (str "/r")).1.map (fun r => r.Meta.RepoCwd) = some (str "/work") ∧
      (ParseClaude jsonLib (logWorld "claude" [[]]) (str "/r/s.jsonl")
          (str "/r")).1.map (fun r => r.Meta.RepoCwd) = some []) ∧
    (jsonLib.unmarshalClaudeRecord overlongLine = none ∧
      (ParseClaude jsonLib (logWorld "claude" [overlongLine, hiLine]) (str "/r/s.jsonl")
          (str "/r")).1.map (fun r => r.Chunks) = some [] ∧
      (ParseClaude jsonLib (logWorld "claude" [overlongLine, hiLine]) (str "/r/s.jsonl")
          (str "/r")).2 = some "bufio.Scanner: token too long" ∧
      (ParseClaude jsonLib (logWorld "claude" [[], hiLine]) (str "/r/s.jsonl")
          (str "/r")).1.map (fun r => r.Chunks)
        = some [sampleChunk 0 firstDay "assistant" "text" (str "hi") 2] ∧
      (ParseClaude jsonLib (logWorld "claude" [[], hiLine]) (str "/r/s.jsonl")
          (str "/r")).2 = none) := by
  have hm : maxLineSize = 10485760 := by decide
  obtain ⟨r, hr, hc⟩ := (overlong_line_parse jsonLib
    (logWorld "claude" [overlongLine, hiLine]) (str "/r/s.jsonl") (str "/r")
    (logFile [overlongLine, hiLine]) [] [hiLine] overlongLine
    (logWorld_files _ _) rfl (by decide) (by rw [hm, overlongLine_length]; decide)).1
  refine ⟨⟨by decide, by decide, by decide, by decide⟩, ?_, ?_, ?_, by decide, by decide⟩
  · exact decodeBy_none_of_longer _ _ (by rw [overlongLine_length]; decide)
  · rw [hr]; exact congrArg some hc
  · rw [hr]

/-- Witness of C19 (amended): a line that is no JSON text in a Claude log and in
a Codex log, and a record whose message payload does not decode, after a record
that supplies a working directory. -/
theorem undecodable_line_as_empty_line_witness :
    (sameFindings
        (ParseClaude jsonLib (logWorld "claude" [helloLine, garbageLine, hiLine])
          (str "/r/s.jsonl") (str "/r"))
        (ParseClaude jsonLib (logWorld "claude" [helloLine, [], hiLine])
          (str "/r/s.jsonl") (str "/r")) ∧
      sameHint
        (ParseClaude jsonLib (logWorld "claude" [helloLine, garbageLine, hiLine])
          (str "/r/s.jsonl") (str "/r"))
        (ParseClaude jsonLib (logWorld "claude" [helloLine, [], hiLine])
          (str "/r/s.jsonl") (str "/r"))) ∧
    (sameFindings
        (ParseCodex jsonLib (logWorld "codex" [garbageLine, codexHelloLine])
          (str "/r/s.jsonl") (str "/r"))
        (ParseCodex jsonLib (logWorld "codex" [[], codexHelloLine])
          (str "/r/s.jsonl") (str "/r")) ∧
      sameHint
        (ParseCodex jsonLib (logWorld "codex" [garbageLine, codexHelloLine])
          (str "/r/s.jsonl") (str "/r"))
        (ParseCodex jsonLib (logWorld "codex" [[], codexHelloLine])
          (str "/r/s.jsonl") (str "/r"))) ∧
    (sameFindings
        (ParseClaude jsonLib (logWorld "claude" [badMessageLine, badMessageLine, hiLine])
          (str "/r/s.jsonl") (str "/r"))
        (ParseClaude jsonLib (logWorld "claude" [badMessageLine, [], hiLine])
          (str "/r/s.jsonl") (str "/r")) ∧
      sameHint
        (ParseClaude jsonLib (logWorld "claude" [badMessageLine, badMessageLine, hiLine])
          (str "/r/s.jsonl") (str "/r"))
        (ParseClaude jsonLib (logWorld "claude" [badMessageLine, [], hiLine])
          (str "/r/s.jsonl") (str "/r"))) :=
  ⟨(undecodable_line_as_empty_line jsonLib _ _ (str "/r/s.jsonl") (str "/r")
      (logFile [helloLine, garbageLine, hiLine]) (logFile [helloLine, [], hiLine])
      [helloLine] [hiLine] garbageLine (logWorld_files _ _) (logWorld_files _ _) rfl rfl
      (by decide)).1 (by decide),
   (undecodable_line_as_empty_line jsonLib _ _ (str "/r/s.jsonl") (str "/r")
      (logFile [garbageLine, codexHelloLine]) (logFile [[], codexHelloLine])
      [] [codexHelloLine] garbageLine (logWorld_files _ _) (logWorld_files _ _) rfl rfl
      (by decide)).2.1 (by decide),
   (fun p => ⟨p.1, p.2 (Or.inr ⟨badMessageLine, by decide, by decide⟩)⟩)
    ((undecodable_line_as_empty_line jsonLib _ _ (str "/r/s.jsonl") (str "/r")
      (logFile [badMessageLine, badMessageLine, hiLine]) (logFile [badMessageLine, [], hiLine])
      [badMessageLine] [hiLine] badMessageLine (logWorld_files _ _) (logWorld_files _ _) rfl rfl
      (by decide)).2.2 (claudeRec "user" false "" "/work" (jsonString (str "oops")))
      (by decide) (by decide) (by decide))⟩

/-! ## Search: the choice of the query path (C20) -/

theorem toNat_ofNat_small (n : Nat) (h : n < 256) : (UInt8.ofNat n).toNat = n := by
  show n % 256 = n
  omega

theorem byte_eq_ofNat (b : UInt8) (n : Nat) (h : b.toNat = n) : b = UInt8.ofNat n := by
  have hb := UInt8.toNat_lt_size b
  apply UInt8.ext_iff.mpr
  rw [toNat_ofNat_small n (by rw [← h]; exact hb), h]

/-- The outcomes of `decodeRune` on a non-empty string: an error of width 1, or
a well-formed sequence of one to four bytes. -/
theorem decodeRune_cases (b0 : UInt8) (rest : Bytes) :
    decodeRune (b0 :: rest) = (runeError, 1) ∨
    (b0.toNat < 0x80 ∧ decodeRune (b0 :: rest) = (b0.toNat, 1)) ∨
    (∃ b1 t, rest = b1 :: t ∧ 0xC2 ≤ b0.toNat ∧ b0.toNat ≤ 0xDF ∧
      0x80 ≤ b1.toNat ∧ b1.toNat ≤ 0xBF ∧
      decodeRune (b0 :: rest) = ((b0.toNat % 32) * 64 + b1.toNat % 64, 2)) ∨
    (∃ b1 b2 t, rest = b1 :: b2 :: t ∧ 0xE0 ≤ b0.toNat ∧ b0.toNat ≤ 0xEF ∧
      (secondRange b0.toNat).1 ≤ b1.toNat ∧ b1.toNat ≤ (secondRange b0.toNat).2 ∧
      0x80 ≤ b2.toNat ∧ b2.toNat ≤ 0xBF ∧
      decodeRune (b0 :: rest)
        = ((b0.toNat % 16) * 4096 + (b1.toNat % 64) * 64 + b2.toNat % 64, 3)) ∨
    (∃ b1 b2 b3 t, rest = b1 :: b2 :: b3 :: t ∧ 0xF0 ≤ b0.toNat ∧ b0.toNat ≤ 0xF4 ∧
      (secondRange b0.toNat).1 ≤ b1.toNat ∧ b1.toNat ≤ (secondRange b0.toNat).2 ∧
      0x80 ≤ b2.toNat ∧ b2.toNat ≤ 0xBF ∧ 0x80 ≤ b3.toNat ∧ b3.toNat ≤ 0xBF ∧
      decodeRune (b0 :: rest)
        = ((b0.toNat % 8) * 262144 + (b1.toNat % 64) * 4096 + (b2.toNat % 64) * 64
            + b3.toNat % 64, 4)) := by
  simp only [decodeRune]
  by_cases h1 : b0.toNat < 0x80
  · right; left
    exact ⟨h1, by rw [if_pos h1]⟩
  · rw [if_neg h1]
    by_cases h2 : 0xC2 ≤ b0.toNat ∧ b0.toNat ≤ 0xDF
    · rw [if_pos h2]
      cases rest with
      | nil => left; rfl
      | cons b1 t =>
        simp only
        by_cases hc : contIn 0x80 0xBF b1 = true
        · right; right; left
          rw [if_pos hc]
          simp only [contIn, Bool.and_eq_true, decide_eq_true_eq] at hc
          exact ⟨b1, t, rfl, h2.1, h2.2, hc.1, hc.2, rfl⟩
        · left
          rw [if_neg hc]
    · rw [if_neg h2]
      by_cases h3 : 0xE0 ≤ b0.toNat ∧ b0.toNat ≤ 0xEF
      · rw [if_pos h3]
        match rest with
        | [] => left; rfl
        | [_] => left; rfl
        | b1 :: b2 :: t =>
          simp only
          by_cases hc : (contIn (secondRange b0.toNat).1 (secondRange b0.toNat).2 b1
              && contIn 0x80 0xBF b2) = true
          · right; right; right; left
            rw [if_pos hc]
            simp only [contIn, Bool.and_eq_true, decide_eq_true_eq] at hc
            exact ⟨b1, b2, t, rfl, h3.1, h3.2, hc.1.1, hc.1.2, hc.2.1, hc.2.2, rfl⟩
          · left
            rw [if_neg hc]
      · rw [if_neg h3]
        by_cases h4 : 0xF0 ≤ b0.toNat ∧ b0.toNat ≤ 0xF4
        · rw [if_pos h4]
          match rest with
          | [] => left; rfl
          | [_] => left; rfl
          | [_, _] => left; rfl
          | b1 :: b2 :: b3 :: t =>
            simp only
            by_cases hc : (contIn (secondRange b0.toNat).1 (secondRange b0.toNat).2 b1
                && contIn 0x80 0xBF b2 && contIn 0x80 0xBF b3) = true
            · right; right; right; right
              rw [if_pos hc]
              simp only [contIn, Bool.and_eq_true, decide_eq_true_eq] at hc
              exact ⟨b1, b2, b3, t, rfl, h4.1, h4.2, hc.1.1.1, hc.1.1.2, hc.1.2.1, hc.1.2.2,
                hc.2.1, hc.2.2, rfl⟩
            · left
              rw [if_neg hc]
        · left
          rw [if_neg h4]

theorem secondRange_bounds (b0 : Nat) :
    0x80 ≤ (secondRange b0).1 ∧ (secondRange b0).2 ≤ 0xBF ∧
    (b0 = 0xE0 → (secondRange b0).1 = 0xA0) ∧ (b0 = 0xED → (secondRange b0).2 = 0x9F) ∧
    (b0 = 0xF0 → (secondRange b0).1 = 0x90) ∧ (b0 = 0xF4 → (secondRange b0).2 = 0x8F) ∧
    (b0 ≠ 0xE0 → b0 ≠ 0xF0 → (secondRange b0).1 = 0x80) ∧
    (b0 ≠ 0xED → b0 ≠ 0xF4 → (secondRange b0).2 = 0xBF) := by
  unfold secondRange
  by_cases h1 : b0 = 0xE0
  · subst h1; simp
  · by_cases h2 : b0 = 0xED
    · subst h2; simp
    · by_cases h3 : b0 = 0xF0
      · subst h3; simp
      · by_cases h4 : b0 = 0xF4
        · subst h4; simp
        · simp [h1, h2, h3, h4]

theorem decodeRune_take (b0 : UInt8) (rest : Bytes) :
    decodeRune (b0 :: rest) = (runeError, 1) ∨
    (b0 :: rest).take (decodeRune (b0 :: rest)).2 = encodeRune (decodeRune (b0 :: rest)).1 := by
  have hb0 : b0.toNat < 256 := UInt8.toNat_lt_size b0
  obtain ⟨s1, s2, s3, s4, s5, s6, _, _⟩ := secondRange_bounds b0.toNat
  rcases decodeRune_cases b0 rest with h | ⟨h1, h⟩ | ⟨b1, t, hr, h1, h2, h3, h4, h⟩
    | ⟨b1, b2, t, hr, h1, h2, h3, h4, h5, h6, h⟩
    | ⟨b1, b2, b3, t, hr, h1, h2, h3, h4, h5, h6, h7, h8, h⟩
  · exact Or.inl h
  · right
    rw [h]
    simp only [List.take_succ_cons, List.take_zero]
    unfold encodeRune
    rw [if_pos h1, ← byte_eq_ofNat b0 _ rfl]
  · right
    rw [h, hr]
    simp only [List.take_succ_cons, List.take_zero]
    unfold encodeRune
    rw [if_neg (by omega), if_pos (by omega),
      ← byte_eq_ofNat b0 (0xC0 + (b0.toNat % 32 * 64 + b1.toNat % 64) / 64) (by omega),
      ← byte_eq_ofNat b1 (0x80 + (b0.toNat % 32 * 64 + b1.toNat % 64) % 64) (by omega)]
  · right
    rw [h, hr]
    simp only [List.take_succ_cons, List.take_zero]
    unfold encodeRune
    rw [if_neg (by omega), if_neg (by omega), if_neg (by omega), if_pos (by omega),
      ← byte_eq_ofNat b0
        (0xE0 + (b0.toNat % 16 * 4096 + b1.toNat % 64 * 64 + b2.toNat % 64) / 4096) (by omega),
      ← byte_eq_ofNat b1
        (0x80 + (b0.toNat % 16 * 4096 + b1.toNat % 64 * 64 + b2.toNat % 64) / 64 % 64)
        (by omega),
      ← byte_eq_ofNat b2
        (0x80 + (b0.toNat % 16 * 4096 + b1.toNat % 64 * 64 + b2.toNat % 64) % 64) (by omega)]
  · right
    rw [h, hr]
    simp only [List.take_succ_cons, List.take_zero]
    unfold encodeRune
    rw [if_neg (by omega), if_neg (by omega), if_neg (by omega), if_neg (by omega),
      ← byte_eq_ofNat b0
        (0xF0 + (b0.toNat % 8 * 262144 + b1.toNat % 64 * 4096 + b2.toNat % 64 * 64
          + b3.toNat % 64) / 262144) (by omega),
      ← byte_eq_ofNat b1
        (0x80 + (b0.toNat % 8 * 262144 + b1.toNat % 64 * 4096 + b2.toNat % 64 * 64
          + b3.toNat % 64) / 4096 % 64) (by omega),
      ← byte_eq_ofNat b2
        (0x80 + (b0.toNat % 8 * 262144 + b1.toNat % 64 * 4096 + b2.toNat % 64 * 64
          + b3.toNat % 64) / 64 % 64) (by omega),
      ← byte_eq_ofNat b3
        (0x80 + (b0.toNat % 8 * 262144 + b1.toNat % 64 * 4096 + b2.toNat % 64 * 64
          + b3.toNat % 64) % 64) (by omega)]

theorem contIn_of_bounds (lo hi : Nat) (b : UInt8) (h1 : lo ≤ b.toNat) (h2 : b.toNat ≤ hi) :
    contIn lo hi b = true := by
  simp [contIn, h1, h2]

/-- Decoding the encoding of a Unicode scalar value gives the value back. -/
theorem decodeRune_encodeRune (c : Nat) (rest : Bytes)
    (hmax : c ≤ 0x10FFFF) (hsur : ¬ (0xD800 ≤ c ∧ c ≤ 0xDFFF)) :
    decodeRune (encodeRune c ++ rest) = (c, (encodeRune c).length) := by
  unfold encodeRune
  by_cases h1 : c < 0x80
  · rw [if_pos h1]
    have e0 := toNat_ofNat_small c (by omega)
    simp only [List.singleton_append, decodeRune, e0, h1, if_true, List.length_singleton]
  · rw [if_neg h1]
    by_cases h2 : c < 0x800
    · rw [if_pos h2]
      have e0 := toNat_ofNat_small (0xC0 + c / 64) (by omega)
      have e1 := toNat_ofNat_small (0x80 + c % 64) (by omega)
      have c1 := contIn_of_bounds 0x80 0xBF (UInt8.ofNat (0x80 + c % 64))
        (by rw [e1]; omega) (by rw [e1]; omega)
      simp only [List.cons_append, List.nil_append, decodeRune, c1, if_true, e0, e1,
        List.length_cons, List.length_nil]
      rw [if_neg (by omega), if_pos (by omega)]
      exact Prod.ext (by show _ = c; omega) rfl
    · rw [if_neg h2, if_neg (by omega)]
      by_cases h3 : c < 0x10000
      · rw [if_pos h3]
        have e0 := toNat_ofNat_small (0xE0 + c / 4096) (by omega)
        have e1 := toNat_ofNat_small (0x80 + c / 64 % 64) (by omega)
        have e2 := toNat_ofNat_small (0x80 + c % 64) (by omega)
        obtain ⟨s1, s2, s3, s4, s5, s6, s7, s8⟩ := secondRange_bounds (0xE0 + c / 4096)
        have c1 := contIn_of_bounds (secondRange (0xE0 + c / 4096)).1
          (secondRange (0xE0 + c / 4096)).2 (UInt8.ofNat (0x80 + c / 64 % 64))
          (by rw [e1]; omega)
          (by rw [e1]; omega)
        have c2 := contIn_of_bounds 0x80 0xBF (UInt8.ofNat (0x80 + c % 64))
          (by rw [e2]; omega) (by rw [e2]; omega)
        simp only [List.cons_append, List.nil_append, decodeRune, e0, e1, e2, c1, c2,
          Bool.and_self, if_true, List.length_cons, List.length_nil]
        rw [if_neg (by omega), if_neg (by omega), if_pos (by omega)]
        exact Prod.ext (by show _ = c; omega) rfl
      · rw [if_neg h3]
        have e0 := toNat_ofNat_small (0xF0 + c / 262144) (by omega)
        have e1 := toNat_ofNat_small (0x80 + c / 4096 % 64) (by omega)
        have e2 := toNat_ofNat_small (0x80 + c / 64 % 64) (by omega)
        have e3 := toNat_ofNat_small (0x80 + c % 64) (by omega)
        obtain ⟨s1, s2, s3, s4, s5, s6, s7, s8⟩ := secondRange_bounds (0xF0 + c / 262144)
        have c1 := contIn_of_bounds (secondRange (0xF0 + c / 262144)).1
          (secondRange (0xF0 + c / 262144)).2 (UInt8.ofNat (0x80 + c / 4096 % 64))
          (by rw [e1]; omega)
          (by rw [e1]; omega)
        have c2 := contIn_of_bounds 0x80 0xBF (UInt8.ofNat (0x80 + c / 64 % 64))
          (by rw [e2]; omega) (by rw [e2]; omega)
        have c3 := contIn_of_bounds 0x80 0xBF (UInt8.ofNat (0x80 + c % 64))
          (by rw [e3]; omega) (by rw [e3]; omega)
        simp only [List.cons_append, List.nil_append, decodeRune, e0, e1, e2, e3, c1, c2, c3,
          Bool.and_self, if_true, List.length_cons, List.length_nil]
        rw [if_neg (by omega), if_neg (by omega), if_neg (by omega), if_pos (by omega)]
        exact Prod.ext (by show _ = c; omega) rfl

/-- The first byte of an encoding is no continuation byte. -/
theorem encodeRune_head (c : Nat) :
    ∃ e0 tail, encodeRune c = e0 :: tail ∧ ¬ (0x80 ≤ e0.toNat ∧ e0.toNat ≤ 0xBF) := by
  unfold encodeRune
  by_cases h1 : c < 0x80
  · rw [if_pos h1]
    exact ⟨_, _, rfl, by rw [toNat_ofNat_small c (by omega)]; omega⟩
  · rw [if_neg h1]
    by_cases h2 : c < 0x800
    · rw [if_pos h2]
      exact ⟨_, _, rfl, by rw [toNat_ofNat_small _ (by omega)]; omega⟩
    · rw [if_neg h2]
      by_cases h3 : 0x10FFFF < c ∨ (0xD800 ≤ c ∧ c ≤ 0xDFFF)
      · rw [if_pos h3]
        exact ⟨_, _, rfl, by decide⟩
      · rw [if_neg h3]
        by_cases h4 : c < 0x10000
        · rw [if_pos h4]
          exact ⟨_, _, rfl, by rw [toNat_ofNat_small _ (by omega)]; omega⟩
        · rw [if_neg h4]
          exact ⟨_, _, rfl, by rw [toNat_ofNat_small _ (by omega)]; omega⟩

/-- The width `decodeRune` reports is at least 1 and within the string. -/
theorem decodeRune_width (b0 : UInt8) (rest : Bytes) :
    1 ≤ (decodeRune (b0 :: rest)).2 ∧ (decodeRune (b0 :: rest)).2 ≤ (b0 :: rest).length := by
  rcases decodeRune_cases b0 rest with h | ⟨_, h⟩ | ⟨b1, t, hr, _, _, _, _, h⟩
    | ⟨b1, b2, t, hr, _, _, _, _, _, _, h⟩
    | ⟨b1, b2, b3, t, hr, _, _, _, _, _, _, _, _, h⟩
  · rw [h]; simp
  · rw [h]; simp
  · rw [h, hr]; simp
  · rw [h, hr]; simp
  · rw [h, hr]; simp

/-- A sequence that starts before a byte that is no continuation byte ends
before that byte. -/
theorem decodeRune_resync (p0 : UInt8) (ps : Bytes) (e0 : UInt8) (rest : Bytes)
    (he : ¬ (0x80 ≤ e0.toNat ∧ e0.toNat ≤ 0xBF)) :
    (decodeRune (p0 :: (ps ++ e0 :: rest))).2 ≤ (p0 :: ps).length := by
  obtain ⟨s1, s2, _⟩ := secondRange_bounds p0.toNat
  rcases decodeRune_cases p0 (ps ++ e0 :: rest) with h | ⟨_, h⟩ | ⟨b1, t, hr, _, _, q1, q2, h⟩
    | ⟨b1, b2, t, hr, _, _, q1, q2, q3, q4, h⟩
    | ⟨b1, b2, b3, t, hr, _, _, q1, q2, q3, q4, q5, q6, h⟩
  · rw [h]; simp
  · rw [h]; simp
  · rw [h]
    match ps, hr with
    | [], hr =>
      simp only [List.nil_append, List.cons.injEq] at hr
      rw [hr.1] at he
      omega
    | _ :: _, _ => simp
  · rw [h]
    match ps, hr with
    | [], hr =>
      simp only [List.nil_append, List.cons.injEq] at hr
      rw [hr.1] at he
      omega
    | [_], hr =>
      simp only [List.cons_append, List.nil_append, List.cons.injEq] at hr
      rw [hr.2.1] at he
      omega
    | _ :: _ :: _, _ => simp
  · rw [h]
    match ps, hr with
    | [], hr =>
      simp only [List.nil_append, List.cons.injEq] at hr
      rw [hr.1] at he
      omega
    | [_], hr =>
      simp only [List.cons_append, List.nil_append, List.cons.injEq] at hr
      rw [hr.2.1] at he
      omega
    | [_, _], hr =>
      simp only [List.cons_append, List.nil_append, List.cons.injEq] at hr
      rw [hr.2.2.1] at he
      omega
    | _ :: _ :: _ :: _, _ => simp

/-- The encoding of a scalar value inside a string is read as that value by the
rune loop. -/
theorem mem_decodeRunesAux_of_encoding (c : Nat) (post : Bytes)
    (hmax : c ≤ 0x10FFFF) (hsur : ¬ (0xD800 ≤ c ∧ c ≤ 0xDFFF)) :
    ∀ (fuel : Nat) (pre : Bytes), (pre ++ encodeRune c ++ post).length ≤ fuel →
      c ∈ decodeRunesAux fuel (pre ++ encodeRune c ++ post) := by
  obtain ⟨e0, tail, henc, he0⟩ := encodeRune_head c
  intro fuel
  induction fuel with
  | zero =>
    intro pre hlen
    rw [henc] at hlen
    simp at hlen
  | succ n ih =>
    intro pre hlen
    cases pre with
    | nil =>
      have hd := decodeRune_encodeRune c post hmax hsur
      rw [List.nil_append]
      rw [henc] at hd ⊢
      rw [List.cons_append] at hd ⊢
      simp only [decodeRunesAux, hd, List.mem_cons, true_or]
    | cons p0 ps =>
      have hw := decodeRune_width p0 (ps ++ encodeRune c ++ post)
      have hs : (decodeRune (p0 :: (ps ++ encodeRune c ++ post))).2 ≤ (p0 :: ps).length := by
        rw [henc, List.append_assoc, List.cons_append]
        exact decodeRune_resync p0 ps e0 (tail ++ post) he0
      have hgen : ∀ k, k ≤ (p0 :: ps).length →
          (p0 :: (ps ++ encodeRune c ++ post)).drop k
            = (p0 :: ps).drop k ++ encodeRune c ++ post := by
        intro k hk
        have : p0 :: (ps ++ encodeRune c ++ post) = (p0 :: ps) ++ (encodeRune c ++ post) := by
          simp
        rw [this, List.drop_append_of_le_length hk, List.append_assoc]
      have hdrop := hgen _ hs
      simp only [List.cons_append, decodeRunesAux, List.mem_cons, List.append_eq]
      right
      rw [hdrop]
      apply ih
      have h1 : ((p0 :: ps).drop (decodeRune (p0 :: (ps ++ encodeRune c ++ post))).2).length
          = (p0 :: ps).length - (decodeRune (p0 :: (ps ++ encodeRune c ++ post))).2 :=
        List.length_drop _ _
      simp only [List.length_append, List.length_cons] at hlen h1 hs ⊢
      omega

/-- A rune the loop reads, other than the error rune, stands in the string in
its encoding. -/
theorem encoding_of_mem_decodeRunesAux (r : Nat) (hr : r ≠ runeError) :
    ∀ (fuel : Nat) (s : Bytes), r ∈ decodeRunesAux fuel s →
      ∃ pre post, s = pre ++ encodeRune r ++ post := by
  intro fuel
  induction fuel with
  | zero => intro s h; simp [decodeRunesAux] at h
  | succ n ih =>
    intro s h
    cases s with
    | nil => simp [decodeRunesAux] at h
    | cons b bs =>
      simp only [decodeRunesAux, List.mem_cons] at h
      rcases h with h | h
      · rcases decodeRune_take b bs with e | e
        · rw [e] at h; exact absurd h hr
        · refine ⟨[], (b :: bs).drop (decodeRune (b :: bs)).2, ?_⟩
          rw [List.nil_append, h, ← e, List.take_append_drop]
      · obtain ⟨pre, post, e⟩ := ih _ h
        refine ⟨(b :: bs).take (decodeRune (b :: bs)).2 ++ pre, post, ?_⟩
        rw [List.append_assoc, List.append_assoc, ← List.append_assoc pre, ← e,
          List.take_append_drop]

theorem decodeRunesAux_ascii :
    ∀ (fuel : Nat) (s : Bytes), (∀ b ∈ s, b.toNat < 0x80) →
      ∀ r ∈ decodeRunesAux fuel s, r < 0x80 := by
  intro fuel
  induction fuel with
  | zero => intro s _ r h; simp [decodeRunesAux] at h
  | succ n ih =>
    intro s hs r h
    cases s with
    | nil => simp [decodeRunesAux] at h
    | cons b bs =>
      have hb := hs b (List.mem_cons_self _ _)
      have hd : decodeRune (b :: bs) = (b.toNat, 1) := by
        simp only [decodeRune, hb, if_true]
      simp only [decodeRunesAux, hd, List.mem_cons, List.drop_succ_cons, List.drop_zero] at h
      rcases h with h | h
      · rw [h]; exact hb
      · exact ih bs (fun x hx => hs x (List.mem_cons_of_mem _ hx)) r h

theorem snippetRows_rank (mk : Bytes → Bytes → Int → Option Bytes) (query : Bytes) :
    ∀ (rows : List (Result × Bytes)) (out : List Result),
      snippetRows mk query rows = some out → ∀ r ∈ out, r.Rank = 0 := by
  intro rows
  induction rows with
  | nil => intro out h r hr; cases h; cases hr
  | cons p rest ih =>
    intro out h r hr
    unfold snippetRows at h
    cases hm : mk p.2 query 30 with
    | none => rw [hm] at h; cases h
    | some snip =>
      rw [hm] at h
      cases hrest : snippetRows mk query rest with
      | none => rw [hrest] at h; cases h
      | some results =>
        rw [hrest] at h
        cases h
        rcases List.mem_cons.1 hr with e | e
        · rw [e]
        · exact ih results hrest r e

theorem searchLike_rank (db : QueryEngine) (mk : Bytes → Bytes → Int → Option Bytes)
    (opts : Options) (rows : List Result) (h : searchLike db mk opts = some (.ok rows)) :
    ∀ r ∈ rows, r.Rank = 0 := by
  unfold searchLike at h
  cases hq : db.selectLike (str "%" ++ opts.Query ++ str "%") opts.Source opts.Role opts.Since with
  | error e => rw [hq] at h; cases h
  | ok found =>
    rw [hq] at h
    simp only at h
    cases hs : snippetRows mk opts.Query (sqlLimit opts.Limit found) with
    | none => rw [hs] at h; cases h
    | some out =>
      rw [hs] at h
      simp only [Option.map_some', Option.some.injEq, Except.ok.injEq] at h
      rw [← h]
      exact snippetRows_rank mk opts.Query _ out hs

theorem Search_subset (db : QueryEngine) (isHan : Nat → Bool)
    (mk : Bytes → Bytes → Int → Option Bytes) (opts : Options) (rs : List Result)
    (h : Search db isHan mk opts = some (.ok rs)) :
    ∃ fetched, fetchRows db isHan mk opts = some (.ok fetched) ∧ ∀ r ∈ rs, r ∈ fetched := by
  cases hf : fetchRows db isHan mk opts with
  | none => unfold Search at h; rw [hf] at h; cases h
  | some o =>
    cases o with
    | error e => unfold Search at h; rw [hf] at h; cases h
    | ok fetched =>
      refine ⟨fetched, rfl, ?_⟩
      rw [Search_eq_take db isHan mk opts fetched hf] at h
      simp only [Option.some.injEq, Except.ok.injEq] at h
      intro r hr
      rw [← h] at hr
      exact (firstPerKey_sublist fetched []).subset (List.mem_of_mem_take hr)

theorem containsCJK_iff (isHan : Nat → Bool) (q : Bytes)
    (hHan : ∀ c, isHan c = true →
      0x80 ≤ c ∧ c ≤ 0x10FFFF ∧ ¬ (0xD800 ≤ c ∧ c ≤ 0xDFFF) ∧ c ≠ 0xFFFD) :
    containsCJK isHan q = true ↔
      ∃ pre c post, isHan c = true ∧ q = pre ++ encodeRune c ++ post := by
  unfold containsCJK
  rw [List.any_eq_true]
  constructor
  · rintro ⟨r, hr, hh⟩
    obtain ⟨pre, post, e⟩ := encoding_of_mem_decodeRunesAux r (hHan r hh).2.2.2 q.length q hr
    exact ⟨pre, r, post, hh, e⟩
  · rintro ⟨pre, c, post, hh, e⟩
    obtain ⟨_, h2, h3, _⟩ := hHan c hh
    refine ⟨c, ?_, hh⟩
    unfold decodeRunes
    rw [e]
    exact mem_decodeRunesAux_of_encoding c post h2 h3 _ pre (Nat.le_refl _)

theorem containsCJK_ascii (isHan : Nat → Bool) (q : Bytes)
    (hHan : ∀ c, isHan c = true → 0x80 ≤ c)
    (h : ∀ b ∈ q, b.toNat < 0x80) : containsCJK isHan q = false := by
  unfold containsCJK
  rw [Bool.eq_false_iff]
  intro hany
  rw [List.any_eq_true] at hany
  obtain ⟨r, hr, hh⟩ := hany
  have h1 := decodeRunesAux_ascii q.length q h r hr
  have h2 := hHan r hh
  omega

theorem Search_on_substring_path (db : QueryEngine) (isHan : Nat → Bool)
    (mk : Bytes → Bytes → Int → Option Bytes) (opts : Options)
    (h : containsCJK isHan opts.Query = true) :
    Search db isHan mk opts = (searchLike db mk (fetchOptions opts)).map (dedupOutcome opts) := by
  unfold Search fetchRows
  rw [if_pos h]
  cases searchLike db mk (fetchOptions opts) with
  | none => rfl
  | some o => cases o <;> rfl

theorem Search_on_fulltext_path (db : QueryEngine) (isHan : Nat → Bool)
    (mk : Bytes → Bytes → Int → Option Bytes) (opts : Options)
    (h : containsCJK isHan opts.Query = false) :
    Search db isHan mk opts = some (dedupOutcome opts (searchFTS db (fetchOptions opts))) := by
  unfold Search fetchRows
  rw [if_neg (by rw [h]; decide)]
  cases searchFTS db (fetchOptions opts) <;> rfl

/-- C20: `Search` takes the substring path when the query contains a CJK
character and the full-text path otherwise.  A CJK character is a character of
the table `unicode.Han` (the argument `isHan`), which is what `containsCJK`
tests; the query contains the character `c` when the UTF-8 encoding of `c` is
part of it.  The table holds no ASCII character, no surrogate, no value above
U+10FFFF and not U+FFFD.  Then: `containsCJK` is true exactly of the queries
that contain a character of the table; on such a query the outcome of `Search`
is the outcome of `searchLike`, deduplicated, and every result has rank 0; on
any other query it is the outcome of `searchFTS`, deduplicated, and a query
made of ASCII bytes only is such a query; every row `searchLike` returns has
rank 0. -/
theorem Search_strategy_selection (db : QueryEngine) (isHan : Nat → Bool)
    (mk : Bytes → Bytes → Int → Option Bytes) (opts : Options)
    (hHan : ∀ c, isHan c = true →
      0x80 ≤ c ∧ c ≤ 0x10FFFF ∧ ¬ (0xD800 ≤ c ∧ c ≤ 0xDFFF) ∧ c ≠ 0xFFFD) :
    (containsCJK isHan opts.Query = true ↔
      ∃ pre c post, isHan c = true ∧ opts.Query = pre ++ encodeRune c ++ post) ∧
    ((∃ pre c post, isHan c = true ∧ opts.Query = pre ++ encodeRune c ++ post) →
      Search db isHan mk opts = (searchLike db mk (fetchOptions opts)).map (dedupOutcome opts) ∧
      ∀ rs, Search db isHan mk opts = some (.ok rs) → ∀ r ∈ rs, r.Rank = 0) ∧
    ((¬ ∃ pre c post, isHan c = true ∧ opts.Query = pre ++ encodeRune c ++ post) →
      Search db isHan mk opts = some (dedupOutcome opts (searchFTS db (fetchOptions opts)))) ∧
    ((∀ b ∈ opts.Query, b.toNat < 0x80) →
      Search db isHan mk opts = some (dedupOutcome opts (searchFTS db (fetchOptions opts)))) ∧
    (∀ rows, searchLike db mk (fetchOptions opts) = some (.ok rows) →
      ∀ r ∈ rows, r.Rank = 0) := by
  have hiff := containsCJK_iff isHan opts.Query hHan
  refine ⟨hiff, fun hex => ⟨Search_on_substring_path db isHan mk opts (hiff.2 hex), ?_⟩,
    fun hno => ?_, fun hascii => ?_, fun rows h => searchLike_rank db mk _ rows h⟩
  · intro rs hrs r hr
    obtain ⟨fetched, hf, hsub⟩ := Search_subset db isHan mk opts rs hrs
    unfold fetchRows at hf
    rw [if_pos (hiff.2 hex)] at hf
    exact searchLike_rank db mk _ fetched hf r (hsub r hr)
  · apply Search_on_fulltext_path
    cases hc : containsCJK isHan opts.Query with
    | false => rfl
    | true => exact absurd (hiff.1 hc) hno
  · exact Search_on_fulltext_path db isHan mk opts
      (containsCJK_ascii isHan opts.Query (fun c hc => (hHan c hc).1) hascii)

/-- Witness of C20: with the table reduced to the block U+4E00 to U+9FFF, the
query `fix` followed by the ideograph U+4E2D gets the row of the substring
query, and the ASCII query `world` gets the row of the full-text query with its
rank. -/
theorem Search_strategy_selection_witness :
    (∀ c, hanBlock c = true →
      0x80 ≤ c ∧ c ≤ 0x10FFFF ∧ ¬ (0xD800 ≤ c ∧ c ≤ 0xDFFF) ∧ c ≠ 0xFFFD) ∧
    Search pathEngine hanBlock (fun _ _ _ => some []) ideographOptions
      = some (.ok [mkRow "claude:b" 0]) ∧
    Search pathEngine hanBlock (fun _ _ _ => some []) (sampleOptions 2)
      = some (.ok [rankedRow]) := by
  have hHan : ∀ c, hanBlock c = true →
      0x80 ≤ c ∧ c ≤ 0x10FFFF ∧ ¬ (0xD800 ≤ c ∧ c ≤ 0xDFFF) ∧ c ≠ 0xFFFD := by
    intro c hc
    simp only [hanBlock, decide_eq_true_eq] at hc
    omega
  exact ⟨hHan,
    ((Search_strategy_selection pathEngine hanBlock (fun _ _ _ => some []) ideographOptions
      hHan).2.1 ⟨str "fix ", 0x4E2D, [], by decide, by decide⟩).1.trans (by decide),
    ((Search_strategy_selection pathEngine hanBlock (fun _ _ _ => some []) (sampleOptions 2)
      hHan).2.2.2.1 (by decide)).trans (by decide)⟩

/-! ## Parsers: which record sets the working-directory hint (C27, C28) -/

theorem firstHint_of_all_nil (l : List Bytes) (h : ∀ c ∈ l, c = []) : firstHint [] l = [] := by
  induction l with
  | nil => rfl
  | cons c cs ih =>
    have hc := h c (List.mem_cons_self _ _)
    simp only [firstHint, hc, ne_eq, not_true_eq_false, false_and, if_false]
    exact ih (fun x hx => h x (List.mem_cons_of_mem _ hx))

theorem firstHint_first (pre post : List Bytes) (c : Bytes) (hpre : ∀ x ∈ pre, x = [])
    (hc : c ≠ []) : firstHint [] (pre ++ c :: post) = c := by
  rw [firstHint_append, firstHint_of_all_nil pre hpre]
  simp only [firstHint, hc, ne_eq, not_false_eq_true, and_self, if_true]
  exact firstHint_of_ne_nil post c hc

/-- C27 (amended): the hint `ParseClaude` returns is first-wins over the lines
read.  A line supplies a working directory when it decodes to a record with a
non-empty `cwd` that is not a record of type `summary` with a non-empty
summary; the type of the record and its metadata flag do not matter otherwise,
nor does its message.  The hint is the `cwd` of the first line that supplies
one, whatever the lines after it hold, and it is empty when no line read
supplies one. -/
theorem claude_hint_first_wins (lib : GoLib) (w : World) (filePath root : Bytes)
    (data : FileData) (h : w.files filePath = some data) :
    (∀ line rec, line.length ≠ 0 → lib.unmarshalClaudeRecord line = some rec →
      claudeCwdOf lib line
        = if rec.Typ = str "summary" ∧ rec.Summary ≠ [] then [] else rec.Cwd) ∧
    (∀ line, line.length = 0 ∨ lib.unmarshalClaudeRecord line = none →
      claudeCwdOf lib line = []) ∧
    ∃ r, ParseClaude lib w filePath root = (some r, (scanTokens data.lines).2) ∧
      (∀ pre line post, (scanTokens data.lines).1 = pre ++ line :: post →
        (∀ l ∈ pre, claudeCwdOf lib l = []) → claudeCwdOf lib line ≠ [] →
        r.Meta.RepoCwd = claudeCwdOf lib line) ∧
      ((∀ l ∈ (scanTokens data.lines).1, claudeCwdOf lib l = []) → r.Meta.RepoCwd = []) := by
  refine ⟨?_, ?_, ?_⟩
  · intro line rec h0 hrec
    simp only [claudeCwdOf, h0, if_false, hrec]
  · intro line hl
    rcases hl with h0 | hrec
    · simp only [claudeCwdOf, h0, if_true]
    · unfold claudeCwdOf
      split
      · rfl
      · rw [hrec]
  · obtain ⟨r, hr, hh⟩ := ParseClaude_hint lib w filePath root data h
    refine ⟨r, hr, ?_, ?_⟩
    · intro pre line post htok hpre hline
      rw [hh, htok, List.map_append, List.map_cons]
      exact firstHint_first _ _ _
        (fun x hx => by
          obtain ⟨l, hl, e⟩ := List.mem_map.1 hx
          rw [← e]; exact hpre l hl) hline
    · intro hall
      rw [hh]
      exact firstHint_of_all_nil _ (fun x hx => by
        obtain ⟨l, hl, e⟩ := List.mem_map.1 hx
        rw [← e]; exact hall l hl)

/-- C27 (counterexample).  The first record of the log is a summary record that
carries the working directory `/a`, the second a user record with the working
directory `/d`: the hint is `/d`, not the `cwd` of the first record that
supplies one. -/
theorem summary_record_cwd_ignored :
    (hintLib.unmarshalClaudeRecord summaryCwdLine).map (fun r => (r.Typ, r.Cwd))
      = some (str "summary", str "/a") ∧
    (hintLib.unmarshalClaudeRecord helloCwdLine).map (fun r => (r.Typ, r.Cwd))
      = some (str "user", str "/d") ∧
    (ParseClaude hintLib (logWorld "claude" [summaryCwdLine, helloCwdLine]) (str "/r/s.jsonl")
        (str "/r")).1.map (fun r => r.Meta.RepoCwd) = some (str "/d") := by
  decide

/-- Witness of C27 (amended): after a record without `cwd`, a record of type
`progress` with the working directory `/c` sets the hint; the records after it,
a metadata record with `/b` and a user record with `/d`, do not change it. -/
theorem claude_hint_first_wins_witness :
    (ParseClaude hintLib
        (logWorld "claude" [helloLine, progressCwdLine, metaCwdLine, helloCwdLine])
        (str "/r/s.jsonl") (str "/r")).1.map (fun r => r.Meta.RepoCwd) = some (str "/c") := by
  obtain ⟨r, hr, h1, _⟩ := (claude_hint_first_wins hintLib
    (logWorld "claude" [helloLine, progressCwdLine, metaCwdLine, helloCwdLine])
    (str "/r/s.jsonl") (str "/r")
    (logFile [helloLine, progressCwdLine, metaCwdLine, helloCwdLine]) (logWorld_files _ _)).2.2
  rw [hr]
  exact congrArg some ((h1 [helloLine] progressCwdLine [metaCwdLine, helloCwdLine]
    (by decide) (by decide) (by decide)).trans (by decide))

theorem getLast?_filterMap_last {α β : Type} (f : α → Option β) (pre post : List α) (x : α)
    (b : β) (hx : f x = some b) (hpost : ∀ y ∈ post, f y = none) :
    ((pre ++ x :: post).filterMap f).getLast? = some b := by
  have hp : post.filterMap f = [] := by
    rw [List.filterMap_eq_nil_iff]
    exact hpost
  rw [List.filterMap_append, List.filterMap_cons, hx, hp]
  simp

/-- C28 (amended): the hint `ParseCodex` returns is last-wins over the lines
read.  A line sets the hint exactly when it decodes to a record of type
`session_meta` whose payload decodes, and then to the `cwd` of that payload
(empty when the payload has none); a record of any other type sets nothing.
The hint is the value set by the last such line among the lines read, and it
is empty when no line read is one.  The lines read are all the lines of the
file when none reaches the line ceiling of 10 MiB, and the lines before the
first line that reaches it otherwise. -/
theorem codex_hint_last_wins (lib : GoLib) (w : World) (filePath root : Bytes)
    (data : FileData) (h : w.files filePath = some data) :
    (∀ line rec m, line.length ≠ 0 → lib.unmarshalCodexRecord line = some rec →
      rec.Typ = str "session_meta" → lib.unmarshalCodexSessionMeta rec.Payload = some m →
      codexCwdOf lib line = some m.Cwd) ∧
    (∀ line rec, lib.unmarshalCodexRecord line = some rec →
      rec.Typ ≠ str "session_meta" ∨ lib.unmarshalCodexSessionMeta rec.Payload = none →
      codexCwdOf lib line = none) ∧
    (∀ line, line.length = 0 ∨ lib.unmarshalCodexRecord line = none →
      codexCwdOf lib line = none) ∧
    ∃ r, ParseCodex lib w filePath root = (some r, (scanTokens data.lines).2) ∧
      (∀ pre line post cwd, (scanTokens data.lines).1 = pre ++ line :: post →
        codexCwdOf lib line = some cwd → (∀ l ∈ post, codexCwdOf lib l = none) →
        r.Meta.RepoCwd = cwd) ∧
      ((∀ l ∈ (scanTokens data.lines).1, codexCwdOf lib l = none) → r.Meta.RepoCwd = []) ∧
      ((∀ l ∈ data.lines, l.length < maxLineSize) →
        scanTokens data.lines = (data.lines.map dropCR, none)) ∧
      (∀ before long after, data.lines = before ++ long :: after →
        (∀ l ∈ before, l.length < maxLineSize) → maxLineSize ≤ long.length →
        scanTokens data.lines
          = (before.map dropCR, some "bufio.Scanner: token too long")) := by
  refine ⟨?_, ?_, ?_, ?_⟩
  · intro line rec m h0 hrec htyp hm
    simp only [codexCwdOf, h0, if_false, hrec, htyp, if_true, hm, Option.map_some']
  · intro line rec hrec hor
    unfold codexCwdOf
    split
    · rfl
    · rw [hrec]
      simp only
      rcases hor with hne | hnone
      · rw [if_neg hne]
      · split
        · rw [hnone]; rfl
        · rfl
  · intro line hl
    rcases hl with h0 | hrec
    · simp only [codexCwdOf, h0, if_true]
    · unfold codexCwdOf
      split
      · rfl
      · rw [hrec]
  · obtain ⟨r, hr, hh⟩ := ParseCodex_hint lib w filePath root data h
    refine ⟨r, hr, ?_, ?_, scanTokens_of_short data.lines,
      fun before long after hl hb hlong => by
        rw [hl]; exact scanTokens_overlong before after long hb hlong⟩
    · intro pre line post cwd htok hline hpost
      rw [hh, htok, getLast?_filterMap_last _ pre post line cwd hline hpost]
      rfl
    · intro hall
      have hnil : (scanTokens data.lines).1.filterMap (codexCwdOf lib) = [] := by
        rw [List.filterMap_eq_nil_iff]
        exact hall
      rw [hh, hnil]
      rfl

/-- Witness of C28: of the `session_meta` records with the payloads
`{"cwd":"/a"}`, `{"cwd":"/b"}` and `7`, with an event record in between, the
second sets the hint `/b`: the third does not decode and the event sets
nothing; and a log whose last `session_meta` payload is `{}` has an empty
hint. -/
theorem codex_hint_last_wins_witness :
    (ParseCodex codexHintLib
        (logWorld "codex" [codexMetaLine "\x7b\"cwd\":\"/a\"\x7d", codexHelloLine,
          codexMetaLine "\x7b\"cwd\":\"/b\"\x7d", codexMetaLine "7", codexHelloLine])
        (str "/r/s.jsonl") (str "/r")).1.map (fun r => r.Meta.RepoCwd) = some (str "/b") ∧
    (ParseCodex codexHintLib
        (logWorld "codex" [codexMetaLine "\x7b\"cwd\":\"/a\"\x7d", codexMetaLine "\x7b\x7d"])
        (str "/r/s.jsonl") (str "/r")).1.map (fun r => r.Meta.RepoCwd) = some [] := by
  obtain ⟨r, hr, h1, _⟩ := (codex_hint_last_wins codexHintLib
    (logWorld "codex" [codexMetaLine "\x7b\"cwd\":\"/a\"\x7d", codexHelloLine,
      codexMetaLine "\x7b\"cwd\":\"/b\"\x7d", codexMetaLine "7", codexHelloLine])
    (str "/r/s.jsonl") (str "/r")
    (logFile [codexMetaLine "\x7b\"cwd\":\"/a\"\x7d", codexHelloLine,
      codexMetaLine "\x7b\"cwd\":\"/b\"\x7d", codexMetaLine "7", codexHelloLine])
    (logWorld_files _ _)).2.2.2
  obtain ⟨r2, hr2, h2, _⟩ := (codex_hint_last_wins codexHintLib
    (logWorld "codex" [codexMetaLine "\x7b\"cwd\":\"/a\"\x7d", codexMetaLine "\x7b\x7d"])
    (str "/r/s.jsonl") (str "/r")
    (logFile [codexMetaLine "\x7b\"cwd\":\"/a\"\x7d", codexMetaLine "\x7b\x7d"])
    (logWorld_files _ _)).2.2.2
  rw [hr, hr2]
  exact ⟨congrArg some (h1 [codexMetaLine "\x7b\"cwd\":\"/a\"\x7d", codexHelloLine]
      (codexMetaLine "\x7b\"cwd\":\"/b\"\x7d") [codexMetaLine "7", codexHelloLine] (str "/b")
      (by decide) (by decide) (by decide)),
    congrArg some (h2 [codexMetaLine "\x7b\"cwd\":\"/a\"\x7d"] (codexMetaLine "\x7b\x7d") [] []
      (by decide) (by decide) (by decide))⟩

/-! ## Indexer: the store after a clean run (C30) -/

theorem filter_key_of_find (k : Bytes) (s : SessionsRow) :
    ∀ L : List SessionsRow, (L.map (fun s => s.SessionKey)).Nodup →
      L.find? (fun s => s.SessionKey = k) = some s →
      L.filter (fun s => s.SessionKey = k) = [s] := by
  intro L
  induction L with
  | nil => intro _ h; cases h
  | cons x rest ih =>
    intro hnd h
    rw [List.map_cons, List.nodup_cons] at hnd
    by_cases hx : x.SessionKey = k
    · rw [List.find?_cons_of_pos _ (by simpa using hx)] at h
      have hxs : x = s := Option.some.inj h
      have hrest : rest.filter (fun s => decide (s.SessionKey = k)) = [] := by
        rw [List.filter_eq_nil_iff]
        intro y hy hyk
        exact hnd.1 (List.mem_map.2 ⟨y, hy, by rw [hx]; simpa using hyk⟩)
      rw [List.filter_cons, if_pos (by simpa using hx), hrest, hxs]
    · rw [List.find?_cons_of_neg _ (by simpa using hx)] at h
      rw [List.filter_cons, if_neg (by simpa using hx)]
      exact ih hnd.2 h

theorem sessionRows_of_find (d : DB) (k : Bytes) (s : SessionsRow)
    (hpk : (d.sessions.map (fun s => s.SessionKey)).Nodup)
    (h : d.sessions.find? (fun s => s.SessionKey = k) = some s) :
    sessionRows d k = [s] :=
  filter_key_of_find k s d.sessions hpk h

theorem nodup_keys_of_filter :
    ∀ L : List SessionsRow,
      (∀ k, (L.filter (fun s => decide (s.SessionKey = k))).length ≤ 1) →
      (L.map (fun s => s.SessionKey)).Nodup := by
  intro L
  induction L with
  | nil => intro _; exact List.nodup_nil
  | cons x rest ih =>
    intro h
    rw [List.map_cons, List.nodup_cons]
    constructor
    · intro hmem
      obtain ⟨y, hy, hyx⟩ := List.mem_map.1 hmem
      have h1 := h x.SessionKey
      rw [List.filter_cons, if_pos (by simp)] at h1
      have h2 : y ∈ rest.filter (fun s => decide (s.SessionKey = x.SessionKey)) :=
        List.mem_filter.2 ⟨hy, by simpa using hyx⟩
      have h3 := List.length_pos_of_mem h2
      simp only [List.length_cons] at h1
      omega
    · apply ih
      intro k
      have h1 := h k
      rw [List.filter_cons] at h1
      split at h1
      · simp only [List.length_cons] at h1; omega
      · exact h1

theorem upToDate_row (d : DB) (k : Bytes) (m z : Int)
    (hpk : (d.sessions.map (fun s => s.SessionKey)).Nodup)
    (h : upToDate d k m z = true) :
    ∃ row, sessionRows d k = [row] ∧ row.Mtime = m ∧ row.Size = z := by
  unfold upToDate at h
  cases hf : d.sessions.find? (fun s => s.SessionKey = k) with
  | none => rw [hf] at h; cases h
  | some s =>
    rw [hf] at h
    have hs : s.Mtime = m ∧ s.Size = z := by simpa using h
    exact ⟨s, sessionRows_of_find d k s hpk hf, hs.1, hs.2⟩

theorem files_partition (lib : GoLib) (w : World) (cr xr : Bytes) (files : List FileInfo) :
    files.length = (files.filter (parseFails lib w cr xr)).length
      + (files.filter (parsesEmpty lib w cr xr)).length
      + (files.filter (indexable lib w cr xr)).length := by
  induction files with
  | nil => rfl
  | cons f rest ih =>
    rcases file_trichotomy lib w cr xr f with ⟨a, b, c⟩ | ⟨a, b, c⟩ | ⟨a, b, c⟩ <;>
      simp only [List.filter_cons, a, b, c, if_true, List.length_cons] <;>
      simp <;> omega

theorem indexable_parse (lib : GoLib) (w : World) (cr xr : Bytes) (fi : FileInfo)
    (h : indexable lib w cr xr fi = true) :
    ∃ r, parseFile lib w fi cr xr = (some r, none) ∧ r.Chunks ≠ [] := by
  unfold indexable at h
  rcases hp : parseFile lib w fi cr xr with ⟨ro, eo⟩
  rw [hp] at h
  cases eo with
  | some e => cases ro <;> simp at h
  | none =>
    cases ro with
    | none => simp at h
    | some r => exact ⟨r, rfl, by simpa using h⟩

/-- The session row of an indexable file after a run without error that counts
no error. -/
theorem clean_run_row (lib : GoLib) (w : World) (db : DB) (cr xr : Bytes)
    (files : List FileInfo)
    (hscan : w.scan = .ok files)
    (hok : (IndexAll lib w db cr xr).1.2 = none)
    (hE : (IndexAll lib w db cr xr).1.1.Errors = 0)
    (hkeys : (files.map (fun f => fileKey lib f cr xr)).Nodup)
    (hpk : (db.sessions.map (fun s => s.SessionKey)).Nodup)
    (fi : FileInfo) (hfi : fi ∈ files) (hix : indexable lib w cr xr fi = true) :
    ∃ row data, sessionRows (IndexAll lib w db cr xr).2 (fileKey lib fi cr xr) = [row] ∧
      w.files fi.Path = some data ∧
      ((row.Mtime = fi.Mtime ∧ row.Size = fi.Size) ∨
        (row.Mtime = data.ModTime.Unix ∧ row.Size = data.Size)) := by
  obtain ⟨files', hscan', hstats, hsess, _⟩ := IndexAll_ok lib w db cr xr hok
  have hf : files' = files := by
    rw [hscan] at hscan'; exact (Except.ok.inj hscan').symm
  subst hf
  have hEl : (indexLoop lib w cr xr db files').stats.Errors = 0 := by
    rw [hstats] at hE; exact hE
  obtain ⟨r, hp, hchunks⟩ := indexable_parse lib w cr xr fi hix
  obtain ⟨_, hkey, data, hdata, hm, hs⟩ := parseFile_some lib w fi cr xr r none hp
  obtain ⟨hseen, hsame, hnew⟩ := indexLoop_rows_self lib w cr xr db files' fi r
    (by rw [hEl]; exact Nat.zero_le _) hkeys hfi hp hchunks
  have hrows : sessionRows (IndexAll lib w db cr xr).2 (fileKey lib fi cr xr)
      = sessionRows (indexLoop lib w cr xr db files').db r.Meta.SessionKey := by
    have e1 : sessionRows (IndexAll lib w db cr xr).2 (fileKey lib fi cr xr)
        = sessionRows (pruned (indexLoop lib w cr xr db files').db
            (indexLoop lib w cr xr db files').seenKeys) (fileKey lib fi cr xr) := by
      unfold sessionRows; rw [hsess]
    rw [e1, sessionRows_pruned, ← hkey, if_pos hseen]
  rw [hrows]
  cases hu : upToDate db r.Meta.SessionKey fi.Mtime fi.Size with
  | true =>
    obtain ⟨row, hrow, h1, h2⟩ := upToDate_row db _ _ _ hpk hu
    exact ⟨row, data, by rw [(hsame hu).1, hrow], hdata, Or.inl ⟨h1, h2⟩⟩
  | false =>
    refine ⟨sessionRowOf lib r.Meta, data, (hnew hu).1, hdata, Or.inr ⟨?_, ?_⟩⟩
    · simp [sessionRowOf, hm]
    · simp [sessionRowOf, hs]

/-- C30 (amended): after a run of `IndexAll` that returns without error and
reports `errors = 0`, on a store whose session keys are pairwise distinct (the
primary key of `sessions`) and for files with pairwise distinct session keys:
the session keys in the store are exactly the keys of the scanned files that
parse to at least one chunk, no key is stored twice, and `updated + skipped` is
the number of stored sessions; each such file has one session row, whose
`(mtime, size)` is the pair the scanner reported for the file or the pair the
parser read from it, and so is the pair of the scanner for every file for
which the scanner reports the pair the parser reads (as it does for every file
that is not a symbolic link). -/
theorem IndexAll_store_matches_files (lib : GoLib) (w : World) (db : DB) (cr xr : Bytes)
    (files : List FileInfo)
    (hscan : w.scan = .ok files)
    (hok : (IndexAll lib w db cr xr).1.2 = none)
    (hE : (IndexAll lib w db cr xr).1.1.Errors = 0)
    (hkeys : (files.map (fun f => fileKey lib f cr xr)).Nodup)
    (hpk : (db.sessions.map (fun s => s.SessionKey)).Nodup) :
    (∀ k, k ∈ (IndexAll lib w db cr xr).2.sessions.map (fun s => s.SessionKey)
      ↔ ∃ fi ∈ files, indexable lib w cr xr fi = true ∧ fileKey lib fi cr xr = k) ∧
    ((IndexAll lib w db cr xr).2.sessions.map (fun s => s.SessionKey)).Nodup ∧
    (IndexAll lib w db cr xr).1.1.Updated + (IndexAll lib w db cr xr).1.1.Skipped
      = (IndexAll lib w db cr xr).2.sessions.length ∧
    (∀ fi ∈ files, indexable lib w cr xr fi = true →
      ∃ row data, sessionRows (IndexAll lib w db cr xr).2 (fileKey lib fi cr xr) = [row] ∧
        w.files fi.Path = some data ∧
        ((row.Mtime = fi.Mtime ∧ row.Size = fi.Size) ∨
          (row.Mtime = data.ModTime.Unix ∧ row.Size = data.Size)) ∧
        (data.ModTime.Unix = fi.Mtime ∧ data.Size = fi.Size →
          row.Mtime = fi.Mtime ∧ row.Size = fi.Size)) := by
  obtain ⟨files', hscan', hstats, hsess, _⟩ := IndexAll_ok lib w db cr xr hok
  have hf : files' = files := by
    rw [hscan] at hscan'; exact (Except.ok.inj hscan').symm
  subst hf
  have hrow := clean_run_row lib w db cr xr files' hscan hok hE hkeys hpk
  have hEl : (indexLoop lib w cr xr db files').stats.Errors = 0 := by
    rw [hstats] at hE; exact hE
  -- the keys stored are the keys seen
  have hmem : ∀ k, k ∈ (IndexAll lib w db cr xr).2.sessions.map (fun s => s.SessionKey)
      ↔ ∃ fi ∈ files', indexable lib w cr xr fi = true ∧ fileKey lib fi cr xr = k := by
    intro k
    constructor
    · intro hk
      rw [hsess] at hk
      obtain ⟨s, hs, rfl⟩ := List.mem_map.1 hk
      have := (List.mem_filter.1 hs).2
      exact (mem_indexLoop_seen lib w cr xr db files' _).1 (by simpa using this)
    · rintro ⟨fi, hfi, hix, rfl⟩
      obtain ⟨row, _, hr, _⟩ := hrow fi hfi hix
      rw [mem_keys_iff_sessionRows, hr]
      exact List.cons_ne_nil _ _
  have hnd : ((files'.filter (indexable lib w cr xr)).map
      (fun fi => fileKey lib fi cr xr)).Nodup :=
    (List.Sublist.map _ (List.filter_sublist _)).nodup hkeys
  have hnd2 : ((IndexAll lib w db cr xr).2.sessions.map (fun s => s.SessionKey)).Nodup := by
    apply nodup_keys_of_filter
    intro k
    by_cases hk : ∃ fi ∈ files', indexable lib w cr xr fi = true ∧ fileKey lib fi cr xr = k
    · obtain ⟨fi, hfi, hix, rfl⟩ := hk
      obtain ⟨row, _, hr, _⟩ := hrow fi hfi hix
      have hr' : (IndexAll lib w db cr xr).2.sessions.filter
          (fun s => decide (s.SessionKey = fileKey lib fi cr xr)) = [row] := hr
      rw [hr']
      exact Nat.le_refl _
    · have hno : sessionRows (IndexAll lib w db cr xr).2 k = [] := by
        by_contra hne
        exact hk ((hmem k).1 ((mem_keys_iff_sessionRows _ k).2 hne))
      have hno' : (IndexAll lib w db cr xr).2.sessions.filter
          (fun s => decide (s.SessionKey = k)) = [] := hno
      rw [hno']
      exact Nat.zero_le _
  have hperm : ((IndexAll lib w db cr xr).2.sessions.map (fun s => s.SessionKey)).Perm
      ((files'.filter (indexable lib w cr xr)).map (fun fi => fileKey lib fi cr xr)) := by
    rw [List.perm_ext_iff_of_nodup hnd2 hnd]
    intro k
    rw [hmem k]
    constructor
    · rintro ⟨fi, hfi, hix, rfl⟩
      exact List.mem_map.2 ⟨fi, List.mem_filter.2 ⟨hfi, hix⟩, rfl⟩
    · intro hx
      obtain ⟨fi, hfi, rfl⟩ := List.mem_map.1 hx
      exact ⟨fi, (List.mem_filter.1 hfi).1, (List.mem_filter.1 hfi).2, rfl⟩
  refine ⟨hmem, hnd2, ?_, ?_⟩
  · have hlen := hperm.length_eq
    rw [List.length_map, List.length_map] at hlen
    rw [hlen, hstats]
    obtain ⟨_, _, hsum, hfail⟩ := foldl_indexFile_stats lib w cr xr files'
      { stats := { Scanned := files'.length, Updated := 0, Skipped := 0, Pruned := 0,
                   Errors := 0 },
        seenKeys := [], db := db }
    have hEl' : (files'.foldl (indexFile lib w cr xr)
        { stats := { Scanned := files'.length, Updated := 0, Skipped := 0, Pruned := 0,
                     Errors := 0 },
          seenKeys := [], db := db }).stats.Errors = 0 := hEl
    rw [hEl'] at hsum hfail
    simp only [Nat.zero_add, Nat.add_zero] at hsum hfail
    have hparts := files_partition lib w cr xr files'
    show (files'.foldl (indexFile lib w cr xr) _).stats.Updated
      + (files'.foldl (indexFile lib w cr xr) _).stats.Skipped = _
    omega
  · intro fi hfi hix
    obtain ⟨row, data, hr, hdata, hpair⟩ := hrow fi hfi hix
    refine ⟨row, data, hr, hdata, hpair, ?_⟩
    rintro ⟨e1, e2⟩
    rcases hpair with h | h
    · exact h
    · exact ⟨h.1.trans e1, h.2.trans e2⟩

/-- C30 (counterexample).  The path `/c/a.jsonl` is a symbolic link to the log
`fileA`.  After a run that returns without error and reports `errors = 0`, the
stored pair of the session `claude:a` is the pair the parser read from the
opened log, `(1700000000, 30)`, not the pair `(1690000000, 17)` of the
discovered file. -/
theorem symlinked_log_stored_pair :
    linkWorld.scan = .ok [linkA] ∧
    (linkA.Mtime, linkA.Size) = (1690000000, 17) ∧
    (IndexAll toyLib linkWorld emptyDB (str "/c") (str "/x")).1
      = ({ Scanned := 1, Updated := 1, Skipped := 0, Pruned := 0, Errors := 0 }, none) ∧
    (IndexAll toyLib linkWorld emptyDB (str "/c") (str "/x")).2.sessions.map
        (fun s => (s.SessionKey, s.Mtime, s.Size))
      = [(str "claude:a", 1700000000, 30)] := by
  decide

/-- Witness of C30 (amended): a run over `fileA`, `fileE` (no chunk) and `fileB`
on a store that holds the session `claude:gone` and the up-to-date session
`codex:b`: one session is inserted, one skipped, one pruned, and the store holds
the two sessions of the files with chunks, each with the pair of its file. -/
theorem IndexAll_store_matches_files_witness :
    (IndexAll toyLib threeWorld goneDB (str "/c") (str "/x")).1
      = ({ Scanned := 3, Updated := 1, Skipped := 1, Pruned := 1, Errors := 0 }, none) ∧
    (IndexAll toyLib threeWorld goneDB (str "/c") (str "/x")).2.sessions.map
        (fun s => (s.SessionKey, s.Mtime, s.Size))
      = [(str "codex:b", 1700000100, 40), (str "claude:a", 1700000000, 30)] ∧
    (IndexAll toyLib threeWorld goneDB (str "/c") (str "/x")).1.1.Updated
        + (IndexAll toyLib threeWorld goneDB (str "/c") (str "/x")).1.1.Skipped
      = (IndexAll toyLib threeWorld goneDB (str "/c") (str "/x")).2.sessions.length ∧
    ∃ row, sessionRows (IndexAll toyLib threeWorld goneDB (str "/c") (str "/x")).2
        (fileKey toyLib fiA (str "/c") (str "/x")) = [row] ∧
      row.Mtime = fiA.Mtime ∧ row.Size = fiA.Size := by
  have h := IndexAll_store_matches_files toyLib threeWorld goneDB (str "/c") (str "/x")
    [fiA, fiE, fiB] rfl (by decide) (by decide) (by decide) (by decide)
  obtain ⟨row, data, hr, hdata, _, himp⟩ := h.2.2.2 fiA (by decide) (by decide)
  have h2 : threeWorld.files fiA.Path = some fileA := by decide
  rw [h2] at hdata
  rw [← Option.some.inj hdata] at himp
  exact ⟨by decide, by decide, h.2.2.1, row, hr, himp (by decide)⟩

/-! ## Store: the schema-version marker (C21) -/

theorem DB.next_nil (d : DB) (h : d.faults = []) : d.next = d := by
  cases d
  simp only [DB.next] at *
  subst h
  rfl

theorem DB.fails_nil (d : DB) (h : d.faults = []) : d.fails = false := by
  simp [DB.fails, h]

theorem windowLoop_rows (hit : Int) :
    ∀ (rows acc : List ChunkRow) (idx : Int), (windowLoop hit rows acc idx).1 = acc ++ rows := by
  intro rows
  induction rows with
  | nil => intro acc idx; simp [windowLoop]
  | cons c rest ih => intro acc idx; simp [windowLoop, ih]

theorem windowLoop_no_hit (hit : Int) :
    ∀ (rows acc : List ChunkRow) (idx : Int), (∀ x ∈ rows, (x.ChunkID : Int) ≠ hit) →
      (windowLoop hit rows acc idx).2 = idx := by
  intro rows
  induction rows with
  | nil => intro acc idx _; rfl
  | cons c rest ih =>
    intro acc idx h
    have hc := h c (List.mem_cons_self _ _)
    simp only [windowLoop, hc, if_false]
    exact ih _ _ (fun x hx => h x (List.mem_cons_of_mem _ hx))

theorem windowLoop_hit (hit : Int) (x : ChunkRow) (hx : (x.ChunkID : Int) = hit)
    (B : List ChunkRow) (hB : ∀ y ∈ B, (y.ChunkID : Int) ≠ hit) :
    ∀ (A acc : List ChunkRow) (idx : Int),
      (windowLoop hit (A ++ x :: B) acc idx).2 = ((acc.length + A.length : Nat) : Int) := by
  intro A
  induction A with
  | nil =>
    intro acc idx
    simp only [List.nil_append, windowLoop, hx, if_true, List.length_nil, Nat.add_zero]
    exact windowLoop_no_hit hit B _ _ hB
  | cons a rest ih =>
    intro acc idx
    simp only [List.cons_append, windowLoop, List.append_eq]
    rw [ih]
    simp only [List.length_append, List.length_cons, List.length_nil]
    congr 1
    omega

theorem findIdx?_hit (hit : Int) (x : ChunkRow) (hx : (x.ChunkID : Int) = hit)
    (B : List ChunkRow) :
    ∀ A : List ChunkRow, (∀ y ∈ A, (y.ChunkID : Int) ≠ hit) →
      (A ++ x :: B).findIdx? (fun c => decide ((c.ChunkID : Int) = hit)) = some A.length := by
  intro A
  induction A with
  | nil => intro _; simp [List.findIdx?_cons, hx]
  | cons a rest ih =>
    intro hA
    have ha := hA a (List.mem_cons_self _ _)
    rw [List.cons_append, List.findIdx?_cons]
    simp only [ha, decide_False, Bool.false_eq_true, if_false]
    rw [List.findIdx?_succ, ih (fun y hy => hA y (List.mem_cons_of_mem _ hy))]
    rfl

/-- The window bounds in `int` arithmetic are the bounds in the integers: the
offset is `max 0 (p - c)` and the limit selects the rows up to position
`min N (p + c + 1)`. -/
theorem window_bounds {α : Type} (S : List α) (p : Nat) (c : Int)
    (hp : p < S.length) (hN : (S.length : Int) < 2 ^ 63) (hc0 : 0 ≤ c) (hc1 : c < 2 ^ 63) :
    windowStart (p : Int) c = ((p - c.toNat : Nat) : Int) ∧
    sqlLimit (windowLimit (S.length : Int) (p : Int) c)
        (S.drop (windowStart (p : Int) c).toNat)
      = (S.take (min S.length (p + c.toNat + 1))).drop (p - c.toNat) := by
  have hpn : (0 : Int) ≤ (p : Int) := Int.ofNat_nonneg p
  have hw1 : wrapInt ((p : Int) - c) = (p : Int) - c := by
    unfold wrapInt; omega
  have hs : windowStart (p : Int) c = ((p - c.toNat : Nat) : Int) := by
    unfold windowStart
    rw [if_pos hpn, hw1]
    split <;> omega
  refine ⟨hs, ?_⟩
  rw [hs, Int.toNat_ofNat]
  have hlen : (S.drop (p - c.toNat)).length = S.length - (p - c.toNat) := List.length_drop _ _
  have htd : ∀ n, S.length - (p - c.toNat) ≤ n → min S.length (p + c.toNat + 1) = S.length →
      (S.drop (p - c.toNat)).take n
        = (S.take (min S.length (p + c.toNat + 1))).drop (p - c.toNat) := by
    intro n hn hmin
    rw [hmin, List.take_length, List.take_of_length_le (by rw [hlen]; exact hn)]
  have hlim : ∀ E : Int,
      (if wrapInt ((p : Int) + c + 1) > (S.length : Int) then (S.length : Int)
        else wrapInt ((p : Int) + c + 1)) = E →
      windowLimit (S.length : Int) (p : Int) c = wrapInt (E - ((p - c.toNat : Nat) : Int)) := by
    intro E hE
    unfold windowLimit
    rw [if_pos hpn, hs, hE]
  by_cases hwrap : (p : Int) + c + 1 < 2 ^ 63
  · have hw2 : wrapInt ((p : Int) + c + 1) = (p : Int) + c + 1 := by
      unfold wrapInt; omega
    by_cases hgt : (p : Int) + c + 1 > (S.length : Int)
    · have hw3 : wrapInt ((S.length : Int) - ((p - c.toNat : Nat) : Int))
          = (S.length : Int) - ((p - c.toNat : Nat) : Int) := by
        unfold wrapInt; omega
      rw [hlim (S.length : Int) (by rw [hw2]; exact if_pos hgt), hw3]
      unfold sqlLimit
      rw [if_neg (by omega)]
      exact htd _ (by omega) (by omega)
    · have hw3 : wrapInt ((p : Int) + c + 1 - ((p - c.toNat : Nat) : Int))
          = (p : Int) + c + 1 - ((p - c.toNat : Nat) : Int) := by
        unfold wrapInt; omega
      rw [hlim ((p : Int) + c + 1) (by rw [hw2]; exact if_neg hgt), hw3]
      unfold sqlLimit
      rw [if_neg (by omega)]
      have hmin : min S.length (p + c.toNat + 1) = p + c.toNat + 1 := by omega
      rw [hmin, List.drop_take]
      congr 1
      omega
  · have hw2 : wrapInt ((p : Int) + c + 1) = (p : Int) + c + 1 - 2 ^ 64 := by
      unfold wrapInt; omega
    have hE : (if wrapInt ((p : Int) + c + 1) > (S.length : Int) then (S.length : Int)
        else wrapInt ((p : Int) + c + 1)) = (p : Int) + c + 1 - 2 ^ 64 := by
      rw [hw2]; exact if_neg (by omega)
    rw [hlim _ hE]
    unfold sqlLimit
    by_cases hlow : (p : Int) + c + 1 - 2 ^ 64 - ((p - c.toNat : Nat) : Int) < -(2 ^ 63)
    · have hw3 : wrapInt ((p : Int) + c + 1 - 2 ^ 64 - ((p - c.toNat : Nat) : Int))
          = (p : Int) + c + 1 - ((p - c.toNat : Nat) : Int) := by
        unfold wrapInt; omega
      rw [hw3, if_neg (by omega)]
      exact htd _ (by omega) (by omega)
    · have hw3 : wrapInt ((p : Int) + c + 1 - 2 ^ 64 - ((p - c.toNat : Nat) : Int))
          = (p : Int) + c + 1 - 2 ^ 64 - ((p - c.toNat : Nat) : Int) := by
        unfold wrapInt; omega
      rw [hw3, if_pos (by omega)]
      have := htd (S.length - (p - c.toNat)) (Nat.le_refl _) (by omega)
      rw [← this, List.take_of_length_le (by rw [hlen])]

theorem window_slice {α : Type} (A B : List α) (x : α) (n : Nat) :
    ((A ++ x :: B).take (min (A ++ x :: B).length (A.length + n + 1))).drop (A.length - n)
      = A.drop (A.length - n) ++ x :: B.take n := by
  have h1 : (A ++ x :: B).take (min (A ++ x :: B).length (A.length + n + 1))
      = A ++ x :: B.take n := by
    rw [List.take_append_eq_append_take]
    have e1 : min (A ++ x :: B).length (A.length + n + 1) - A.length = min B.length n + 1 := by
      simp only [List.length_append, List.length_cons]
      omega
    have e2 : A.length ≤ min (A ++ x :: B).length (A.length + n + 1) := by
      simp only [List.length_append, List.length_cons]
      omega
    rw [e1, List.take_of_length_le e2, List.take_succ_cons]
    congr 2
    by_cases hb : B.length ≤ n
    · rw [Nat.min_eq_left hb, List.take_of_length_le hb, List.take_of_length_le (Nat.le_refl _)]
    · rw [Nat.min_eq_right (by omega)]
  rw [h1, List.drop_append_of_le_length (by omega)]

/-- The outcome of `GetChunksWindow`: an error, or the window the bounds
select. -/
theorem GetChunksWindow_ok (d : DB) (key : Bytes) (hit c : Int)
    (res : List ChunkRow × Int × Int × Int)
    (h : (GetChunksWindow d key hit c).1 = .ok res) :
    res = ((windowLoop hit
            (sqlLimit
              (windowLimit (orderedChunks d key).length (hitPosition d key hit) c)
              ((orderedChunks d key).drop (windowStart (hitPosition d key hit) c).toNat))
            [] (-1)).1,
          (windowLoop hit
            (sqlLimit
              (windowLimit (orderedChunks d key).length (hitPosition d key hit) c)
              ((orderedChunks d key).drop (windowStart (hitPosition d key hit) c).toNat))
            [] (-1)).2,
          windowStart (hitPosition d key hit) c,
          ((orderedChunks d key).length : Int)) := by
  unfold GetChunksWindow at h
  by_cases h1 : d.fails = true
  · rw [if_pos h1] at h; cases h
  · rw [if_neg h1] at h
    by_cases h2 : hit ≥ 0 ∧ d.next.fails = true
    · rw [if_pos h2] at h; cases h
    · rw [if_neg h2] at h
      by_cases h3 : (if hit ≥ 0 then d.next.next else d.next).fails = true
      · simp only [h3, if_true] at h; cases h
      · simp only [h3, if_false] at h
        exact (Except.ok.inj h).symm

theorem GetChunksWindow_nofaults (d : DB) (key : Bytes) (hit c : Int) (hd : d.faults = []) :
    ∃ res, (GetChunksWindow d key hit c).1 = .ok res := by
  have hf := DB.fails_nil d hd
  unfold GetChunksWindow
  simp only [DB.next_nil d hd, hf, Bool.false_eq_true, if_false, and_false, ite_self]
  exact ⟨_, rfl⟩

/-- C24: in a session whose chunk ids are pairwise distinct (the primary key of
`chunks`) and fewer than `2^63`, with `S` its chunks in the order of their ids
and `N` their number, and for a radius `c` with `0 <= c` (an `int`): when
`GetChunksWindow` returns without error and the hit id is the id of the chunk
at position `p` of `S`, it returns the chunks of `S` from position
`max 0 (p - c)` up to but excluding `min N (p + c + 1)`, that is the last `c`
chunks before the hit (all of them if there are fewer), the hit, and the first
`c` chunks after it; `hitIdx = p - max 0 (p - c)` is the index of the hit chunk
in the window, `startPos = max 0 (p - c)`, `totalCount = N`, the window has at
most `2c + 1` chunks and `startPos` plus its length is at most `N`.  When the
hit id is negative or is the id of no chunk of the session, it returns all of
`S` with `hitIdx = -1` and `startPos = 0`.  On a connection without failures it
returns without error. -/
theorem GetChunksWindow_is_window (d : DB) (key : Bytes) (hit c : Int)
    (hpk : ((chunkRows d key).map (fun x => x.ChunkID)).Nodup)
    (hN : ((chunkRows d key).length : Int) < 2 ^ 63)
    (hc0 : 0 ≤ c) (hc1 : c < 2 ^ 63) :
    (orderedChunks d key).Perm (chunkRows d key) ∧
    ((orderedChunks d key).map (fun x => x.ChunkID)).Sorted (fun a b => a < b) ∧
    (∀ A x B res, orderedChunks d key = A ++ x :: B → (x.ChunkID : Int) = hit →
      (GetChunksWindow d key hit c).1 = .ok res →
      res = (((orderedChunks d key).take
                (min (orderedChunks d key).length (A.length + c.toNat + 1))).drop
              (A.length - c.toNat),
            ((A.length - (A.length - c.toNat) : Nat) : Int),
            ((A.length - c.toNat : Nat) : Int),
            ((orderedChunks d key).length : Int)) ∧
      res.1 = A.drop (A.length - c.toNat) ++ x :: B.take c.toNat ∧
      (res.1.length : Int) ≤ 2 * c + 1 ∧
      (A.length - c.toNat) + res.1.length ≤ (orderedChunks d key).length ∧
      res.1.get? (A.length - (A.length - c.toNat)) = some x) ∧
    (∀ res, hit < 0 ∨ (∀ x ∈ orderedChunks d key, (x.ChunkID : Int) ≠ hit) →
      (GetChunksWindow d key hit c).1 = .ok res →
      res = (orderedChunks d key, -1, 0, ((orderedChunks d key).length : Int))) ∧
    (d.faults = [] → ∃ res, (GetChunksWindow d key hit c).1 = .ok res) := by
  have hperm : (orderedChunks d key).Perm (chunkRows d key) := List.perm_insertionSort _ _
  haveI : IsTotal ChunkRow (fun a b => a.ChunkID ≤ b.ChunkID) := ⟨fun a b => Nat.le_total _ _⟩
  haveI : IsTrans ChunkRow (fun a b => a.ChunkID ≤ b.ChunkID) :=
    ⟨fun a b c h1 h2 => Nat.le_trans h1 h2⟩
  have hsorted : (orderedChunks d key).Sorted (fun a b => a.ChunkID ≤ b.ChunkID) :=
    List.sorted_insertionSort _ _
  have hnd : ((orderedChunks d key).map (fun x => x.ChunkID)).Nodup :=
    (hperm.map _).nodup_iff.2 hpk
  have hlenS : ((orderedChunks d key).length : Int) < 2 ^ 63 := by
    rw [hperm.length_eq]; exact hN
  refine ⟨hperm, ?_, ?_, ?_, GetChunksWindow_nofaults d key hit c⟩
  · have h1 : ((orderedChunks d key).map (fun x => x.ChunkID)).Sorted (fun a b => a ≤ b) := by
      unfold List.Sorted at hsorted ⊢
      rw [List.pairwise_map]
      exact hsorted
    exact List.Sorted.lt_of_le h1 hnd
  · intro A x B res hS hx hres
    have hres' := GetChunksWindow_ok d key hit c res hres
    rw [hS, List.map_append, List.map_cons] at hnd
    have hA : ∀ y ∈ A, (y.ChunkID : Int) ≠ hit := by
      intro y hy e
      have hxy : y.ChunkID = x.ChunkID := by omega
      have := (List.nodup_append.1 hnd).2.2
      exact this (List.mem_map.2 ⟨y, hy, rfl⟩) (by rw [hxy]; exact List.mem_cons_self _ _)
    have hB : ∀ y ∈ B, (y.ChunkID : Int) ≠ hit := by
      intro y hy e
      have hxy : y.ChunkID = x.ChunkID := by omega
      have := (List.nodup_cons.1 (List.nodup_append.1 hnd).2.1).1
      exact this (by rw [← hxy]; exact List.mem_map.2 ⟨y, hy, rfl⟩)
    have hpos : hitPosition d key hit = (A.length : Int) := by
      unfold hitPosition
      have h0 : hit ≥ 0 := by rw [← hx]; exact Int.ofNat_nonneg _
      rw [if_pos h0, hS, findIdx?_hit hit x hx B A hA]
    have hp : A.length < (orderedChunks d key).length := by
      rw [hS, List.length_append, List.length_cons]; omega
    obtain ⟨hs, hw⟩ := window_bounds (orderedChunks d key) A.length c hp hlenS hc0 hc1
    rw [hpos, hw, hs] at hres'
    have hslice : ((orderedChunks d key).take
          (min (orderedChunks d key).length (A.length + c.toNat + 1))).drop (A.length - c.toNat)
        = A.drop (A.length - c.toNat) ++ x :: B.take c.toNat := by
      rw [hS]; exact window_slice A B x c.toNat
    have hidx : (windowLoop hit (((orderedChunks d key).take
          (min (orderedChunks d key).length (A.length + c.toNat + 1))).drop (A.length - c.toNat))
          [] (-1)).2 = ((A.length - (A.length - c.toNat) : Nat) : Int) := by
      rw [hslice, windowLoop_hit hit x hx (B.take c.toNat)
        (fun y hy => hB y (List.mem_of_mem_take hy))]
      simp only [List.length_nil, Nat.zero_add, List.length_drop]
    rw [windowLoop_rows, List.nil_append, hidx] at hres'
    refine ⟨hres', ?_, ?_, ?_, ?_⟩
    · rw [hres']; exact hslice
    · rw [hres']
      simp only
      rw [hslice]
      simp only [List.length_append, List.length_drop, List.length_cons, List.length_take]
      omega
    · rw [hres']
      simp only
      rw [hslice, hS]
      simp only [List.length_append, List.length_drop, List.length_cons, List.length_take]
      omega
    · rw [hres']
      simp only
      rw [hslice]
      have hl : (A.drop (A.length - c.toNat)).length = A.length - (A.length - c.toNat) :=
        List.length_drop _ _
      rw [List.get?_eq_getElem?, List.getElem?_append_right (by rw [hl]), hl, Nat.sub_self]
      simp
  · intro res habs hres
    have hres' := GetChunksWindow_ok d key hit c res hres
    have hpos : hitPosition d key hit = -1 := by
      unfold hitPosition
      split
      · rcases habs with h | h
        · omega
        · have : (orderedChunks d key).findIdx? (fun c => decide ((c.ChunkID : Int) = hit))
              = none := by
            rw [List.findIdx?_eq_none_iff]
            intro y hy
            simpa using h y hy
          rw [this]
      · rfl
    have hloop : ∀ x ∈ orderedChunks d key, (x.ChunkID : Int) ≠ hit := by
      rcases habs with h | h
      · intro x _ e
        have := Int.ofNat_nonneg x.ChunkID
        omega
      · exact h
    have hws : windowStart (-1) c = 0 := by
      unfold windowStart; rfl
    have hwl : windowLimit ((orderedChunks d key).length : Int) (-1) c
        = ((orderedChunks d key).length : Int) := by
      unfold windowLimit; rfl
    rw [hpos, hws, hwl] at hres'
    have hall : sqlLimit ((orderedChunks d key).length : Int)
        ((orderedChunks d key).drop (0 : Int).toNat) = orderedChunks d key := by
      unfold sqlLimit
      rw [if_neg (by omega)]
      simp
    rw [hall, windowLoop_rows, windowLoop_no_hit hit _ _ _ hloop] at hres'
    exact hres'

/-- Witness of C24: the session has the chunks 0 to 6; for the hit id 3 and the
radius 1 the window is the chunks 2, 3, 4 with `hitIdx = 1`, `startPos = 2` and
`totalCount = 7`. -/
theorem GetChunksWindow_is_window_witness :
    (GetChunksWindow windowDB (str "claude:a") 3 1).1
      = .ok ([oldChunk "claude:a" 2, oldChunk "claude:a" 3, oldChunk "claude:a" 4], 1, 2, 7) ∧
    (GetChunksWindow windowDB (str "claude:a") 9 1).1
      = .ok (orderedChunks windowDB (str "claude:a"), -1, 0, 7) := by
  have h := GetChunksWindow_is_window windowDB (str "claude:a") 3 1 (by decide) (by decide)
    (by decide) (by decide)
  have h9 := GetChunksWindow_is_window windowDB (str "claude:a") 9 1 (by decide) (by decide)
    (by decide) (by decide)
  obtain ⟨res, hres⟩ := h.2.2.2.2 rfl
  obtain ⟨res9, hres9⟩ := h9.2.2.2.2 rfl
  have e := (h.2.2.1 [oldChunk "claude:a" 0, oldChunk "claude:a" 1, oldChunk "claude:a" 2]
    (oldChunk "claude:a" 3) [oldChunk "claude:a" 4, oldChunk "claude:a" 5, oldChunk "claude:a" 6]
    res (by decide) (by decide) hres).1
  have e9 := h9.2.2.2.1 res9 (Or.inr (by decide)) hres9
  rw [hres, hres9, e, e9]
  exact ⟨by decide, by decide⟩

/-! ## Indexer: the timestamp texts written to the store (C22) -/

/-- The text the indexer stores for a timestamp is the UTC text of the instant
moved by the offset of the timestamp. -/
theorem formatStamp_eq_utcText (t : Time) : formatStamp t = utcText (t.sec + t.offset) := rfl

/-- The stored text is the UTC text of the instant when the offset is zero. -/
theorem formatStamp_of_utc (t : Time) (h : t.offset = 0) : formatStamp t = utcText t.sec := by
  rw [formatStamp_eq_utcText, h, Int.add_zero]

/-- The rows `indexSession` writes carry `formatStamp` of the parsed
timestamps, for a library whose `Format` is `formatStamp` on the layout of the
indexer. -/
theorem stored_stamps (lib : GoLib) (hfmt : ∀ t, lib.timeFormat t tsLayout = formatStamp t)
    (m : SessionMeta) (c : Chunk) :
    (sessionRowOf lib m).CreatedAt = utcText (m.CreatedAt.sec + m.CreatedAt.offset) ∧
    (sessionRowOf lib m).UpdatedAt = utcText (m.UpdatedAt.sec + m.UpdatedAt.offset) ∧
    (chunkRowOf lib c).Ts = utcText (c.Timestamp.sec + c.Timestamp.offset) := by
  simp only [sessionRowOf, chunkRowOf, hfmt, formatStamp_eq_utcText, and_self]

/-- C22 (failing input).  A Claude log whose only record is stamped
`2024-01-01T08:00:00+08:00`: the timestamp parses to the instant
`2024-01-01T00:00:00Z` at the offset of eight hours; the run of `IndexAll`
stores `2024-01-01T08:00:00Z` as created-at, updated-at and chunk timestamp,
which is the UTC text of an instant eight hours later.  The same record
stamped `2024-01-01T00:00:00Z` is stored as `2024-01-01T00:00:00Z`. -/
theorem stored_timestamp_keeps_zone_clock :
    parseTimestamp zoneLib (str "2024-01-01T08:00:00+08:00")
      = { sec := 63839664000, nsec := 0, offset := 28800 } ∧
    utcText 63839664000 = str "2024-01-01T00:00:00Z" ∧
    (IndexAll zoneLib (logWorld "claude" [zoneLine]) emptyDB (str "/r") (str "/x")).2.sessions.map
        (fun s => (s.CreatedAt, s.UpdatedAt))
      = [(str "2024-01-01T08:00:00Z", str "2024-01-01T08:00:00Z")] ∧
    (IndexAll zoneLib (logWorld "claude" [zoneLine]) emptyDB (str "/r") (str "/x")).2.chunks.map
        (fun c => c.Ts) = [str "2024-01-01T08:00:00Z"] ∧
    utcText (63839664000 + 28800) = str "2024-01-01T08:00:00Z" ∧
    (IndexAll zoneLib (logWorld "claude" [hiLine]) emptyDB (str "/r") (str "/x")).2.chunks.map
        (fun c => c.Ts) = [str "2024-01-01T00:00:00Z"] := by
  decide

/-! ## Search: the snippet of the substring path (C25, C26, C29) -/

/-- C29 (failing input).  The chunk text of the runes U+023A, U+023A, U+4E2D
has seven bytes; lower-cased it has nine, and the query U+4E2D is found there
at byte 6.  `text[:6]` cuts the last character of the text, converts to four
runes, so `runePos` is 4 while the text has three runes, and `makeSnippet`
panics on the slice `runes[5:3]`.  With four runes U+023A before the match the
index 12 is above the length 11 of the text and `text[:12]` panics.  A `Search`
with that query on a store holding the chunk panics with it. -/
theorem makeSnippet_panics_when_lower_case_is_longer :
    decodeRunes growText = [0x23A, 0x23A, 0x4E2D] ∧ growText.length = 7 ∧
    goToLower sampleLower growText = encodeRunes [0x2C65, 0x2C65, 0x4E2D] ∧
    stringsIndex (goToLower sampleLower growText) (goToLower sampleLower ideographQuery) = 6 ∧
    (decodeRunes (growText.take 6)).length = 4 ∧
    makeSnippet sampleLower growText ideographQuery 30 = none ∧
    longGrowText.length = 11 ∧
    stringsIndex (goToLower sampleLower longGrowText) (goToLower sampleLower ideographQuery)
      = 12 ∧
    makeSnippet sampleLower longGrowText ideographQuery 30 = none ∧
    Search (likeEngine [(mkRow "claude:a" 0, growText)]) hanBlock (makeSnippet sampleLower)
      (queryOptions ideographQuery) = none := by
  decide

/-- C25 (failing input).  The chunk text of the runes U+0130, U+0130, U+4E2D
and the query U+4E2D: the first occurrence is at rune position 2, the byte
index of the match in the lower-cased text is 2, `text[:2]` is one rune, and
`makeSnippet` puts the markers around the second rune U+0130 instead of the
occurrence.  On the text `hello world` and the query `world` the snippet is
`hello >>>world<<<`. -/
theorem makeSnippet_marks_another_span :
    decodeRunes shrinkText = [0x130, 0x130, 0x4E2D] ∧
    decodeRunes (goToLower sampleLower shrinkText) = [0x69, 0x69, 0x4E2D] ∧
    stringsIndex (goToLower sampleLower shrinkText) (goToLower sampleLower ideographQuery) = 2 ∧
    makeSnippet sampleLower shrinkText ideographQuery 30
      = some (encodeRunes [0x130] ++ str ">>>" ++ encodeRunes [0x130] ++ str "<<<"
          ++ encodeRunes [0x4E2D]) ∧
    Search (likeEngine [(mkRow "claude:a" 0, shrinkText)]) hanBlock (makeSnippet sampleLower)
        (queryOptions ideographQuery)
      = some (.ok [{ mkRow "claude:a" 0 with
          Snippet := encodeRunes [0x130] ++ str ">>>" ++ encodeRunes [0x130] ++ str "<<<"
            ++ encodeRunes [0x4E2D] }]) ∧
    makeSnippet sampleLower (str "hello world") (str "world") 30
      = some (str "hello >>>world<<<") := by
  decide

/-- C26 (failing input).  The query of the runes U+4E2D, `_`, U+6587 on a store
with a chunk of the runes U+4E2D, `x`, U+6587: the pattern `%query%` matches
the chunk, since `_` stands for any character, although the text does not
contain the query; the result carries the whole text as snippet, without
markers.  The same holds for the query with `%` in place of `_` and a chunk
with two characters between the ideographs. -/
theorem searchLike_matches_wildcards :
    likeMatch (decodeRunes (str "%" ++ underscoreQuery ++ str "%")) (decodeRunes underscoreText)
      = true ∧
    stringsIndex (goToLower sampleLower underscoreText) (goToLower sampleLower underscoreQuery)
      = -1 ∧
    Search (likeEngine [(mkRow "claude:a" 0, underscoreText)]) hanBlock (makeSnippet sampleLower)
        (queryOptions underscoreQuery)
      = some (.ok [{ mkRow "claude:a" 0 with Snippet := underscoreText }]) ∧
    stringsIndex (goToLower sampleLower percentText) (goToLower sampleLower percentQuery) = -1 ∧
    Search (likeEngine [(mkRow "claude:a" 0, percentText)]) hanBlock (makeSnippet sampleLower)
        (queryOptions percentQuery)
      = some (.ok [{ mkRow "claude:a" 0 with Snippet := percentText }]) ∧
    Search (likeEngine [(mkRow "claude:a" 0, str "plain")]) hanBlock (makeSnippet sampleLower)
        (queryOptions underscoreQuery) = some (.ok []) := by
  decide

/-! ## Scanner: the files `ScanRoots` returns (C23) -/

mutual
/-- Nothing is kept at or beneath a path whose directories above are excluded,
for a selection `keeps` that keeps nothing under excluded directories. -/
theorem beneath_excluded (join : Bytes → Bytes → Bytes) (keeps : Located → Option FileInfo)
    (bad : List (Bytes × Bool) → Prop) (hk : ∀ l : Located, bad l.dirs → keeps l = none)
    (hb : ∀ dirs x, bad dirs → bad (dirs ++ [x])) :
    ∀ (e : FsEntry) (dirs : List (Bytes × Bool)) (path : Bytes), bad dirs →
      (beneath join dirs path e).filterMap keeps = []
  | .noStat, dirs, path, h => by
    simp only [beneath, List.filterMap_cons, List.filterMap_nil]
    rw [hk _ h]
  | .file _ _ _, dirs, path, h => by
    simp only [beneath, List.filterMap_cons, List.filterMap_nil]
    rw [hk _ h]
  | .dir r es, dirs, path, h => by
    simp only [beneath, List.filterMap_cons]
    rw [hk _ h]
    exact beneathNames_excluded join keeps bad hk hb es _ path (hb _ _ h)
/-- Nothing is kept under the names of a directory that is excluded. -/
theorem beneathNames_excluded (join : Bytes → Bytes → Bytes) (keeps : Located → Option FileInfo)
    (bad : List (Bytes × Bool) → Prop) (hk : ∀ l : Located, bad l.dirs → keeps l = none)
    (hb : ∀ dirs x, bad dirs → bad (dirs ++ [x])) :
    ∀ (es : List (Bytes × FsEntry)) (dirs : List (Bytes × Bool)) (path : Bytes), bad dirs →
      (beneathNames join dirs path es).filterMap keeps = []
  | [], dirs, path, _ => by simp only [beneathNames, List.filterMap_nil]
  | (n, e) :: rest, dirs, path, h => by
    simp only [beneathNames, List.filterMap_append]
    rw [beneath_excluded join keeps bad hk hb e dirs (join path n) h,
      beneathNames_excluded join keeps bad hk hb rest dirs path h]
    rfl
end

/-- The scan of the Claude root keeps nothing under a directory that is
unreadable or named `subagents`. -/
theorem claudeKeeps_closed (l : Located) (h : ¬ claudeOpen l.dirs) : claudeKeeps l = none := by
  unfold claudeKeeps
  rw [if_neg]
  intro hc
  exact h ⟨hc.1, hc.2.1⟩

/-- The scan of the Codex root keeps nothing under an unreadable directory. -/
theorem codexKeeps_closed (l : Located) (h : ¬ codexOpen l.dirs) : codexKeeps l = none := by
  unfold codexKeeps
  rw [if_neg]
  intro hc
  exact h hc.1

/-- A directory below an excluded directory is excluded (Claude root). -/
theorem claudeOpen_append (dirs : List (Bytes × Bool)) (x : Bytes × Bool)
    (h : ¬ claudeOpen dirs) : ¬ claudeOpen (dirs ++ [x]) := by
  intro hc
  apply h
  unfold claudeOpen at hc ⊢
  rw [List.all_append, List.any_append, Bool.and_eq_true, Bool.or_eq_false_iff] at hc
  exact ⟨hc.1.1, hc.2.1⟩

/-- A directory below an unreadable directory is excluded (Codex root). -/
theorem codexOpen_append (dirs : List (Bytes × Bool)) (x : Bytes × Bool)
    (h : ¬ codexOpen dirs) : ¬ codexOpen (dirs ++ [x]) := by
  intro hc
  apply h
  unfold codexOpen at hc ⊢
  rw [List.all_append, Bool.and_eq_true] at hc
  exact hc.1

/-- The flag `claudeSkips` is raised for directories only. -/
theorem claudeSkips_isFile (path : Bytes) (e : FsEntry) (err : WalkErr)
    (h : claudeSkips path e = some err) : err = WalkErr.skipDir ∧ e.isFile = false := by
  cases e with
  | noStat => simp [claudeSkips] at h
  | file r m s => simp [claudeSkips] at h
  | dir r es =>
    cases r with
    | false => simp [claudeSkips] at h
    | true =>
      simp only [claudeSkips] at h
      by_cases hb : filepathBase path = str "subagents"
      · rw [if_pos hb] at h
        exact ⟨(Option.some.inj h).symm, rfl⟩
      · rw [if_neg hb] at h
        exact absurd h (by simp)

mutual
/-- The walk with the callback of `scanClaude`, from an entry whose
directories above are open: the files kept at and beneath the entry are
appended. -/
theorem walk_claudeVisit (join : Bytes → Bytes → Bytes) :
    ∀ (e : FsEntry) (dirs : List (Bytes × Bool)) (path : Bytes) (files : List FileInfo),
      claudeOpen dirs →
      walk join claudeVisit path e files
        = (files ++ (beneath join dirs path e).filterMap claudeKeeps, claudeSkips path e)
  | .noStat, dirs, path, files, _ => by
    simp [walk, claudeVisit, beneath, claudeKeeps, Located.descriptor, claudeSkips]
  | .file r m s, dirs, path, files, h => by
    have h1 : (dirs.all fun d => d.2) = true := h.1
    have h2 : (dirs.any fun d => decide (filepathBase d.1 = str "subagents")) = false := h.2
    by_cases hx : filepathExt path = str ".jsonl"
    · by_cases hs : stringsContains (filepathBase path) (str "sessions-index") = true
      · simp [walk, claudeVisit, beneath, claudeKeeps, Located.descriptor, claudeSkips,
          Located.reachable, Located.inSubagents, hx, hs]
      · simp [walk, claudeVisit, beneath, claudeKeeps, Located.descriptor, claudeSkips,
          Located.reachable, Located.inSubagents, hx, hs, h1, h2]
    · simp [walk, claudeVisit, beneath, claudeKeeps, Located.descriptor, claudeSkips,
        Located.reachable, Located.inSubagents, hx]
  | .dir r es, dirs, path, files, h => by
    have hself : claudeKeeps { dirs := dirs, path := path, entry := .dir r es } = none := by
      unfold claudeKeeps
      split <;> rfl
    simp only [beneath, List.filterMap_cons, hself]
    cases r with
    | false =>
      have hbad : ¬ claudeOpen (dirs ++ [(path, false)]) := by
        intro hc
        have := hc.1
        simp at this
      rw [beneathNames_excluded join claudeKeeps (fun d => ¬ claudeOpen d) claudeKeeps_closed
        claudeOpen_append es _ path hbad]
      simp [walk, claudeVisit, claudeSkips]
    | true =>
      by_cases hb : filepathBase path = str "subagents"
      · have hbad : ¬ claudeOpen (dirs ++ [(path, true)]) := by
          intro hc
          have := hc.2
          simp [hb] at this
        rw [beneathNames_excluded join claudeKeeps (fun d => ¬ claudeOpen d) claudeKeeps_closed
          claudeOpen_append es _ path hbad]
        simp [walk, claudeVisit, claudeSkips, hb]
      · have hgood : claudeOpen (dirs ++ [(path, true)]) := by
          unfold claudeOpen
          rw [List.all_append, List.any_append, h.1, h.2]
          simp [hb]
        have hn := walkNames_claudeVisit join es (dirs ++ [(path, true)]) path files hgood
        simp [walk, claudeVisit, claudeSkips, hb, hn]
/-- The loop of the walk over the names of an open directory, with the callback
of `scanClaude`. -/
theorem walkNames_claudeVisit (join : Bytes → Bytes → Bytes) :
    ∀ (es : List (Bytes × FsEntry)) (dirs : List (Bytes × Bool)) (path : Bytes)
      (files : List FileInfo), claudeOpen dirs →
      walkNames join claudeVisit path es files
        = (files ++ (beneathNames join dirs path es).filterMap claudeKeeps, none)
  | [], dirs, path, files, _ => by simp [walkNames, beneathNames]
  | (n, e) :: rest, dirs, path, files, h => by
    have h1 := walk_claudeVisit join e dirs (join path n) files h
    have h2 := walkNames_claudeVisit join rest dirs path
      (files ++ (beneath join dirs (join path n) e).filterMap claudeKeeps) h
    simp only [walkNames, beneathNames, List.filterMap_append, h1]
    cases hflag : claudeSkips (join path n) e with
    | none => simp only [h2, List.append_assoc]
    | some err =>
      have := claudeSkips_isFile _ _ _ hflag
      simp only [this.1, this.2, and_self, if_true, h2, List.append_assoc]
end

mutual
/-- The walk with the callback of `scanCodex`, from an entry whose directories
above are readable. -/
theorem walk_codexVisit (join : Bytes → Bytes → Bytes) :
    ∀ (e : FsEntry) (dirs : List (Bytes × Bool)) (path : Bytes) (files : List FileInfo),
      codexOpen dirs →
      walk join codexVisit path e files
        = (files ++ (beneath join dirs path e).filterMap codexKeeps, none)
  | .noStat, dirs, path, files, _ => by
    simp [walk, codexVisit, beneath, codexKeeps, Located.descriptor]
  | .file r m s, dirs, path, files, h => by
    have h1 : (dirs.all fun d => d.2) = true := h
    by_cases hx : filepathExt path = str ".jsonl"
    · simp [walk, codexVisit, beneath, codexKeeps, Located.descriptor, Located.reachable, hx, h1]
    · simp [walk, codexVisit, beneath, codexKeeps, Located.descriptor, Located.reachable, hx]
  | .dir r es, dirs, path, files, h => by
    have hself : codexKeeps { dirs := dirs, path := path, entry := .dir r es } = none := by
      unfold codexKeeps
      split <;> rfl
    simp only [beneath, List.filterMap_cons, hself]
    cases r with
    | false =>
      have hbad : ¬ codexOpen (dirs ++ [(path, false)]) := by
        intro hc
        have : ((dirs ++ [(path, false)]).all fun d => d.2) = true := hc
        simp at this
      rw [beneathNames_excluded join codexKeeps (fun d => ¬ codexOpen d) codexKeeps_closed
        codexOpen_append es _ path hbad]
      simp [walk, codexVisit]
    | true =>
      have hgood : codexOpen (dirs ++ [(path, true)]) := by
        unfold codexOpen
        rw [List.all_append, h]
        simp
      have hn := walkNames_codexVisit join es (dirs ++ [(path, true)]) path files hgood
      simp [walk, codexVisit, hn]
/-- The loop of the walk over the names of a readable directory, with the
callback of `scanCodex`. -/
theorem walkNames_codexVisit (join : Bytes → Bytes → Bytes) :
    ∀ (es : List (Bytes × FsEntry)) (dirs : List (Bytes × Bool)) (path : Bytes)
      (files : List FileInfo), codexOpen dirs →
      walkNames join codexVisit path es files
        = (files ++ (beneathNames join dirs path es).filterMap codexKeeps, none)
  | [], dirs, path, files, _ => by simp [walkNames, beneathNames]
  | (n, e) :: rest, dirs, path, files, h => by
    have h1 := walk_codexVisit join e dirs (join path n) files h
    have h2 := walkNames_codexVisit join rest dirs path
      (files ++ (beneath join dirs (join path n) e).filterMap codexKeeps) h
    simp only [walkNames, beneathNames, List.filterMap_append, h1, h2, List.append_assoc]
end

/-- Function `scanClaude` returns the files kept at and beneath the root, and no
error. -/
theorem scanClaude_eq (join : Bytes → Bytes → Bytes) (look : Bytes → FsEntry) (root : Bytes) :
    scanClaude join look root
      = ((beneath join [] root (look root)).filterMap claudeKeeps, none) := by
  have h := walk_claudeVisit join (look root) [] root [] ⟨rfl, rfl⟩
  unfold scanClaude Walk
  rw [h]
  cases hflag : claudeSkips root (look root) with
  | none => simp
  | some err =>
    have := claudeSkips_isFile _ _ _ hflag
    simp [this.1]

/-- Function `scanCodex` returns the files kept at and beneath the root, and no
error. -/
theorem scanCodex_eq (join : Bytes → Bytes → Bytes) (look : Bytes → FsEntry) (root : Bytes) :
    scanCodex join look root
      = ((beneath join [] root (look root)).filterMap codexKeeps, none) := by
  have h := walk_codexVisit join (look root) [] root [] rfl
  unfold scanCodex Walk
  rw [h]
  rfl

/-- C23 (amended).  For every file system, `ScanRoots` returns no error and the
following files, in the order of the walk.  For a Claude root that is not the
empty string: the entries at or beneath the root that are not directories
(regular files, and also symbolic links and special files), that are reached
through readable directories none of which, the root included, has the base
name `subagents`, whose path has the extension `.jsonl` and whose base name
does not contain `sessions-index`, tagged `claude`.  For a Codex root that is
not the empty string: the entries at or beneath the root that are not
directories, are reached through readable directories and have the extension
`.jsonl`, tagged `codex`; neither exclusion applies.  A root that cannot be
stat-ed, such as one that does not exist, contributes no file. -/
theorem ScanRoots_lists_log_files (join : Bytes → Bytes → Bytes) (look : Bytes → FsEntry)
    (claudeRoot codexRoot : Bytes) :
    ScanRoots join look claudeRoot codexRoot
      = .ok ((if claudeRoot = [] then []
              else (beneath join [] claudeRoot (look claudeRoot)).filterMap claudeKeeps)
          ++ (if codexRoot = [] then []
              else (beneath join [] codexRoot (look codexRoot)).filterMap codexKeeps)) ∧
    (look claudeRoot = FsEntry.noStat →
      (beneath join [] claudeRoot (look claudeRoot)).filterMap claudeKeeps = []) ∧
    (look codexRoot = FsEntry.noStat →
      (beneath join [] codexRoot (look codexRoot)).filterMap codexKeeps = []) := by
  refine ⟨?_, ?_, ?_⟩
  · unfold ScanRoots addRoot
    rw [scanClaude_eq, scanCodex_eq]
    by_cases h1 : claudeRoot = [] <;> by_cases h2 : codexRoot = [] <;> simp [h1, h2]
  · intro h
    rw [h]
    simp [beneath, claudeKeeps, Located.descriptor]
  · intro h
    rw [h]
    simp [beneath, codexKeeps, Located.descriptor]

/-- Witness of C23 (amended): in the file system `sampleTree` the Claude root
`/c` gives the link `link.jsonl` and the logs `p/t.jsonl` and `s.jsonl`, not
the note, the index artifact, the name that cannot be stat-ed nor what lies in
the unreadable directory and in `subagents`; the Codex root `/nowhere` does
not exist and gives nothing. -/
theorem ScanRoots_lists_log_files_witness :
    sampleTree (str "/nowhere") = FsEntry.noStat ∧
    ScanRoots joinSlash sampleTree (str "/c") (str "/nowhere")
      = .ok [{ Path := str "/c/link.jsonl", Source := str "claude", Mtime := 5, Size := 9 },
             { Path := str "/c/p/t.jsonl", Source := str "claude", Mtime := 2, Size := 20 },
             { Path := str "/c/s.jsonl", Source := str "claude", Mtime := 3, Size := 30 }] ∧
    (beneath joinSlash [] (str "/nowhere") (sampleTree (str "/nowhere"))).filterMap codexKeeps
      = [] :=
  ⟨rfl,
   ((ScanRoots_lists_log_files joinSlash sampleTree (str "/c") (str "/nowhere")).1).trans
     (by decide),
   (ScanRoots_lists_log_files joinSlash sampleTree (str "/c") (str "/nowhere")).2.2 rfl⟩

/-- C23 (counterexample).  In the file system `sampleTree`, the scan of the
Codex root `/x` returns the index artifact `sessions-index.jsonl` and the log
`a.jsonl` that lies in the directory `subagents`; the scan of the Claude root
`/c` returns `link.jsonl`, which is a symbolic link and not a regular file.  A
root that does not exist gives no file and no error. -/
theorem scanCodex_keeps_subagents_and_index :
    ScanRoots joinSlash sampleTree [] (str "/x")
      = .ok [{ Path := str "/x/sessions-index.jsonl", Source := str "codex", Mtime := 4,
               Size := 40 },
             { Path := str "/x/subagents/a.jsonl", Source := str "codex", Mtime := 7,
               Size := 70 }] ∧
    filepathBase (str "/x/subagents") = str "subagents" ∧
    ScanRoots joinSlash sampleTree (str "/c") []
      = .ok [{ Path := str "/c/link.jsonl", Source := str "claude", Mtime := 5, Size := 9 },
             { Path := str "/c/p/t.jsonl", Source := str "claude", Mtime := 2, Size := 20 },
             { Path := str "/c/s.jsonl", Source := str "claude", Mtime := 3, Size := 30 }] ∧
    ScanRoots joinSlash sampleTree (str "/nowhere") (str "/nothing") = .ok [] := by
  decide

/-! ## Parsers: a line over the ceiling before the summary record or the last
`session_meta` record (C13, C28) -/

/-- C13 (counterexample).  The log holds the record `helloLine`, a line of more
than 10 MiB and a summary record with the summary `Fix the parser`.
`ParseClaude` stops at the long line: the summary it returns is the text of the
first chunk, `hello world`, not the summary of the summary record.  Without
the long line the summary is `Fix the parser`. -/
theorem summary_record_after_overlong_line :
    10485760 < overlongLine.length ∧
    (jsonLib.unmarshalClaudeRecord (summaryLine "Fix the parser")).map
      (fun r => (r.Typ, r.Summary)) = some (str "summary", str "Fix the parser") ∧
    (∃ r, ParseClaude jsonLib
        (logWorld "claude" [helloLine, overlongLine, summaryLine "Fix the parser"])
        (str "/r/s.jsonl") (str "/r") = (some r, some "bufio.Scanner: token too long") ∧
      r.Meta.Summary = str "hello world") ∧
    (ParseClaude jsonLib (logWorld "claude" [helloLine, summaryLine "Fix the parser"])
        (str "/r/s.jsonl") (str "/r")).1.map (fun r => r.Meta.Summary)
      = some (str "Fix the parser") := by
  refine ⟨by rw [overlongLine_length]; decide, by decide, ?_, by decide⟩
  obtain ⟨r, hr, hc, _, _, hs⟩ := ParseClaude_meta jsonLib
    (logWorld "claude" [helloLine, overlongLine, summaryLine "Fix the parser"])
    (str "/r/s.jsonl") (str "/r")
    (logFile [helloLine, overlongLine, summaryLine "Fix the parser"]) (logWorld_files _ _)
  have htok : scanTokens (logFile [helloLine, overlongLine, summaryLine "Fix the parser"]).lines
      = ([helloLine].map dropCR, some "bufio.Scanner: token too long") :=
    scanTokens_overlong [helloLine] [summaryLine "Fix the parser"] overlongLine (by decide)
      (by rw [overlongLine_length]; decide)
  rw [htok] at hr hc hs
  refine ⟨r, hr, ?_⟩
  rw [hs, hc]
  decide

/-- C28 (counterexample).  The log holds a `session_meta` record with the
working directory `/a`, a line of more than 10 MiB and a `session_meta` record
with the working directory `/b`.  `ParseCodex` stops at the long line: the hint
it returns is `/a`, not the `cwd` of the last `session_meta` record of the
file.  Without the long line the hint is `/b`. -/
theorem session_meta_after_overlong_line :
    10485760 < overlongLine.length ∧
    codexCwdOf codexHintLib (codexMetaLine "\x7b\"cwd\":\"/b\"\x7d") = some (str "/b") ∧
    (∃ r, ParseCodex codexHintLib
        (logWorld "codex" [codexMetaLine "\x7b\"cwd\":\"/a\"\x7d", overlongLine,
          codexMetaLine "\x7b\"cwd\":\"/b\"\x7d"])
        (str "/r/s.jsonl") (str "/r") = (some r, some "bufio.Scanner: token too long") ∧
      r.Meta.RepoCwd = str "/a") ∧
    (ParseCodex codexHintLib
        (logWorld "codex" [codexMetaLine "\x7b\"cwd\":\"/a\"\x7d",
          codexMetaLine "\x7b\"cwd\":\"/b\"\x7d"])
        (str "/r/s.jsonl") (str "/r")).1.map (fun r => r.Meta.RepoCwd) = some (str "/b") := by
  refine ⟨by rw [overlongLine_length]; decide, by decide, ?_, by decide⟩
  obtain ⟨r, hr, hh⟩ := ParseCodex_hint codexHintLib
    (logWorld "codex" [codexMetaLine "\x7b\"cwd\":\"/a\"\x7d", overlongLine,
      codexMetaLine "\x7b\"cwd\":\"/b\"\x7d"])
    (str "/r/s.jsonl") (str "/r")
    (logFile [codexMetaLine "\x7b\"cwd\":\"/a\"\x7d", overlongLine,
      codexMetaLine "\x7b\"cwd\":\"/b\"\x7d"]) (logWorld_files _ _)
  have htok : scanTokens (logFile [codexMetaLine "\x7b\"cwd\":\"/a\"\x7d", overlongLine,
      codexMetaLine "\x7b\"cwd\":\"/b\"\x7d"]).lines
      = ([codexMetaLine "\x7b\"cwd\":\"/a\"\x7d"].map dropCR,
          some "bufio.Scanner: token too long") :=
    scanTokens_overlong [codexMetaLine "\x7b\"cwd\":\"/a\"\x7d"]
      [codexMetaLine "\x7b\"cwd\":\"/b\"\x7d"] overlongLine (by decide)
      (by rw [overlongLine_length]; decide)
  rw [htok] at hr hh
  refine ⟨r, hr, ?_⟩
  rw [hh]
  decide

end AiSessionSearch
